import Mathlib

/-!
# openedge_to_sqlite: the per-table synchronisation strategy engine

A shallow embedding of the C++ sources under `src/cpp` and the properties
proved about it.

Conventions of the embedding.

* A `std::string` is a Lean `String`; `s.empty()` is `s = ""` and
  `s.length()` is the byte count `s.utf8ByteSize`.
* A `std::vector<T>` is a `List T`; `push_back` appends at the end.
* A value stored in an SQLite column is an `Option String` (`none` is SQL NULL).
* C++ `int` counters are natural numbers or integers; no run considered here
  comes near the overflow range.
* The logger has no effect on any state described here and is left out; the
  one exception is `DatabaseConnector.Connect`, whose model returns the
  messages logged for its connection attempts, the outcome of each
  `SQLDriverConnect` being an input.
* `DataSyncManager.RunSync` is its loop over the tables; `SyncTable` is a
  parameter that returns a count or throws (`CallOutcome`).
* Results of calls into the ODBC driver, into SQLite statement execution and
  into OpenSSL, which the C++ code tests, are inputs of the model (`Driver`,
  `BatchOutcome`, the `evp` field), so that every branch of the code is
  reachable in the model.
* The statements handed to the source are recorded, with the values bound to
  their parameters, in the field `queries` of the world; the statements issued
  on the destination are recorded in its field `log`.
* An exception is an outcome of its own.  `std::stoi` can throw on the text a
  count query delivers: inside `SyncKeyBased` this is `CountOutcome.threw`,
  handled by the catch block; inside `GetSourceRowCount`, which `SyncFullTable`
  calls before its `try` block, the exception leaves `SyncFullTable`.  The
  definitions `SyncFullTable`, `SyncKeyBased`, `SyncHashBased` and
  `SyncTimestampBased` are the runs in which `GetSourceRowCount` returns, and
  `callSyncFullTable`, `callSyncKeyBased`, `callSyncHashBased` and
  `callSyncTimestampBased` are the calls as a whole, with that exception.
* A destination statement that fails changes nothing (SQLite undoes a failed
  statement).  The statements of the hash database and of the progress store,
  whose results the synchroniser never tests, are modelled on an open database
  where they succeed.
* The schema of the destination is a list of tables with their column names
  (`Schema`), kept apart from the table contents; a schema statement succeeds
  when the destination accepts it (`EnsureOutcome`) and SQLite's naming rules
  allow it.  What the source driver answers about its catalogue is the input
  `Catalog`.
* `batchSize` is the configured positive integer; the theorems about the loops
  assume `0 < batchSize`, since `rowsSynced % batchSize` is undefined in C++
  for `batchSize == 0`.

Part I holds the definitions, part II the theorems.
-/

namespace OpenEdge

/-! ## Part I: definitions -/

/-! ### Data model -/

/-- One row of text values: `std::vector<std::string>` (`rowData`). -/
abbrev Row := List String

/-- The struct `TableInfo` of `TableInfo.h`. -/
structure TableInfo where
  tableName : String
  columns : List String
  pkColumn : String

/-- The struct `SyncState::SyncData` of `SyncState.h`. -/
structure SyncData where
  lastSyncTime : String
  lastKeyValue : String
  syncMethod : String
  rowCount : Int
deriving DecidableEq, Repr

/-- One row of the destination table `sync_state(table_name PRIMARY KEY,
last_sync_time, last_key_value, sync_method, row_count)`. -/
structure SyncStateRow where
  table_name : String
  last_sync_time : Option String
  last_key_value : Option String
  sync_method : Option String
  row_count : Option Int
deriving DecidableEq, Repr

/-- One row of the hash database table `row_hashes(table_name, pk_value,
row_hash, last_updated, PRIMARY KEY (table_name, pk_value))`; every column is
`TEXT NOT NULL`. -/
structure HashRecord where
  table_name : String
  pk_value : String
  row_hash : String
  last_updated : String
deriving DecidableEq, Repr

/-! ### SyncState.cpp -/

namespace SyncState

/-- The function `SyncState::GetLastSync`: the row of `sync_state` with the given table name,
read with `sqlite3_column_text` (NULL reads as `""`, a NULL method as
`"timestamp"`) and `sqlite3_column_int` (NULL reads as `0`).  When no row
exists the default-constructed `SyncData result` is returned: its strings are
empty and its `int rowCount` was never assigned; `uninit` is the value found
there. -/
def GetLastSync (uninit : Int) (sync_state : List SyncStateRow) (tableName : String) :
    SyncData :=
  match sync_state.find? (fun r => r.table_name == tableName) with
  | some r =>
    { lastSyncTime := r.last_sync_time.getD ""
      lastKeyValue := r.last_key_value.getD ""
      syncMethod := r.sync_method.getD "timestamp"
      rowCount := r.row_count.getD 0 }
  | none => { lastSyncTime := "", lastKeyValue := "", syncMethod := "", rowCount := uninit }

/-- The function `SyncState::UpdateSyncState`: `INSERT OR REPLACE INTO sync_state (table_name,
last_sync_time, last_key_value, sync_method, row_count) VALUES (?,
datetime('now'), ?, ?, ?)`.  `now` is the value of `datetime('now')`; the key
and method are bound with `sqlite3_bind_text`, so an empty string is stored as
an empty text, not as NULL. -/
def UpdateSyncState (now : String) (sync_state : List SyncStateRow) (tableName : String)
    (lastKeyValue : String) (syncMethod : String) (rowCount : Int) : List SyncStateRow :=
  sync_state.filter (fun r => !(r.table_name == tableName)) ++
    [{ table_name := tableName
       last_sync_time := some now
       last_key_value := some lastKeyValue
       sync_method := some syncMethod
       row_count := some rowCount }]

end SyncState

/-! ### HashCalculator.cpp -/

namespace HashCalculator

/-- Two lower-case hexadecimal digits of one digest byte:
`ss << std::hex << std::setw(2) << std::setfill('0') << static_cast<int>(hash[i])`. -/
def hexByte (b : Fin 256) : String :=
  String.mk [Nat.digitChar (b.val / 16), Nat.digitChar (b.val % 16)]

/-- The function `HashCalculator::Sha256`.  `evp input` is the outcome of the OpenSSL calls
`EVP_MD_CTX_new`, `EVP_DigestInit_ex(EVP_sha256())`, `EVP_DigestUpdate`,
`EVP_DigestFinal_ex` on `input`: the digest bytes, or `none` when one of the
calls fails, in which case the function returns the empty string. -/
def Sha256 (evp : String → Option (List (Fin 256))) (input : String) : String :=
  match evp input with
  | some hash => hash.foldl (fun ss b => ss ++ hexByte b) ""
  | none => ""

/-- The contents of the `std::stringstream combinedData` at the end of the loop
of `HashCalculator::CalculateRowHash`:
`combinedData << field.length() << ":" << field << "|"` for each field. -/
def combinedData (rowData : Row) : String :=
  rowData.foldl
    (fun combined field => combined ++ toString field.utf8ByteSize ++ ":" ++ field ++ "|") ""

/-- The function `HashCalculator::CalculateRowHash`. -/
def CalculateRowHash (evp : String → Option (List (Fin 256))) (rowData : Row) : String :=
  Sha256 evp (combinedData rowData)

/-- The canonical serialisation as the specification words it:
`decimal(len(f)) , ":" , f , "|"` for one field. -/
def canonicalField (f : String) : String :=
  toString f.utf8ByteSize ++ ":" ++ f ++ "|"

/-- The canonical serialisation as the specification words it: the
concatenation over the fields, in field order. -/
def canonicalSpec (row : Row) : String :=
  String.join (row.map canonicalField)

end HashCalculator

/-! ### HashStorage.cpp and hash_rows.cpp -/

namespace HashStorage

/-- The function `HashStorage::GetHash`: `SELECT row_hash FROM row_hashes WHERE table_name = ?
AND pk_value = ?`; the empty string when no row is found. -/
def GetHash (row_hashes : List HashRecord) (tableName pkValue : String) : String :=
  match row_hashes.find? (fun r => r.table_name == tableName && r.pk_value == pkValue) with
  | some r => r.row_hash
  | none => ""

/-- The function `HashStorage::StoreHash`: `INSERT OR REPLACE INTO row_hashes (...) VALUES (?,
?, ?, datetime('now'))`; `now` is the value of `datetime('now')`. -/
def StoreHash (now : String) (row_hashes : List HashRecord)
    (tableName pkValue rowHash : String) : List HashRecord :=
  row_hashes.filter (fun r => !(r.table_name == tableName && r.pk_value == pkValue)) ++
    [{ table_name := tableName, pk_value := pkValue, row_hash := rowHash,
       last_updated := now }]

/-- The function `HashStorage::GetChangedRows`: the size check, then the loop over the index
`i`, which appends `pkValues[i]` when the stored hash is empty or differs
from `rowHashes[i]`. -/
def GetChangedRows (row_hashes : List HashRecord) (tableName : String)
    (pkValues rowHashes : List String) : List String :=
  if pkValues.length ≠ rowHashes.length then []
  else
    (List.range pkValues.length).foldl
      (fun changedRows i =>
        let storedHash := GetHash row_hashes tableName (pkValues.getD i "")
        if storedHash = "" ∨ storedHash ≠ rowHashes.getD i "" then
          changedRows ++ [pkValues.getD i ""]
        else changedRows)
      []

end HashStorage

namespace hash_rows

/-- The function `hash_rows::get_hash`. -/
def get_hash (row_hashes : List HashRecord) (table_name pk_value : String) : String :=
  match row_hashes.find? (fun r => r.table_name == table_name && r.pk_value == pk_value) with
  | some r => r.row_hash
  | none => ""

/-- The function `hash_rows::get_changed_rows`. -/
def get_changed_rows (row_hashes : List HashRecord) (table_name : String)
    (pk_values row_hashes_in : List String) : List String :=
  if pk_values.length ≠ row_hashes_in.length then []
  else
    (List.range pk_values.length).foldl
      (fun changed_rows i =>
        let stored_hash := get_hash row_hashes table_name (pk_values.getD i "")
        if stored_hash = "" ∨ stored_hash ≠ row_hashes_in.getD i "" then
          changed_rows ++ [pk_values.getD i ""]
        else changed_rows)
      []

end hash_rows

/-- The subsequence the specification describes for `getChangedRows`: the
`pks[i]`, in input order, whose stored hash is empty or differs from
`hashes[i]`. -/
def changedSpec (get : String → String) (pks hashes : List String) : List String :=
  ((pks.zip hashes).filter (fun p => decide (get p.1 = "" ∨ get p.1 ≠ p.2))).map Prod.fst

/-! ### The destination database and SqliteHelper.cpp -/

/-- A value held in a column of the destination database; `none` is SQL NULL. -/
abbrev Cell := Option String

/-- A row of a destination data table: the columns named by the `INSERT`, each
with the value bound to its parameter. -/
abbrev DRow := List (String × Cell)

/-- The destination SQLite database: the data tables by name, and the table
`sync_state` of the progress store, which lives in the same file. -/
structure Database where
  tables : String → List DRow
  sync_state : List SyncStateRow

/-- A statement issued by the synchroniser, with its outcome where the code
tests it. -/
inductive Cmd where
  | begin
  | commit
  | rollback
  | deleteAll (table : String) (ok : Bool)
  | deleteRows (table : String) (column : String) (values : List String) (ok : Bool)
  | prepareInsert (table : String) (ok : Bool)
  | insert (table : String) (row : DRow) (ok : Bool)
  | storeHash (table : String) (pk : String) (hash : String)
  | updateSyncState (table : String) (key : String) (method : String) (rows : Int)
deriving DecidableEq

/-- A statement handed to the source database through `OdbcHelper`: the text
given to `ExecuteQuery` or `PrepareStatement`, and the values the code binds to
its parameters. -/
structure SourceQuery where
  sql : String
  params : List String
deriving DecidableEq

/-- Everything a table synchronisation reads and writes: the destination
database, the state saved by `BEGIN` while a transaction is open (what
`ROLLBACK` restores), the table `row_hashes` of the separate hash database, the
statements issued so far on the destination, and the statements handed to the
source so far. -/
structure World where
  db : Database
  snapshot : Option Database
  row_hashes : List HashRecord
  log : List Cmd
  queries : List SourceQuery

/-- Record a statement in the log. -/
def World.emit (w : World) (c : Cmd) : World :=
  { w with log := w.log ++ [c] }

/-- Record a statement handed to the source. -/
def World.query (w : World) (q : SourceQuery) : World :=
  { w with queries := w.queries ++ [q] }

/-- Replace the rows of one data table. -/
def World.setTable (w : World) (tableName : String) (rows : List DRow) : World :=
  { w with db := { w.db with tables := Function.update w.db.tables tableName rows } }

namespace SqliteHelper

/-- The function `SqliteHelper::BeginTransaction`: `BEGIN TRANSACTION`.  Inside an open
transaction SQLite rejects the statement and the transaction stays as it is;
the result of `ExecuteNonQuery` is discarded by the code. -/
def BeginTransaction (w : World) : World :=
  { w with
    snapshot := (match w.snapshot with
      | some s => some s
      | none => some w.db)
    log := w.log ++ [Cmd.begin] }

/-- The function `SqliteHelper::CommitTransaction`: `COMMIT`. -/
def CommitTransaction (w : World) : World :=
  { w with snapshot := none, log := w.log ++ [Cmd.commit] }

/-- The function `SqliteHelper::RollbackTransaction`: `ROLLBACK`; without an open transaction
SQLite rejects the statement and nothing changes. -/
def RollbackTransaction (w : World) : World :=
  { w with
    db := (match w.snapshot with
      | some s => s
      | none => w.db)
    snapshot := none
    log := w.log ++ [Cmd.rollback] }

/-- The value `SqliteHelper::BindParameter` binds: NULL for the empty string
(`sqlite3_bind_null`), the text otherwise (`sqlite3_bind_text`). -/
def BindParameter (value : String) : Cell :=
  if value = "" then none else some value

/-- The call `ExecuteNonQuery("DELETE FROM " + tableName)`; `ok` is its result. -/
def ExecuteDeleteAll (ok : Bool) (w : World) (tableName : String) : World :=
  if ok then (w.setTable tableName []).emit (Cmd.deleteAll tableName true)
  else w.emit (Cmd.deleteAll tableName false)

/-- The value of column `column` in a stored row (NULL when the row was
inserted without that column). -/
def cellOf (column : String) (r : DRow) : Cell :=
  (r.lookup column).join

/-- The SQL condition `"column" IN (?, ..., ?)` on one stored row, the parameters
holding `bound`: true when the column value is not NULL and equals a bound
value; a NULL on either side never matches. -/
def inList (column : String) (bound : List Cell) (r : DRow) : Bool :=
  match cellOf column r with
  | some v => bound.contains (some v)
  | none => false

/-- The function `SqliteHelper::DeleteRows`: nothing to do for an empty value list; otherwise
`DELETE FROM tableName WHERE "whereColumn" IN (?, ..., ?)` with every value
bound through `BindParameter`.  `ok` is the result of the statement. -/
def DeleteRows (ok : Bool) (w : World) (tableName whereColumn : String)
    (whereValues : List String) : World × Bool :=
  if whereValues = [] then (w, true)
  else if ok then
    (((w.setTable tableName
        ((w.db.tables tableName).filter
          (fun r => !(inList whereColumn (whereValues.map BindParameter) r)))).emit
        (Cmd.deleteRows tableName whereColumn whereValues true)), true)
  else (w.emit (Cmd.deleteRows tableName whereColumn whereValues false), false)

/-- The call `sqlite3_step(insertStmt)` on the prepared `INSERT INTO tableName
(columns) VALUES (?, ..., ?)` with the parameters bound as in `row`; `ok` says
whether it returned `SQLITE_DONE`. -/
def StepInsert (ok : Bool) (w : World) (tableName : String) (row : DRow) : World :=
  if ok then
    (w.setTable tableName (w.db.tables tableName ++ [row])).emit (Cmd.insert tableName row true)
  else w.emit (Cmd.insert tableName row false)

/-- The parameters of the prepared insert after the binding loop
`for (i = 0; i < row.size() && i < columns.size(); ++i) BindParameter(stmt, i + 1, row[i])`:
`sqlite3_reset` keeps earlier bindings, so a parameter the loop does not reach
keeps its previous value. -/
def bindRow : List Cell → Row → List Cell
  | [], _ => []
  | b :: bs, [] => b :: bs
  | _ :: bs, v :: vs => BindParameter v :: bindRow bs vs

end SqliteHelper

/-! ### The source cursor (OdbcHelper.cpp) -/

namespace OdbcHelper

/-- The function `OdbcHelper::GetColumnData` on the current row of a cursor, `current` listing
the values of the result columns 1, 2, ...; a column the result set does not
have makes `SQLGetData` fail, and the function returns the empty string. -/
def GetColumnData (current : Row) (columnIndex : Nat) : String :=
  if columnIndex = 0 then "" else current.getD (columnIndex - 1) ""

end OdbcHelper

/-- The loop `for (i = 0; i < columns.size(); ++i)
rowData.push_back(odbcHelper.GetColumnData(stmt, i + 1))` of every strategy. -/
def fetchRowData (columns : List String) (current : Row) : Row :=
  (List.range columns.length).map (fun i => OdbcHelper.GetColumnData current (i + 1))

/-! ### Outcomes of driver calls -/

/-- Outcomes of the destination statements of one call of
`ProcessKeyBasedBatch` or `ProcessHashBasedBatch`: `DeleteRows`, the
preparation of the insert, and `sqlite3_step` for the row at each index. -/
structure BatchOutcome where
  deleteOk : Bool
  prepareOk : Bool
  stepOk : Nat → Bool

/-- Outcome of a count query (the one of `SyncKeyBased`, or the one of
`GetSourceRowCount`): a statement call failed, or `std::stoi` threw on the text
fetched, or the count was obtained (`0` when no row could be fetched). -/
inductive CountOutcome where
  | failed
  | threw
  | rows (n : Int)

/-- What the drivers answer during one run of a strategy on one table. -/
structure Driver where
  /-- value of `datetime('now')` in the SQLite databases during the run -/
  now : String
  /-- content of the unassigned `int rowCount` of a default `SyncData` -/
  uninit : Int
  /-- result of `ExecuteNonQuery("DELETE FROM t")` -/
  deleteOk : Bool
  /-- rows delivered by the source `SELECT`, in the order of delivery, as long
  as `FetchRow` returns true; `none` when the statement could not be run -/
  cursor : Option (List Row)
  /-- whether the insert statement of the full strategy could be prepared -/
  prepareOk : Bool
  /-- whether `sqlite3_step` succeeds for the row fetched at this position
  (full strategy) -/
  stepOk : Nat → Bool
  /-- outcome of the count query (key-based strategy) -/
  count : CountOutcome
  /-- outcomes for the calls of the batch appliers, numbered from 0 -/
  batch : Nat → BatchOutcome

/-- The members of `TableSyncer` the strategies read: `batchSize` (the
configured positive integer), `hashEnabled` (`hashDb != nullptr`), and the
OpenSSL digest used by `HashCalculator::Sha256`. -/
structure TableSyncer where
  batchSize : Nat
  hashEnabled : Bool
  evp : String → Option (List (Fin 256))

/-- The call `hashDb->StoreHash(tableName, pkValue, rowHash)` on the world. -/
def World.storeHash (w : World) (now tableName pkValue rowHash : String) : World :=
  { w with
    row_hashes := HashStorage.StoreHash now w.row_hashes tableName pkValue rowHash
    log := w.log ++ [Cmd.storeHash tableName pkValue rowHash] }

/-- The call `syncState->UpdateSyncState(tableName, key, method, rows)` on the
world. -/
def World.updateSyncState (w : World) (now tableName key method : String) (rows : Int) :
    World :=
  { w with
    db := { w.db with
      sync_state := SyncState.UpdateSyncState now w.db.sync_state tableName key method rows }
    log := w.log ++ [Cmd.updateSyncState tableName key method rows] }

/-! ### TableSyncer.cpp -/

namespace TableSyncer

open SqliteHelper

/-- The function `TableSyncer::GetSyncStrategy`; `sync_state` is the progress store the call
of `syncState->GetLastSync(tableName)` reads. -/
def GetSyncStrategy (ts : TableSyncer) (uninit : Int) (sync_state : List SyncStateRow)
    (tableInfo : TableInfo) (fullSync : Bool) : String :=
  if fullSync then "full"
  else
    let lastSync := SyncState.GetLastSync uninit sync_state tableInfo.tableName
    if lastSync.lastSyncTime = "" then "full"
    else if ts.hashEnabled ∧ tableInfo.pkColumn ≠ "" then "hash_based"
    else if tableInfo.pkColumn ≠ "" then "key_based"
    else "timestamp"

/-- The text `selectSql` after the loop over the columns: `SELECT`, then each
column name in double quotes, with `, ` between two of them. -/
def selectList (columns : List String) : String :=
  "SELECT " ++ ", ".intercalate (columns.map (fun c => "\"" ++ c ++ "\""))

/-- The statement of `GetSourceRowCount`: `SELECT COUNT(*) FROM PUB.<t>`. -/
def rowCountQuery (tableName : String) : SourceQuery :=
  { sql := "SELECT COUNT(*) FROM PUB." ++ tableName, params := [] }

/-- The source statement of `SyncFullTable`. -/
def fullQuery (tableInfo : TableInfo) : SourceQuery :=
  { sql := selectList tableInfo.columns ++ " FROM PUB." ++ tableInfo.tableName, params := [] }

/-- The count statement of `SyncKeyBased`, with the stored last key bound. -/
def keyCountQuery (tableInfo : TableInfo) (lastKeyValue : String) : SourceQuery :=
  { sql := "SELECT COUNT(*) FROM PUB." ++ tableInfo.tableName ++ " WHERE \"" ++
      tableInfo.pkColumn ++ "\" > ?",
    params := [lastKeyValue] }

/-- The source statement of `SyncKeyBased`, with the stored last key bound. -/
def keyQuery (tableInfo : TableInfo) (lastKeyValue : String) : SourceQuery :=
  { sql := selectList tableInfo.columns ++ " FROM PUB." ++ tableInfo.tableName ++
      " WHERE \"" ++ tableInfo.pkColumn ++ "\" > ? ORDER BY \"" ++ tableInfo.pkColumn ++ "\"",
    params := [lastKeyValue] }

/-- The source statement of `SyncHashBased`. -/
def hashQuery (tableInfo : TableInfo) : SourceQuery :=
  { sql := selectList tableInfo.columns ++ " FROM PUB." ++ tableInfo.tableName ++
      " ORDER BY \"" ++ tableInfo.pkColumn ++ "\"",
    params := [] }

/-- The search `for (i ...) if (columns[i] == pkColumn) { pkIndex = i; break; }`;
`none` stands for `pkIndex == -1`. -/
def findPkIndex (columns : List String) (pkColumn : String) : Option Nat :=
  columns.indexOf? pkColumn

/-- The local variables of the row loop of `SyncFullTable`, with the world and
the number of rows fetched so far. -/
structure FullState where
  w : World
  rowsSynced : Nat
  lastValue : String
  fetched : Nat

/-- One iteration of `while (odbcHelper.FetchRow(stmt))` in `SyncFullTable`,
`current` being the row just fetched. -/
def fullRow (ts : TableSyncer) (d : Driver) (tableInfo : TableInfo) (pkIndex : Option Nat)
    (st : FullState) (current : Row) : FullState :=
  let rowData := fetchRowData tableInfo.columns current
  let lastValue :=
    match pkIndex with
    | some k => rowData.getD k ""
    | none => st.lastValue
  let ok := d.stepOk st.fetched
  let w1 := StepInsert ok st.w tableInfo.tableName
    (tableInfo.columns.zip (rowData.map BindParameter))
  let rowsSynced := if ok then st.rowsSynced + 1 else st.rowsSynced
  let w2 :=
    match pkIndex with
    | some k =>
      if ok ∧ ts.hashEnabled ∧ rowData.getD k "" ≠ "" then
        w1.storeHash d.now tableInfo.tableName (rowData.getD k "")
          (HashCalculator.CalculateRowHash ts.evp rowData)
      else w1
    | none => w1
  let w3 :=
    if rowsSynced % ts.batchSize = 0 then BeginTransaction (CommitTransaction w2) else w2
  { w := w3, rowsSynced := rowsSynced, lastValue := lastValue, fetched := st.fetched + 1 }

/-- The function `TableSyncer::SyncFullTable`: the new world and the value returned, in the
runs in which the call `GetSourceRowCount(tableName)` before the `try` block
returns.  That call hands `SELECT COUNT(*)` to the source; its value
`totalRows` appears in progress messages only.  The run in which `std::stoi`
throws inside it, an exception that leaves `SyncFullTable`, is part of
`callSyncFullTable`. -/
def SyncFullTable (ts : TableSyncer) (d : Driver) (w : World) (tableInfo : TableInfo) :
    World × Nat :=
  let w0 := w.query (rowCountQuery tableInfo.tableName)
  let w1 := ExecuteDeleteAll d.deleteOk w0 tableInfo.tableName
  if ¬ d.deleteOk then (w1, 0)
  else
    let w1 := w1.query (fullQuery tableInfo)
    match d.cursor with
    | none => (w1, 0)
    | some rows =>
      let w2 := BeginTransaction w1
      let pkIndex :=
        if tableInfo.pkColumn ≠ "" then findPkIndex tableInfo.columns tableInfo.pkColumn
        else none
      let w3 := w2.emit (Cmd.prepareInsert tableInfo.tableName d.prepareOk)
      if ¬ d.prepareOk then (RollbackTransaction w3, 0)
      else
        let st := rows.foldl (fullRow ts d tableInfo pkIndex)
          { w := w3, rowsSynced := 0, lastValue := "", fetched := 0 }
        let w4 := CommitTransaction st.w
        let w5 :=
          if tableInfo.pkColumn ≠ "" ∧ st.lastValue ≠ "" then
            w4.updateSyncState d.now tableInfo.tableName st.lastValue "key_based" st.rowsSynced
          else
            w4.updateSyncState d.now tableInfo.tableName "" "timestamp" st.rowsSynced
        (w5, st.rowsSynced)

/-- The loop `for (rowIdx = 0; rowIdx < batchData.size(); ++rowIdx)` of
`ProcessKeyBasedBatch`, from index `rowIdx` on, `bindings` being the parameters
of the prepared insert and `rest` the rows not yet handled. -/
def keyBatchRows (ts : TableSyncer) (now : String) (o : BatchOutcome) (tableName : String)
    (columns : List String) (pkValues : List String) :
    Nat → List Cell → List Row → World → World
  | _, _, [], w => w
  | rowIdx, bindings, row :: rest, w =>
    let pkValue := pkValues.getD rowIdx ""
    let bindings1 := bindRow bindings row
    let ok := o.stepOk rowIdx
    let w1 := StepInsert ok w tableName (columns.zip bindings1)
    let w2 :=
      if ok = false then w1
      else if ts.hashEnabled ∧ pkValue ≠ "" then
        w1.storeHash now tableName pkValue (HashCalculator.CalculateRowHash ts.evp row)
      else w1
    keyBatchRows ts now o tableName columns pkValues (rowIdx + 1) bindings1 rest w2

/-- The function `TableSyncer::ProcessKeyBasedBatch`. -/
def ProcessKeyBasedBatch (ts : TableSyncer) (now : String) (o : BatchOutcome) (w : World)
    (tableName : String) (columns : List String) (pkColumn : String)
    (pkValues : List String) (batchData : List Row) : World :=
  if pkValues = [] ∨ batchData = [] then w
  else
    let del := DeleteRows o.deleteOk w tableName pkColumn pkValues
    if del.2 = false then del.1
    else
      let w2 := del.1.emit (Cmd.prepareInsert tableName o.prepareOk)
      if o.prepareOk = false then w2
      else keyBatchRows ts now o tableName columns pkValues 0 (columns.map (fun _ => none))
        batchData w2

/-- The loop `for (rowIdx = 0; rowIdx < batchData.size(); ++rowIdx)` of
`ProcessHashBasedBatch`. -/
def hashBatchRows (ts : TableSyncer) (now : String) (o : BatchOutcome) (tableName : String)
    (columns : List String) (pkValues : List String) :
    Nat → List Cell → List Row → World → World
  | _, _, [], w => w
  | rowIdx, bindings, row :: rest, w =>
    let pkValue := pkValues.getD rowIdx ""
    let bindings1 := bindRow bindings row
    let ok := o.stepOk rowIdx
    let w1 := StepInsert ok w tableName (columns.zip bindings1)
    let w2 :=
      if ok = false then w1
      else w1.storeHash now tableName pkValue (HashCalculator.CalculateRowHash ts.evp row)
    hashBatchRows ts now o tableName columns pkValues (rowIdx + 1) bindings1 rest w2

/-- The function `TableSyncer::ProcessHashBasedBatch`. -/
def ProcessHashBasedBatch (ts : TableSyncer) (now : String) (o : BatchOutcome) (w : World)
    (tableName : String) (columns : List String) (pkColumn : String)
    (pkValues : List String) (batchData : List Row) : World :=
  if pkValues = [] ∨ batchData = [] then w
  else
    let del := DeleteRows o.deleteOk w tableName pkColumn pkValues
    if del.2 = false then del.1
    else
      let w2 := del.1.emit (Cmd.prepareInsert tableName o.prepareOk)
      if o.prepareOk = false then w2
      else hashBatchRows ts now o tableName columns pkValues 0 (columns.map (fun _ => none))
        batchData w2

/-- The local variables of the row loop of `SyncKeyBased`, with the world and
the number of batches handed to `ProcessKeyBasedBatch` so far. -/
structure KeyState where
  w : World
  rowsSynced : Nat
  lastValue : String
  pkValues : List String
  batchData : List Row
  batches : Nat

/-- One iteration of `while (odbcHelper.FetchRow(selectStmt))` in
`SyncKeyBased`; `k` is `pkIndex`. -/
def keyRow (ts : TableSyncer) (d : Driver) (tableInfo : TableInfo) (k : Nat)
    (st : KeyState) (current : Row) : KeyState :=
  let rowData := fetchRowData tableInfo.columns current
  let currentPk := rowData.getD k ""
  let batchData := st.batchData ++ [rowData]
  let pkValues := st.pkValues ++ [currentPk]
  if batchData.length ≥ ts.batchSize then
    let w1 := ProcessKeyBasedBatch ts d.now (d.batch st.batches) st.w tableInfo.tableName
      tableInfo.columns tableInfo.pkColumn pkValues batchData
    { w := BeginTransaction (CommitTransaction w1)
      rowsSynced := st.rowsSynced + batchData.length
      lastValue := currentPk
      pkValues := []
      batchData := []
      batches := st.batches + 1 }
  else
    { w := st.w, rowsSynced := st.rowsSynced, lastValue := currentPk, pkValues := pkValues,
      batchData := batchData, batches := st.batches }

/-- The function `TableSyncer::SyncKeyBased`: the new world and the value returned.  The
fallbacks are the runs of `SyncFullTable`; the exception of its row count query
is part of `callSyncKeyBased`. -/
def SyncKeyBased (ts : TableSyncer) (d : Driver) (w : World) (tableInfo : TableInfo) :
    World × Nat :=
  if tableInfo.pkColumn = "" then SyncFullTable ts d w tableInfo
  else
    let lastSync := SyncState.GetLastSync d.uninit w.db.sync_state tableInfo.tableName
    if lastSync.lastKeyValue = "" then SyncFullTable ts d w tableInfo
    else
      let w := w.query (keyCountQuery tableInfo lastSync.lastKeyValue)
      match d.count with
      | CountOutcome.failed => (w, 0)
      | CountOutcome.threw => (RollbackTransaction w, 0)
      | CountOutcome.rows totalNewRows =>
        if totalNewRows = 0 then (w, 0)
        else
          let w := w.query (keyQuery tableInfo lastSync.lastKeyValue)
          match d.cursor with
          | none => (w, 0)
          | some rows =>
            match findPkIndex tableInfo.columns tableInfo.pkColumn with
            | none => (w, 0)
            | some k =>
              let st := rows.foldl (keyRow ts d tableInfo k)
                { w := BeginTransaction w, rowsSynced := 0, lastValue := lastSync.lastKeyValue,
                  pkValues := [], batchData := [], batches := 0 }
              let w1 :=
                if st.batchData ≠ [] then
                  ProcessKeyBasedBatch ts d.now (d.batch st.batches) st.w tableInfo.tableName
                    tableInfo.columns tableInfo.pkColumn st.pkValues st.batchData
                else st.w
              let rowsSynced := st.rowsSynced + st.batchData.length
              let w2 := CommitTransaction w1
              let w3 := w2.updateSyncState d.now tableInfo.tableName st.lastValue "key_based"
                (lastSync.rowCount + rowsSynced)
              (w3, rowsSynced)

/-- The local variables of the row loop of `SyncHashBased`, with the world and
the number of batch boundaries passed so far. -/
structure HashState where
  w : World
  rowsSynced : Nat
  pkValues : List String
  rowHashes : List String
  batchData : List Row
  batches : Nat

/-- The block run at a batch boundary of `SyncHashBased` on the pending batch:
`GetChangedRows`, the selection of the rows whose key is among the changed
keys (`pkValues` and `batchData` are filled together, so position `i` of one
belongs to position `i` of the other), and `ProcessHashBasedBatch` on the
selection.  Returns the world and the new value of `rowsSynced`. -/
def hashBatch (ts : TableSyncer) (d : Driver) (tableInfo : TableInfo) (st : HashState) :
    World × Nat :=
  let changedRows :=
    HashStorage.GetChangedRows st.w.row_hashes tableInfo.tableName st.pkValues st.rowHashes
  if changedRows ≠ [] then
    let selected := (st.pkValues.zip st.batchData).filter (fun p => changedRows.contains p.1)
    let changedPks := selected.map Prod.fst
    let changedData := selected.map Prod.snd
    if changedPks ≠ [] then
      (ProcessHashBasedBatch ts d.now (d.batch st.batches) st.w tableInfo.tableName
        tableInfo.columns tableInfo.pkColumn changedPks changedData,
       st.rowsSynced + changedPks.length)
    else (st.w, st.rowsSynced)
  else (st.w, st.rowsSynced)

/-- One iteration of `while (odbcHelper.FetchRow(stmt))` in `SyncHashBased`;
`k` is `pkIndex`. -/
def hashRow (ts : TableSyncer) (d : Driver) (tableInfo : TableInfo) (k : Nat)
    (st : HashState) (current : Row) : HashState :=
  let rowData := fetchRowData tableInfo.columns current
  let pkValue := rowData.getD k ""
  let st1 : HashState :=
    if pkValue ≠ "" then
      { st with
        pkValues := st.pkValues ++ [pkValue]
        rowHashes := st.rowHashes ++ [HashCalculator.CalculateRowHash ts.evp rowData]
        batchData := st.batchData ++ [rowData] }
    else st
  if st1.batchData.length ≥ ts.batchSize then
    let r := hashBatch ts d tableInfo st1
    { w := BeginTransaction (CommitTransaction r.1)
      rowsSynced := r.2
      pkValues := []
      rowHashes := []
      batchData := []
      batches := st1.batches + 1 }
  else st1

/-- The function `TableSyncer::SyncHashBased`: the new world and the value returned.  The
fallback is the run of `SyncKeyBased`; the exception of the row count query of
the full strategy is part of `callSyncHashBased`. -/
def SyncHashBased (ts : TableSyncer) (d : Driver) (w : World) (tableInfo : TableInfo) :
    World × Nat :=
  if tableInfo.pkColumn = "" ∨ ts.hashEnabled = false then SyncKeyBased ts d w tableInfo
  else
    let w := w.query (hashQuery tableInfo)
    match d.cursor with
    | none => (w, 0)
    | some rows =>
      match findPkIndex tableInfo.columns tableInfo.pkColumn with
      | none => (w, 0)
      | some k =>
        let st := rows.foldl (hashRow ts d tableInfo k)
          { w := BeginTransaction w, rowsSynced := 0, pkValues := [], rowHashes := [],
            batchData := [], batches := 0 }
        let r := if st.batchData ≠ [] then hashBatch ts d tableInfo st else (st.w, st.rowsSynced)
        let w1 := CommitTransaction r.1
        let lastSync := SyncState.GetLastSync d.uninit w1.db.sync_state tableInfo.tableName
        let w2 := w1.updateSyncState d.now tableInfo.tableName "" "hash_based" lastSync.rowCount
        (w2, r.2)

end TableSyncer

/-- The number a string of decimal digits denotes (used to read back the
length that `CalculateRowHash` writes in front of a field). -/
def decVal (l : List Char) : Nat :=
  l.foldl (fun a c => 10 * a + (c.toNat - 48)) 0

/-! ### Notions used to state the properties -/

/-- The text a stored value stands for in the data model, where NULL is
represented as the empty string. -/
def textOf (c : Cell) : String :=
  c.getD ""

/-- A stored row read as a row of text values, in the order of its columns. -/
def rowText (r : DRow) : Row :=
  r.map (fun c => textOf c.2)

/-- The stored row a strategy inserts for a fetched row whose values were all
bound: the columns of the table info with the bound values. -/
def insertedRow (columns : List String) (current : Row) : DRow :=
  columns.zip ((fetchRowData columns current).map SqliteHelper.BindParameter)

/-- The stored rows of the fetched rows whose insert succeeds, kept in fetch
order; `i` is the fetch position of the first row of the list. -/
def insertedFrom (stepOk : Nat → Bool) (columns : List String) : Nat → List Row → List DRow
  | _, [] => []
  | i, cur :: rest =>
    (if stepOk i then [insertedRow columns cur] else []) ++
      insertedFrom stepOk columns (i + 1) rest

/-- The primary-key value remembered by the full strategy at the end of the
row loop: the value of the primary-key column in the last row fetched, and the
empty string when the table info names no primary-key column, the column is not
among the columns, or no row was fetched. -/
def fullLastValue (tableInfo : TableInfo) (rows : List Row) : String :=
  match (if tableInfo.pkColumn ≠ "" then
      TableSyncer.findPkIndex tableInfo.columns tableInfo.pkColumn else none),
    rows.getLast? with
  | some k, some cur => (fetchRowData tableInfo.columns cur).getD k ""
  | _, _ => ""

/-! ### Concrete data of the end-to-end scenarios -/

namespace Scenario

/-- The table `orders(id PK, total)` of the end-to-end scenarios. -/
def orders : TableInfo :=
  { tableName := "orders", columns := ["id", "total"], pkColumn := "id" }

/-- A stand-in digest for the concrete scenarios: the bytes of the input. -/
def plainDigest (s : String) : Option (List (Fin 256)) :=
  some (s.data.map (fun c => Fin.ofNat c.toNat))

/-- A synchroniser with batch size 100. -/
def syncer (hashing : Bool) : TableSyncer :=
  { batchSize := 100, hashEnabled := hashing, evp := plainDigest }

/-- Outcomes of a batch in which every statement succeeds. -/
def allOk : BatchOutcome :=
  { deleteOk := true, prepareOk := true, stepOk := fun _ => true }

/-- A run in which every driver call succeeds and the source delivers `rows`. -/
def driver (rows : List Row) : Driver :=
  { now := "2024-01-01 00:00:00", uninit := 0, deleteOk := true, cursor := some rows,
    prepareOk := true, stepOk := fun _ => true, count := CountOutcome.rows rows.length,
    batch := fun _ => allOk }

/-- A world whose destination table `orders` holds `content`, with empty
stores and no open transaction. -/
def world (content : List DRow) : World :=
  { db := { tables := fun t => if t = "orders" then content else [], sync_state := [] },
    snapshot := none, row_hashes := [], log := [], queries := [] }

end Scenario

/-- The value of the primary-key column (at index `k`) in a fetched row. -/
def pkValueOf (columns : List String) (k : Nat) (current : Row) : String :=
  (fetchRowData columns current).getD k ""

/-- The hash computed for a fetched row. -/
def rowHashOf (ts : TableSyncer) (columns : List String) (current : Row) : String :=
  HashCalculator.CalculateRowHash ts.evp (fetchRowData columns current)


/-- Statements that change a data table or the hash store. -/
def Cmd.isWrite : Cmd → Bool
  | Cmd.deleteAll _ _ => true
  | Cmd.deleteRows _ _ _ _ => true
  | Cmd.insert _ _ _ => true
  | Cmd.storeHash _ _ _ => true
  | _ => false

/-- The pending batch of the hash-based loop is the list `L` of triples
(key, hash, row). -/
def HashPending (st : TableSyncer.HashState) (L : List (String × String × Row)) : Prop :=
  st.pkValues = L.map (fun x => x.1) ∧ st.rowHashes = L.map (fun x => x.2.1) ∧
    st.batchData = L.map (fun x => x.2.2)

/-- A pending triple whose key is not `k` and whose hash is the non-empty hash
the store `H` holds for its key. -/
def Unchanged (H : List HashRecord) (t k : String) (x : String × String × Row) : Prop :=
  x.1 ≠ k ∧ HashStorage.GetHash H t x.1 = x.2.1 ∧ x.2.1 ≠ ""

/-- State of the hash-based loop in which nothing is waiting to be applied:
the tables are `T`, the hash store is `H`, `c` rows were counted, the writes
logged since `log0` are `X`, and every pending triple is unchanged. -/
def HashIdle (T : String → List DRow) (H : List HashRecord) (t k : String) (c : Nat)
    (log0 X : List Cmd) (st : TableSyncer.HashState) : Prop :=
  st.w.db.tables = T ∧ st.w.row_hashes = H ∧ st.rowsSynced = c ∧
  (∃ l, st.w.log = log0 ++ l ∧ l.filter Cmd.isWrite = X) ∧
  ∃ L, HashPending st L ∧ ∀ x ∈ L, Unchanged H t k x

/-- The value of the primary-key column of the table info in a fetched row;
the empty string when the column is not among the columns. -/
def pkField (tableInfo : TableInfo) (current : Row) : String :=
  match TableSyncer.findPkIndex tableInfo.columns tableInfo.pkColumn with
  | some k => pkValueOf tableInfo.columns k current
  | none => ""

/-- State of the hash-based loop in which the modified row `(k, hnew, rnew)`
waits in the pending batch among unchanged rows, nothing being applied yet. -/
def HashWaiting (T : String → List DRow) (H : List HashRecord) (t k hnew : String)
    (rnew : Row) (log0 : List Cmd) (st : TableSyncer.HashState) : Prop :=
  st.w.db.tables = T ∧ st.w.row_hashes = H ∧ st.rowsSynced = 0 ∧
  (∃ l, st.w.log = log0 ++ l ∧ l.filter Cmd.isWrite = []) ∧
  ∃ L1 L2, HashPending st (L1 ++ (k, hnew, rnew) :: L2) ∧
    (∀ x ∈ L1, Unchanged H t k x) ∧ (∀ x ∈ L2, Unchanged H t k x)


/-- State of the hash-based loop after the modified row `rnew` with key `k`
has been applied to tables `T` and hash store `H`: one row counted, the key
deleted, the row inserted, its hash stored, and every pending row unchanged. -/
def HashApplied (ts : TableSyncer) (now : String) (ti : TableInfo)
    (T : String → List DRow) (H : List HashRecord) (k : String) (rnew : Row)
    (log0 : List Cmd) (st : TableSyncer.HashState) : Prop :=
  HashIdle
    (Function.update T ti.tableName
      ((T ti.tableName).filter
          (fun r => !(SqliteHelper.inList ti.pkColumn [SqliteHelper.BindParameter k] r)) ++
        [ti.columns.zip (rnew.map SqliteHelper.BindParameter)]))
    (HashStorage.StoreHash now H ti.tableName k
      (HashCalculator.CalculateRowHash ts.evp rnew))
    ti.tableName k 1 log0
    [Cmd.deleteRows ti.tableName ti.pkColumn [k] true,
      Cmd.insert ti.tableName (ti.columns.zip (rnew.map SqliteHelper.BindParameter)) true,
      Cmd.storeHash ti.tableName k (HashCalculator.CalculateRowHash ts.evp rnew)]
    st

/-- The primary-key value of a stored row, as text. -/
def pkText (pkColumn : String) (r : DRow) : String :=
  textOf (SqliteHelper.cellOf pkColumn r)

/-- The stored rows of a table whose primary-key value is not in `keys`. -/
def rowsOutside (pkColumn : String) (keys : List String) (rows : List DRow) : List DRow :=
  rows.filter (fun r => !(keys.contains (pkText pkColumn r)))


/-- State of the key-based loop that has left alone the stored rows with a key
outside `keys`: the table holds the same such rows as `T0`, and the pending
batch carries keys of `keys` only. -/
def KeyFrame (ti : TableInfo) (k : Nat) (keys : List String) (T0 : List DRow)
    (st : TableSyncer.KeyState) : Prop :=
  rowsOutside ti.pkColumn keys (st.w.db.tables ti.tableName) =
      rowsOutside ti.pkColumn keys T0 ∧
    (∀ row ∈ st.batchData, row.length = ti.columns.length ∧ row.getD k "" ∈ keys) ∧
    (∀ p ∈ st.pkValues, p ∈ keys)

/-- The stored rows that the insert loop of a batch applier adds, in order:
the row at index `rowIdx` when its `sqlite3_step` succeeds, with the parameters
as the binding loop leaves them. -/
def batchInserted (o : BatchOutcome) (columns : List String) :
    Nat → List Cell → List Row → List DRow
  | _, _, [] => []
  | rowIdx, bindings, row :: rest =>
    (if o.stepOk rowIdx then [columns.zip (SqliteHelper.bindRow bindings row)] else []) ++
      batchInserted o columns (rowIdx + 1) (SqliteHelper.bindRow bindings row) rest

/-! ### TableSyncer.cpp: the timestamp strategy -/

/-- The lowering `std::transform(s.begin(), s.end(), s.begin(), ::tolower)`:
each upper-case ASCII letter becomes its lower-case letter, every other
character stays. -/
def toLower (s : String) : String :=
  String.mk (s.data.map Char.toLower)

/-- The test `s.find(pattern) != std::string::npos`: `pattern` occurs in `s` as
a run of consecutive characters. -/
def containsSubstr (s pattern : String) : Bool :=
  s.data.tails.any (fun t => pattern.data.isPrefixOf t)

namespace TableSyncer

open SqliteHelper

/-- The source statement of `SyncTimestampBased`, with the stored last sync
time bound; the rows are ordered when the table has a primary key. -/
def timestampQuery (tableInfo : TableInfo) (timestampColumn lastSyncTime : String) :
    SourceQuery :=
  { sql := selectList tableInfo.columns ++ " FROM PUB." ++ tableInfo.tableName ++
      " WHERE \"" ++ timestampColumn ++ "\" > ?" ++
      (if tableInfo.pkColumn ≠ "" then " ORDER BY \"" ++ tableInfo.pkColumn ++ "\"" else ""),
    params := [lastSyncTime] }

/-- The function `TableSyncer::FindTimestampColumn`: the first column whose lowered name
contains one of the five patterns, in its original spelling; the empty string
when there is none. -/
def FindTimestampColumn : List String → String
  | [] => ""
  | col :: rest =>
    if containsSubstr (toLower col) "timestamp" ∨ containsSubstr (toLower col) "modified" ∨
        containsSubstr (toLower col) "updated" ∨ containsSubstr (toLower col) "changed" ∨
        containsSubstr (toLower col) "datetime" then col
    else FindTimestampColumn rest

/-- The loop `for (const auto& row : batchData)` of the insert-only path of
`SyncTimestampBased` (table without primary key): each row is bound and
stepped, the result of `sqlite3_step` being discarded. -/
def plainBatchRows (o : BatchOutcome) (tableName : String) (columns : List String) :
    Nat → List Cell → List Row → World → World
  | _, _, [], w => w
  | rowIdx, bindings, row :: rest, w =>
    plainBatchRows o tableName columns (rowIdx + 1) (bindRow bindings row) rest
      (StepInsert (o.stepOk rowIdx) w tableName (columns.zip (bindRow bindings row)))

/-- The insert-only block of `SyncTimestampBased` for a table without primary
key: the insert is prepared and, `if (insertStmt)`, run for every row. -/
def insertOnlyBatch (o : BatchOutcome) (w : World) (tableName : String)
    (columns : List String) (batchData : List Row) : World :=
  if o.prepareOk = false then w.emit (Cmd.prepareInsert tableName false)
  else plainBatchRows o tableName columns 0 (columns.map (fun _ => none)) batchData
    (w.emit (Cmd.prepareInsert tableName true))

/-- The local variables of the row loop of `SyncTimestampBased`, with the world
and the number of batches applied so far. -/
structure TimestampState where
  w : World
  rowsSynced : Nat
  pkValues : List String
  batchData : List Row
  batches : Nat

/-- The application of a batch in `SyncTimestampBased`: `ProcessKeyBasedBatch`
when `pkIndex >= 0`, the insert-only block otherwise. -/
def timestampBatch (ts : TableSyncer) (d : Driver) (tableInfo : TableInfo)
    (pkIndex : Option Nat) (batches : Nat) (w : World) (pkValues : List String)
    (batchData : List Row) : World :=
  match pkIndex with
  | some _ =>
    ProcessKeyBasedBatch ts d.now (d.batch batches) w tableInfo.tableName tableInfo.columns
      tableInfo.pkColumn pkValues batchData
  | none => insertOnlyBatch (d.batch batches) w tableInfo.tableName tableInfo.columns batchData

/-- One iteration of `while (odbcHelper.FetchRow(stmt))` in
`SyncTimestampBased`.  With a primary-key index the key value of the row, empty
or not, is appended to `pkValues`. -/
def timestampRow (ts : TableSyncer) (d : Driver) (tableInfo : TableInfo)
    (pkIndex : Option Nat) (st : TimestampState) (current : Row) : TimestampState :=
  let rowData := fetchRowData tableInfo.columns current
  let pkValues :=
    match pkIndex with
    | some k => st.pkValues ++ [rowData.getD k ""]
    | none => st.pkValues
  let batchData := st.batchData ++ [rowData]
  if batchData.length ≥ ts.batchSize then
    { w := BeginTransaction (CommitTransaction
        (timestampBatch ts d tableInfo pkIndex st.batches st.w pkValues batchData))
      rowsSynced := st.rowsSynced + batchData.length
      pkValues := []
      batchData := []
      batches := st.batches + 1 }
  else
    { w := st.w, rowsSynced := st.rowsSynced, pkValues := pkValues, batchData := batchData,
      batches := st.batches }

/-- The key recorded by `SyncTimestampBased`: `lastKeyValue = ""; if (pkIndex >= 0
&& !pkValues.empty()) lastKeyValue = pkValues.back();`. -/
def timestampLastKey (pkIndex : Option Nat) (pkValues : List String) : String :=
  match pkIndex, pkValues.getLast? with
  | some _, some p => p
  | _, _ => ""

/-- The function `TableSyncer::SyncTimestampBased`: the new world and the value returned.
`d.cursor` is the result of the prepared `SELECT ... WHERE "<timestamp column>" > ?`
(`none` when its preparation, binding or execution fails).  The fallbacks are
the runs of `SyncFullTable`; the exception of its row count query is part of
`callSyncTimestampBased`. -/
def SyncTimestampBased (ts : TableSyncer) (d : Driver) (w : World) (tableInfo : TableInfo) :
    World × Nat :=
  let lastSync := SyncState.GetLastSync d.uninit w.db.sync_state tableInfo.tableName
  if lastSync.lastSyncTime = "" then SyncFullTable ts d w tableInfo
  else if FindTimestampColumn tableInfo.columns = "" then SyncFullTable ts d w tableInfo
  else
    let w := w.query
      (timestampQuery tableInfo (FindTimestampColumn tableInfo.columns) lastSync.lastSyncTime)
    match d.cursor with
    | none => (w, 0)
    | some rows =>
      let pkIndex :=
        if tableInfo.pkColumn ≠ "" then findPkIndex tableInfo.columns tableInfo.pkColumn
        else none
      let st := rows.foldl (timestampRow ts d tableInfo pkIndex)
        { w := BeginTransaction w, rowsSynced := 0, pkValues := [], batchData := [],
          batches := 0 }
      let w1 :=
        if st.batchData ≠ [] then
          timestampBatch ts d tableInfo pkIndex st.batches st.w st.pkValues st.batchData
        else st.w
      let rowsSynced := st.rowsSynced + st.batchData.length
      let w2 := CommitTransaction w1
      let lastKeyValue := timestampLastKey pkIndex st.pkValues
      (w2.updateSyncState d.now tableInfo.tableName lastKeyValue "timestamp"
        (lastSync.rowCount + rowsSynced), rowsSynced)

end TableSyncer

/-! ### TableSyncer.cpp: the destination schema and `SyncTable` -/

/-- The schema of the destination database: its data tables, in the order of
their creation, each with the names of its columns. -/
abbrev Schema := List (String × List String)

/-- A schema statement issued by `EnsureTargetTable`, with its outcome. -/
inductive Ddl where
  | createTable (table : String) (columns : List String) (ok : Bool)
  | addColumn (table : String) (column : String) (ok : Bool)
deriving DecidableEq

/-- What the destination answers to the statements of one call of
`EnsureTargetTable`, apart from what the schema decides: the first
`ExecuteNonQuery` on `sqlite_master`, the preparation of the existence check,
`CREATE TABLE`, the preparation of `PRAGMA table_info`, and `ALTER TABLE` for
the column at each position of the column list. -/
structure EnsureOutcome where
  probeOk : Bool
  checkPrepareOk : Bool
  createOk : Bool
  pragmaPrepareOk : Bool
  alterOk : Nat → Bool

/-- The schema after `ALTER TABLE t ADD COLUMN "column" TEXT` has succeeded. -/
def addColumn : Schema → String → String → Schema
  | [], _, _ => []
  | (name, columns) :: rest, t, column =>
    if name = t then (name, columns ++ [column]) :: rest
    else (name, columns) :: addColumn rest t column

/-- The statement `CREATE TABLE t ("c1" TEXT, ...)`: it succeeds when the
database accepts it (`createOk`), no table has that name (names are compared
without regard to case by SQLite), and the column list is not empty and has no
name twice (without regard to case). -/
def ExecCreateTable (createOk : Bool) (schema : Schema) (t : String)
    (columns : List String) : Schema × Bool :=
  if createOk = true ∧ (schema.any (fun p => toLower p.1 == toLower t)) = false ∧
      columns ≠ [] ∧ (columns.map toLower).Nodup then
    (schema ++ [(t, columns)], true)
  else (schema, false)

/-- The statement `ALTER TABLE t ADD COLUMN "column" TEXT`: it succeeds when the
database accepts it (`alterOk`), the table exists and has no column of that
name (without regard to case). -/
def ExecAddColumn (alterOk : Bool) (schema : Schema) (t : String) (column : String) :
    Schema × Bool :=
  match schema.lookup t with
  | some columns =>
    if alterOk = true ∧ toLower column ∉ columns.map toLower then
      (addColumn schema t column, true)
    else (schema, false)
  | none => (schema, false)

namespace TableSyncer

/-- The loop `for (const auto& col : columns)` of `EnsureTargetTable` from
position `i` on: a column whose lowered name is not in `existingColumns` (the
set read once by `PRAGMA table_info` before the loop) is added with
`ALTER TABLE`; a failure is logged as a warning and the loop goes on. -/
def ensureColumns (e : EnsureOutcome) (t : String) (existingColumns : List String) :
    Nat → List String → Schema × List Ddl → Schema × List Ddl
  | _, [], s => s
  | i, col :: rest, s =>
    if toLower col ∈ existingColumns then ensureColumns e t existingColumns (i + 1) rest s
    else
      ensureColumns e t existingColumns (i + 1) rest
        ((ExecAddColumn (e.alterOk i) s.1 t col).1,
          s.2 ++ [Ddl.addColumn t col (ExecAddColumn (e.alterOk i) s.1 t col).2])

/-- The function `TableSyncer::EnsureTargetTable`: the schema after the call, the schema
statements issued, and the value returned.  The existence check `SELECT name
FROM sqlite_master WHERE type='table' AND name=?` compares the name exactly. -/
def EnsureTargetTable (e : EnsureOutcome) (schema : Schema) (tableInfo : TableInfo) :
    (Schema × List Ddl) × Bool :=
  if e.probeOk = false then ((schema, []), false)
  else if e.checkPrepareOk = false then ((schema, []), false)
  else
    match schema.lookup tableInfo.tableName with
    | none =>
      (((ExecCreateTable e.createOk schema tableInfo.tableName tableInfo.columns).1,
        [Ddl.createTable tableInfo.tableName tableInfo.columns
          (ExecCreateTable e.createOk schema tableInfo.tableName tableInfo.columns).2]),
       (ExecCreateTable e.createOk schema tableInfo.tableName tableInfo.columns).2)
    | some existing =>
      if e.pragmaPrepareOk = false then ((schema, []), false)
      else
        (ensureColumns e tableInfo.tableName (existing.map toLower) 0 tableInfo.columns
          (schema, []), true)

/-- The function `TableSyncer::SyncTable`: the schema with the schema statements issued, the
new world and the value returned, in the runs in which the strategy called
returns.  An exception that leaves the strategy leaves `SyncTable` too and is
caught in `RunSync`, whose model takes the outcome of each call as input. -/
def SyncTable (ts : TableSyncer) (e : EnsureOutcome) (d : Driver) (schema : Schema)
    (w : World) (tableInfo : TableInfo) (fullSync : Bool) :
    (Schema × List Ddl) × World × Nat :=
  if (EnsureTargetTable e schema tableInfo).2 = false then
    ((EnsureTargetTable e schema tableInfo).1, w, 0)
  else
    let strategy := GetSyncStrategy ts d.uninit w.db.sync_state tableInfo fullSync
    let rowsSynced :=
      if strategy = "full" then SyncFullTable ts d w tableInfo
      else if strategy = "key_based" then SyncKeyBased ts d w tableInfo
      else if strategy = "hash_based" then SyncHashBased ts d w tableInfo
      else if strategy = "timestamp" then SyncTimestampBased ts d w tableInfo
      else (w, 0)
    ((EnsureTargetTable e schema tableInfo).1, rowsSynced.1, rowsSynced.2)

end TableSyncer

/-! ### DataSyncManager.cpp: the source tables -/

/-- What the source driver answers during `GetSourceTables`: the table names
of schema `PUB` (`GetTableList`), the primary-key column of a table
(`GetPrimaryKeyColumn`, asked with the name as listed), and the column names of
the probe `SELECT * FROM PUB.<lowered name> WHERE 1=0` (`none` when the query
fails). -/
structure Catalog where
  tableList : List String
  primaryKey : String → String
  describe : String → Option (List String)

namespace DataSyncManager

/-- One iteration of `for (const auto& tableName : tableNames)` in
`GetSourceTables`; `ignoredTables` is the ignore set. -/
def sourceTable (c : Catalog) (ignoredTables : List String) (tables : List TableInfo)
    (tableName : String) : List TableInfo :=
  let lowerTableName := toLower tableName
  if lowerTableName.data.head? = some '_' ∨ lowerTableName ∈ ignoredTables then tables
  else
    let columns :=
      match c.describe lowerTableName with
      | some names => names.map toLower
      | none => []
    if columns ≠ [] then
      tables ++ [{ tableName := lowerTableName, columns := columns,
                   pkColumn := toLower (c.primaryKey tableName) }]
    else tables

/-- The function `DataSyncManager::GetSourceTables`. -/
def GetSourceTables (c : Catalog) (ignoredTables : List String) : List TableInfo :=
  c.tableList.foldl (sourceTable c ignoredTables) []

end DataSyncManager

/-! ### Notions used to state the properties of the incremental strategies -/

/-- The world `w2` is reached from `w1` without touching the progress store and
without issuing a `ROLLBACK`. -/
def Steady (w1 w2 : World) : Prop :=
  w2.db.sync_state = w1.db.sync_state ∧
    w2.log.count Cmd.rollback = w1.log.count Cmd.rollback

/-- The world in which `SyncKeyBased` begins its transaction: the count
statement and the source statement, each with the stored last key bound, were
handed to the source. -/
def keyStart (d : Driver) (w : World) (tableInfo : TableInfo) : World :=
  (w.query (TableSyncer.keyCountQuery tableInfo
    (SyncState.GetLastSync d.uninit w.db.sync_state tableInfo.tableName).lastKeyValue)).query
    (TableSyncer.keyQuery tableInfo
      (SyncState.GetLastSync d.uninit w.db.sync_state tableInfo.tableName).lastKeyValue)

/-- The world in which `SyncTimestampBased` begins its transaction: the source
statement, with the stored last sync time bound, was handed to the source. -/
def timestampStart (d : Driver) (w : World) (tableInfo : TableInfo) : World :=
  w.query (TableSyncer.timestampQuery tableInfo
    (TableSyncer.FindTimestampColumn tableInfo.columns)
    (SyncState.GetLastSync d.uninit w.db.sync_state tableInfo.tableName).lastSyncTime)

/-- An `INSERT` into a data table that succeeded. -/
def Cmd.isInsertDone : Cmd → Bool
  | Cmd.insert _ _ true => true
  | _ => false

/-- The number of successful row inserts among the statements issued. -/
def insertsDone (log : List Cmd) : Nat :=
  log.countP Cmd.isInsertDone

/-- The value of `lastValue` at the end of the row loop of `SyncKeyBased`: the
key of the last row fetched, and the stored last key when no row is fetched. -/
def keyLastValue (stored : String) (columns : List String) (k : Nat) (rows : List Row) :
    String :=
  match rows.getLast? with
  | some last => pkValueOf columns k last
  | none => stored

/-- Every statement of every batch of the run succeeds. -/
def BatchesOk (d : Driver) : Prop :=
  ∀ b, (d.batch b).deleteOk = true ∧ (d.batch b).prepareOk = true ∧
    ∀ i, (d.batch b).stepOk i = true

/-- A world as `Scenario.world` whose progress store holds one record for
`orders`, written by an earlier run. -/
def Scenario.synced (content : List DRow) (key method : String) (count : Int) : World :=
  { db := { tables := fun t => if t = "orders" then content else [],
            sync_state := [{ table_name := "orders", last_sync_time := some "2023-12-31 00:00:00",
                             last_key_value := some key, sync_method := some method,
                             row_count := some count }] },
    snapshot := none, row_hashes := [], log := [], queries := [] }

/-- A synchroniser with batch size 2 and hashing disabled. -/
def Scenario.pairs : TableSyncer :=
  { batchSize := 2, hashEnabled := false, evp := Scenario.plainDigest }

/-- The table `orders(id, total)` known without a primary key; it has no
timestamp column. -/
def Scenario.keyless : TableInfo :=
  { tableName := "orders", columns := ["id", "total"], pkColumn := "" }

/-- Answers of the destination to `EnsureTargetTable` when it accepts every
statement. -/
def Scenario.ensureOk : EnsureOutcome :=
  { probeOk := true, checkPrepareOk := true, createOk := true, pragmaPrepareOk := true,
    alterOk := fun _ => true }

/-- The outcome of a schema statement. -/
def Ddl.ok : Ddl → Bool
  | Ddl.createTable _ _ ok => ok
  | Ddl.addColumn _ _ ok => ok

/-- The table with lowered name `n` passes the filters of `GetSourceTables`:
the name does not begin with an underscore, is not in the ignore set, and the
probe query of the table succeeds and has at least one column. -/
def DataSyncManager.kept (c : Catalog) (ignoredTables : List String) (n : String) : Bool :=
  !(n.data.head? == some '_') && !(ignoredTables.contains n) &&
    (match c.describe n with
      | some (_ :: _) => true
      | _ => false)

/-- A source catalog with the tables `Customer`, `_File`, `Audit` and `Empty`,
the last one without columns. -/
def Scenario.catalog : Catalog :=
  { tableList := ["Customer", "_File", "Audit", "Empty"],
    primaryKey := fun _ => "CustNum",
    describe := fun n =>
      if n = "customer" then some ["CustNum", "Name"]
      else if n = "audit" then some ["Id"]
      else if n = "empty" then some []
      else none }

/-- A column name as the specification of the timestamp strategy reads it: its
lowered form contains one of `timestamp`, `modified`, `updated`, `changed`,
`datetime`. -/
def isTimestampName (col : String) : Bool :=
  ["timestamp", "modified", "updated", "changed", "datetime"].any
    (fun pattern => containsSubstr (toLower col) pattern)

/-! ### DataSyncManager.cpp: the table loop of `RunSync` -/

/-- The struct `SyncMetrics` of `DataSyncManager.h`, without the start time. -/
structure SyncMetrics where
  tablesProcessed : Int
  rowsSynced : Int
deriving DecidableEq, Repr

/-- How a call of `SyncTable` or of a strategy ends: it returns a row count,
or a `std::exception` leaves it. -/
inductive CallOutcome where
  | returned (rows : Int)
  | threw
deriving DecidableEq, Repr

/-- The state of the table loop of `RunSync`: the databases (`env`), the
metrics, and the calls of `SyncTable` made so far with their outcomes. -/
structure RunState (σ : Type) where
  env : σ
  metrics : SyncMetrics
  calls : List (TableInfo × CallOutcome)

namespace DataSyncManager

/-- One iteration of `for (const auto& tableInfo : tables)` in `RunSync`:
`try { rows = SyncTable(...); tablesProcessed++; rowsSynced += rows; }
catch (const std::exception&) { log }`.  `syncTable` gives, for the databases
as they are, the databases after the call and how the call ends. -/
def runTable {σ : Type} (syncTable : σ → TableInfo → σ × CallOutcome) (st : RunState σ)
    (tableInfo : TableInfo) : RunState σ :=
  match (syncTable st.env tableInfo).2 with
  | CallOutcome.returned rows =>
    { env := (syncTable st.env tableInfo).1
      metrics := { tablesProcessed := st.metrics.tablesProcessed + 1
                   rowsSynced := st.metrics.rowsSynced + rows }
      calls := st.calls ++ [(tableInfo, CallOutcome.returned rows)] }
  | CallOutcome.threw =>
    { env := (syncTable st.env tableInfo).1
      metrics := st.metrics
      calls := st.calls ++ [(tableInfo, CallOutcome.threw)] }

/-- The part of `DataSyncManager::RunSync` that follows `GetSourceTables`: nothing is done
for an empty table list, otherwise every table is handled in turn.  The metrics
start at the zeros the constructor sets. -/
def RunSync {σ : Type} (syncTable : σ → TableInfo → σ × CallOutcome) (env : σ)
    (tables : List TableInfo) : RunState σ :=
  if tables.isEmpty then
    { env := env, metrics := { tablesProcessed := 0, rowsSynced := 0 }, calls := [] }
  else
    tables.foldl (runTable syncTable)
      { env := env, metrics := { tablesProcessed := 0, rowsSynced := 0 }, calls := [] }

end DataSyncManager

/-- The row count a call contributes to the metrics. -/
def CallOutcome.rows : CallOutcome → Int
  | CallOutcome.returned rows => rows
  | CallOutcome.threw => 0

/-- The call returned. -/
def CallOutcome.isReturned : CallOutcome → Bool
  | CallOutcome.returned _ => true
  | CallOutcome.threw => false

/-- The outcomes of the calls of `SyncTable` on the tables in list order, each
call finding the databases as the calls before it left them. -/
def callOutcomes {σ : Type} (syncTable : σ → TableInfo → σ × CallOutcome) :
    σ → List TableInfo → List CallOutcome
  | _, [] => []
  | env, tableInfo :: rest =>
    (syncTable env tableInfo).2 :: callOutcomes syncTable (syncTable env tableInfo).1 rest

/-! ### TableSyncer.cpp: the exception of `GetSourceRowCount` -/

namespace TableSyncer

/-- The function `TableSyncer::GetSourceRowCount`, `rowCount` being what the source answers
to its `SELECT COUNT(*)`: the value returned (`0` when the statement could not
be run), and `none` when `std::stoi` throws on the text fetched. -/
def GetSourceRowCount (rowCount : CountOutcome) : Option Int :=
  match rowCount with
  | CountOutcome.failed => some 0
  | CountOutcome.threw => none
  | CountOutcome.rows n => some n

/-- A call of `SyncFullTable` as a whole.  When `std::stoi` throws in the call
`GetSourceRowCount(tableName)`, which stands before the `try` block, the
exception leaves `SyncFullTable`: the count statement was handed to the source
and nothing else was done.  Otherwise the call is the run `SyncFullTable`. -/
def callSyncFullTable (rowCount : CountOutcome) (ts : TableSyncer) (d : Driver) (w : World)
    (tableInfo : TableInfo) : World × CallOutcome :=
  match GetSourceRowCount rowCount with
  | none => (w.query (rowCountQuery tableInfo.tableName), CallOutcome.threw)
  | some _ =>
    ((SyncFullTable ts d w tableInfo).1,
      CallOutcome.returned ((SyncFullTable ts d w tableInfo).2 : Nat))

/-- A call of `SyncKeyBased` as a whole: the two fallbacks `return
SyncFullTable(tableInfo)` stand before the `try` block, so an exception of the
full strategy leaves `SyncKeyBased` too. -/
def callSyncKeyBased (rowCount : CountOutcome) (ts : TableSyncer) (d : Driver) (w : World)
    (tableInfo : TableInfo) : World × CallOutcome :=
  if tableInfo.pkColumn = "" then callSyncFullTable rowCount ts d w tableInfo
  else if (SyncState.GetLastSync d.uninit w.db.sync_state tableInfo.tableName).lastKeyValue = ""
  then callSyncFullTable rowCount ts d w tableInfo
  else
    ((SyncKeyBased ts d w tableInfo).1,
      CallOutcome.returned ((SyncKeyBased ts d w tableInfo).2 : Nat))

/-- A call of `SyncHashBased` as a whole: the fallback `return
SyncKeyBased(tableInfo)` stands before the `try` block. -/
def callSyncHashBased (rowCount : CountOutcome) (ts : TableSyncer) (d : Driver) (w : World)
    (tableInfo : TableInfo) : World × CallOutcome :=
  if tableInfo.pkColumn = "" ∨ ts.hashEnabled = false then
    callSyncKeyBased rowCount ts d w tableInfo
  else
    ((SyncHashBased ts d w tableInfo).1,
      CallOutcome.returned ((SyncHashBased ts d w tableInfo).2 : Nat))

/-- A call of `SyncTimestampBased` as a whole.  The fallback for a missing
last sync time stands before the `try` block; the fallback for a missing
timestamp column stands inside it, so there an exception of the full strategy
is caught: `ROLLBACK` is issued and 0 is returned. -/
def callSyncTimestampBased (rowCount : CountOutcome) (ts : TableSyncer) (d : Driver)
    (w : World) (tableInfo : TableInfo) : World × CallOutcome :=
  if (SyncState.GetLastSync d.uninit w.db.sync_state tableInfo.tableName).lastSyncTime = ""
  then callSyncFullTable rowCount ts d w tableInfo
  else if FindTimestampColumn tableInfo.columns = "" then
    match callSyncFullTable rowCount ts d w tableInfo with
    | (w1, CallOutcome.threw) => (SqliteHelper.RollbackTransaction w1, CallOutcome.returned 0)
    | (w1, CallOutcome.returned n) => (w1, CallOutcome.returned n)
  else
    ((SyncTimestampBased ts d w tableInfo).1,
      CallOutcome.returned ((SyncTimestampBased ts d w tableInfo).2 : Nat))

end TableSyncer

/-! ### Notions used to state the commits of the full strategy -/

/-- The number of successful inserts among the first `n` fetched rows. -/
def successesBefore (stepOk : Nat → Bool) (n : Nat) : Nat :=
  ((List.range n).filter (fun i => stepOk i)).length

/-- The number of fetched rows, among the first `n`, after whose handling the
count of successful inserts so far, added to `base`, is a multiple of
`batchSize` (zero included). -/
def boundaryTests (stepOk : Nat → Bool) (batchSize base n : Nat) : Nat :=
  ((List.range n).filter
    (fun j => decide ((base + successesBefore stepOk (j + 1)) % batchSize = 0))).length

/-- A run of the full strategy in which the insert of every row fails. -/
def Scenario.failing (rows : List Row) : Driver :=
  { Scenario.driver rows with stepOk := fun _ => false }

/-! ### Notions used to state the batches of the hash-based strategy -/

/-- The pending batch of the hash-based loop is aligned: position by position
`pkValues` holds the key and `rowHashes` the hash of the row in `batchData`,
and no key is empty. -/
def HashAligned (ts : TableSyncer) (k : Nat) (st : TableSyncer.HashState) : Prop :=
  st.pkValues = st.batchData.map (fun r => r.getD k "") ∧
    st.rowHashes = st.batchData.map (HashCalculator.CalculateRowHash ts.evp) ∧
    ∀ p ∈ st.pkValues, p ≠ ""

/-- The state of the hash-based loop after the block `if (!pkValue.empty())` of
one iteration, before the test of the batch size. -/
def hashPush (ts : TableSyncer) (tableInfo : TableInfo) (k : Nat)
    (st : TableSyncer.HashState) (current : Row) : TableSyncer.HashState :=
  if (fetchRowData tableInfo.columns current).getD k "" ≠ "" then
    { st with
      pkValues := st.pkValues ++ [(fetchRowData tableInfo.columns current).getD k ""]
      rowHashes := st.rowHashes ++
        [HashCalculator.CalculateRowHash ts.evp (fetchRowData tableInfo.columns current)]
      batchData := st.batchData ++ [fetchRowData tableInfo.columns current] }
  else st

/-- The keys `GetChangedRows` returns for the pending batch of a state. -/
def changedOf (tableInfo : TableInfo) (st : TableSyncer.HashState) : List String :=
  HashStorage.GetChangedRows st.w.row_hashes tableInfo.tableName st.pkValues st.rowHashes

/-- The pairs (key, row) of the pending batch whose key occurs among the
changed keys, in batch order. -/
def selectedOf (tableInfo : TableInfo) (st : TableSyncer.HashState) : List (String × Row) :=
  (st.pkValues.zip st.batchData).filter (fun p => (changedOf tableInfo st).contains p.1)

/-! ### Notions used to state the batching of the incremental strategies -/

/-- The batches of the specification: the rows cut, in order, into runs of
`batchSize` rows, the last run being shorter when the rows do not divide
evenly.  `fuel` bounds the number of batches; `rows.length` is enough. -/
def batchesOf (batchSize : Nat) : Nat → List Row → List (List Row)
  | 0, _ => []
  | fuel + 1, rows =>
    if rows.isEmpty then []
    else rows.take batchSize :: batchesOf batchSize fuel (rows.drop batchSize)

/-- The batches applied one after the other: batch number `b` is handed to
`apply` with the keys of its rows (the values at index `k`), and a batch of
`batchSize` rows is followed by `COMMIT` and `BEGIN`. -/
def applyBatches (batchSize k : Nat)
    (apply : Nat → World → List String → List Row → World) :
    Nat → World → List (List Row) → World
  | _, w, [] => w
  | b, w, batch :: rest =>
    if batch.length ≥ batchSize then
      applyBatches batchSize k apply (b + 1)
        (SqliteHelper.BeginTransaction (SqliteHelper.CommitTransaction
          (apply b w (batch.map (fun r => r.getD k "")) batch))) rest
    else
      applyBatches batchSize k apply (b + 1)
        (apply b w (batch.map (fun r => r.getD k "")) batch) rest

/-! ### Notions used to state the transaction discipline -/

/-- The transaction commands. -/
def Cmd.isTx : Cmd → Bool
  | Cmd.begin => true
  | Cmd.commit => true
  | Cmd.rollback => true
  | _ => false

/-- The statements of a batch applier and of the insert loops: the delete of
the batch keys, the preparation of the insert, a row insert, a hash write. -/
def Cmd.isBatchWrite : Cmd → Bool
  | Cmd.deleteRows _ _ _ _ => true
  | Cmd.prepareInsert _ _ => true
  | Cmd.insert _ _ _ => true
  | Cmd.storeHash _ _ _ => true
  | _ => false

/-- One step of the monitor of the transaction discipline.  The state says
whether a transaction is open; `none` records a violation: a `BEGIN` inside a
transaction, a `COMMIT` or `ROLLBACK` without one, a batch delete or a row
insert outside a transaction, a progress record written inside one. -/
def txStep (s : Option Bool) (c : Cmd) : Option Bool :=
  match s, c with
  | none, _ => none
  | some true, Cmd.begin => none
  | some false, Cmd.begin => some true
  | some true, Cmd.commit => some false
  | some false, Cmd.commit => none
  | some true, Cmd.rollback => some false
  | some false, Cmd.rollback => none
  | some true, Cmd.deleteRows _ _ _ _ => some true
  | some false, Cmd.deleteRows _ _ _ _ => none
  | some true, Cmd.insert _ _ _ => some true
  | some false, Cmd.insert _ _ _ => none
  | some true, Cmd.updateSyncState _ _ _ _ => none
  | some false, Cmd.updateSyncState _ _ _ _ => some false
  | some o, Cmd.deleteAll _ _ => some o
  | some o, Cmd.prepareInsert _ _ => some o
  | some o, Cmd.storeHash _ _ _ => some o

/-- The monitor run over the statements issued, from the state in which no
transaction is open. -/
def txState (log : List Cmd) : Option Bool :=
  log.foldl txStep (some false)

/-- The commands `COMMIT BEGIN` repeated `n` times. -/
def txCycles : Nat → List Cmd
  | 0 => []
  | n + 1 => txCycles n ++ [Cmd.commit, Cmd.begin]

/-- The world `w2` is reached from `w1` by statements of a batch applier only. -/
def Quiet (w1 w2 : World) : Prop :=
  ∃ l, w2.log = w1.log ++ l ∧ ∀ c ∈ l, Cmd.isBatchWrite c = true

/-- The writes of the progress store. -/
def Cmd.isRecord : Cmd → Bool
  | Cmd.updateSyncState _ _ _ _ => true
  | _ => false

/-- The world `w` lies inside the transaction that a strategy called on `w0`
has open: the monitor, satisfied at the call, is in the open state, the
transaction commands issued since the call are `BEGIN (COMMIT BEGIN)*`, and no
progress record was written since the call. -/
def TxOpen (w0 w : World) : Prop :=
  (txState w0.log = some false → txState w.log = some true) ∧
    (∃ n, w.log.filter Cmd.isTx = w0.log.filter Cmd.isTx ++ Cmd.begin :: txCycles n) ∧
    ∃ l, w.log = w0.log ++ l ∧ l.filter Cmd.isRecord = []

/-- Between `w1` and `w2` the progress store is written at most once, and a
write is the last statement issued and directly follows a `COMMIT`. -/
def RecordLast (w1 w2 : World) : Prop :=
  ∃ l, w2.log = w1.log ++ l ∧
    (l.filter Cmd.isRecord = [] ∨
      ∃ pre t k m n, l = pre ++ [Cmd.commit, Cmd.updateSyncState t k m n] ∧
        pre.filter Cmd.isRecord = [])

/-- The world `w2` is left by a strategy called on `w1` that respected the
transaction discipline: the monitor is satisfied and no transaction is open,
the transaction commands issued are none at all, or `BEGIN (COMMIT BEGIN)*`
followed by one `COMMIT` or one `ROLLBACK`, and a progress record is written
only as the last statement, after the final `COMMIT`. -/
def Disciplined (w1 w2 : World) : Prop :=
  (txState w1.log = some false → txState w2.log = some false) ∧
    (w1.snapshot = none → w2.snapshot = none) ∧
    (∃ p, w2.log.filter Cmd.isTx = w1.log.filter Cmd.isTx ++ p ∧
      (p = [] ∨ ∃ n, p = Cmd.begin :: txCycles n ++ [Cmd.commit] ∨
        p = Cmd.begin :: txCycles n ++ [Cmd.rollback])) ∧
    RecordLast w1 w2

/-! ### DatabaseConnector.cpp: the connection attempts and their log messages -/

/-- The fields of `Config::DatabaseConfig` that `DatabaseConnector::Connect`
reads. -/
structure DatabaseConfig where
  host : String
  port : Int
  dbName : String
  user : String
  password : String
  dsn : String

/-- The position `s.find(pattern)` of the first occurrence of `pattern` in `s`;
`none` stands for `std::string::npos`. -/
def findFrom (pattern : List Char) : List Char → Option Nat
  | [] => if pattern.isEmpty then some 0 else none
  | c :: rest =>
    if pattern.isPrefixOf (c :: rest) then some 0
    else (findFrom pattern rest).map (fun i => i + 1)

namespace DatabaseConnector

/-- The vector `connectionStrings` built by `Connect`: the standard string, the
two alternative formats, and the DSN string when a DSN is configured. -/
def connectionStrings (cfg : DatabaseConfig) : List String :=
  ["DRIVER=\x7bProgress OpenEdge Wire Protocol\x7d;" ++ "HOST=" ++ cfg.host ++ ";" ++
      "PORT=" ++ toString cfg.port ++ ";" ++ "DB=" ++ cfg.dbName ++ ";" ++
      "UID=" ++ cfg.user ++ ";" ++ "PWD=" ++ cfg.password ++ ";",
   "DRIVER=\x7bProgress OpenEdge Wire Protocol\x7d;" ++ "HostName=" ++ cfg.host ++ ";" ++
      "PortNumber=" ++ toString cfg.port ++ ";" ++ "Database=" ++ cfg.dbName ++ ";" ++
      "User=" ++ cfg.user ++ ";" ++ "Password=" ++ cfg.password ++ ";",
   "DRIVER=\x7bProgress OpenEdge Wire Protocol\x7d;" ++ "ServerName=" ++ cfg.host ++ ";" ++
      "PortNumber=" ++ toString cfg.port ++ ";" ++ "DatabaseName=" ++ cfg.dbName ++ ";" ++
      "LogonID=" ++ cfg.user ++ ";" ++ "Password=" ++ cfg.password ++ ";"] ++
  (if cfg.dsn ≠ "" then
    ["DSN=" ++ cfg.dsn ++ ";" ++ "UID=" ++ cfg.user ++ ";" ++ "PWD=" ++ cfg.password ++ ";"]
  else [])

/-- The expression `connStr.substr(0, connStr.find("PWD="))`: the text before
the first `PWD=`, and the whole string when there is none (`substr(0, npos)`). -/
def maskedPrefix (connStr : String) : String :=
  match findFrom "PWD=".data connStr.data with
  | some i => String.mk (connStr.data.take i)
  | none => connStr

/-- The message `"Attempting connection with: " + connStr.substr(0,
connStr.find("PWD=")) + "PWD=********;"` logged for one attempt. -/
def attemptMessage (connStr : String) : String :=
  "Attempting connection with: " ++ maskedPrefix connStr ++ "PWD=********;"

/-- The loop `for (const auto& connStr : connectionStrings)` of `Connect` from
attempt number `i` on: the message of each attempt made, and whether one
succeeded; `connectOk i` says whether `SQLDriverConnect` succeeds at attempt
`i`, after which the loop is left. -/
def attempts (connectOk : Nat → Bool) : Nat → List String → List String × Bool
  | _, [] => ([], false)
  | i, connStr :: rest =>
    if connectOk i then ([attemptMessage connStr], true)
    else
      (attemptMessage connStr :: (attempts connectOk (i + 1) rest).1,
        (attempts connectOk (i + 1) rest).2)

/-- The connection attempts of `DatabaseConnector::Connect`: the attempt messages logged
and whether the source database is connected. -/
def Connect (cfg : DatabaseConfig) (connectOk : Nat → Bool) : List String × Bool :=
  attempts connectOk 0 (connectionStrings cfg)

end DatabaseConnector

/-- A configuration with the password `s3cret`. -/
def Scenario.config : DatabaseConfig :=
  { host := "dbhost", port := 20931, dbName := "sports", user := "sysprogress",
    password := "s3cret", dsn := "" }

open SqliteHelper TableSyncer

/-! ### Strategy selection -/

/-- Claim C1: `TableSyncer::GetSyncStrategy` returns a value for every table
info, progress store, hashing flag and full-sync flag, namely `"full"` when the
full-sync flag is set, otherwise `"full"` when the stored `last_sync_time` is
empty, otherwise `"hash_based"` when hashing is enabled and the primary-key
column is non-empty, otherwise `"key_based"` when the primary-key column is
non-empty, otherwise `"timestamp"`; the result is one of these four strings. -/
theorem getSyncStrategy_cases (ts : TableSyncer) (uninit : Int)
    (sync_state : List SyncStateRow) (tableInfo : TableInfo) (fullSync : Bool) :
    (fullSync = true →
      TableSyncer.GetSyncStrategy ts uninit sync_state tableInfo fullSync = "full") ∧
    (fullSync = false →
      (SyncState.GetLastSync uninit sync_state tableInfo.tableName).lastSyncTime = "" →
      TableSyncer.GetSyncStrategy ts uninit sync_state tableInfo fullSync = "full") ∧
    (fullSync = false →
      (SyncState.GetLastSync uninit sync_state tableInfo.tableName).lastSyncTime ≠ "" →
      ts.hashEnabled = true → tableInfo.pkColumn ≠ "" →
      TableSyncer.GetSyncStrategy ts uninit sync_state tableInfo fullSync = "hash_based") ∧
    (fullSync = false →
      (SyncState.GetLastSync uninit sync_state tableInfo.tableName).lastSyncTime ≠ "" →
      ts.hashEnabled = false → tableInfo.pkColumn ≠ "" →
      TableSyncer.GetSyncStrategy ts uninit sync_state tableInfo fullSync = "key_based") ∧
    (fullSync = false →
      (SyncState.GetLastSync uninit sync_state tableInfo.tableName).lastSyncTime ≠ "" →
      tableInfo.pkColumn = "" →
      TableSyncer.GetSyncStrategy ts uninit sync_state tableInfo fullSync = "timestamp") ∧
    TableSyncer.GetSyncStrategy ts uninit sync_state tableInfo fullSync ∈
      ["full", "key_based", "hash_based", "timestamp"] := by
  refine ⟨?_, ?_, ?_, ?_, ?_, ?_⟩
  · intro h
    simp [TableSyncer.GetSyncStrategy, h]
  · intro h h1
    simp [TableSyncer.GetSyncStrategy, h, h1]
  · intro h h1 h2 h3
    simp [TableSyncer.GetSyncStrategy, h, h1, h2, h3]
  · intro h h1 h2 h3
    simp [TableSyncer.GetSyncStrategy, h, h1, h2, h3]
  · intro h h1 h3
    simp [TableSyncer.GetSyncStrategy, h, h1, h3]
  · unfold TableSyncer.GetSyncStrategy
    dsimp only
    split_ifs <;> simp

/-- The four strategies are all reached on a concrete progress store: a table
with a stored record and a primary key is sent to `"hash_based"` with hashing,
to `"key_based"` without, a table without primary key to `"timestamp"`, and a
table without a record to `"full"`. -/
theorem getSyncStrategy_cases_witness :
    TableSyncer.GetSyncStrategy ⟨100, true, fun _ => none⟩ 0
        [⟨"orders", some "2024-01-01 00:00:00", some "2", some "key_based", some 2⟩]
        ⟨"orders", ["id", "total"], "id"⟩ false = "hash_based" ∧
    TableSyncer.GetSyncStrategy ⟨100, false, fun _ => none⟩ 0
        [⟨"orders", some "2024-01-01 00:00:00", some "2", some "key_based", some 2⟩]
        ⟨"orders", ["id", "total"], "id"⟩ false = "key_based" ∧
    TableSyncer.GetSyncStrategy ⟨100, true, fun _ => none⟩ 0
        [⟨"orders", some "2024-01-01 00:00:00", some "2", some "key_based", some 2⟩]
        ⟨"orders", ["id", "total"], ""⟩ false = "timestamp" ∧
    TableSyncer.GetSyncStrategy ⟨100, true, fun _ => none⟩ 0
        [⟨"orders", some "2024-01-01 00:00:00", some "2", some "key_based", some 2⟩]
        ⟨"events", ["ts", "payload"], "ts"⟩ false = "full" :=
  ⟨(getSyncStrategy_cases ⟨100, true, fun _ => none⟩ 0
      [⟨"orders", some "2024-01-01 00:00:00", some "2", some "key_based", some 2⟩]
      ⟨"orders", ["id", "total"], "id"⟩ false).2.2.1 rfl (by decide) rfl (by decide),
   (getSyncStrategy_cases ⟨100, false, fun _ => none⟩ 0
      [⟨"orders", some "2024-01-01 00:00:00", some "2", some "key_based", some 2⟩]
      ⟨"orders", ["id", "total"], "id"⟩ false).2.2.2.1 rfl (by decide) rfl (by decide),
   (getSyncStrategy_cases ⟨100, true, fun _ => none⟩ 0
      [⟨"orders", some "2024-01-01 00:00:00", some "2", some "key_based", some 2⟩]
      ⟨"orders", ["id", "total"], ""⟩ false).2.2.2.2.1 rfl (by decide) rfl,
   (getSyncStrategy_cases ⟨100, true, fun _ => none⟩ 0
      [⟨"orders", some "2024-01-01 00:00:00", some "2", some "key_based", some 2⟩]
      ⟨"events", ["ts", "payload"], "ts"⟩ false).2.1 rfl (by decide)⟩

/-! ### Row hash: the canonical serialisation -/

/-- Characters of a string built by a loop that appends `g f` for each field. -/
theorem foldl_append_data (g : String → String) (l : List String) (init : String) :
    (l.foldl (fun acc f => acc ++ g f) init).data =
      init.data ++ (l.map (fun f => (g f).data)).flatten := by
  induction l generalizing init with
  | nil => simp
  | cons a l ih =>
    simp only [List.foldl_cons, List.map_cons, List.flatten_cons]
    rw [ih, String.data_append, List.append_assoc]

/-- The stream of `CalculateRowHash` holds the specification's canonical
string. -/
theorem combinedData_eq_canonicalSpec (row : Row) :
    HashCalculator.combinedData row = HashCalculator.canonicalSpec row := by
  apply String.ext
  have h := foldl_append_data HashCalculator.canonicalField row ""
  unfold HashCalculator.canonicalField at h
  unfold HashCalculator.combinedData HashCalculator.canonicalSpec
  simp only [String.append_assoc] at h ⊢
  rw [h, String.join_eq]
  simp [HashCalculator.canonicalField, Function.comp_def, String.append_assoc]

/-- Claim C2: for every row, `HashCalculator::CalculateRowHash` is `Sha256` of
the concatenation, in field order, of `decimal(byte length) ++ ":" ++ field ++
"|"`; an empty field contributes `"0:|"`, and the row `["ab", "c"]` is
serialised as `"2:ab|1:c|"`. -/
theorem calculateRowHash_canonical (evp : String → Option (List (Fin 256))) (row : Row) :
    HashCalculator.CalculateRowHash evp row =
      HashCalculator.Sha256 evp (HashCalculator.canonicalSpec row) ∧
    HashCalculator.canonicalField "" = "0:|" ∧
    HashCalculator.combinedData [""] = "0:|" ∧
    HashCalculator.combinedData ["ab", "c"] = "2:ab|1:c|" := by
  refine ⟨?_, by decide, by decide, by decide⟩
  unfold HashCalculator.CalculateRowHash
  rw [combinedData_eq_canonicalSpec]

/-! ### Hash store: changed rows -/

/-- The index loop of `GetChangedRows`, started with `acc`, appends the
subsequence the specification describes. -/
theorem changed_loop_eq (get : String → String) :
    ∀ (pks hs : List String) (acc : List String), pks.length = hs.length →
      (List.range pks.length).foldl
        (fun changedRows i =>
          if get (pks.getD i "") = "" ∨ get (pks.getD i "") ≠ hs.getD i "" then
            changedRows ++ [pks.getD i ""]
          else changedRows) acc = acc ++ changedSpec get pks hs := by
  intro pks
  induction pks with
  | nil => intro hs acc _; simp [changedSpec]
  | cons pk pks ih =>
    intro hs acc hlen
    cases hs with
    | nil => simp at hlen
    | cons h hs =>
      simp only [List.length_cons, add_left_inj] at hlen
      simp only [List.length_cons, List.range_succ_eq_map, List.foldl_cons, List.foldl_map,
        Nat.succ_eq_add_one, List.getD_cons_succ, List.getD_cons_zero]
      rw [ih hs _ hlen]
      by_cases hc : get pk = "" ∨ get pk ≠ h
      · simp [changedSpec, hc, List.filter_cons]
      · simp [changedSpec, hc, List.filter_cons]

/-- On lists of equal length `HashStorage::GetChangedRows` is the filter of the
specification. -/
theorem getChangedRows_eq (row_hashes : List HashRecord) (tableName : String)
    (pks hashes : List String) (hlen : pks.length = hashes.length) :
    HashStorage.GetChangedRows row_hashes tableName pks hashes =
      changedSpec (HashStorage.GetHash row_hashes tableName) pks hashes := by
  unfold HashStorage.GetChangedRows
  rw [if_neg (by simpa using hlen)]
  have h := changed_loop_eq (HashStorage.GetHash row_hashes tableName) pks hashes [] hlen
  simpa using h

/-- A key with no record in the store reads as the empty hash. -/
theorem getHash_absent (row_hashes : List HashRecord) (tableName pk : String)
    (h : ∀ r ∈ row_hashes, ¬ (r.table_name = tableName ∧ r.pk_value = pk)) :
    HashStorage.GetHash row_hashes tableName pk = "" := by
  unfold HashStorage.GetHash
  have : row_hashes.find? (fun r => r.table_name == tableName && r.pk_value == pk) = none := by
    rw [List.find?_eq_none]
    intro r hr
    simpa using h r hr
  rw [this]

/-- Membership in the specification's subsequence, by position. -/
theorem mem_changedSpec_of_index (get : String → String) (pks hashes : List String)
    (hlen : pks.length = hashes.length) (i : Nat) (hi : i < pks.length)
    (hc : get (pks.getD i "") = "" ∨ get (pks.getD i "") ≠ hashes.getD i "") :
    pks.getD i "" ∈ changedSpec get pks hashes := by
  have hi2 : i < hashes.length := hlen ▸ hi
  unfold changedSpec
  rw [List.mem_map]
  refine ⟨(pks.getD i "", hashes.getD i ""), ?_, rfl⟩
  rw [List.mem_filter]
  refine ⟨?_, by simpa using hc⟩
  rw [List.mem_iff_getElem]
  refine ⟨i, by simp [hi, hi2], ?_⟩
  simp [List.getD_eq_getElem, hi, hi2]

/-- Claim C4: for lists `pks` and `hashes` of equal length,
`HashStorage::GetChangedRows` returns exactly the entries `pks[i]`, in input
order and with multiplicity, whose stored hash is empty (or absent) or differs
from `hashes[i]`; a key with no record in the store is returned; and
`hash_rows::get_changed_rows` returns the same. -/
theorem getChangedRows_spec (row_hashes : List HashRecord) (tableName : String)
    (pks hashes : List String) (hlen : pks.length = hashes.length) :
    HashStorage.GetChangedRows row_hashes tableName pks hashes =
      changedSpec (HashStorage.GetHash row_hashes tableName) pks hashes ∧
    hash_rows.get_changed_rows row_hashes tableName pks hashes =
      changedSpec (hash_rows.get_hash row_hashes tableName) pks hashes ∧
    hash_rows.get_changed_rows row_hashes tableName pks hashes =
      HashStorage.GetChangedRows row_hashes tableName pks hashes ∧
    (∀ i, i < pks.length →
      (∀ r ∈ row_hashes, ¬ (r.table_name = tableName ∧ r.pk_value = pks.getD i "")) →
      pks.getD i "" ∈ HashStorage.GetChangedRows row_hashes tableName pks hashes) := by
  have h1 := getChangedRows_eq row_hashes tableName pks hashes hlen
  have h2 : hash_rows.get_changed_rows row_hashes tableName pks hashes =
      changedSpec (hash_rows.get_hash row_hashes tableName) pks hashes := by
    unfold hash_rows.get_changed_rows
    rw [if_neg (by simpa using hlen)]
    have h := changed_loop_eq (hash_rows.get_hash row_hashes tableName) pks hashes [] hlen
    simpa using h
  have h3 : hash_rows.get_hash row_hashes tableName = HashStorage.GetHash row_hashes tableName := by
    funext pk
    rfl
  refine ⟨h1, h2, ?_, ?_⟩
  · rw [h1, h2, h3]
  · intro i hi habs
    rw [h1]
    exact mem_changedSpec_of_index _ pks hashes hlen i hi
      (Or.inl (getHash_absent row_hashes tableName _ habs))

/-- The store of scenario 3 after the full sync, probed with the keys `1`, `2`,
`3`: key `1` is unchanged, key `2` has a new hash, key `3` has no record. -/
theorem getChangedRows_spec_witness :
    ["1", "2", "3"].length = ["h1", "h2x", "h3"].length ∧
    HashStorage.GetChangedRows
      [⟨"orders", "1", "h1", "t0"⟩, ⟨"orders", "2", "h2", "t0"⟩] "orders"
      ["1", "2", "3"] ["h1", "h2x", "h3"] = ["2", "3"] := by
  refine ⟨rfl, ?_⟩
  rw [(getChangedRows_spec [⟨"orders", "1", "h1", "t0"⟩, ⟨"orders", "2", "h2", "t0"⟩] "orders"
    ["1", "2", "3"] ["h1", "h2x", "h3"] rfl).1]
  decide

/-! ### Row hash: the serialisation is injective -/

/-- Each decimal digit character denotes its digit and is not the separator. -/
theorem digitChar_facts : ∀ k, k < 10 → (Nat.digitChar k).toNat - 48 = k ∧ Nat.digitChar k ≠ ':' := by
  decide

/-- The digit loop of the decimal rendering puts in front of `ds` digits that
denote `n`, none of them the separator. -/
theorem toDigitsCore_spec : ∀ (fuel n : Nat) (ds : List Char), n < fuel →
    ∃ pre : List Char, Nat.toDigitsCore 10 fuel n ds = pre ++ ds ∧ decVal pre = n ∧
      ∀ c ∈ pre, c ≠ ':' := by
  intro fuel
  induction fuel with
  | zero => intro n ds h; omega
  | succ fuel ih =>
    intro n ds h
    have hd := digitChar_facts (n % 10) (Nat.mod_lt _ (by norm_num))
    unfold Nat.toDigitsCore
    by_cases h0 : n / 10 = 0
    · simp only [h0, if_true]
      refine ⟨[Nat.digitChar (n % 10)], rfl, ?_, ?_⟩
      · simp only [decVal, List.foldl_cons, List.foldl_nil, hd.1]
        omega
      · intro c hc
        simp only [List.mem_singleton] at hc
        rw [hc]; exact hd.2
    · simp only [h0, if_false]
      obtain ⟨pre, hpre, hval, hne⟩ := ih (n / 10) (Nat.digitChar (n % 10) :: ds) (by omega)
      refine ⟨pre ++ [Nat.digitChar (n % 10)], ?_, ?_, ?_⟩
      · rw [hpre]; simp
      · unfold decVal at hval ⊢
        rw [List.foldl_append, hval]
        simp only [List.foldl_cons, List.foldl_nil, hd.1]
        omega
      · intro c hc
        rw [List.mem_append] at hc
        rcases hc with hc | hc
        · exact hne c hc
        · simp only [List.mem_singleton] at hc
          rw [hc]; exact hd.2

/-- The decimal rendering of `n` denotes `n` and has no separator in it. -/
theorem toDigits_spec (n : Nat) : decVal (Nat.toDigits 10 n) = n ∧ ∀ c ∈ Nat.toDigits 10 n, c ≠ ':' := by
  obtain ⟨pre, hpre, hval, hne⟩ := toDigitsCore_spec (n + 1) n [] (by omega)
  unfold Nat.toDigits
  rw [hpre]
  simp only [List.append_nil]
  exact ⟨hval, hne⟩

/-- Two lists that agree after a first separator agree before and after it. -/
theorem split_at_sep {α : Type} (sep : α) : ∀ (a c b d : List α), sep ∉ a → sep ∉ c →
    a ++ sep :: b = c ++ sep :: d → a = c ∧ b = d := by
  intro a
  induction a with
  | nil =>
    intro c b d _ hc h
    cases c with
    | nil => simpa using h
    | cons y c =>
      simp only [List.nil_append, List.cons_append, List.cons.injEq] at h
      exact absurd (by rw [h.1]; simp) hc
  | cons x a ih =>
    intro c b d ha hc h
    cases c with
    | nil =>
      simp only [List.nil_append, List.cons_append, List.cons.injEq] at h
      exact absurd (by rw [← h.1]; simp) ha
    | cons y c =>
      simp only [List.cons_append, List.cons.injEq] at h
      have := ih c b d (fun hm => ha (List.mem_cons_of_mem _ hm))
        (fun hm => hc (List.mem_cons_of_mem _ hm)) h.2
      exact ⟨by rw [h.1, this.1], this.2⟩

/-- Two splittings of one text at the same byte offset are the same splitting. -/
theorem split_by_size : ∀ (a c b d : List Char), String.utf8Len a = String.utf8Len c →
    a ++ b = c ++ d → a = c ∧ b = d := by
  intro a
  induction a with
  | nil =>
    intro c b d hs h
    cases c with
    | nil => simpa using h
    | cons y c =>
      have := Char.utf8Size_pos y
      simp only [String.utf8Len_nil, String.utf8Len_cons] at hs
      omega
  | cons x a ih =>
    intro c b d hs h
    cases c with
    | nil =>
      have := Char.utf8Size_pos x
      simp only [String.utf8Len_nil, String.utf8Len_cons] at hs
      omega
    | cons y c =>
      simp only [List.cons_append, List.cons.injEq] at h
      simp only [String.utf8Len_cons, h.1] at hs
      have := ih c b d (by omega) h.2
      exact ⟨by rw [h.1, this.1], this.2⟩

/-- Characters of the canonical string of a row. -/
theorem combinedData_data (row : Row) :
    (HashCalculator.combinedData row).data =
      (row.map (fun f =>
        Nat.toDigits 10 f.utf8ByteSize ++ ':' :: (f.data ++ ['|']))).flatten := by
  rw [combinedData_eq_canonicalSpec]
  unfold HashCalculator.canonicalSpec
  rw [String.join_eq]
  simp only [List.map_map]
  congr 1
  apply List.map_congr_left
  intro f _
  show (toString f.utf8ByteSize ++ ":" ++ f ++ "|").data = _
  simp only [String.data_append, List.append_assoc]
  rfl

/-- The serialisation, read as a list of characters, determines the row. -/
theorem canonical_chars_inj : ∀ (r r2 : Row),
    (r.map (fun f =>
        Nat.toDigits 10 f.utf8ByteSize ++ ':' :: (f.data ++ ['|']))).flatten =
    (r2.map (fun f =>
        Nat.toDigits 10 f.utf8ByteSize ++ ':' :: (f.data ++ ['|']))).flatten → r = r2 := by
  intro r
  induction r with
  | nil =>
    intro r2 h
    cases r2 with
    | nil => rfl
    | cons g gs =>
      exfalso
      have hl := congrArg List.length h
      simp at hl
      omega
  | cons f fs ih =>
    intro r2 h
    cases r2 with
    | nil =>
      exfalso
      have hl := congrArg List.length h
      simp at hl
    | cons g gs =>
      simp only [List.map_cons, List.flatten_cons, List.append_assoc, List.cons_append] at h
      have h1 := split_at_sep ':' _ _ _ _
        (fun hm => (toDigits_spec f.utf8ByteSize).2 _ hm rfl)
        (fun hm => (toDigits_spec g.utf8ByteSize).2 _ hm rfl) h
      have hsize : f.utf8ByteSize = g.utf8ByteSize := by
        have := congrArg decVal h1.1
        rwa [(toDigits_spec _).1, (toDigits_spec _).1] at this
      have hlen : String.utf8Len f.data = String.utf8Len g.data := by
        rw [← String.utf8ByteSize_mk, ← String.utf8ByteSize_mk]
        exact hsize
      have h2 := split_by_size _ _ _ _ hlen h1.2
      have h3 := h2.2
      simp only [List.singleton_append, List.cons.injEq, true_and] at h3
      rw [String.ext h2.1, ih gs h3]

/-- Claim C3: the length-prefixed serialisation used by `CalculateRowHash` is
injective: two rows that differ (in any field or in the number of fields, the
fields holding any characters) have different canonical strings. -/
theorem combinedData_injective (r r2 : Row) (h : r ≠ r2) :
    HashCalculator.combinedData r ≠ HashCalculator.combinedData r2 := by
  intro heq
  apply h
  apply canonical_chars_inj
  rw [← combinedData_data, ← combinedData_data, heq]

/-- The rows `["ab", "c"]` and `["a", "bc"]` differ, and so do their canonical
strings `"2:ab|1:c|"` and `"1:a|2:bc|"`. -/
theorem combinedData_injective_witness :
    (["ab", "c"] : Row) ≠ ["a", "bc"] ∧
    HashCalculator.combinedData ["ab", "c"] ≠ HashCalculator.combinedData ["a", "bc"] :=
  ⟨by decide, combinedData_injective ["ab", "c"] ["a", "bc"] (by decide)⟩

/-! ### The stores: reading after writing -/

/-- Reading the empty hash store. -/
theorem getHash_nil (t p : String) : HashStorage.GetHash [] t p = "" := rfl

/-- Reading the hash store, record by record. -/
theorem getHash_cons (x : HashRecord) (H : List HashRecord) (t p : String) :
    HashStorage.GetHash (x :: H) t p =
      if x.table_name = t ∧ x.pk_value = p then x.row_hash else HashStorage.GetHash H t p := by
  unfold HashStorage.GetHash
  rw [List.find?_cons]
  by_cases h : x.table_name = t ∧ x.pk_value = p
  · simp [h]
  · rw [if_neg h]
    have : (x.table_name == t && x.pk_value == p) = false := by
      simpa using h
    rw [this]

/-- Writing to the hash store, record by record. -/
theorem storeHash_cons (now : String) (x : HashRecord) (H : List HashRecord) (t p h : String) :
    HashStorage.StoreHash now (x :: H) t p h =
      if x.table_name = t ∧ x.pk_value = p then HashStorage.StoreHash now H t p h
      else x :: HashStorage.StoreHash now H t p h := by
  unfold HashStorage.StoreHash
  by_cases hx : x.table_name = t ∧ x.pk_value = p
  · simp [hx, List.filter_cons]
  · rw [if_neg hx]
    have : (!(x.table_name == t && x.pk_value == p)) = true := by
      by_cases h1 : x.table_name = t <;> by_cases h2 : x.pk_value = p <;> simp [h1, h2]
      exact hx ⟨h1, h2⟩
    rw [List.filter_cons, this]
    simp

/-- After `StoreHash` the written key reads as the written hash and every other key as before. -/
theorem getHash_storeHash (now : String) (H : List HashRecord) (t p h t2 p2 : String) :
    HashStorage.GetHash (HashStorage.StoreHash now H t p h) t2 p2 =
      if t2 = t ∧ p2 = p then h else HashStorage.GetHash H t2 p2 := by
  induction H with
  | nil =>
    simp only [HashStorage.StoreHash, List.filter_nil, List.nil_append, getHash_cons, getHash_nil]
    by_cases hc : t2 = t ∧ p2 = p
    · rw [if_pos hc, if_pos ⟨hc.1.symm, hc.2.symm⟩]
    · rw [if_neg hc, if_neg (fun h => hc ⟨h.1.symm, h.2.symm⟩)]
  | cons x H ih =>
    rw [storeHash_cons, getHash_cons]
    by_cases hx : x.table_name = t ∧ x.pk_value = p
    · rw [if_pos hx, ih]
      by_cases hc : t2 = t ∧ p2 = p
      · rw [if_pos hc, if_pos hc]
      · rw [if_neg hc, if_neg hc, if_neg]
        rintro ⟨h1, h2⟩
        exact hc ⟨by rw [← h1, hx.1], by rw [← h2, hx.2]⟩
    · rw [if_neg hx, getHash_cons, ih]
      by_cases hc : t2 = t ∧ p2 = p
      · rw [if_pos hc, if_pos hc, if_neg]
        rintro ⟨h1, h2⟩
        exact hx ⟨by rw [h1, hc.1], by rw [h2, hc.2]⟩
      · rw [if_neg hc, if_neg hc]

/-- Reading the progress store, record by record. -/
theorem getLastSync_cons (u : Int) (x : SyncStateRow) (S : List SyncStateRow) (t : String) :
    SyncState.GetLastSync u (x :: S) t =
      if x.table_name = t then
        { lastSyncTime := x.last_sync_time.getD ""
          lastKeyValue := x.last_key_value.getD ""
          syncMethod := x.sync_method.getD "timestamp"
          rowCount := x.row_count.getD 0 }
      else SyncState.GetLastSync u S t := by
  unfold SyncState.GetLastSync
  rw [List.find?_cons]
  by_cases h : x.table_name = t
  · simp [h]
  · rw [if_neg h]
    have : (x.table_name == t) = false := by simpa using h
    rw [this]

/-- Writing to the progress store, record by record. -/
theorem updateSyncState_cons (now : String) (x : SyncStateRow) (S : List SyncStateRow)
    (t k m : String) (n : Int) :
    SyncState.UpdateSyncState now (x :: S) t k m n =
      if x.table_name = t then SyncState.UpdateSyncState now S t k m n
      else x :: SyncState.UpdateSyncState now S t k m n := by
  unfold SyncState.UpdateSyncState
  by_cases hx : x.table_name = t
  · simp [hx, List.filter_cons]
  · rw [if_neg hx]
    have : (!(x.table_name == t)) = true := by simpa using hx
    rw [List.filter_cons, this]
    simp

/-- After `UpdateSyncState` the record of the table reads as written. -/
theorem getLastSync_update (u : Int) (now : String) (S : List SyncStateRow)
    (t k m : String) (n : Int) :
    SyncState.GetLastSync u (SyncState.UpdateSyncState now S t k m n) t =
      { lastSyncTime := now, lastKeyValue := k, syncMethod := m, rowCount := n } := by
  induction S with
  | nil =>
    simp [SyncState.UpdateSyncState, getLastSync_cons]
  | cons x S ih =>
    rw [updateSyncState_cons]
    by_cases hx : x.table_name = t
    · rw [if_pos hx, ih]
    · rw [if_neg hx, getLastSync_cons, if_neg hx, ih]

/-! ### Effect of the statements on the components of the world -/

@[simp]
theorem emit_db (w : World) (c : Cmd) : (w.emit c).db = w.db := rfl
@[simp]
theorem emit_snapshot (w : World) (c : Cmd) : (w.emit c).snapshot = w.snapshot := rfl
@[simp]
theorem emit_row_hashes (w : World) (c : Cmd) : (w.emit c).row_hashes = w.row_hashes := rfl
@[simp]
theorem emit_log (w : World) (c : Cmd) : (w.emit c).log = w.log ++ [c] := rfl
@[simp]
theorem query_db (w : World) (q : SourceQuery) : (w.query q).db = w.db := rfl
@[simp]
theorem query_snapshot (w : World) (q : SourceQuery) : (w.query q).snapshot = w.snapshot := rfl
@[simp]
theorem query_row_hashes (w : World) (q : SourceQuery) :
    (w.query q).row_hashes = w.row_hashes := rfl
@[simp]
theorem query_log (w : World) (q : SourceQuery) : (w.query q).log = w.log := rfl
@[simp]
theorem query_queries (w : World) (q : SourceQuery) :
    (w.query q).queries = w.queries ++ [q] := rfl
@[simp]
theorem setTable_tables_same (w : World) (t : String) (rows : List DRow) :
    (w.setTable t rows).db.tables t = rows := by simp [World.setTable]
theorem setTable_tables_other (w : World) (t t2 : String) (rows : List DRow) (h : t2 ≠ t) :
    (w.setTable t rows).db.tables t2 = w.db.tables t2 := by simp [World.setTable, h]
@[simp]
theorem setTable_sync_state (w : World) (t : String) (rows : List DRow) :
    (w.setTable t rows).db.sync_state = w.db.sync_state := rfl
@[simp]
theorem setTable_snapshot (w : World) (t : String) (rows : List DRow) :
    (w.setTable t rows).snapshot = w.snapshot := rfl
@[simp]
theorem setTable_row_hashes (w : World) (t : String) (rows : List DRow) :
    (w.setTable t rows).row_hashes = w.row_hashes := rfl
@[simp]
theorem setTable_log (w : World) (t : String) (rows : List DRow) :
    (w.setTable t rows).log = w.log := rfl
@[simp]
theorem begin_db (w : World) : (BeginTransaction w).db = w.db := rfl
@[simp]
theorem begin_row_hashes (w : World) : (BeginTransaction w).row_hashes = w.row_hashes := rfl
@[simp]
theorem begin_log (w : World) : (BeginTransaction w).log = w.log ++ [Cmd.begin] := rfl
@[simp]
theorem commit_db (w : World) : (CommitTransaction w).db = w.db := rfl
@[simp]
theorem commit_row_hashes (w : World) : (CommitTransaction w).row_hashes = w.row_hashes := rfl
@[simp]
theorem commit_snapshot (w : World) : (CommitTransaction w).snapshot = none := rfl
@[simp]
theorem commit_log (w : World) : (CommitTransaction w).log = w.log ++ [Cmd.commit] := rfl
@[simp]
theorem storeHash_db (w : World) (now t p h : String) : (w.storeHash now t p h).db = w.db := rfl
@[simp]
theorem storeHash_snapshot (w : World) (now t p h : String) :
    (w.storeHash now t p h).snapshot = w.snapshot := rfl
@[simp]
theorem storeHash_row_hashes (w : World) (now t p h : String) :
    (w.storeHash now t p h).row_hashes = HashStorage.StoreHash now w.row_hashes t p h := rfl
@[simp]
theorem updateSyncState_tables (w : World) (now t k m : String) (n : Int) :
    (w.updateSyncState now t k m n).db.tables = w.db.tables := rfl
@[simp]
theorem updateSyncState_row_hashes (w : World) (now t k m : String) (n : Int) :
    (w.updateSyncState now t k m n).row_hashes = w.row_hashes := rfl
@[simp]
theorem updateSyncState_snapshot (w : World) (now t k m : String) (n : Int) :
    (w.updateSyncState now t k m n).snapshot = w.snapshot := rfl

/-- An insert appends its row to the table when it succeeds. -/
theorem stepInsert_tables (ok : Bool) (w : World) (t : String) (r : DRow) :
    (StepInsert ok w t r).db.tables t = w.db.tables t ++ (if ok then [r] else []) := by
  cases ok <;> simp [StepInsert]
/-- An insert does not touch the other tables. -/
theorem stepInsert_tables_other (ok : Bool) (w : World) (t t2 : String) (r : DRow) (h : t2 ≠ t) :
    (StepInsert ok w t r).db.tables t2 = w.db.tables t2 := by
  cases ok <;> simp [StepInsert, setTable_tables_other, h]
@[simp]
theorem stepInsert_sync_state (ok : Bool) (w : World) (t : String) (r : DRow) :
    (StepInsert ok w t r).db.sync_state = w.db.sync_state := by
  cases ok <;> simp [StepInsert]
@[simp]
theorem stepInsert_row_hashes (ok : Bool) (w : World) (t : String) (r : DRow) :
    (StepInsert ok w t r).row_hashes = w.row_hashes := by
  cases ok <;> simp [StepInsert]
@[simp]
theorem stepInsert_snapshot (ok : Bool) (w : World) (t : String) (r : DRow) :
    (StepInsert ok w t r).snapshot = w.snapshot := by
  cases ok <;> simp [StepInsert]

/-- One iteration of the full row loop changes the database as its insert does. -/
theorem fullRow_db (ts : TableSyncer) (d : Driver) (ti : TableInfo) (pkIndex : Option Nat)
    (st : FullState) (cur : Row) :
    (fullRow ts d ti pkIndex st cur).w.db =
      (StepInsert (d.stepOk st.fetched) st.w ti.tableName (insertedRow ti.columns cur)).db := by
  unfold fullRow insertedRow
  cases pkIndex <;> dsimp only <;> split_ifs <;> simp

/-- One iteration of the full row loop counts the row when its insert succeeds. -/
theorem fullRow_rowsSynced (ts : TableSyncer) (d : Driver) (ti : TableInfo) (pkIndex : Option Nat)
    (st : FullState) (cur : Row) :
    (fullRow ts d ti pkIndex st cur).rowsSynced =
      st.rowsSynced + (if d.stepOk st.fetched then 1 else 0) := by
  unfold fullRow
  dsimp only
  split_ifs <;> simp

/-- One iteration of the full row loop advances the fetch position. -/
theorem fullRow_fetched (ts : TableSyncer) (d : Driver) (ti : TableInfo) (pkIndex : Option Nat)
    (st : FullState) (cur : Row) :
    (fullRow ts d ti pkIndex st cur).fetched = st.fetched + 1 := rfl

/-- One iteration of the full row loop remembers the key of the row fetched. -/
theorem fullRow_lastValue (ts : TableSyncer) (d : Driver) (ti : TableInfo) (pkIndex : Option Nat)
    (st : FullState) (cur : Row) :
    (fullRow ts d ti pkIndex st cur).lastValue =
      match pkIndex with
      | some k => (fetchRowData ti.columns cur).getD k ""
      | none => st.lastValue := rfl

/-- The full row loop appends to the table the rows whose insert succeeds. -/
theorem fullLoop_db_tables (ts : TableSyncer) (d : Driver) (ti : TableInfo)
    (pkIndex : Option Nat) : ∀ (rows : List Row) (st : FullState),
    (rows.foldl (fullRow ts d ti pkIndex) st).w.db.tables ti.tableName =
      st.w.db.tables ti.tableName ++ insertedFrom d.stepOk ti.columns st.fetched rows := by
  intro rows
  induction rows with
  | nil => intro st; simp [insertedFrom]
  | cons cur rest ih =>
    intro st
    rw [List.foldl_cons, ih, fullRow_db, stepInsert_tables, fullRow_fetched]
    simp [insertedFrom]

/-- The full row loop counts the rows whose insert succeeds. -/
theorem fullLoop_rowsSynced (ts : TableSyncer) (d : Driver) (ti : TableInfo)
    (pkIndex : Option Nat) : ∀ (rows : List Row) (st : FullState),
    (rows.foldl (fullRow ts d ti pkIndex) st).rowsSynced =
      st.rowsSynced + (insertedFrom d.stepOk ti.columns st.fetched rows).length := by
  intro rows
  induction rows with
  | nil => intro st; simp [insertedFrom]
  | cons cur rest ih =>
    intro st
    rw [List.foldl_cons, ih, fullRow_rowsSynced, fullRow_fetched]
    simp only [insertedFrom, List.length_append]
    split_ifs
    · simp; omega
    · simp

/-- The full row loop does not touch the progress store. -/
theorem fullLoop_sync_state (ts : TableSyncer) (d : Driver) (ti : TableInfo)
    (pkIndex : Option Nat) : ∀ (rows : List Row) (st : FullState),
    (rows.foldl (fullRow ts d ti pkIndex) st).w.db.sync_state = st.w.db.sync_state := by
  intro rows
  induction rows with
  | nil => intro st; rfl
  | cons cur rest ih =>
    intro st
    rw [List.foldl_cons, ih, fullRow_db, stepInsert_sync_state]

/-- The full row loop does not touch the other tables. -/
theorem fullLoop_tables_other (ts : TableSyncer) (d : Driver) (ti : TableInfo)
    (pkIndex : Option Nat) (t2 : String) (h : t2 ≠ ti.tableName) :
    ∀ (rows : List Row) (st : FullState),
    (rows.foldl (fullRow ts d ti pkIndex) st).w.db.tables t2 = st.w.db.tables t2 := by
  intro rows
  induction rows with
  | nil => intro st; rfl
  | cons cur rest ih =>
    intro st
    rw [List.foldl_cons, ih, fullRow_db, stepInsert_tables_other _ _ _ _ _ h]

/-- The full row loop remembers the key of the last row fetched. -/
theorem fullLoop_lastValue (ts : TableSyncer) (d : Driver) (ti : TableInfo)
    (pkIndex : Option Nat) : ∀ (rows : List Row) (st : FullState),
    (rows.foldl (fullRow ts d ti pkIndex) st).lastValue =
      match pkIndex, rows.getLast? with
      | some k, some cur => (fetchRowData ti.columns cur).getD k ""
      | _, _ => st.lastValue := by
  intro rows
  induction rows with
  | nil => intro st; cases pkIndex <;> rfl
  | cons cur rest ih =>
    intro st
    rw [List.foldl_cons, ih, fullRow_lastValue]
    cases pkIndex with
    | none => rfl
    | some k =>
      cases rest with
      | nil => rfl
      | cons c2 r2 =>
        rw [List.getLast?_cons_cons]
        have hx : (c2 :: r2).getLast? = some ((c2 :: r2).getLast (by simp)) :=
          List.getLast?_eq_getLast _ _
        rw [hx]

/-- When every insert succeeds, every fetched row is stored. -/
theorem insertedFrom_all (stepOk : Nat → Bool) (columns : List String) :
    ∀ (rows : List Row) (i : Nat), (∀ j, j < rows.length → stepOk (i + j) = true) →
      insertedFrom stepOk columns i rows = rows.map (insertedRow columns) := by
  intro rows
  induction rows with
  | nil => intro i _; rfl
  | cons cur rest ih =>
    intro i h
    have h0 := h 0 (by simp)
    simp only [Nat.add_zero] at h0
    simp only [insertedFrom, h0, if_true, List.map_cons, List.singleton_append]
    rw [ih (i + 1)]
    intro j hj
    have := h (j + 1) (by simpa using hj)
    rwa [show i + 1 + j = i + (j + 1) by omega]

/-- A cursor row with one value per column is read as it is. -/
theorem fetchRowData_eq (columns : List String) (cur : Row) (h : cur.length = columns.length) :
    fetchRowData columns cur = cur := by
  unfold fetchRowData
  apply List.ext_getElem
  · simp [h]
  · intro i h1 h2
    simp [OdbcHelper.GetColumnData, List.getD_eq_getElem, h2]

/-- A row read from the cursor has one value per column. -/
theorem fetchRowData_length (columns : List String) (cur : Row) :
    (fetchRowData columns cur).length = columns.length := by
  simp [fetchRowData]

/-! ### The full strategy -/

/-- A successful `DELETE FROM t` empties the table. -/
theorem executeDeleteAll_true_tables (w : World) (t : String) :
    (ExecuteDeleteAll true w t).db.tables t = [] := by
  simp [ExecuteDeleteAll]

/-- The statement `DELETE FROM t` does not touch the progress store. -/
theorem executeDeleteAll_sync_state (ok : Bool) (w : World) (t : String) :
    (ExecuteDeleteAll ok w t).db.sync_state = w.db.sync_state := by
  cases ok <;> simp [ExecuteDeleteAll]

/-- The run of `SyncFullTable` once the truncation, the source query and the
preparation of the insert have succeeded. -/
theorem syncFullTable_run (ts : TableSyncer) (d : Driver) (w : World) (ti : TableInfo)
    (rows : List Row) (hdel : d.deleteOk = true) (hcur : d.cursor = some rows)
    (hprep : d.prepareOk = true) :
    (SyncFullTable ts d w ti).1.db.tables ti.tableName =
      insertedFrom d.stepOk ti.columns 0 rows ∧
    (SyncFullTable ts d w ti).2 = (insertedFrom d.stepOk ti.columns 0 rows).length ∧
    (SyncFullTable ts d w ti).1.snapshot = none ∧
    (SyncFullTable ts d w ti).1.db.sync_state =
      (if ti.pkColumn ≠ "" ∧ fullLastValue ti rows ≠ "" then
        SyncState.UpdateSyncState d.now w.db.sync_state ti.tableName (fullLastValue ti rows)
          "key_based" ((insertedFrom d.stepOk ti.columns 0 rows).length : Nat)
      else
        SyncState.UpdateSyncState d.now w.db.sync_state ti.tableName ""
          "timestamp" ((insertedFrom d.stepOk ti.columns 0 rows).length : Nat)) ∧
    (SyncFullTable ts d w ti).1.log.getLast? =
      some (if ti.pkColumn ≠ "" ∧ fullLastValue ti rows ≠ "" then
        Cmd.updateSyncState ti.tableName (fullLastValue ti rows) "key_based"
          ((insertedFrom d.stepOk ti.columns 0 rows).length : Nat)
      else
        Cmd.updateSyncState ti.tableName "" "timestamp"
          ((insertedFrom d.stepOk ti.columns 0 rows).length : Nat)) := by
  have hl := fullLoop_lastValue ts d ti
    (if ti.pkColumn ≠ "" then findPkIndex ti.columns ti.pkColumn else none) rows
    { w := (BeginTransaction ((ExecuteDeleteAll d.deleteOk (w.query (rowCountQuery ti.tableName))
          ti.tableName).query (fullQuery ti))).emit
        (Cmd.prepareInsert ti.tableName d.prepareOk),
      rowsSynced := 0, lastValue := "", fetched := 0 }
  have hr := fullLoop_rowsSynced ts d ti
    (if ti.pkColumn ≠ "" then findPkIndex ti.columns ti.pkColumn else none) rows
    { w := (BeginTransaction ((ExecuteDeleteAll d.deleteOk (w.query (rowCountQuery ti.tableName))
          ti.tableName).query (fullQuery ti))).emit
        (Cmd.prepareInsert ti.tableName d.prepareOk),
      rowsSynced := 0, lastValue := "", fetched := 0 }
  have ht := fullLoop_db_tables ts d ti
    (if ti.pkColumn ≠ "" then findPkIndex ti.columns ti.pkColumn else none) rows
    { w := (BeginTransaction ((ExecuteDeleteAll d.deleteOk (w.query (rowCountQuery ti.tableName))
          ti.tableName).query (fullQuery ti))).emit
        (Cmd.prepareInsert ti.tableName d.prepareOk),
      rowsSynced := 0, lastValue := "", fetched := 0 }
  have hs := fullLoop_sync_state ts d ti
    (if ti.pkColumn ≠ "" then findPkIndex ti.columns ti.pkColumn else none) rows
    { w := (BeginTransaction ((ExecuteDeleteAll d.deleteOk (w.query (rowCountQuery ti.tableName))
          ti.tableName).query (fullQuery ti))).emit
        (Cmd.prepareInsert ti.tableName d.prepareOk),
      rowsSynced := 0, lastValue := "", fetched := 0 }
  have hlv : (match (if ti.pkColumn ≠ "" then findPkIndex ti.columns ti.pkColumn else none),
        rows.getLast? with
      | some k, some cur => (fetchRowData ti.columns cur).getD k ""
      | _, _ => "") = fullLastValue ti rows := rfl
  simp only [emit_db, begin_db, query_db, Nat.zero_add] at hl hr ht hs
  replace hl := hl.trans hlv
  rw [hdel] at ht hs
  rw [executeDeleteAll_true_tables, List.nil_append] at ht
  rw [executeDeleteAll_sync_state, query_db] at hs
  unfold SyncFullTable
  simp only [hdel, hcur, hprep, not_true_eq_false, if_false]
  simp only [hdel, hprep] at hl hr ht hs
  rw [hl, hr]
  by_cases hc : ti.pkColumn ≠ "" ∧ fullLastValue ti rows ≠ ""
  · rw [if_pos hc, if_pos hc, if_pos hc]
    refine ⟨ht, rfl, rfl, ?_, ?_⟩
    · dsimp only [World.updateSyncState, CommitTransaction]
      rw [hs]
    · simp [World.updateSyncState]
  · rw [if_neg hc, if_neg hc, if_neg hc]
    refine ⟨ht, rfl, rfl, ?_, ?_⟩
    · dsimp only [World.updateSyncState, CommitTransaction]
      rw [hs]
    · simp [World.updateSyncState]


/-- A bound value reads back as the text that was bound. -/
theorem textOf_bindParameter (v : String) : textOf (BindParameter v) = v := by
  unfold BindParameter textOf
  split_ifs with h
  · simp [h]
  · rfl

/-- A stored row reads back as the fetched row it was inserted for. -/
theorem rowText_insertedRow (columns : List String) (cur : Row) :
    rowText (insertedRow columns cur) = fetchRowData columns cur := by
  unfold rowText insertedRow
  have h : (List.map BindParameter (fetchRowData columns cur)).length ≤ columns.length := by
    simp [fetchRowData_length]
  have e : (columns.zip (List.map BindParameter (fetchRowData columns cur))).map
      (fun c => textOf c.2) =
      ((columns.zip (List.map BindParameter (fetchRowData columns cur))).map Prod.snd).map
        textOf := by
    simp
  rw [e, List.map_snd_zip _ _ h, List.map_map]
  conv_rhs => rw [← List.map_id (fetchRowData columns cur)]
  apply List.map_congr_left
  intro v _
  exact textOf_bindParameter v

/-- The number of stored rows is the number of successful inserts. -/
theorem insertedFrom_length (stepOk : Nat → Bool) (columns : List String) :
    ∀ (rows : List Row) (i : Nat),
      (insertedFrom stepOk columns i rows).length =
        ((List.range rows.length).filter (fun j => stepOk (i + j))).length := by
  intro rows
  induction rows with
  | nil => intro i; rfl
  | cons cur rest ih =>
    intro i
    simp only [insertedFrom, List.length_append, List.length_cons, List.range_succ_eq_map,
      List.filter_cons, Nat.add_zero, List.filter_map, List.length_map]
    rw [ih (i + 1)]
    have e : (fun j => stepOk (i + 1 + j)) = ((fun j => stepOk (i + j)) ∘ Nat.succ) := by
      funext j
      simp only [Function.comp, Nat.succ_eq_add_one]
      congr 1
      omega
    rw [e]
    cases stepOk i
    · simp
    · simp; omega


/-- Claim C5: after a `SyncFullTable` in which the destination `DELETE`, the
source query, the preparation of the insert and every row insert succeed, the
destination table holds, whatever it held before, exactly the source rows over
the column list, as a list in fetch order and hence as a multiset (a stored
NULL standing for the empty text), and the value returned is the number of
source rows. -/
theorem syncFullTable_replaces (ts : TableSyncer) (d : Driver) (w : World) (ti : TableInfo)
    (rows : List Row) (_hbatch : 0 < ts.batchSize)
    (hdel : d.deleteOk = true) (hcur : d.cursor = some rows) (hprep : d.prepareOk = true)
    (hstep : ∀ i, i < rows.length → d.stepOk i = true) :
    (SyncFullTable ts d w ti).1.db.tables ti.tableName = rows.map (insertedRow ti.columns) ∧
    ((SyncFullTable ts d w ti).1.db.tables ti.tableName).map rowText =
      rows.map (fetchRowData ti.columns) ∧
    ((∀ cur ∈ rows, cur.length = ti.columns.length) →
      Multiset.ofList (((SyncFullTable ts d w ti).1.db.tables ti.tableName).map rowText) =
        Multiset.ofList rows) ∧
    (SyncFullTable ts d w ti).2 = rows.length ∧
    (SyncFullTable ts d w ti).1.snapshot = none := by
  have hrun := syncFullTable_run ts d w ti rows hdel hcur hprep
  have hall : insertedFrom d.stepOk ti.columns 0 rows = rows.map (insertedRow ti.columns) :=
    insertedFrom_all d.stepOk ti.columns rows 0 (by simpa using hstep)
  have htab : (SyncFullTable ts d w ti).1.db.tables ti.tableName =
      rows.map (insertedRow ti.columns) := by rw [hrun.1, hall]
  have htext : ((SyncFullTable ts d w ti).1.db.tables ti.tableName).map rowText =
      rows.map (fetchRowData ti.columns) := by
    rw [htab, List.map_map]
    apply List.map_congr_left
    intro cur _
    exact rowText_insertedRow ti.columns cur
  refine ⟨htab, htext, ?_, ?_, hrun.2.2.1⟩
  · intro hshape
    rw [htext]
    congr 1
    conv_rhs => rw [← List.map_id rows]
    apply List.map_congr_left
    intro cur hcur2
    exact fetchRowData_eq ti.columns cur (hshape cur hcur2)
  · rw [hrun.2.1, hall, List.length_map]

/-- Scenario 1 with a stale destination row: after the full sync the table
`orders` holds the two source rows and nothing else, and 2 is returned. -/
theorem syncFullTable_replaces_witness :
    0 < (Scenario.syncer false).batchSize ∧
    ((SyncFullTable (Scenario.syncer false) (Scenario.driver [["1", "10"], ["2", "20"]])
      (Scenario.world [[("id", some "9"), ("total", some "90")]])
      Scenario.orders).1.db.tables "orders").map rowText = [["1", "10"], ["2", "20"]] ∧
    (SyncFullTable (Scenario.syncer false) (Scenario.driver [["1", "10"], ["2", "20"]])
      (Scenario.world [[("id", some "9"), ("total", some "90")]]) Scenario.orders).2 = 2 :=
  ⟨by decide,
   ((syncFullTable_replaces (Scenario.syncer false)
      (Scenario.driver [["1", "10"], ["2", "20"]])
      (Scenario.world [[("id", some "9"), ("total", some "90")]]) Scenario.orders
      [["1", "10"], ["2", "20"]] (by decide) rfl rfl rfl (fun _ _ => rfl)).2.1).trans
      (by decide),
   (syncFullTable_replaces (Scenario.syncer false)
      (Scenario.driver [["1", "10"], ["2", "20"]])
      (Scenario.world [[("id", some "9"), ("total", some "90")]]) Scenario.orders
      [["1", "10"], ["2", "20"]] (by decide) rfl rfl rfl (fun _ _ => rfl)).2.2.2.1⟩

/-- Claim C10: after a `SyncFullTable` that reaches its end (truncation, source
query and preparation succeeded; single row inserts may fail), the value
returned is the number of rows whose insert succeeded, which is also the number
of rows in the destination table, and the progress record written for the
table is `(last value, "key_based", rows)` when the table info names a
primary-key column and the remembered last primary-key value is non-empty, and
`("", "timestamp", rows)` otherwise. -/
theorem syncFullTable_progress (ts : TableSyncer) (d : Driver) (w : World) (ti : TableInfo)
    (rows : List Row) (_hbatch : 0 < ts.batchSize)
    (hdel : d.deleteOk = true) (hcur : d.cursor = some rows) (hprep : d.prepareOk = true) :
    (SyncFullTable ts d w ti).2 =
      ((List.range rows.length).filter (fun i => d.stepOk i)).length ∧
    ((SyncFullTable ts d w ti).1.db.tables ti.tableName).length = (SyncFullTable ts d w ti).2 ∧
    (ti.pkColumn ≠ "" ∧ fullLastValue ti rows ≠ "" →
      (SyncFullTable ts d w ti).1.log.getLast? =
        some (Cmd.updateSyncState ti.tableName (fullLastValue ti rows) "key_based"
          (SyncFullTable ts d w ti).2) ∧
      SyncState.GetLastSync d.uninit (SyncFullTable ts d w ti).1.db.sync_state ti.tableName =
        { lastSyncTime := d.now, lastKeyValue := fullLastValue ti rows,
          syncMethod := "key_based", rowCount := (SyncFullTable ts d w ti).2 }) ∧
    (¬ (ti.pkColumn ≠ "" ∧ fullLastValue ti rows ≠ "") →
      (SyncFullTable ts d w ti).1.log.getLast? =
        some (Cmd.updateSyncState ti.tableName "" "timestamp" (SyncFullTable ts d w ti).2) ∧
      SyncState.GetLastSync d.uninit (SyncFullTable ts d w ti).1.db.sync_state ti.tableName =
        { lastSyncTime := d.now, lastKeyValue := "",
          syncMethod := "timestamp", rowCount := (SyncFullTable ts d w ti).2 }) := by
  obtain ⟨h1, h2, _, h4, h5⟩ := syncFullTable_run ts d w ti rows hdel hcur hprep
  refine ⟨?_, ?_, ?_, ?_⟩
  · rw [h2, insertedFrom_length]
    simp
  · rw [h1, h2]
  · intro hc
    rw [h5, h4, if_pos hc, if_pos hc, h2, getLastSync_update]
    exact ⟨rfl, rfl⟩
  · intro hc
    rw [h5, h4, if_neg hc, if_neg hc, h2, getLastSync_update]
    exact ⟨rfl, rfl⟩

/-- Scenario 1: the full sync of `orders` with rows `(1, "10")`, `(2, "20")`
records `last_key_value = "2"`, `sync_method = "key_based"`, `row_count = 2`. -/
theorem syncFullTable_progress_witness :
    SyncState.GetLastSync 0
      (SyncFullTable (Scenario.syncer false) (Scenario.driver [["1", "10"], ["2", "20"]])
        (Scenario.world []) Scenario.orders).1.db.sync_state "orders" =
      { lastSyncTime := "2024-01-01 00:00:00", lastKeyValue := "2",
        syncMethod := "key_based", rowCount := 2 } :=
  (((syncFullTable_progress (Scenario.syncer false)
      (Scenario.driver [["1", "10"], ["2", "20"]]) (Scenario.world []) Scenario.orders
      [["1", "10"], ["2", "20"]] (by decide) rfl rfl rfl).2.2.1 (by decide)).2).trans
    (by decide)

/-! ### Hashes stored by the full strategy -/

/-- One iteration of the full row loop stores the hash of the row when its insert
succeeds, hashing is enabled and the key is not empty. -/
theorem fullRow_row_hashes (ts : TableSyncer) (d : Driver) (ti : TableInfo) (k : Nat)
    (st : FullState) (cur : Row) :
    (fullRow ts d ti (some k) st cur).w.row_hashes =
      if d.stepOk st.fetched = true ∧ ts.hashEnabled = true ∧ pkValueOf ti.columns k cur ≠ "" then
        HashStorage.StoreHash d.now st.w.row_hashes ti.tableName (pkValueOf ti.columns k cur)
          (rowHashOf ts ti.columns cur)
      else st.w.row_hashes := by
  unfold fullRow pkValueOf rowHashOf
  dsimp only
  split_ifs <;> simp_all

/-- Without a primary-key index the full row loop stores no hash. -/
theorem fullRow_row_hashes_none (ts : TableSyncer) (d : Driver) (ti : TableInfo)
    (st : FullState) (cur : Row) :
    (fullRow ts d ti none st cur).w.row_hashes = st.w.row_hashes := by
  unfold fullRow
  dsimp only
  split_ifs <;> simp

/-- Keys that no fetched row carries read after the row loop as before it. -/
theorem fullLoop_getHash_frame (ts : TableSyncer) (d : Driver) (ti : TableInfo) (k : Nat)
    (p : String) : ∀ (rows : List Row) (st : FullState),
    (∀ cur ∈ rows, pkValueOf ti.columns k cur ≠ p) →
    HashStorage.GetHash (rows.foldl (fullRow ts d ti (some k)) st).w.row_hashes ti.tableName p =
      HashStorage.GetHash st.w.row_hashes ti.tableName p := by
  intro rows
  induction rows with
  | nil => intro st _; rfl
  | cons c rest ih =>
    intro st h
    rw [List.foldl_cons, ih _ (fun cur hc => h cur (List.mem_cons_of_mem _ hc)),
      fullRow_row_hashes]
    split_ifs with hc
    · rw [getHash_storeHash, if_neg]
      rintro ⟨-, h2⟩
      exact h c (List.mem_cons_self _ _) h2.symm
    · rfl

/-- After the row loop of a full sync with hashing in which every insert
succeeds, each fetched row with a non-empty key, whose key belongs to no
different row, has its hash in the store. -/
theorem fullLoop_getHash (ts : TableSyncer) (d : Driver) (ti : TableInfo) (k : Nat)
    (hhash : ts.hashEnabled = true) : ∀ (rows : List Row) (st : FullState),
    (∀ j, j < rows.length → d.stepOk (st.fetched + j) = true) →
    ∀ cur ∈ rows, pkValueOf ti.columns k cur ≠ "" →
    (∀ c2 ∈ rows, pkValueOf ti.columns k c2 = pkValueOf ti.columns k cur →
      fetchRowData ti.columns c2 = fetchRowData ti.columns cur) →
    HashStorage.GetHash (rows.foldl (fullRow ts d ti (some k)) st).w.row_hashes ti.tableName
      (pkValueOf ti.columns k cur) = rowHashOf ts ti.columns cur := by
  intro rows
  induction rows with
  | nil => intro st _ cur hcur; simp at hcur
  | cons c rest ih =>
    intro st hok cur hcur hne huniq
    rw [List.foldl_cons]
    have hok2 : ∀ j, j < rest.length →
        d.stepOk ((fullRow ts d ti (some k) st c).fetched + j) = true := by
      intro j hj
      rw [fullRow_fetched, show st.fetched + 1 + j = st.fetched + (j + 1) by omega]
      exact hok (j + 1) (by simpa using hj)
    by_cases hex : ∃ c2 ∈ rest, pkValueOf ti.columns k c2 = pkValueOf ti.columns k cur
    · obtain ⟨c2, hc2, hpk⟩ := hex
      have hrow : fetchRowData ti.columns c2 = fetchRowData ti.columns cur :=
        huniq c2 (List.mem_cons_of_mem _ hc2) hpk
      have := ih (fullRow ts d ti (some k) st c) hok2 c2 hc2 (by rw [hpk]; exact hne)
        (fun c3 hc3 h3 => by
          rw [hrow]
          exact huniq c3 (List.mem_cons_of_mem _ hc3) (h3.trans hpk))
      rw [hpk] at this
      rw [this]
      unfold rowHashOf
      rw [hrow]
    · have hnot : ∀ c2 ∈ rest, pkValueOf ti.columns k c2 ≠ pkValueOf ti.columns k cur :=
        fun c2 hc2 h2 => hex ⟨c2, hc2, h2⟩
      have hcc : cur = c := by
        rcases List.mem_cons.mp hcur with h | h
        · exact h
        · exact absurd rfl (hnot cur h)
      subst hcc
      rw [fullLoop_getHash_frame ts d ti k _ rest _ hnot, fullRow_row_hashes]
      have h0 := hok 0 (by simp)
      simp only [Nat.add_zero] at h0
      rw [if_pos ⟨h0, hhash, hne⟩, getHash_storeHash, if_pos ⟨rfl, rfl⟩]


/-! ### The hash-based strategy on unchanged rows -/

/-- A batch of unchanged triples has no changed key. -/
theorem changedSpec_unchanged (get : String → String) (H : List HashRecord) (t k : String)
    (hget : get = HashStorage.GetHash H t) :
    ∀ (L : List (String × String × Row)), (∀ x ∈ L, Unchanged H t k x) →
      changedSpec get (L.map (fun x => x.1)) (L.map (fun x => x.2.1)) = [] := by
  intro L
  induction L with
  | nil => intro _; rfl
  | cons x L ih =>
    intro h
    have hx := h x (List.mem_cons_self _ _)
    have ih2 := ih (fun y hy => h y (List.mem_cons_of_mem _ hy))
    unfold changedSpec at ih2 ⊢
    simp only [List.map_cons, List.zip_cons_cons, List.filter_cons]
    have : decide (get x.1 = "" ∨ get x.1 ≠ x.2.1) = false := by
      rw [decide_eq_false_iff_not, hget, hx.2.1]
      intro h
      rcases h with h | h
      · exact hx.2.2 h
      · exact h rfl
    rw [this]
    exact ih2

/-- At a batch boundary in an idle state nothing is applied. -/
theorem hashBatch_idle (ts : TableSyncer) (d : Driver) (ti : TableInfo)
    (T : String → List DRow) (H : List HashRecord) (k : String) (c : Nat)
    (log0 X : List Cmd) (st : HashState) (h : HashIdle T H ti.tableName k c log0 X st) :
    hashBatch ts d ti st = (st.w, st.rowsSynced) := by
  obtain ⟨_, hH, _, _, L, ⟨hp, hh, _⟩, hL⟩ := h
  unfold hashBatch
  have hch : HashStorage.GetChangedRows st.w.row_hashes ti.tableName st.pkValues st.rowHashes =
      [] := by
    rw [getChangedRows_eq _ _ _ _ (by rw [hp, hh]; simp), hp, hh, hH]
    exact changedSpec_unchanged _ H ti.tableName k rfl L hL
  simp only [hch, ne_eq, not_true_eq_false, if_false]

/-- The batch boundary keeps an idle state idle. -/
theorem hashIdle_boundary (ts : TableSyncer) (d : Driver) (ti : TableInfo)
    (T : String → List DRow) (H : List HashRecord) (k : String) (c : Nat)
    (log0 X : List Cmd) (st1 : HashState) (h : HashIdle T H ti.tableName k c log0 X st1) :
    HashIdle T H ti.tableName k c log0 X
      (if st1.batchData.length ≥ ts.batchSize then
        { w := BeginTransaction (CommitTransaction (hashBatch ts d ti st1).1)
          rowsSynced := (hashBatch ts d ti st1).2
          pkValues := []
          rowHashes := []
          batchData := []
          batches := st1.batches + 1 }
      else st1) := by
  split_ifs with hb
  · rw [hashBatch_idle ts d ti T H k c log0 X st1 h]
    obtain ⟨hT, hH, hc, ⟨l, hl, hX⟩, _⟩ := h
    refine ⟨by simpa using hT, by simpa using hH, hc, ⟨l ++ [Cmd.commit, Cmd.begin], ?_, ?_⟩,
      [], ⟨rfl, rfl, rfl⟩, by simp⟩
    · simp [hl]
    · simp [hX, Cmd.isWrite]
  · exact h

/-- One iteration of the hash-based loop on an unchanged row keeps an idle state idle. -/
theorem hashRow_idle (ts : TableSyncer) (d : Driver) (ti : TableInfo) (kidx : Nat)
    (T : String → List DRow) (H : List HashRecord) (k : String) (c : Nat)
    (log0 X : List Cmd) (st : HashState) (cur : Row)
    (h : HashIdle T H ti.tableName k c log0 X st)
    (hcur : pkValueOf ti.columns kidx cur ≠ "" →
      Unchanged H ti.tableName k
        (pkValueOf ti.columns kidx cur, rowHashOf ts ti.columns cur,
          fetchRowData ti.columns cur)) :
    HashIdle T H ti.tableName k c log0 X (hashRow ts d ti kidx st cur) := by
  unfold hashRow
  apply hashIdle_boundary
  split_ifs with hpk
  · obtain ⟨hT, hH, hc, hlog, L, ⟨hp, hh, hb⟩, hL⟩ := h
    refine ⟨hT, hH, hc, hlog,
      L ++ [(pkValueOf ti.columns kidx cur, rowHashOf ts ti.columns cur,
        fetchRowData ti.columns cur)], ⟨?_, ?_, ?_⟩, ?_⟩
    · simp [hp, pkValueOf]
    · simp [hh, rowHashOf]
    · simp [hb]
    · intro x hx
      rcases List.mem_append.mp hx with hx | hx
      · exact hL x hx
      · simp only [List.mem_singleton] at hx
        rw [hx]
        exact hcur hpk
  · exact h

/-- The hash-based loop over unchanged rows keeps an idle state idle. -/
theorem hashLoop_idle (ts : TableSyncer) (d : Driver) (ti : TableInfo) (kidx : Nat)
    (T : String → List DRow) (H : List HashRecord) (k : String) (c : Nat)
    (log0 X : List Cmd) : ∀ (rows : List Row) (st : HashState),
    HashIdle T H ti.tableName k c log0 X st →
    (∀ cur ∈ rows, pkValueOf ti.columns kidx cur ≠ "" →
      Unchanged H ti.tableName k
        (pkValueOf ti.columns kidx cur, rowHashOf ts ti.columns cur,
          fetchRowData ti.columns cur)) →
    HashIdle T H ti.tableName k c log0 X (rows.foldl (hashRow ts d ti kidx) st) := by
  intro rows
  induction rows with
  | nil => intro st h _; exact h
  | cons cur rest ih =>
    intro st h hrows
    rw [List.foldl_cons]
    exact ih _ (hashRow_idle ts d ti kidx T H k c log0 X st cur h
      (hrows cur (List.mem_cons_self _ _)))
      (fun c2 hc2 => hrows c2 (List.mem_cons_of_mem _ hc2))

/-! ### Full sync followed by hash-based sync -/

/-- The hash store left by a `SyncFullTable` that reaches its end is the one
left by its row loop. -/
theorem syncFullTable_row_hashes (ts : TableSyncer) (d : Driver) (w : World) (ti : TableInfo)
    (rows : List Row) (hdel : d.deleteOk = true) (hcur : d.cursor = some rows)
    (hprep : d.prepareOk = true) :
    (SyncFullTable ts d w ti).1.row_hashes =
      (rows.foldl
        (fullRow ts d ti (if ti.pkColumn ≠ "" then findPkIndex ti.columns ti.pkColumn else none))
        { w := (BeginTransaction ((ExecuteDeleteAll true (w.query (rowCountQuery ti.tableName))
          ti.tableName).query (fullQuery ti))).emit
            (Cmd.prepareInsert ti.tableName true),
          rowsSynced := 0, lastValue := "", fetched := 0 }).w.row_hashes := by
  unfold SyncFullTable
  simp only [hdel, hcur, hprep, not_true_eq_false, if_false]
  split_ifs <;> rfl

/-- After a full sync with hashing in which every statement succeeds, every
source row with a non-empty key that identifies it has its hash in the store. -/
theorem syncFullTable_getHash (ts : TableSyncer) (d : Driver) (w : World) (ti : TableInfo)
    (rows : List Row) (k : Nat) (hhash : ts.hashEnabled = true) (hpk : ti.pkColumn ≠ "")
    (hk : findPkIndex ti.columns ti.pkColumn = some k)
    (hdel : d.deleteOk = true) (hcur : d.cursor = some rows) (hprep : d.prepareOk = true)
    (hstep : ∀ i, i < rows.length → d.stepOk i = true)
    (cur : Row) (hmem : cur ∈ rows) (hne : pkValueOf ti.columns k cur ≠ "")
    (huniq : ∀ c2 ∈ rows, pkValueOf ti.columns k c2 = pkValueOf ti.columns k cur →
      fetchRowData ti.columns c2 = fetchRowData ti.columns cur) :
    HashStorage.GetHash (SyncFullTable ts d w ti).1.row_hashes ti.tableName
      (pkValueOf ti.columns k cur) = rowHashOf ts ti.columns cur := by
  rw [syncFullTable_row_hashes ts d w ti rows hdel hcur hprep, if_pos hpk, hk]
  exact fullLoop_getHash ts d ti k hhash rows _ (by simpa using hstep) cur hmem hne huniq

/-- Claim C6: for a table with a primary-key column and hashing enabled, a
`SyncFullTable` in which every statement succeeds followed by a `SyncHashBased`
over the same, unchanged source rows (delivered in any order; rows with the same
non-empty key coincide, and the digest of a row is never empty) transfers
nothing: `SyncHashBased` returns 0, leaves every destination table and the
hash store as they were, and issues no delete, insert or hash write. -/
theorem fullThenHash_transfers_nothing (ts : TableSyncer) (d1 d2 : Driver) (w : World)
    (ti : TableInfo) (rows1 rows2 : List Row)
    (_hbatch : 0 < ts.batchSize) (hhash : ts.hashEnabled = true) (hpk : ti.pkColumn ≠ "")
    (hdel : d1.deleteOk = true) (hcur1 : d1.cursor = some rows1) (hprep : d1.prepareOk = true)
    (hstep : ∀ i, i < rows1.length → d1.stepOk i = true)
    (hcur2 : d2.cursor = some rows2)
    (hsame : ∀ cur ∈ rows2, ∃ c1 ∈ rows1,
      fetchRowData ti.columns c1 = fetchRowData ti.columns cur)
    (hkey : ∀ a ∈ rows1, ∀ b ∈ rows1, pkField ti a ≠ "" → pkField ti b = pkField ti a →
      fetchRowData ti.columns b = fetchRowData ti.columns a)
    (hsha : ∀ cur ∈ rows1, rowHashOf ts ti.columns cur ≠ "") :
    (SyncHashBased ts d2 (SyncFullTable ts d1 w ti).1 ti).2 = 0 ∧
    (SyncHashBased ts d2 (SyncFullTable ts d1 w ti).1 ti).1.db.tables =
      (SyncFullTable ts d1 w ti).1.db.tables ∧
    (SyncHashBased ts d2 (SyncFullTable ts d1 w ti).1 ti).1.row_hashes =
      (SyncFullTable ts d1 w ti).1.row_hashes ∧
    ∃ l, (SyncHashBased ts d2 (SyncFullTable ts d1 w ti).1 ti).1.log =
        (SyncFullTable ts d1 w ti).1.log ++ l ∧ l.filter Cmd.isWrite = [] := by
  generalize hw1 : (SyncFullTable ts d1 w ti).1 = w1
  unfold SyncHashBased
  have hcond : ¬ (ti.pkColumn = "" ∨ ts.hashEnabled = false) := by
    rw [hhash]
    simp [hpk]
  rw [if_neg hcond]
  simp only [hcur2]
  cases hk : findPkIndex ti.columns ti.pkColumn with
  | none => exact ⟨rfl, rfl, rfl, [], by simp, rfl⟩
  | some k =>
    have hpkf : ∀ c : Row, pkField ti c = pkValueOf ti.columns k c := by
      intro c
      unfold pkField
      rw [hk]
    have hrows : ∀ cur ∈ rows2, pkValueOf ti.columns k cur ≠ "" →
        Unchanged w1.row_hashes ti.tableName ""
          (pkValueOf ti.columns k cur, rowHashOf ts ti.columns cur,
            fetchRowData ti.columns cur) := by
      intro cur hcur hne
      obtain ⟨c1, hc1, he⟩ := hsame cur hcur
      have hp1 : pkValueOf ti.columns k c1 = pkValueOf ti.columns k cur := by
        unfold pkValueOf
        rw [he]
      have hh1 : rowHashOf ts ti.columns c1 = rowHashOf ts ti.columns cur := by
        unfold rowHashOf
        rw [he]
      have hg := syncFullTable_getHash ts d1 w ti rows1 k hhash hpk hk hdel hcur1 hprep hstep
        c1 hc1 (by rw [hp1]; exact hne)
        (fun c2 hc2 h2 => hkey c1 hc1 c2 hc2 (by rw [hpkf, hp1]; exact hne)
          (by rw [hpkf, hpkf]; exact h2))
      rw [hw1, hp1, hh1] at hg
      exact ⟨hne, hg, by rw [← hh1]; exact hsha c1 hc1⟩
    have h0 : HashIdle w1.db.tables w1.row_hashes ti.tableName "" 0 w1.log []
        { w := BeginTransaction (w1.query (hashQuery ti)), rowsSynced := 0, pkValues := [],
          rowHashes := [],
          batchData := [], batches := 0 } :=
      ⟨rfl, rfl, rfl, ⟨[Cmd.begin], rfl, rfl⟩, [], ⟨rfl, rfl, rfl⟩, by simp⟩
    have hfin := hashLoop_idle ts d2 ti k w1.db.tables w1.row_hashes "" 0 w1.log [] rows2 _ h0
      hrows
    have hflush := hashBatch_idle ts d2 ti _ _ _ _ _ _ _ hfin
    obtain ⟨hT, hH, hc, ⟨l, hl, hX⟩, _⟩ := hfin
    dsimp only
    rw [hflush]
    simp only [ite_self]
    refine ⟨hc, ?_, ?_, ?_⟩
    · simpa using hT
    · simpa using hH
    · simp only [World.updateSyncState, commit_log, hl, List.append_assoc]
      exact ⟨_, rfl, by simp [hX, Cmd.isWrite]⟩

/-- Scenario 1 with hashing, run again with the source unchanged: the
hash-based sync returns 0 and leaves the table `orders` as the full sync filled
it. -/
theorem fullThenHash_transfers_nothing_witness :
    (SyncHashBased (Scenario.syncer true) (Scenario.driver [["1", "10"], ["2", "20"]])
      (SyncFullTable (Scenario.syncer true) (Scenario.driver [["1", "10"], ["2", "20"]])
        (Scenario.world []) Scenario.orders).1 Scenario.orders).2 = 0 ∧
    ((SyncHashBased (Scenario.syncer true) (Scenario.driver [["1", "10"], ["2", "20"]])
      (SyncFullTable (Scenario.syncer true) (Scenario.driver [["1", "10"], ["2", "20"]])
        (Scenario.world []) Scenario.orders).1 Scenario.orders).1.db.tables "orders").map
      rowText = [["1", "10"], ["2", "20"]] :=
  have h := fullThenHash_transfers_nothing (Scenario.syncer true)
    (Scenario.driver [["1", "10"], ["2", "20"]]) (Scenario.driver [["1", "10"], ["2", "20"]])
    (Scenario.world []) Scenario.orders [["1", "10"], ["2", "20"]] [["1", "10"], ["2", "20"]]
    (by decide) rfl (by decide) rfl rfl rfl (fun _ _ => rfl) rfl (by decide) (by decide)
    (by decide)
  ⟨h.1, by rw [h.2.1]; decide⟩

/-! ### Full sync followed by hash-based sync: one row modified -/

/-- A row with one value per parameter rebinds every parameter. -/
theorem bindRow_full : ∀ (bs : List Cell) (row : Row), row.length = bs.length →
    bindRow bs row = row.map BindParameter := by
  intro bs
  induction bs with
  | nil =>
    intro row h
    cases row with
    | nil => rfl
    | cons v vs => simp at h
  | cons b bs ih =>
    intro row h
    cases row with
    | nil => simp at h
    | cons v vs =>
      simp only [bindRow, List.map_cons]
      rw [ih vs (by simpa using h)]

/-- The tables after one table is replaced. -/
theorem setTable_tables (w : World) (t : String) (rows : List DRow) :
    (w.setTable t rows).db.tables = Function.update w.db.tables t rows := rfl

/-- A batch of one row applied by `ProcessHashBasedBatch` when every statement
succeeds. -/
theorem processHashBasedBatch_single (ts : TableSyncer) (now : String) (o : BatchOutcome)
    (w : World) (t : String) (cols : List String) (pkCol k : String) (row : Row)
    (hd : o.deleteOk = true) (hp : o.prepareOk = true) (hs : o.stepOk 0 = true)
    (hlen : row.length = cols.length) :
    (ProcessHashBasedBatch ts now o w t cols pkCol [k] [row]).db.tables =
      Function.update w.db.tables t
        ((w.db.tables t).filter (fun r => !(inList pkCol [BindParameter k] r)) ++
          [cols.zip (row.map BindParameter)]) ∧
    (ProcessHashBasedBatch ts now o w t cols pkCol [k] [row]).row_hashes =
      HashStorage.StoreHash now w.row_hashes t k (HashCalculator.CalculateRowHash ts.evp row) ∧
    (ProcessHashBasedBatch ts now o w t cols pkCol [k] [row]).log =
      w.log ++ [Cmd.deleteRows t pkCol [k] true, Cmd.prepareInsert t true,
        Cmd.insert t (cols.zip (row.map BindParameter)) true,
        Cmd.storeHash t k (HashCalculator.CalculateRowHash ts.evp row)] := by
  have hb : bindRow (cols.map (fun _ => (none : Cell))) row = row.map BindParameter :=
    bindRow_full _ row (by simp [hlen])
  unfold ProcessHashBasedBatch
  simp only [DeleteRows, hd, hp, hashBatchRows, hs, hb, List.getD_cons_zero, StepInsert]
  simp [World.storeHash, World.emit, World.setTable]


/-- No pending row is selected when no pending key is the changed key. -/
theorem selected_none (k : String) : ∀ (L : List (String × String × Row)),
    (∀ x ∈ L, x.1 ≠ k) →
    ((L.map (fun x => x.1)).zip (L.map (fun x => x.2.2))).filter
      (fun p => [k].contains p.1) = [] := by
  intro L
  induction L with
  | nil => intro _; rfl
  | cons x L ih =>
    intro h
    have hx := h x (List.mem_cons_self _ _)
    simp only [List.map_cons, List.zip_cons_cons, List.filter_cons]
    have : ([k].contains x.1) = false := by simpa using hx
    rw [this]
    exact ih (fun y hy => h y (List.mem_cons_of_mem _ hy))

/-- In a waiting state exactly the modified row is selected. -/
theorem selected_waiting (k hnew : String) (rnew : Row)
    (L1 L2 : List (String × String × Row))
    (h1 : ∀ x ∈ L1, x.1 ≠ k) (h2 : ∀ x ∈ L2, x.1 ≠ k) :
    (((L1 ++ (k, hnew, rnew) :: L2).map (fun x => x.1)).zip
      ((L1 ++ (k, hnew, rnew) :: L2).map (fun x => x.2.2))).filter
        (fun p => [k].contains p.1) = [(k, rnew)] := by
  rw [List.map_append, List.map_append, List.zip_append (by simp), List.filter_append,
    selected_none k L1 h1]
  simp only [List.map_cons, List.zip_cons_cons, List.filter_cons, List.nil_append]
  have : ([k].contains k) = true := by simp
  rw [selected_none k L2 h2]
  simp

/-- In a waiting state the changed keys are the key of the modified row. -/
theorem changedSpec_waiting (H : List HashRecord) (t k hnew : String) (rnew : Row)
    (L1 L2 : List (String × String × Row))
    (h1 : ∀ x ∈ L1, Unchanged H t k x) (h2 : ∀ x ∈ L2, Unchanged H t k x)
    (hchg : HashStorage.GetHash H t k = "" ∨ HashStorage.GetHash H t k ≠ hnew) :
    changedSpec (HashStorage.GetHash H t)
      ((L1 ++ (k, hnew, rnew) :: L2).map (fun x => x.1))
      ((L1 ++ (k, hnew, rnew) :: L2).map (fun x => x.2.1)) = [k] := by
  have e1 := changedSpec_unchanged (HashStorage.GetHash H t) H t k rfl L1 h1
  have e2 := changedSpec_unchanged (HashStorage.GetHash H t) H t k rfl L2 h2
  unfold changedSpec at e1 e2 ⊢
  rw [List.map_append, List.map_append, List.zip_append (by simp), List.filter_append,
    List.map_append, e1]
  simp only [List.map_cons, List.zip_cons_cons, List.filter_cons, List.nil_append]
  have : decide (HashStorage.GetHash H t k = "" ∨ HashStorage.GetHash H t k ≠ hnew) = true := by
    simpa using hchg
  rw [this]
  simp only [if_true, List.map_cons, e2]

/-- At a batch boundary in a waiting state the modified row alone is handed to
`ProcessHashBasedBatch`, and one row is counted. -/
theorem hashBatch_waiting (ts : TableSyncer) (d : Driver) (ti : TableInfo)
    (T : String → List DRow) (H : List HashRecord) (k hnew : String) (rnew : Row)
    (log0 : List Cmd) (st : HashState)
    (h : HashWaiting T H ti.tableName k hnew rnew log0 st)
    (hchg : HashStorage.GetHash H ti.tableName k = "" ∨
      HashStorage.GetHash H ti.tableName k ≠ hnew) :
    hashBatch ts d ti st =
      (ProcessHashBasedBatch ts d.now (d.batch st.batches) st.w ti.tableName ti.columns
        ti.pkColumn [k] [rnew], 1) := by
  obtain ⟨_, hH, hc, _, L1, L2, ⟨hp, hh, hb⟩, h1, h2⟩ := h
  unfold hashBatch
  have hch : HashStorage.GetChangedRows st.w.row_hashes ti.tableName st.pkValues st.rowHashes =
      [k] := by
    rw [getChangedRows_eq _ _ _ _ (by rw [hp, hh]; simp), hp, hh, hH]
    exact changedSpec_waiting H ti.tableName k hnew rnew L1 L2 h1 h2 hchg
  have hsel : (st.pkValues.zip st.batchData).filter (fun p => [k].contains p.1) =
      [(k, rnew)] := by
    rw [hp, hb]
    exact selected_waiting k hnew rnew L1 L2 (fun x hx => (h1 x hx).1) (fun x hx => (h2 x hx).1)
  simp only [hch, hsel, hc]
  simp


/-- Storing the hash of key `k` keeps the triples with other keys unchanged. -/
theorem unchanged_store (now : String) (H : List HashRecord) (t k h : String)
    (x : String × String × Row) (hx : Unchanged H t k x) :
    Unchanged (HashStorage.StoreHash now H t k h) t k x := by
  refine ⟨hx.1, ?_, hx.2.2⟩
  rw [getHash_storeHash, if_neg (fun hc => hx.1 hc.2)]
  exact hx.2.1

/-- At a batch boundary a waiting state stays waiting, or the modified row is
applied: its key is deleted, the row inserted and its hash stored. -/
theorem hashWaiting_boundary (ts : TableSyncer) (d : Driver) (ti : TableInfo)
    (T : String → List DRow) (H : List HashRecord) (k : String) (rnew : Row)
    (log0 : List Cmd) (st1 : HashState)
    (h : HashWaiting T H ti.tableName k (HashCalculator.CalculateRowHash ts.evp rnew) rnew
      log0 st1)
    (hchg : HashStorage.GetHash H ti.tableName k = "" ∨
      HashStorage.GetHash H ti.tableName k ≠ HashCalculator.CalculateRowHash ts.evp rnew)
    (hok : ∀ i, (d.batch i).deleteOk = true ∧ (d.batch i).prepareOk = true ∧
      (d.batch i).stepOk 0 = true)
    (hlen : rnew.length = ti.columns.length) :
    HashWaiting T H ti.tableName k (HashCalculator.CalculateRowHash ts.evp rnew) rnew log0
      (if st1.batchData.length ≥ ts.batchSize then
        { w := BeginTransaction (CommitTransaction (hashBatch ts d ti st1).1)
          rowsSynced := (hashBatch ts d ti st1).2
          pkValues := []
          rowHashes := []
          batchData := []
          batches := st1.batches + 1 }
      else st1) ∨
    HashIdle
      (Function.update T ti.tableName
        ((T ti.tableName).filter (fun r => !(inList ti.pkColumn [BindParameter k] r)) ++
          [ti.columns.zip (rnew.map BindParameter)]))
      (HashStorage.StoreHash d.now H ti.tableName k
        (HashCalculator.CalculateRowHash ts.evp rnew))
      ti.tableName k 1 log0
      [Cmd.deleteRows ti.tableName ti.pkColumn [k] true,
        Cmd.insert ti.tableName (ti.columns.zip (rnew.map BindParameter)) true,
        Cmd.storeHash ti.tableName k (HashCalculator.CalculateRowHash ts.evp rnew)]
      (if st1.batchData.length ≥ ts.batchSize then
        { w := BeginTransaction (CommitTransaction (hashBatch ts d ti st1).1)
          rowsSynced := (hashBatch ts d ti st1).2
          pkValues := []
          rowHashes := []
          batchData := []
          batches := st1.batches + 1 }
      else st1) := by
  split_ifs with hb
  · right
    rw [hashBatch_waiting ts d ti T H k _ rnew log0 st1 h hchg]
    obtain ⟨hd, hp, hs⟩ := hok st1.batches
    obtain ⟨e1, e2, e3⟩ := processHashBasedBatch_single ts d.now (d.batch st1.batches) st1.w
      ti.tableName ti.columns ti.pkColumn k rnew hd hp hs hlen
    obtain ⟨hT, hH, _, ⟨l, hl, hX⟩, _⟩ := h
    refine ⟨?_, ?_, rfl, ⟨l ++ [Cmd.deleteRows ti.tableName ti.pkColumn [k] true,
        Cmd.prepareInsert ti.tableName true,
        Cmd.insert ti.tableName (ti.columns.zip (rnew.map BindParameter)) true,
        Cmd.storeHash ti.tableName k (HashCalculator.CalculateRowHash ts.evp rnew),
        Cmd.commit, Cmd.begin], ?_, ?_⟩, [], ⟨rfl, rfl, rfl⟩, by simp⟩
    · simp only [begin_db, commit_db]
      rw [e1, hT]
    · simp only [begin_row_hashes, commit_row_hashes]
      rw [e2, hH]
    · simp only [begin_log, commit_log]
      rw [e3, hl]
      simp
    · simp [hX, Cmd.isWrite]
  · left
    exact h


/-- One iteration of the hash-based loop on an unchanged row keeps a waiting state
waiting or applies the modified row. -/
theorem hashRow_waiting (ts : TableSyncer) (d : Driver) (ti : TableInfo) (kidx : Nat)
    (T : String → List DRow) (H : List HashRecord) (k : String) (rnew : Row)
    (log0 : List Cmd) (st : HashState) (cur : Row)
    (h : HashWaiting T H ti.tableName k (HashCalculator.CalculateRowHash ts.evp rnew) rnew
      log0 st)
    (hchg : HashStorage.GetHash H ti.tableName k = "" ∨
      HashStorage.GetHash H ti.tableName k ≠ HashCalculator.CalculateRowHash ts.evp rnew)
    (hok : ∀ i, (d.batch i).deleteOk = true ∧ (d.batch i).prepareOk = true ∧
      (d.batch i).stepOk 0 = true)
    (hlen : rnew.length = ti.columns.length)
    (hcur : pkValueOf ti.columns kidx cur ≠ "" →
      Unchanged H ti.tableName k
        (pkValueOf ti.columns kidx cur, rowHashOf ts ti.columns cur,
          fetchRowData ti.columns cur)) :
    HashWaiting T H ti.tableName k (HashCalculator.CalculateRowHash ts.evp rnew) rnew log0
      (hashRow ts d ti kidx st cur) ∨
    HashApplied ts d.now ti T H k rnew log0 (hashRow ts d ti kidx st cur) := by
  unfold hashRow HashApplied
  apply hashWaiting_boundary ts d ti T H k rnew log0 _ _ hchg hok hlen
  split_ifs with hpk
  · obtain ⟨hT, hH, hc, hlog, L1, L2, ⟨hp, hh, hb⟩, h1, h2⟩ := h
    refine ⟨hT, hH, hc, hlog, L1,
      L2 ++ [(pkValueOf ti.columns kidx cur, rowHashOf ts ti.columns cur,
        fetchRowData ti.columns cur)], ⟨?_, ?_, ?_⟩, h1, ?_⟩
    · simp [hp, pkValueOf]
    · simp [hh, rowHashOf]
    · simp [hb]
    · intro x hx
      rcases List.mem_append.mp hx with hx | hx
      · exact h2 x hx
      · simp only [List.mem_singleton] at hx
        rw [hx]
        exact hcur hpk
  · exact h

/-- The iteration of the hash-based loop on the modified row makes an idle state
waiting or applies the row at once. -/
theorem hashRow_modified (ts : TableSyncer) (d : Driver) (ti : TableInfo) (kidx : Nat)
    (T : String → List DRow) (H : List HashRecord) (log0 : List Cmd) (st : HashState)
    (new : Row)
    (h : HashIdle T H ti.tableName (pkValueOf ti.columns kidx new) 0 log0 [] st)
    (hne : pkValueOf ti.columns kidx new ≠ "")
    (hchg : HashStorage.GetHash H ti.tableName (pkValueOf ti.columns kidx new) = "" ∨
      HashStorage.GetHash H ti.tableName (pkValueOf ti.columns kidx new) ≠
        rowHashOf ts ti.columns new)
    (hok : ∀ i, (d.batch i).deleteOk = true ∧ (d.batch i).prepareOk = true ∧
      (d.batch i).stepOk 0 = true) :
    HashWaiting T H ti.tableName (pkValueOf ti.columns kidx new)
      (rowHashOf ts ti.columns new) (fetchRowData ti.columns new) log0
      (hashRow ts d ti kidx st new) ∨
    HashApplied ts d.now ti T H (pkValueOf ti.columns kidx new) (fetchRowData ti.columns new)
      log0 (hashRow ts d ti kidx st new) := by
  unfold hashRow HashApplied
  apply hashWaiting_boundary ts d ti T H _ (fetchRowData ti.columns new) log0 _ _ hchg hok
    (fetchRowData_length _ _)
  have hpk : (fetchRowData ti.columns new).getD kidx "" ≠ "" := hne
  rw [if_pos hpk]
  obtain ⟨hT, hH, hc, hlog, L, ⟨hp, hh, hb⟩, hL⟩ := h
  refine ⟨hT, hH, hc, hlog, L, [], ⟨?_, ?_, ?_⟩, hL, by simp⟩
  · simp [hp, pkValueOf]
  · simp [hh, rowHashOf]
  · simp [hb]

/-- The hash-based loop over unchanged rows leaves a waiting or applied state waiting
or applied. -/
theorem hashLoop_waiting (ts : TableSyncer) (d : Driver) (ti : TableInfo) (kidx : Nat)
    (T : String → List DRow) (H : List HashRecord) (k : String) (rnew : Row)
    (log0 : List Cmd)
    (hchg : HashStorage.GetHash H ti.tableName k = "" ∨
      HashStorage.GetHash H ti.tableName k ≠ HashCalculator.CalculateRowHash ts.evp rnew)
    (hok : ∀ i, (d.batch i).deleteOk = true ∧ (d.batch i).prepareOk = true ∧
      (d.batch i).stepOk 0 = true)
    (hlen : rnew.length = ti.columns.length) :
    ∀ (rows : List Row) (st : HashState),
    (HashWaiting T H ti.tableName k (HashCalculator.CalculateRowHash ts.evp rnew) rnew log0 st ∨
      HashApplied ts d.now ti T H k rnew log0 st) →
    (∀ cur ∈ rows, pkValueOf ti.columns kidx cur ≠ "" →
      Unchanged H ti.tableName k
        (pkValueOf ti.columns kidx cur, rowHashOf ts ti.columns cur,
          fetchRowData ti.columns cur)) →
    HashWaiting T H ti.tableName k (HashCalculator.CalculateRowHash ts.evp rnew) rnew log0
      (rows.foldl (hashRow ts d ti kidx) st) ∨
    HashApplied ts d.now ti T H k rnew log0 (rows.foldl (hashRow ts d ti kidx) st) := by
  intro rows
  induction rows with
  | nil => intro st h _; exact h
  | cons cur rest ih =>
    intro st h hrows
    rw [List.foldl_cons]
    apply ih _ _ (fun c2 hc2 => hrows c2 (List.mem_cons_of_mem _ hc2))
    rcases h with h | h
    · exact hashRow_waiting ts d ti kidx T H k rnew log0 st cur h hchg hok hlen
        (hrows cur (List.mem_cons_self _ _))
    · right
      exact hashRow_idle ts d ti kidx _ _ k 1 log0 _ st cur h
        (fun hpk => unchanged_store _ _ _ _ _ _ (hrows cur (List.mem_cons_self _ _) hpk))


/-- The key of a fetched row when the primary-key column has index `k`. -/
theorem pkField_eq (ti : TableInfo) (k : Nat) (hk : findPkIndex ti.columns ti.pkColumn = some k)
    (c : Row) : pkField ti c = pkValueOf ti.columns k c := by
  unfold pkField
  rw [hk]

/-- A fetched row has a non-empty key only if the primary-key column is among the
columns. -/
theorem pkField_ne_empty (ti : TableInfo) (c : Row) (h : pkField ti c ≠ "") :
    ∃ k, findPkIndex ti.columns ti.pkColumn = some k := by
  cases hk : findPkIndex ti.columns ti.pkColumn with
  | none =>
    exfalso
    apply h
    unfold pkField
    rw [hk]
  | some k => exact ⟨k, rfl⟩

/-- Amended claim C7: for a table with a primary-key column and hashing enabled,
after a `SyncFullTable` in which every statement succeeds, if exactly one source
row, whose primary-key value is not empty, is modified in place (same key,
another content and hence another row hash) and `SyncHashBased` is run with
every statement succeeding, then `SyncHashBased` returns 1, deletes the rows
with that key from the destination table and inserts the modified row, and
stores the hash of the modified row under that key, every other hash entry
being left alone. -/
theorem fullThenHash_one_modified (ts : TableSyncer) (d1 d2 : Driver) (w : World)
    (ti : TableInfo) (rows1 a b : List Row) (old new : Row)
    (_hbatch : 0 < ts.batchSize) (hhash : ts.hashEnabled = true) (hpk : ti.pkColumn ≠ "")
    (hdel : d1.deleteOk = true) (hcur1 : d1.cursor = some rows1) (hprep : d1.prepareOk = true)
    (hstep : ∀ i, i < rows1.length → d1.stepOk i = true)
    (hcur2 : d2.cursor = some (a ++ new :: b))
    (hok2 : ∀ i, (d2.batch i).deleteOk = true ∧ (d2.batch i).prepareOk = true ∧
      (d2.batch i).stepOk 0 = true)
    (hold : old ∈ rows1) (hsamekey : pkField ti new = pkField ti old)
    (hne : pkField ti new ≠ "")
    (hdiff : rowHashOf ts ti.columns new ≠ rowHashOf ts ti.columns old)
    (hrest : ∀ cur ∈ a ++ b, pkField ti cur ≠ pkField ti new ∧
      ∃ c1 ∈ rows1, fetchRowData ti.columns c1 = fetchRowData ti.columns cur)
    (hkey : ∀ x ∈ rows1, ∀ y ∈ rows1, pkField ti x ≠ "" → pkField ti y = pkField ti x →
      fetchRowData ti.columns y = fetchRowData ti.columns x)
    (hsha : ∀ cur ∈ rows1, rowHashOf ts ti.columns cur ≠ "") :
    (SyncHashBased ts d2 (SyncFullTable ts d1 w ti).1 ti).2 = 1 ∧
    (SyncHashBased ts d2 (SyncFullTable ts d1 w ti).1 ti).1.db.tables =
      Function.update (SyncFullTable ts d1 w ti).1.db.tables ti.tableName
        (((SyncFullTable ts d1 w ti).1.db.tables ti.tableName).filter
            (fun r => !(inList ti.pkColumn [BindParameter (pkField ti new)] r)) ++
          [insertedRow ti.columns new]) ∧
    (SyncHashBased ts d2 (SyncFullTable ts d1 w ti).1 ti).1.row_hashes =
      HashStorage.StoreHash d2.now (SyncFullTable ts d1 w ti).1.row_hashes ti.tableName
        (pkField ti new) (rowHashOf ts ti.columns new) ∧
    ∃ l, (SyncHashBased ts d2 (SyncFullTable ts d1 w ti).1 ti).1.log =
        (SyncFullTable ts d1 w ti).1.log ++ l ∧
      l.filter Cmd.isWrite =
        [Cmd.deleteRows ti.tableName ti.pkColumn [pkField ti new] true,
          Cmd.insert ti.tableName (insertedRow ti.columns new) true,
          Cmd.storeHash ti.tableName (pkField ti new) (rowHashOf ts ti.columns new)] := by
  obtain ⟨k, hk⟩ := pkField_ne_empty ti new hne
  have hpkf := pkField_eq ti k hk
  -- what the full sync left in the hash store
  have hstored : ∀ c1 ∈ rows1, pkValueOf ti.columns k c1 ≠ "" →
      HashStorage.GetHash (SyncFullTable ts d1 w ti).1.row_hashes ti.tableName
        (pkValueOf ti.columns k c1) = rowHashOf ts ti.columns c1 := by
    intro c1 hc1 hne1
    exact syncFullTable_getHash ts d1 w ti rows1 k hhash hpk hk hdel hcur1 hprep hstep c1 hc1
      hne1 (fun c2 hc2 h2 => hkey c1 hc1 c2 hc2 (by rw [hpkf]; exact hne1)
        (by rw [hpkf, hpkf]; exact h2))
  generalize hw1 : (SyncFullTable ts d1 w ti).1 = w1 at hstored ⊢
  rw [hpkf new] at hne hsamekey ⊢
  rw [hpkf old] at hsamekey
  have hchg : HashStorage.GetHash w1.row_hashes ti.tableName (pkValueOf ti.columns k new) = "" ∨
      HashStorage.GetHash w1.row_hashes ti.tableName (pkValueOf ti.columns k new) ≠
        rowHashOf ts ti.columns new := by
    right
    rw [hsamekey, hstored old hold (by rw [← hsamekey]; exact hne)]
    exact fun h => hdiff h.symm
  have hrows : ∀ cur ∈ a ++ b, pkValueOf ti.columns k cur ≠ "" →
      Unchanged w1.row_hashes ti.tableName (pkValueOf ti.columns k new)
        (pkValueOf ti.columns k cur, rowHashOf ts ti.columns cur,
          fetchRowData ti.columns cur) := by
    intro cur hcur hne1
    obtain ⟨hother, c1, hc1, he⟩ := hrest cur hcur
    rw [hpkf, hpkf] at hother
    have hp1 : pkValueOf ti.columns k c1 = pkValueOf ti.columns k cur := by
      unfold pkValueOf
      rw [he]
    have hh1 : rowHashOf ts ti.columns c1 = rowHashOf ts ti.columns cur := by
      unfold rowHashOf
      rw [he]
    have hg := hstored c1 hc1 (by rw [hp1]; exact hne1)
    rw [hp1, hh1] at hg
    exact ⟨hother, hg, by rw [← hh1]; exact hsha c1 hc1⟩
  have h0 : HashIdle w1.db.tables w1.row_hashes ti.tableName (pkValueOf ti.columns k new) 0
      w1.log []
      { w := BeginTransaction (w1.query (hashQuery ti)), rowsSynced := 0, pkValues := [],
          rowHashes := [],
        batchData := [], batches := 0 } :=
    ⟨rfl, rfl, rfl, ⟨[Cmd.begin], rfl, rfl⟩, [], ⟨rfl, rfl, rfl⟩, by simp⟩
  have hA := hashLoop_idle ts d2 ti k w1.db.tables w1.row_hashes _ 0 w1.log [] a _ h0
    (fun cur hc => hrows cur (List.mem_append_left _ hc))
  have hN := hashRow_modified ts d2 ti k w1.db.tables w1.row_hashes w1.log _ new hA hne hchg hok2
  have hB := hashLoop_waiting ts d2 ti k w1.db.tables w1.row_hashes
    (pkValueOf ti.columns k new) (fetchRowData ti.columns new) w1.log hchg hok2
    (fetchRowData_length _ _) b _ hN (fun cur hc => hrows cur (List.mem_append_right _ hc))
  unfold SyncHashBased
  have hcond : ¬ (ti.pkColumn = "" ∨ ts.hashEnabled = false) := by
    rw [hhash]
    simp [hpk]
  rw [if_neg hcond]
  simp only [hcur2, hk, List.foldl_append, List.foldl_cons]
  generalize List.foldl (hashRow ts d2 ti k)
    (hashRow ts d2 ti k
      (List.foldl (hashRow ts d2 ti k)
        { w := BeginTransaction (w1.query (hashQuery ti)), rowsSynced := 0, pkValues := [],
          rowHashes := [],
          batchData := [], batches := 0 } a) new) b = st at hB ⊢
  rcases hB with hW | hD
  · have hflush := hashBatch_waiting ts d2 ti _ _ _ _ _ _ st hW hchg
    obtain ⟨hd, hp, hs⟩ := hok2 st.batches
    obtain ⟨e1, e2, e3⟩ := processHashBasedBatch_single ts d2.now (d2.batch st.batches) st.w
      ti.tableName ti.columns ti.pkColumn (pkValueOf ti.columns k new)
      (fetchRowData ti.columns new) hd hp hs (fetchRowData_length _ _)
    obtain ⟨hT, hH, _, ⟨l, hl, hX⟩, L1, L2, ⟨_, _, hb⟩, _⟩ := hW
    have hnonempty : st.batchData ≠ [] := by
      rw [hb]
      simp
    rw [if_pos hnonempty, hflush]
    refine ⟨rfl, ?_, ?_, ?_⟩
    · simp only [updateSyncState_tables, commit_db]
      rw [e1, hT]
      rfl
    · simp only [updateSyncState_row_hashes, commit_row_hashes]
      rw [e2, hH]
      rfl
    · simp only [World.updateSyncState, commit_log, e3, hl, List.append_assoc]
      exact ⟨_, rfl, by simp [hX, Cmd.isWrite, insertedRow, rowHashOf]⟩
  · have hflush := hashBatch_idle ts d2 ti _ _ _ _ _ _ st hD
    obtain ⟨hT, hH, hc, ⟨l, hl, hX⟩, _⟩ := hD
    rw [hflush]
    simp only [ite_self]
    refine ⟨hc, ?_, ?_, ?_⟩
    · simp only [updateSyncState_tables, commit_db]
      rw [hT]
      rfl
    · simp only [updateSyncState_row_hashes, commit_row_hashes]
      rw [hH]
      rfl
    · simp only [World.updateSyncState, commit_log, hl, List.append_assoc]
      exact ⟨_, rfl, by simp [hX, Cmd.isWrite, insertedRow, rowHashOf]⟩

/-- Scenario 3: after the full sync of `orders`, the source row `(2, "20")`
becomes `(2, "25")`; the hash-based sync returns 1, the table then holds
`(1, "10")` and `(2, "25")`, and the hash stored for key `2` is that of the new
row. -/
theorem fullThenHash_one_modified_witness :
    (SyncHashBased (Scenario.syncer true) (Scenario.driver [["1", "10"], ["2", "25"]])
      (SyncFullTable (Scenario.syncer true) (Scenario.driver [["1", "10"], ["2", "20"]])
        (Scenario.world []) Scenario.orders).1 Scenario.orders).2 = 1 ∧
    ((SyncHashBased (Scenario.syncer true) (Scenario.driver [["1", "10"], ["2", "25"]])
      (SyncFullTable (Scenario.syncer true) (Scenario.driver [["1", "10"], ["2", "20"]])
        (Scenario.world []) Scenario.orders).1 Scenario.orders).1.db.tables "orders").map
      rowText = [["1", "10"], ["2", "25"]] ∧
    HashStorage.GetHash
      (SyncHashBased (Scenario.syncer true) (Scenario.driver [["1", "10"], ["2", "25"]])
        (SyncFullTable (Scenario.syncer true) (Scenario.driver [["1", "10"], ["2", "20"]])
          (Scenario.world []) Scenario.orders).1 Scenario.orders).1.row_hashes "orders" "2" =
      HashCalculator.CalculateRowHash Scenario.plainDigest ["2", "25"] :=
  have h := fullThenHash_one_modified (Scenario.syncer true)
    (Scenario.driver [["1", "10"], ["2", "20"]]) (Scenario.driver [["1", "10"], ["2", "25"]])
    (Scenario.world []) Scenario.orders [["1", "10"], ["2", "20"]] [["1", "10"]] []
    ["2", "20"] ["2", "25"]
    (by decide) rfl (by decide) rfl rfl rfl (fun _ _ => rfl) rfl (fun _ => ⟨rfl, rfl, rfl⟩)
    (by decide) (by decide) (by decide) (by decide) (by decide) (by decide) (by decide)
  ⟨h.1, by rw [h.2.1]; decide, by rw [h.2.2.1]; decide⟩

/-- The claim C7 fails for a row whose primary-key value is empty: after the
full sync of `orders` with rows `("", "10")` and `(2, "20")`, the first row
becomes `("", "25")` (same key, other content); the hash-based sync returns 0,
leaves the table as the full sync filled it and stores no hash. -/
theorem hashBased_skips_empty_key :
    (SyncHashBased (Scenario.syncer true) (Scenario.driver [["", "25"], ["2", "20"]])
      (SyncFullTable (Scenario.syncer true) (Scenario.driver [["", "10"], ["2", "20"]])
        (Scenario.world []) Scenario.orders).1 Scenario.orders).2 = 0 ∧
    ((SyncHashBased (Scenario.syncer true) (Scenario.driver [["", "25"], ["2", "20"]])
      (SyncFullTable (Scenario.syncer true) (Scenario.driver [["", "10"], ["2", "20"]])
        (Scenario.world []) Scenario.orders).1 Scenario.orders).1.db.tables "orders").map
      rowText = [["", "10"], ["2", "20"]] ∧
    (SyncHashBased (Scenario.syncer true) (Scenario.driver [["", "25"], ["2", "20"]])
      (SyncFullTable (Scenario.syncer true) (Scenario.driver [["", "10"], ["2", "20"]])
        (Scenario.world []) Scenario.orders).1 Scenario.orders).1.row_hashes =
    (SyncFullTable (Scenario.syncer true) (Scenario.driver [["", "10"], ["2", "20"]])
        (Scenario.world []) Scenario.orders).1.row_hashes := by
  decide

/-! ### The key-based strategy: rows it leaves alone -/

/-- Looking up the first column named `c` in a stored row. -/
theorem lookup_zip_of_findIdx (c : String) : ∀ (cols : List String) (cells : List Cell) (k : Nat),
    cols.length = cells.length → List.findIdx? (fun x => x == c) cols = some k →
    (cols.zip cells).lookup c = some (cells.getD k none) := by
  intro cols
  induction cols with
  | nil => intro cells k _ h; simp at h
  | cons x xs ih =>
    intro cells k hlen h
    cases cells with
    | nil => simp at hlen
    | cons y ys =>
      rw [List.findIdx?_cons] at h
      simp only [List.zip_cons_cons, List.lookup_cons]
      by_cases hx : x = c
      · subst hx
        simp only [beq_self_eq_true, if_true, Option.some.injEq] at h
        subst h
        simp
      · have hx2 : (x == c) = false := by simpa using hx
        have hx3 : (c == x) = false := by simpa using fun h => hx h.symm
        rw [hx2] at h
        simp only [Bool.false_eq_true, if_false] at h
        rw [List.findIdx?_succ] at h
        rw [hx3]
        cases hf : List.findIdx? (fun x => x == c) xs with
        | none => rw [hf] at h; simp at h
        | some j =>
          rw [hf] at h
          simp only [Option.map_some', Option.some.injEq] at h
          subst h
          simp only [List.getD_cons_succ]
          exact ih ys j (by simpa using hlen) hf

/-- The value of the primary-key column in a stored row. -/
theorem cellOf_zip (cols : List String) (pkCol : String) (cells : List Cell) (k : Nat)
    (hlen : cols.length = cells.length) (hk : findPkIndex cols pkCol = some k) :
    cellOf pkCol (cols.zip cells) = cells.getD k none := by
  unfold cellOf
  rw [lookup_zip_of_findIdx pkCol cols cells k hlen hk]
  rfl

/-- The index of the primary-key column is an index of the column list. -/
theorem findPkIndex_lt (cols : List String) (pkCol : String) (k : Nat)
    (hk : findPkIndex cols pkCol = some k) : k < cols.length := by
  unfold findPkIndex List.indexOf? at hk
  rw [List.findIdx?_eq_some_iff_findIdx_eq] at hk
  exact hk.1

/-- The key column of a row inserted with all its values bound holds the bound
key value. -/
theorem cellOf_bound (cols : List String) (pkCol : String) (row : Row) (k : Nat)
    (hlen : row.length = cols.length) (hk : findPkIndex cols pkCol = some k) :
    cellOf pkCol (cols.zip (row.map BindParameter)) = BindParameter (row.getD k "") := by
  rw [cellOf_zip cols pkCol _ k (by simp [hlen]) hk]
  have hlt : k < row.length := hlen ▸ findPkIndex_lt cols pkCol k hk
  simp [List.getD_eq_getElem, hlt]


/-- A stored row matched by the `DELETE` of a batch has one of the keys of the batch. -/
theorem inList_pkText (pkCol : String) (pkValues : List String) (r : DRow)
    (h : inList pkCol (pkValues.map BindParameter) r = true) :
    pkText pkCol r ∈ pkValues := by
  unfold inList at h
  unfold pkText
  cases hc : cellOf pkCol r with
  | none => rw [hc] at h; simp at h
  | some v =>
    rw [hc] at h
    have hm := List.mem_of_elem_eq_true h
    rw [List.mem_map] at hm
    obtain ⟨p, hp, hpv⟩ := hm
    unfold BindParameter at hpv
    split_ifs at hpv with he
    simp only [Option.some.injEq] at hpv
    subst hpv
    simpa [textOf] using hp

/-- The rows outside `keys` of two lists put together. -/
theorem rowsOutside_append (pkCol : String) (keys : List String) (a b : List DRow) :
    rowsOutside pkCol keys (a ++ b) = rowsOutside pkCol keys a ++ rowsOutside pkCol keys b := by
  simp [rowsOutside]

/-- A row with a key of `keys` is not outside `keys`. -/
theorem rowsOutside_singleton_in (pkCol : String) (keys : List String) (r : DRow)
    (h : pkText pkCol r ∈ keys) : rowsOutside pkCol keys [r] = [] := by
  simp [rowsOutside, h]

/-- The function `DeleteRows` leaves alone the rows with a key outside `keys`, when
the deleted keys are in `keys`. -/
theorem deleteRows_frame (ok : Bool) (w : World) (t pkCol : String) (pkValues keys : List String)
    (hsub : ∀ p ∈ pkValues, p ∈ keys) :
    rowsOutside pkCol keys ((DeleteRows ok w t pkCol pkValues).1.db.tables t) =
      rowsOutside pkCol keys (w.db.tables t) := by
  unfold DeleteRows
  split_ifs with h1 h2
  · rfl
  · simp only [emit_db, setTable_tables_same]
    unfold rowsOutside
    rw [List.filter_filter]
    apply List.filter_congr
    intro r _
    by_cases hin : inList pkCol (pkValues.map BindParameter) r = true
    · have := hsub _ (inList_pkText pkCol pkValues r hin)
      simp [this]
    · simp [hin]
  · rfl

/-- Inserting a row with a key of `keys` leaves alone the rows with a key outside
`keys`. -/
theorem stepInsert_frame (ok : Bool) (w : World) (t pkCol : String) (keys : List String)
    (r : DRow) (h : pkText pkCol r ∈ keys) :
    rowsOutside pkCol keys ((StepInsert ok w t r).db.tables t) =
      rowsOutside pkCol keys (w.db.tables t) := by
  rw [stepInsert_tables, rowsOutside_append]
  cases ok
  · simp [rowsOutside]
  · simp [rowsOutside_singleton_in pkCol keys r h]

/-- The binding loop keeps the number of parameters. -/
theorem bindRow_length : ∀ (bs : List Cell) (row : Row), (bindRow bs row).length = bs.length := by
  intro bs
  induction bs with
  | nil => intro row; rfl
  | cons b bs ih =>
    intro row
    cases row with
    | nil => rfl
    | cons v vs => simp [bindRow, ih]

/-- The insert loop of `ProcessKeyBasedBatch` leaves alone the rows with a key
outside `keys`. -/
theorem keyBatchRows_frame (ts : TableSyncer) (now : String) (o : BatchOutcome) (t : String)
    (cols : List String) (pkCol : String) (pkValues keys : List String) (k : Nat)
    (hk : findPkIndex cols pkCol = some k) :
    ∀ (rest : List Row) (rowIdx : Nat) (bindings : List Cell) (w : World),
    bindings.length = cols.length →
    (∀ row ∈ rest, row.length = cols.length ∧ row.getD k "" ∈ keys) →
    rowsOutside pkCol keys
        ((keyBatchRows ts now o t cols pkValues rowIdx bindings rest w).db.tables t) =
      rowsOutside pkCol keys (w.db.tables t) := by
  intro rest
  induction rest with
  | nil => intro rowIdx bindings w _ _; rfl
  | cons row rest ih =>
    intro rowIdx bindings w hb hrows
    obtain ⟨hlen, hkey⟩ := hrows row (List.mem_cons_self _ _)
    unfold keyBatchRows
    dsimp only
    rw [ih _ _ _ (by rw [bindRow_length, hb]) (fun r hr => hrows r (List.mem_cons_of_mem _ hr))]
    have hbind : bindRow bindings row = row.map BindParameter :=
      bindRow_full bindings row (by rw [hlen, hb])
    have hin : pkText pkCol (cols.zip (bindRow bindings row)) ∈ keys := by
      unfold pkText
      rw [hbind, cellOf_bound cols pkCol row k hlen hk, textOf_bindParameter]
      exact hkey
    have hstep := stepInsert_frame (o.stepOk rowIdx) w t pkCol keys _ hin
    split_ifs
    · exact hstep
    · rw [storeHash_db]
      exact hstep
    · exact hstep

/-- The function `ProcessKeyBasedBatch` leaves alone every stored row whose key is outside
`keys`, when `keys` holds the keys of the batch. -/
theorem processKeyBasedBatch_frame (ts : TableSyncer) (now : String) (o : BatchOutcome)
    (w : World) (t : String) (cols : List String) (pkCol : String)
    (pkValues : List String) (batchData : List Row) (keys : List String) (k : Nat)
    (hk : findPkIndex cols pkCol = some k)
    (hsub : ∀ p ∈ pkValues, p ∈ keys)
    (hrows : ∀ row ∈ batchData, row.length = cols.length ∧ row.getD k "" ∈ keys) :
    rowsOutside pkCol keys
        ((ProcessKeyBasedBatch ts now o w t cols pkCol pkValues batchData).db.tables t) =
      rowsOutside pkCol keys (w.db.tables t) := by
  have hdel := deleteRows_frame o.deleteOk w t pkCol pkValues keys hsub
  unfold ProcessKeyBasedBatch
  dsimp only
  split_ifs
  · rfl
  · exact hdel
  · rw [emit_db]
    exact hdel
  · rw [keyBatchRows_frame ts now o t cols pkCol pkValues keys k hk _ _ _ _ (by simp) hrows,
      emit_db]
    exact hdel


/-- One iteration of the key-based loop keeps the frame. -/
theorem keyRow_frame (ts : TableSyncer) (d : Driver) (ti : TableInfo) (k : Nat)
    (hk : findPkIndex ti.columns ti.pkColumn = some k) (keys : List String) (T0 : List DRow)
    (st : KeyState) (cur : Row) (h : KeyFrame ti k keys T0 st)
    (hcur : pkValueOf ti.columns k cur ∈ keys) :
    KeyFrame ti k keys T0 (keyRow ts d ti k st cur) := by
  obtain ⟨hT, hrows, hpks⟩ := h
  have hrows2 : ∀ row ∈ st.batchData ++ [fetchRowData ti.columns cur],
      row.length = ti.columns.length ∧ row.getD k "" ∈ keys := by
    intro row hr
    rcases List.mem_append.mp hr with hr | hr
    · exact hrows row hr
    · simp only [List.mem_singleton] at hr
      rw [hr]
      exact ⟨fetchRowData_length _ _, hcur⟩
  have hpks2 : ∀ p ∈ st.pkValues ++ [(fetchRowData ti.columns cur).getD k ""], p ∈ keys := by
    intro p hp
    rcases List.mem_append.mp hp with hp | hp
    · exact hpks p hp
    · simp only [List.mem_singleton] at hp
      rw [hp]
      exact hcur
  unfold keyRow
  dsimp only
  split_ifs
  · refine ⟨?_, by simp, by simp⟩
    simp only [begin_db, commit_db]
    rw [processKeyBasedBatch_frame ts d.now _ st.w ti.tableName ti.columns ti.pkColumn _ _ keys k
      hk hpks2 hrows2]
    exact hT
  · exact ⟨hT, hrows2, hpks2⟩

/-- The key-based loop keeps the frame. -/
theorem keyLoop_frame (ts : TableSyncer) (d : Driver) (ti : TableInfo) (k : Nat)
    (hk : findPkIndex ti.columns ti.pkColumn = some k) (keys : List String) (T0 : List DRow) :
    ∀ (rows : List Row) (st : KeyState), KeyFrame ti k keys T0 st →
    (∀ cur ∈ rows, pkValueOf ti.columns k cur ∈ keys) →
    KeyFrame ti k keys T0 (rows.foldl (keyRow ts d ti k) st) := by
  intro rows
  induction rows with
  | nil => intro st h _; exact h
  | cons cur rest ih =>
    intro st h hrows
    rw [List.foldl_cons]
    exact ih _ (keyRow_frame ts d ti k hk keys T0 st cur h (hrows cur (List.mem_cons_self _ _)))
      (fun c hc => hrows c (List.mem_cons_of_mem _ hc))

/-- Without an open transaction `ROLLBACK` changes nothing in the database. -/
theorem rollback_idle (w : World) (h : w.snapshot = none) : (RollbackTransaction w).db = w.db := by
  unfold RollbackTransaction
  simp [h]

/-- Claim C8: a key-based sync of a table with a primary-key column and a stored
`last_key_value` `K` leaves unchanged every destination row whose primary key
is not among the primary keys fetched; when the source cursor delivers only rows
with `pk > K` (for the comparison `gt` of the source), every destination row
whose key is not greater than `K` is left unchanged. -/
theorem syncKeyBased_frame (ts : TableSyncer) (d : Driver) (w : World) (ti : TableInfo)
    (rows : List Row) (gt : String → String → Bool)
    (_hbatch : 0 < ts.batchSize) (hpk : ti.pkColumn ≠ "")
    (hK : (SyncState.GetLastSync d.uninit w.db.sync_state ti.tableName).lastKeyValue ≠ "")
    (hidle : w.snapshot = none) (hcur : d.cursor = some rows) :
    rowsOutside ti.pkColumn (rows.map (pkField ti))
        ((SyncKeyBased ts d w ti).1.db.tables ti.tableName) =
      rowsOutside ti.pkColumn (rows.map (pkField ti)) (w.db.tables ti.tableName) ∧
    ((∀ cur ∈ rows, gt (pkField ti cur)
        (SyncState.GetLastSync d.uninit w.db.sync_state ti.tableName).lastKeyValue = true) →
      ((SyncKeyBased ts d w ti).1.db.tables ti.tableName).filter
          (fun r => !(gt (pkText ti.pkColumn r)
            (SyncState.GetLastSync d.uninit w.db.sync_state ti.tableName).lastKeyValue)) =
        (w.db.tables ti.tableName).filter
          (fun r => !(gt (pkText ti.pkColumn r)
            (SyncState.GetLastSync d.uninit w.db.sync_state ti.tableName).lastKeyValue))) := by
  have main : rowsOutside ti.pkColumn (rows.map (pkField ti))
        ((SyncKeyBased ts d w ti).1.db.tables ti.tableName) =
      rowsOutside ti.pkColumn (rows.map (pkField ti)) (w.db.tables ti.tableName) := by
    unfold SyncKeyBased
    rw [if_neg hpk]
    dsimp only
    rw [if_neg hK]
    cases hcount : d.count with
    | failed => rfl
    | threw =>
      dsimp only
      rw [rollback_idle (w.query _) hidle]
      rfl
    | rows n =>
      dsimp only
      split_ifs with hn
      · rfl
      · rw [hcur]
        dsimp only
        cases hk : findPkIndex ti.columns ti.pkColumn with
        | none => rfl
        | some k =>
          dsimp only
          have hkeys : ∀ cur ∈ rows, pkValueOf ti.columns k cur ∈ rows.map (pkField ti) := by
            intro cur hc
            rw [List.mem_map]
            exact ⟨cur, hc, pkField_eq ti k hk cur⟩
          have h0 : KeyFrame ti k (rows.map (pkField ti)) (w.db.tables ti.tableName)
              { w := BeginTransaction ((w.query (keyCountQuery ti
                    (SyncState.GetLastSync d.uninit w.db.sync_state
                      ti.tableName).lastKeyValue)).query (keyQuery ti
                    (SyncState.GetLastSync d.uninit w.db.sync_state
                      ti.tableName).lastKeyValue)),
                rowsSynced := 0,
                lastValue :=
                  (SyncState.GetLastSync d.uninit w.db.sync_state ti.tableName).lastKeyValue,
                pkValues := [], batchData := [], batches := 0 } :=
            ⟨rfl, by simp, by simp⟩
          obtain ⟨hT, hrows, hpks⟩ := keyLoop_frame ts d ti k hk _ _ rows _ h0 hkeys
          simp only [updateSyncState_tables, commit_db]
          split_ifs
          · rw [processKeyBasedBatch_frame ts d.now _ _ ti.tableName ti.columns ti.pkColumn _ _
              _ k hk hpks hrows]
            exact hT
          · exact hT
  refine ⟨main, ?_⟩
  intro hgt
  have hsub : ∀ (L : List DRow),
      L.filter (fun r => !(gt (pkText ti.pkColumn r)
        (SyncState.GetLastSync d.uninit w.db.sync_state ti.tableName).lastKeyValue)) =
      (rowsOutside ti.pkColumn (rows.map (pkField ti)) L).filter
        (fun r => !(gt (pkText ti.pkColumn r)
          (SyncState.GetLastSync d.uninit w.db.sync_state ti.tableName).lastKeyValue)) := by
    intro L
    unfold rowsOutside
    rw [List.filter_filter]
    apply List.filter_congr
    intro r _
    by_cases hin : pkText ti.pkColumn r ∈ rows.map (pkField ti)
    · obtain ⟨cur, hc, he⟩ := List.mem_map.mp hin
      have := hgt cur hc
      rw [he] at this
      simp [this]
    · simp [hin]
  rw [hsub, main, ← hsub]

/-- Scenario 2: after the full sync of scenario 1 the source gains the row
`(3, "30")`; the key-based sync leaves the stored rows with keys 1 and 2 as
they were. -/
theorem syncKeyBased_frame_witness :
    rowsOutside "id" ["3"]
      ((SyncKeyBased (Scenario.syncer false) (Scenario.driver [["3", "30"]])
        (SyncFullTable (Scenario.syncer false) (Scenario.driver [["1", "10"], ["2", "20"]])
          (Scenario.world []) Scenario.orders).1 Scenario.orders).1.db.tables "orders") =
      [[("id", some "1"), ("total", some "10")], [("id", some "2"), ("total", some "20")]] :=
  ((syncKeyBased_frame (Scenario.syncer false) (Scenario.driver [["3", "30"]])
      (SyncFullTable (Scenario.syncer false) (Scenario.driver [["1", "10"], ["2", "20"]])
        (Scenario.world []) Scenario.orders).1 Scenario.orders [["3", "30"]]
      (fun a b => decide (b < a)) (by decide) (by decide) (by decide)
      (syncFullTable_run (Scenario.syncer false) (Scenario.driver [["1", "10"], ["2", "20"]])
        (Scenario.world []) Scenario.orders [["1", "10"], ["2", "20"]] rfl rfl rfl).2.2.1
      rfl).1).trans
    (by decide)

/-! ### Delete-then-insert applied twice -/

/-- The insert loop of `ProcessKeyBasedBatch` appends the rows whose insert succeeds. -/
theorem keyBatchRows_tables (ts : TableSyncer) (now : String) (o : BatchOutcome) (t : String)
    (cols : List String) (pkValues : List String) :
    ∀ (rest : List Row) (rowIdx : Nat) (bindings : List Cell) (w : World),
    (keyBatchRows ts now o t cols pkValues rowIdx bindings rest w).db.tables t =
      w.db.tables t ++ batchInserted o cols rowIdx bindings rest := by
  intro rest
  induction rest with
  | nil => intro rowIdx bindings w; simp [keyBatchRows, batchInserted]
  | cons row rest ih =>
    intro rowIdx bindings w
    unfold keyBatchRows
    dsimp only
    rw [ih]
    have hstep := stepInsert_tables (o.stepOk rowIdx) w t (cols.zip (bindRow bindings row))
    have hdb : (if o.stepOk rowIdx = false then
          StepInsert (o.stepOk rowIdx) w t (cols.zip (bindRow bindings row))
        else if ts.hashEnabled = true ∧ pkValues.getD rowIdx "" ≠ "" then
          (StepInsert (o.stepOk rowIdx) w t (cols.zip (bindRow bindings row))).storeHash now t
            (pkValues.getD rowIdx "") (HashCalculator.CalculateRowHash ts.evp row)
        else StepInsert (o.stepOk rowIdx) w t (cols.zip (bindRow bindings row))).db.tables t =
        (StepInsert (o.stepOk rowIdx) w t (cols.zip (bindRow bindings row))).db.tables t := by
      split_ifs <;> rfl
    rw [hdb, hstep]
    simp [batchInserted]

/-- A parameter the binding loop reaches holds the bound value of the row. -/
theorem bindRow_getD : ∀ (bs : List Cell) (row : Row) (k : Nat), k < row.length →
    k < bs.length → (bindRow bs row).getD k none = BindParameter (row.getD k "") := by
  intro bs
  induction bs with
  | nil => intro row k _ h; simp at h
  | cons b bs ih =>
    intro row k hr hb
    cases row with
    | nil => simp at hr
    | cons v vs =>
      cases k with
      | zero => simp [bindRow]
      | succ j =>
        simp only [bindRow, List.getD_cons_succ]
        exact ih vs j (by simpa using hr) (by simpa using hb)

/-- Every row the insert loop adds is matched by the `DELETE` of the same
batch, when each batch row has a non-empty key that is in the key list. -/
theorem batchInserted_inList (o : BatchOutcome) (cols : List String) (pkCol : String)
    (pkValues : List String) (k : Nat) (hk : findPkIndex cols pkCol = some k) :
    ∀ (rest : List Row) (rowIdx : Nat) (bindings : List Cell),
    bindings.length = cols.length →
    (∀ row ∈ rest, k < row.length ∧ row.getD k "" ≠ "" ∧ row.getD k "" ∈ pkValues) →
    ∀ r ∈ batchInserted o cols rowIdx bindings rest,
      inList pkCol (pkValues.map BindParameter) r = true := by
  intro rest
  induction rest with
  | nil => intro rowIdx bindings _ _ r hr; simp [batchInserted] at hr
  | cons row rest ih =>
    intro rowIdx bindings hb hrows r hr
    simp only [batchInserted, List.mem_append] at hr
    rcases hr with hr | hr
    · obtain ⟨hlt, hne, hmem⟩ := hrows row (List.mem_cons_self _ _)
      split_ifs at hr
      · simp only [List.mem_singleton] at hr
        subst hr
        unfold inList
        rw [cellOf_zip cols pkCol _ k (by rw [bindRow_length, hb]) hk,
          bindRow_getD bindings row k hlt (by rw [hb]; exact findPkIndex_lt cols pkCol k hk)]
        have hbp : BindParameter (row.getD k "") = some (row.getD k "") := by
          unfold BindParameter
          rw [if_neg hne]
        rw [hbp]
        dsimp only
        apply List.elem_eq_true_of_mem
        rw [List.mem_map]
        exact ⟨_, hmem, hbp⟩
      · simp at hr
    · exact ih _ _ (by rw [bindRow_length, hb])
        (fun r2 hr2 => hrows r2 (List.mem_cons_of_mem _ hr2)) r hr

/-- The table after `ProcessKeyBasedBatch`, case by case. -/
theorem processKeyBasedBatch_tables (ts : TableSyncer) (now : String) (o : BatchOutcome)
    (w : World) (t : String) (cols : List String) (pkCol : String)
    (pkValues : List String) (batchData : List Row) :
    (ProcessKeyBasedBatch ts now o w t cols pkCol pkValues batchData).db.tables t =
      if pkValues = [] ∨ batchData = [] then w.db.tables t
      else if o.deleteOk = false then w.db.tables t
      else if o.prepareOk = false then
        (w.db.tables t).filter (fun r => !(inList pkCol (pkValues.map BindParameter) r))
      else
        (w.db.tables t).filter (fun r => !(inList pkCol (pkValues.map BindParameter) r)) ++
          batchInserted o cols 0 (cols.map (fun _ => none)) batchData := by
  unfold ProcessKeyBasedBatch
  by_cases h0 : pkValues = [] ∨ batchData = []
  · rw [if_pos h0, if_pos h0]
  · rw [if_neg h0, if_neg h0]
    have hne : pkValues ≠ [] := fun h => h0 (Or.inl h)
    dsimp only
    cases hd : o.deleteOk
    · simp [DeleteRows, hne]
    · cases hp : o.prepareOk
      · simp [DeleteRows, hne]
      · simp only [DeleteRows, hne, if_false, if_true, Bool.true_eq_false]
        rw [keyBatchRows_tables]
        simp

/-- Amended claim C9: applying `ProcessKeyBasedBatch` twice with the same batch
and the same statement outcomes leaves the destination table as applying it
once does (as a list of rows, hence as a multiset), for every destination state
and every batch in which the primary-key field of each row is not empty and is
in the primary-key list, as it is when `pkValues[i]` is the non-empty key of
`batchData[i]`. -/
theorem processKeyBasedBatch_idempotent (ts : TableSyncer) (now : String) (o : BatchOutcome)
    (w : World) (t : String) (cols : List String) (pkCol : String)
    (pkValues : List String) (batchData : List Row) (k : Nat)
    (hk : findPkIndex cols pkCol = some k)
    (hrows : ∀ row ∈ batchData,
      k < row.length ∧ row.getD k "" ≠ "" ∧ row.getD k "" ∈ pkValues) :
    (ProcessKeyBasedBatch ts now o
        (ProcessKeyBasedBatch ts now o w t cols pkCol pkValues batchData)
        t cols pkCol pkValues batchData).db.tables t =
      (ProcessKeyBasedBatch ts now o w t cols pkCol pkValues batchData).db.tables t := by
  rw [processKeyBasedBatch_tables ts now o
    (ProcessKeyBasedBatch ts now o w t cols pkCol pkValues batchData)]
  rw [processKeyBasedBatch_tables ts now o w]
  have hins := batchInserted_inList o cols pkCol pkValues k hk batchData 0
    (cols.map (fun _ => none)) (by simp) hrows
  have hfil : (batchInserted o cols 0 (cols.map (fun _ => none)) batchData).filter
      (fun r => !(inList pkCol (pkValues.map BindParameter) r)) = [] := by
    rw [List.filter_eq_nil_iff]
    intro r hr
    simp [hins r hr]
  split_ifs
  · rfl
  · rfl
  · rw [List.filter_filter]
    simp
  · rw [List.filter_append, List.filter_filter, hfil]
    simp


/-- The batch `(3, "30")` applied twice to a table that holds an older row with
key 3 leaves what applying it once leaves. -/
theorem processKeyBasedBatch_idempotent_witness :
    (ProcessKeyBasedBatch (Scenario.syncer false) "now" Scenario.allOk
        (ProcessKeyBasedBatch (Scenario.syncer false) "now" Scenario.allOk
          (Scenario.world [[("id", some "1"), ("total", some "10")],
            [("id", some "3"), ("total", some "29")]])
          "orders" ["id", "total"] "id" ["3"] [["3", "30"]])
        "orders" ["id", "total"] "id" ["3"] [["3", "30"]]).db.tables "orders" =
      [[("id", some "1"), ("total", some "10")], [("id", some "3"), ("total", some "30")]] :=
  (processKeyBasedBatch_idempotent (Scenario.syncer false) "now" Scenario.allOk
    (Scenario.world [[("id", some "1"), ("total", some "10")],
      [("id", some "3"), ("total", some "29")]])
    "orders" ["id", "total"] "id" ["3"] [["3", "30"]] 0 (by decide) (by decide)).trans
    (by decide)

/-- The claim C9 fails for a row whose primary-key value is empty (the key is
bound as NULL, which the `DELETE ... IN` never matches) and for a key list that
does not hold the key of the row: applying the batch twice stores the row
twice, applying it once stores it once. -/
theorem processKeyBasedBatch_twice_differs :
    [""].length = [["", "x"]].length ∧
    (ProcessKeyBasedBatch (Scenario.syncer false) "now" Scenario.allOk (Scenario.world [])
        "orders" ["id", "total"] "id" [""] [["", "x"]]).db.tables "orders" =
      [[("id", none), ("total", some "x")]] ∧
    (ProcessKeyBasedBatch (Scenario.syncer false) "now" Scenario.allOk
        (ProcessKeyBasedBatch (Scenario.syncer false) "now" Scenario.allOk (Scenario.world [])
          "orders" ["id", "total"] "id" [""] [["", "x"]])
        "orders" ["id", "total"] "id" [""] [["", "x"]]).db.tables "orders" =
      [[("id", none), ("total", some "x")], [("id", none), ("total", some "x")]] ∧
    ¬ List.Perm
      ((ProcessKeyBasedBatch (Scenario.syncer false) "now" Scenario.allOk
        (ProcessKeyBasedBatch (Scenario.syncer false) "now" Scenario.allOk (Scenario.world [])
          "orders" ["id", "total"] "id" [""] [["", "x"]])
        "orders" ["id", "total"] "id" [""] [["", "x"]]).db.tables "orders")
      ((ProcessKeyBasedBatch (Scenario.syncer false) "now" Scenario.allOk (Scenario.world [])
        "orders" ["id", "total"] "id" [""] [["", "x"]]).db.tables "orders") ∧
    ¬ List.Perm
      ((ProcessKeyBasedBatch (Scenario.syncer false) "now" Scenario.allOk
        (ProcessKeyBasedBatch (Scenario.syncer false) "now" Scenario.allOk (Scenario.world [])
          "orders" ["id", "total"] "id" ["1"] [["2", "x"]])
        "orders" ["id", "total"] "id" ["1"] [["2", "x"]]).db.tables "orders")
      ((ProcessKeyBasedBatch (Scenario.syncer false) "now" Scenario.allOk (Scenario.world [])
        "orders" ["id", "total"] "id" ["1"] [["2", "x"]]).db.tables "orders") := by
  refine ⟨rfl, by decide, by decide, ?_, ?_⟩
  · intro h
    have := h.length_eq
    revert this
    decide
  · intro h
    have := h.length_eq
    revert this
    decide

/-- With a named primary-key column the remembered value is the key of the last
row fetched. -/
theorem fullLastValue_getLast (ti : TableInfo) (rows : List Row) (last : Row)
    (hpk : ti.pkColumn ≠ "") (hlast : rows.getLast? = some last) :
    fullLastValue ti rows = pkField ti last := by
  unfold fullLastValue pkField pkValueOf
  rw [if_pos hpk, hlast]
  cases findPkIndex ti.columns ti.pkColumn <;> rfl

/-- The last element of a list sorted for a reflexive relation is above every
element. -/
theorem pairwise_getLast {α : Type} (R : α → α → Prop) (hrefl : ∀ x, R x x) (l : List α)
    (last : α) (hlast : l.getLast? = some last) (hp : l.Pairwise R) :
    ∀ x ∈ l, R x last := by
  obtain ⟨ys, rfl⟩ := List.getLast?_eq_some_iff.mp hlast
  intro x hx
  rw [List.pairwise_append] at hp
  rcases List.mem_append.mp hx with h | h
  · exact hp.2.2 x h last (List.mem_singleton_self last)
  · rw [List.mem_singleton.mp h]
    exact hrefl last

/-- The record read back after a completed full sync carries the remembered
key. -/
theorem syncFullTable_lastKeyValue (ts : TableSyncer) (d : Driver) (w : World)
    (ti : TableInfo) (rows : List Row)
    (hdel : d.deleteOk = true) (hcur : d.cursor = some rows) (hprep : d.prepareOk = true) :
    (SyncState.GetLastSync d.uninit (SyncFullTable ts d w ti).1.db.sync_state
      ti.tableName).lastKeyValue = fullLastValue ti rows := by
  obtain ⟨_, _, _, h4, _⟩ := syncFullTable_run ts d w ti rows hdel hcur hprep
  rw [h4]
  by_cases hc : ti.pkColumn ≠ "" ∧ fullLastValue ti rows ≠ ""
  · rw [if_pos hc, getLastSync_update]
  · rw [if_neg hc, getLastSync_update]
    by_cases hp : ti.pkColumn = ""
    · unfold fullLastValue
      rw [if_neg (not_not.mpr hp)]
    · have : fullLastValue ti rows = "" := by
        by_contra h
        exact hc ⟨hp, h⟩
      rw [this]

/-- Claim C11 (amended): after a completed full sync of a table with a
primary-key column in which at least one row is fetched, the `last_key_value`
recorded is the primary-key value of the last row the cursor delivered; it is
the largest value observed when the cursor delivers the rows in ascending key
order (for any reflexive order `le` on key values). -/
theorem syncFullTable_last_key (ts : TableSyncer) (d : Driver) (w : World) (ti : TableInfo)
    (rows : List Row) (last : Row) (_hbatch : 0 < ts.batchSize)
    (hdel : d.deleteOk = true) (hcur : d.cursor = some rows) (hprep : d.prepareOk = true)
    (hpk : ti.pkColumn ≠ "") (hlast : rows.getLast? = some last) :
    (SyncState.GetLastSync d.uninit (SyncFullTable ts d w ti).1.db.sync_state
      ti.tableName).lastKeyValue = pkField ti last ∧
    ∀ le : String → String → Prop, (∀ x, le x x) →
      rows.Pairwise (fun a b => le (pkField ti a) (pkField ti b)) →
      ∀ r ∈ rows, le (pkField ti r)
        (SyncState.GetLastSync d.uninit (SyncFullTable ts d w ti).1.db.sync_state
          ti.tableName).lastKeyValue := by
  have h := (syncFullTable_lastKeyValue ts d w ti rows hdel hcur hprep).trans
    (fullLastValue_getLast ti rows last hpk hlast)
  refine ⟨h, ?_⟩
  intro le hrefl hp r hr
  rw [h]
  exact pairwise_getLast (fun a b => le (pkField ti a) (pkField ti b)) (fun x => hrefl _)
    rows last hlast hp r hr

/-- Scenario: the full sync of `orders` with rows `(1, "10")`, `(2, "20")`
delivered in ascending key order records `last_key_value = "2"`. -/
theorem syncFullTable_last_key_witness :
    (SyncState.GetLastSync 0
      (SyncFullTable (Scenario.syncer false) (Scenario.driver [["1", "10"], ["2", "20"]])
        (Scenario.world []) Scenario.orders).1.db.sync_state "orders").lastKeyValue = "2" :=
  ((syncFullTable_last_key (Scenario.syncer false)
      (Scenario.driver [["1", "10"], ["2", "20"]]) (Scenario.world []) Scenario.orders
      [["1", "10"], ["2", "20"]] ["2", "20"] (by decide) rfl rfl rfl (by decide) rfl).1).trans
    (by decide)

/-- Claim C11, counterexample: the same two rows `(1, "10")`, `(2, "20")` of
`orders`, delivered by the cursor in the two possible orders, leave two
different values of `last_key_value`, `"1"` and `"2"`: the value recorded is
the key of the last row delivered, not the largest key observed. -/
theorem syncFullTable_last_key_order :
    List.Perm [["2", "20"], ["1", "10"]] [["1", "10"], ["2", "20"]] ∧
    (SyncState.GetLastSync 0
      (SyncFullTable (Scenario.syncer false) (Scenario.driver [["2", "20"], ["1", "10"]])
        (Scenario.world []) Scenario.orders).1.db.sync_state "orders").lastKeyValue = "1" ∧
    (SyncState.GetLastSync 0
      (SyncFullTable (Scenario.syncer false) (Scenario.driver [["1", "10"], ["2", "20"]])
        (Scenario.world []) Scenario.orders).1.db.sync_state "orders").lastKeyValue = "2" := by
  refine ⟨List.Perm.swap _ _ _, ?_, ?_⟩
  · decide
  · decide

/-! ### Hash entries of the rows inserted by the full strategy -/

/-- The record found under a key after `StoreHash`. -/
theorem find_storeHash (now : String) (H : List HashRecord) (t p h t2 p2 : String) :
    (HashStorage.StoreHash now H t p h).find?
        (fun r => r.table_name == t2 && r.pk_value == p2) =
      if t2 = t ∧ p2 = p then
        some { table_name := t, pk_value := p, row_hash := h, last_updated := now }
      else H.find? (fun r => r.table_name == t2 && r.pk_value == p2) := by
  induction H with
  | nil =>
    by_cases hc : t2 = t ∧ p2 = p
    · rw [if_pos hc]
      simp [HashStorage.StoreHash, hc.1, hc.2]
    · rw [if_neg hc]
      have : (t == t2 && p == p2) = false := by
        simp only [Bool.and_eq_false_imp, beq_iff_eq, beq_eq_false_iff_ne]
        intro h1 h2
        exact hc ⟨h1.symm, h2.symm⟩
      simp [HashStorage.StoreHash, List.find?_cons, this]
  | cons x H ih =>
    rw [storeHash_cons]
    by_cases hx : x.table_name = t ∧ x.pk_value = p
    · rw [if_pos hx, ih]
      by_cases hc : t2 = t ∧ p2 = p
      · rw [if_pos hc, if_pos hc]
      · rw [if_neg hc, if_neg hc, List.find?_cons]
        have : (x.table_name == t2 && x.pk_value == p2) = false := by
          simp only [Bool.and_eq_false_imp, beq_iff_eq, beq_eq_false_iff_ne]
          intro h1 h2
          exact hc ⟨by rw [← h1, hx.1], by rw [← h2, hx.2]⟩
        rw [this]
    · rw [if_neg hx, List.find?_cons, ih]
      by_cases hc : t2 = t ∧ p2 = p
      · have : (x.table_name == t2 && x.pk_value == p2) = false := by
          simp only [Bool.and_eq_false_imp, beq_iff_eq, beq_eq_false_iff_ne]
          intro h1 h2
          exact hx ⟨by rw [h1, hc.1], by rw [h2, hc.2]⟩
        rw [this]
        simp only [if_pos hc]
      · simp only [if_neg hc, List.find?_cons]

/-- A record found under a key is in the store, carries the key, and is what
`GetHash` reads. -/
theorem find_entry (H : List HashRecord) (t p : String) (r : HashRecord)
    (h : H.find? (fun r => r.table_name == t && r.pk_value == p) = some r) :
    r ∈ H ∧ r.table_name = t ∧ r.pk_value = p ∧ HashStorage.GetHash H t p = r.row_hash := by
  refine ⟨List.mem_of_find?_eq_some h, ?_, ?_, ?_⟩
  · have := List.find?_some h
    simp only [Bool.and_eq_true, beq_iff_eq] at this
    exact this.1
  · have := List.find?_some h
    simp only [Bool.and_eq_true, beq_iff_eq] at this
    exact this.2
  · unfold HashStorage.GetHash
    rw [h]

/-- The full row loop keeps, under a key, a record whose hash satisfies a
property that the hash of every inserted row with that key satisfies. -/
theorem fullLoop_entry_keep (ts : TableSyncer) (d : Driver) (ti : TableInfo) (k : Nat)
    (p : String) (Q : String → Prop) : ∀ (rows : List Row) (st : FullState),
    (∀ j c2, rows[j]? = some c2 → d.stepOk (st.fetched + j) = true →
      pkValueOf ti.columns k c2 = p → Q (rowHashOf ts ti.columns c2)) →
    (∃ r, st.w.row_hashes.find? (fun r => r.table_name == ti.tableName && r.pk_value == p) =
      some r ∧ Q r.row_hash) →
    ∃ r, (rows.foldl (fullRow ts d ti (some k)) st).w.row_hashes.find?
      (fun r => r.table_name == ti.tableName && r.pk_value == p) = some r ∧ Q r.row_hash := by
  intro rows
  induction rows with
  | nil => intro st _ h; exact h
  | cons c rest ih =>
    intro st hQ hst
    rw [List.foldl_cons]
    apply ih
    · intro j c2 hj hok hpk
      rw [fullRow_fetched, show st.fetched + 1 + j = st.fetched + (j + 1) by omega] at hok
      exact hQ (j + 1) c2 (by simpa using hj) hok hpk
    · rw [fullRow_row_hashes]
      split_ifs with hc
      · rw [find_storeHash]
        by_cases hp : ti.tableName = ti.tableName ∧ p = pkValueOf ti.columns k c
        · rw [if_pos hp]
          exact ⟨_, rfl, hQ 0 c (List.getElem?_cons_zero) hc.1 hp.2.symm⟩
        · rw [if_neg hp]
          exact hst
      · exact hst

/-- After the full row loop with hashing, the key of every inserted row with a
non-empty key has a record whose hash satisfies a property that the hash of
every inserted row with that key satisfies. -/
theorem fullLoop_entry (ts : TableSyncer) (d : Driver) (ti : TableInfo) (k : Nat)
    (hhash : ts.hashEnabled = true) (p : String) (hne : p ≠ "") (Q : String → Prop) :
    ∀ (rows : List Row) (st : FullState),
    (∀ j c2, rows[j]? = some c2 → d.stepOk (st.fetched + j) = true →
      pkValueOf ti.columns k c2 = p → Q (rowHashOf ts ti.columns c2)) →
    ∀ i cur, rows[i]? = some cur → d.stepOk (st.fetched + i) = true →
      pkValueOf ti.columns k cur = p →
    ∃ r, (rows.foldl (fullRow ts d ti (some k)) st).w.row_hashes.find?
      (fun r => r.table_name == ti.tableName && r.pk_value == p) = some r ∧ Q r.row_hash := by
  intro rows
  induction rows with
  | nil => intro st _ i cur hi; simp at hi
  | cons c rest ih =>
    intro st hQ i cur hi hok hpk
    rw [List.foldl_cons]
    have hQ2 : ∀ j c2, rest[j]? = some c2 →
        d.stepOk ((fullRow ts d ti (some k) st c).fetched + j) = true →
        pkValueOf ti.columns k c2 = p → Q (rowHashOf ts ti.columns c2) := by
      intro j c2 hj hok2 hpk2
      rw [fullRow_fetched, show st.fetched + 1 + j = st.fetched + (j + 1) by omega] at hok2
      exact hQ (j + 1) c2 (by simpa using hj) hok2 hpk2
    cases i with
    | zero =>
      have hc : c = cur := by simpa using hi
      subst hc
      apply fullLoop_entry_keep ts d ti k p Q rest _ hQ2
      rw [fullRow_row_hashes, if_pos ⟨hok, hhash, by rw [hpk]; exact hne⟩, find_storeHash,
        if_pos ⟨rfl, hpk.symm⟩]
      exact ⟨_, rfl, hQ 0 c (List.getElem?_cons_zero) hok hpk⟩
    | succ i =>
      apply ih _ hQ2 i cur (by simpa using hi) _ hpk
      rw [fullRow_fetched, show st.fetched + 1 + i = st.fetched + (i + 1) by omega]
      exact hok

/-- Claim C16 (amended): after a `SyncFullTable` with hashing enabled and a
known primary-key column that reaches its end (single row inserts may fail),
for every row that was inserted into the destination and whose primary-key
value is not empty, the hash store holds an entry keyed by the table name and
that value, which is the one `GetHash` reads, and its hash is the
`CalculateRowHash` of a row inserted under that key in this run. -/
theorem syncFullTable_hash_entries (ts : TableSyncer) (d : Driver) (w : World)
    (ti : TableInfo) (rows : List Row) (k : Nat) (_hbatch : 0 < ts.batchSize)
    (hhash : ts.hashEnabled = true) (hpk : ti.pkColumn ≠ "")
    (hk : findPkIndex ti.columns ti.pkColumn = some k)
    (hdel : d.deleteOk = true) (hcur : d.cursor = some rows) (hprep : d.prepareOk = true)
    (i : Nat) (cur : Row) (hi : rows[i]? = some cur) (hins : d.stepOk i = true)
    (hne : pkValueOf ti.columns k cur ≠ "") :
    ∃ r j c2, r ∈ (SyncFullTable ts d w ti).1.row_hashes ∧
      r.table_name = ti.tableName ∧ r.pk_value = pkValueOf ti.columns k cur ∧
      HashStorage.GetHash (SyncFullTable ts d w ti).1.row_hashes ti.tableName
        (pkValueOf ti.columns k cur) = r.row_hash ∧
      rows[j]? = some c2 ∧ d.stepOk j = true ∧
      pkValueOf ti.columns k c2 = pkValueOf ti.columns k cur ∧
      r.row_hash = rowHashOf ts ti.columns c2 := by
  rw [syncFullTable_row_hashes ts d w ti rows hdel hcur hprep, if_pos hpk, hk]
  obtain ⟨r, hr, j, c2, hj, hok, hpk2, hh⟩ :=
    fullLoop_entry ts d ti k hhash (pkValueOf ti.columns k cur) hne
      (fun h => ∃ j c2, rows[j]? = some c2 ∧ d.stepOk j = true ∧
        pkValueOf ti.columns k c2 = pkValueOf ti.columns k cur ∧ h = rowHashOf ts ti.columns c2)
      rows
      { w := (BeginTransaction ((ExecuteDeleteAll true (w.query (rowCountQuery ti.tableName))
          ti.tableName).query (fullQuery ti))).emit
          (Cmd.prepareInsert ti.tableName true),
        rowsSynced := 0, lastValue := "", fetched := 0 }
      (fun j c2 hj hok hpk2 => ⟨j, c2, hj, by simpa using hok, hpk2, rfl⟩)
      i cur hi (by simpa using hins) rfl
  obtain ⟨h1, h2, h3, h4⟩ := find_entry _ _ _ r hr
  exact ⟨r, j, c2, h1, h2, h3, h4, hj, hok, hpk2, hh⟩

/-- Scenario: the full sync of `orders` with hashing and rows `(1, "10")`,
`(2, "20")` leaves a hash entry under the key `"2"`. -/
theorem syncFullTable_hash_entries_witness :
    ∃ r j c2, r ∈ (SyncFullTable (Scenario.syncer true)
        (Scenario.driver [["1", "10"], ["2", "20"]]) (Scenario.world [])
        Scenario.orders).1.row_hashes ∧
      r.table_name = "orders" ∧ r.pk_value = "2" ∧
      HashStorage.GetHash (SyncFullTable (Scenario.syncer true)
        (Scenario.driver [["1", "10"], ["2", "20"]]) (Scenario.world [])
        Scenario.orders).1.row_hashes "orders" "2" = r.row_hash ∧
      [["1", "10"], ["2", "20"]][j]? = some c2 ∧
      (Scenario.driver [["1", "10"], ["2", "20"]]).stepOk j = true ∧
      pkValueOf ["id", "total"] 0 c2 = "2" ∧
      r.row_hash = rowHashOf (Scenario.syncer true) ["id", "total"] c2 :=
  syncFullTable_hash_entries (Scenario.syncer true) (Scenario.driver [["1", "10"], ["2", "20"]])
    (Scenario.world []) Scenario.orders [["1", "10"], ["2", "20"]] 0 (by decide) rfl
    (by decide) (by decide) rfl rfl rfl 1 ["2", "20"] rfl rfl (by decide)

/-- Claim C16, counterexample: the full sync of `orders` with hashing enabled
and the single source row `("", "10")`, every statement succeeding, inserts the
row into the destination (its empty key is bound as NULL) and returns 1, yet
the hash store stays empty: a row with an empty primary-key value gets no hash
entry. -/
theorem syncFullTable_no_hash_for_empty_key :
    (SyncFullTable (Scenario.syncer true) (Scenario.driver [["", "10"]]) (Scenario.world [])
      Scenario.orders).1.db.tables "orders" = [[("id", none), ("total", some "10")]] ∧
    (SyncFullTable (Scenario.syncer true) (Scenario.driver [["", "10"]]) (Scenario.world [])
      Scenario.orders).2 = 1 ∧
    (SyncFullTable (Scenario.syncer true) (Scenario.driver [["", "10"]]) (Scenario.world [])
      Scenario.orders).1.row_hashes = [] := by
  decide

/-! ### Failed row inserts -/

/-- A fetched row whose insert succeeds is among the stored rows of the run. -/
theorem mem_insertedFrom (stepOk : Nat → Bool) (columns : List String) :
    ∀ (rows : List Row) (i0 j : Nat) (cur : Row), rows[j]? = some cur →
      stepOk (i0 + j) = true → insertedRow columns cur ∈ insertedFrom stepOk columns i0 rows := by
  intro rows
  induction rows with
  | nil => intro i0 j cur hj; simp at hj
  | cons c rest ih =>
    intro i0 j cur hj hok
    unfold insertedFrom
    cases j with
    | zero =>
      have hc : c = cur := by simpa using hj
      subst hc
      rw [Nat.add_zero] at hok
      rw [hok]
      simp
    | succ j =>
      refine List.mem_append_right _ (ih (i0 + 1) j cur (by simpa using hj) ?_)
      rw [show i0 + 1 + j = i0 + (j + 1) by omega]
      exact hok

/-- A row of a batch whose insert succeeds is among the rows the batch adds. -/
theorem mem_batchInserted (o : BatchOutcome) (cols : List String) :
    ∀ (rows : List Row) (rowIdx : Nat) (bindings : List Cell) (j : Nat) (row : Row),
      bindings.length = cols.length → (∀ r ∈ rows, r.length = cols.length) →
      rows[j]? = some row → o.stepOk (rowIdx + j) = true →
      cols.zip (row.map BindParameter) ∈ batchInserted o cols rowIdx bindings rows := by
  intro rows
  induction rows with
  | nil => intro rowIdx bindings j row _ _ hj; simp at hj
  | cons c rest ih =>
    intro rowIdx bindings j row hb hlen hj hok
    unfold batchInserted
    cases j with
    | zero =>
      have hc : c = row := by simpa using hj
      subst hc
      rw [Nat.add_zero] at hok
      rw [hok, bindRow_full bindings c (by rw [hb]; exact hlen c (List.mem_cons_self _ _))]
      simp
    | succ j =>
      refine List.mem_append_right _
        (ih (rowIdx + 1) _ j row (by rw [bindRow_length, hb])
          (fun r hr => hlen r (List.mem_cons_of_mem _ hr)) (by simpa using hj) ?_)
      rw [show rowIdx + 1 + j = rowIdx + (j + 1) by omega]
      exact hok

/-- The statements of a commit followed by the writing of the progress
record. -/
theorem commit_update_log (w : World) (now t key method : String) (n : Int) :
    ((CommitTransaction w).updateSyncState now t key method n).log =
      w.log ++ [Cmd.commit, Cmd.updateSyncState t key method n] := by
  simp [World.updateSyncState]

/-- A `SyncFullTable` that reaches its end closes with the final commit and
the progress record carrying the value returned. -/
theorem syncFullTable_log_end (ts : TableSyncer) (d : Driver) (w : World) (ti : TableInfo)
    (rows : List Row) (hdel : d.deleteOk = true) (hcur : d.cursor = some rows)
    (hprep : d.prepareOk = true) :
    ∃ l key method, (SyncFullTable ts d w ti).1.log =
      l ++ [Cmd.commit, Cmd.updateSyncState ti.tableName key method
        (SyncFullTable ts d w ti).2] := by
  unfold SyncFullTable
  simp only [hdel, hcur, hprep, not_true_eq_false, if_false]
  split_ifs <;> exact ⟨_, _, _, commit_update_log _ _ _ _ _ _⟩

/-- Claim C20: a failed row insert does not stop a sync.  In a `SyncFullTable`
whose truncation, source query and insert preparation succeed, whatever single
row inserts fail, every fetched row whose insert succeeds is in the destination
table afterwards, the value returned counts these rows, the run ends with its
final commit followed by the progress record, and no transaction stays open.
In a `ProcessKeyBasedBatch` whose delete and insert preparation succeed,
whatever row inserts fail, every row of the batch whose insert succeeds is in
the destination table afterwards. -/
theorem failed_insert_continues (ts : TableSyncer) (d : Driver) (w : World) (ti : TableInfo)
    (rows : List Row) (o : BatchOutcome) (wb : World) (pkValues : List String)
    (batchData : List Row) (_hbatch : 0 < ts.batchSize)
    (hdel : d.deleteOk = true) (hcur : d.cursor = some rows) (hprep : d.prepareOk = true)
    (hbdel : o.deleteOk = true) (hbprep : o.prepareOk = true) (hkeys : pkValues ≠ [])
    (hlen : ∀ r ∈ batchData, r.length = ti.columns.length) :
    (∀ i cur, rows[i]? = some cur → d.stepOk i = true →
      insertedRow ti.columns cur ∈ (SyncFullTable ts d w ti).1.db.tables ti.tableName) ∧
    (SyncFullTable ts d w ti).2 =
      ((List.range rows.length).filter (fun i => d.stepOk i)).length ∧
    (∃ l key method, (SyncFullTable ts d w ti).1.log =
      l ++ [Cmd.commit, Cmd.updateSyncState ti.tableName key method
        (SyncFullTable ts d w ti).2]) ∧
    (SyncFullTable ts d w ti).1.snapshot = none ∧
    (∀ i row, batchData[i]? = some row → o.stepOk i = true →
      ti.columns.zip (row.map BindParameter) ∈
        (ProcessKeyBasedBatch ts d.now o wb ti.tableName ti.columns ti.pkColumn pkValues
          batchData).db.tables ti.tableName) := by
  obtain ⟨h1, h2, h3, _, _⟩ := syncFullTable_run ts d w ti rows hdel hcur hprep
  refine ⟨?_, ?_, syncFullTable_log_end ts d w ti rows hdel hcur hprep, h3, ?_⟩
  · intro i cur hi hok
    rw [h1]
    exact mem_insertedFrom d.stepOk ti.columns rows 0 i cur hi (by simpa using hok)
  · rw [h2, insertedFrom_length]
    simp
  · intro i row hi hok
    have hb : batchData ≠ [] := by
      intro h
      rw [h] at hi
      simp at hi
    rw [processKeyBasedBatch_tables, if_neg (by simp [hkeys, hb]), if_neg (by simp [hbdel]),
      if_neg (by simp [hbprep])]
    exact List.mem_append_right _
      (mem_batchInserted o ti.columns batchData 0 _ i row (by simp) hlen hi (by simpa using hok))

/-- Scenario: in the full sync of `orders` with rows `(1, "10")`, `(2, "20")`,
`(3, "30")` the insert of the second row fails; the third row is in the
destination afterwards and the value returned is 2. -/
theorem failed_insert_continues_witness :
    insertedRow ["id", "total"] ["3", "30"] ∈
      (SyncFullTable (Scenario.syncer false)
        { Scenario.driver [["1", "10"], ["2", "20"], ["3", "30"]] with
          stepOk := fun i => i != 1 }
        (Scenario.world []) Scenario.orders).1.db.tables "orders" ∧
    (SyncFullTable (Scenario.syncer false)
        { Scenario.driver [["1", "10"], ["2", "20"], ["3", "30"]] with
          stepOk := fun i => i != 1 }
        (Scenario.world []) Scenario.orders).2 = 2 :=
  have h := failed_insert_continues (Scenario.syncer false)
    { Scenario.driver [["1", "10"], ["2", "20"], ["3", "30"]] with stepOk := fun i => i != 1 }
    (Scenario.world []) Scenario.orders [["1", "10"], ["2", "20"], ["3", "30"]]
    Scenario.allOk (Scenario.world []) ["1"] [["1", "10"]] (by decide) rfl rfl rfl rfl rfl
    (by decide) (by decide)
  ⟨h.1 2 ["3", "30"] rfl rfl, h.2.1.trans (by decide)⟩

/-! ### Statements that leave the progress store alone -/

theorem steady_refl (w : World) : Steady w w := ⟨rfl, rfl⟩

theorem steady_trans {w1 w2 w3 : World} (h12 : Steady w1 w2) (h23 : Steady w2 w3) :
    Steady w1 w3 :=
  ⟨h23.1.trans h12.1, h23.2.trans h12.2⟩

/-- Issuing a statement other than `ROLLBACK`. -/
theorem steady_emit (w : World) (c : Cmd) (hc : c ≠ Cmd.rollback) : Steady w (w.emit c) := by
  refine ⟨rfl, ?_⟩
  rw [emit_log, List.count_append, List.count_singleton]
  have : (c == Cmd.rollback) = false := by simpa using hc
  rw [this]
  rfl

theorem steady_begin (w : World) : Steady w (BeginTransaction w) := by
  refine ⟨rfl, ?_⟩
  rw [begin_log, List.count_append]
  rfl

theorem steady_commit (w : World) : Steady w (CommitTransaction w) := by
  refine ⟨rfl, ?_⟩
  rw [commit_log, List.count_append]
  rfl

theorem steady_stepInsert (ok : Bool) (w : World) (t : String) (r : DRow) :
    Steady w (StepInsert ok w t r) := by
  unfold StepInsert
  split_ifs
  · exact steady_trans ⟨rfl, rfl⟩ (steady_emit _ _ (by simp))
  · exact steady_emit _ _ (by simp)

theorem steady_storeHash (w : World) (now t p h : String) :
    Steady w (w.storeHash now t p h) := by
  refine ⟨rfl, ?_⟩
  simp only [World.storeHash, List.count_append]
  rfl

theorem steady_deleteRows (ok : Bool) (w : World) (t c : String) (vs : List String) :
    Steady w (DeleteRows ok w t c vs).1 := by
  unfold DeleteRows
  split_ifs
  · exact steady_refl w
  · exact steady_trans ⟨rfl, rfl⟩ (steady_emit _ _ (by simp))
  · exact steady_emit _ _ (by simp)

theorem steady_keyBatchRows (ts : TableSyncer) (now : String) (o : BatchOutcome) (t : String)
    (cols : List String) (pkValues : List String) :
    ∀ (rest : List Row) (rowIdx : Nat) (bindings : List Cell) (w : World),
    Steady w (keyBatchRows ts now o t cols pkValues rowIdx bindings rest w) := by
  intro rest
  induction rest with
  | nil => intro rowIdx bindings w; exact steady_refl w
  | cons row rest ih =>
    intro rowIdx bindings w
    unfold keyBatchRows
    dsimp only
    refine steady_trans ?_ (ih _ _ _)
    split_ifs
    · exact steady_stepInsert _ _ _ _
    · exact steady_trans (steady_stepInsert _ _ _ _) (steady_storeHash _ _ _ _ _)
    · exact steady_stepInsert _ _ _ _

theorem steady_processKeyBasedBatch (ts : TableSyncer) (now : String) (o : BatchOutcome)
    (w : World) (t : String) (cols : List String) (pkCol : String)
    (pkValues : List String) (batchData : List Row) :
    Steady w (ProcessKeyBasedBatch ts now o w t cols pkCol pkValues batchData) := by
  unfold ProcessKeyBasedBatch
  dsimp only
  split_ifs
  · exact steady_refl w
  · exact steady_deleteRows _ _ _ _ _
  · exact steady_trans (steady_deleteRows _ _ _ _ _) (steady_emit _ _ (by simp))
  · exact steady_trans (steady_trans (steady_deleteRows _ _ _ _ _) (steady_emit _ _ (by simp)))
      (steady_keyBatchRows _ _ _ _ _ _ _ _ _ _)

theorem steady_hashBatchRows (ts : TableSyncer) (now : String) (o : BatchOutcome) (t : String)
    (cols : List String) (pkValues : List String) :
    ∀ (rest : List Row) (rowIdx : Nat) (bindings : List Cell) (w : World),
    Steady w (hashBatchRows ts now o t cols pkValues rowIdx bindings rest w) := by
  intro rest
  induction rest with
  | nil => intro rowIdx bindings w; exact steady_refl w
  | cons row rest ih =>
    intro rowIdx bindings w
    unfold hashBatchRows
    dsimp only
    refine steady_trans ?_ (ih _ _ _)
    split_ifs
    · exact steady_stepInsert _ _ _ _
    · exact steady_trans (steady_stepInsert _ _ _ _) (steady_storeHash _ _ _ _ _)

theorem steady_processHashBasedBatch (ts : TableSyncer) (now : String) (o : BatchOutcome)
    (w : World) (t : String) (cols : List String) (pkCol : String)
    (pkValues : List String) (batchData : List Row) :
    Steady w (ProcessHashBasedBatch ts now o w t cols pkCol pkValues batchData) := by
  unfold ProcessHashBasedBatch
  dsimp only
  split_ifs
  · exact steady_refl w
  · exact steady_deleteRows _ _ _ _ _
  · exact steady_trans (steady_deleteRows _ _ _ _ _) (steady_emit _ _ (by simp))
  · exact steady_trans (steady_trans (steady_deleteRows _ _ _ _ _) (steady_emit _ _ (by simp)))
      (steady_hashBatchRows _ _ _ _ _ _ _ _ _ _)

theorem steady_plainBatchRows (o : BatchOutcome) (t : String) (cols : List String) :
    ∀ (rest : List Row) (rowIdx : Nat) (bindings : List Cell) (w : World),
    Steady w (plainBatchRows o t cols rowIdx bindings rest w) := by
  intro rest
  induction rest with
  | nil => intro rowIdx bindings w; exact steady_refl w
  | cons row rest ih =>
    intro rowIdx bindings w
    unfold plainBatchRows
    exact steady_trans (steady_stepInsert _ _ _ _) (ih _ _ _)

theorem steady_insertOnlyBatch (o : BatchOutcome) (w : World) (t : String)
    (cols : List String) (batchData : List Row) :
    Steady w (insertOnlyBatch o w t cols batchData) := by
  unfold insertOnlyBatch
  split_ifs
  · exact steady_emit _ _ (by simp)
  · exact steady_trans (steady_emit _ _ (by simp)) (steady_plainBatchRows _ _ _ _ _ _ _)

theorem steady_timestampBatch (ts : TableSyncer) (d : Driver) (ti : TableInfo)
    (pkIndex : Option Nat) (b : Nat) (w : World) (pkValues : List String)
    (batchData : List Row) :
    Steady w (timestampBatch ts d ti pkIndex b w pkValues batchData) := by
  unfold timestampBatch
  cases pkIndex with
  | none => exact steady_insertOnlyBatch _ _ _ _ _
  | some k => exact steady_processKeyBasedBatch _ _ _ _ _ _ _ _ _

theorem steady_hashBatch (ts : TableSyncer) (d : Driver) (ti : TableInfo) (st : HashState) :
    Steady st.w (hashBatch ts d ti st).1 := by
  unfold hashBatch
  dsimp only
  split_ifs
  · exact steady_processHashBasedBatch _ _ _ _ _ _ _ _ _
  · exact steady_refl _
  · exact steady_refl _

/-! ### Counting the successful inserts -/

theorem insertsDone_append (l1 l2 : List Cmd) :
    insertsDone (l1 ++ l2) = insertsDone l1 + insertsDone l2 := by
  simp [insertsDone, List.countP_append]

theorem insertsDone_stepInsert_true (w : World) (t : String) (r : DRow) :
    insertsDone (StepInsert true w t r).log = insertsDone w.log + 1 := by
  simp [StepInsert, insertsDone_append, insertsDone, Cmd.isInsertDone]

theorem insertsDone_storeHash (w : World) (now t p h : String) :
    insertsDone (w.storeHash now t p h).log = insertsDone w.log := by
  simp [World.storeHash, insertsDone_append, insertsDone, Cmd.isInsertDone]

theorem insertsDone_begin_commit (w : World) :
    insertsDone (BeginTransaction (CommitTransaction w)).log = insertsDone w.log := by
  simp [insertsDone_append, insertsDone, Cmd.isInsertDone]

theorem insertsDone_commit (w : World) :
    insertsDone (CommitTransaction w).log = insertsDone w.log := by
  simp [insertsDone_append, insertsDone, Cmd.isInsertDone]

/-- The insert loop of a key-based batch in which every insert succeeds adds
one successful insert per row. -/
theorem insertsDone_keyBatchRows (ts : TableSyncer) (now : String) (o : BatchOutcome)
    (t : String) (cols : List String) (pkValues : List String) (hok : ∀ i, o.stepOk i = true) :
    ∀ (rest : List Row) (rowIdx : Nat) (bindings : List Cell) (w : World),
    insertsDone (keyBatchRows ts now o t cols pkValues rowIdx bindings rest w).log =
      insertsDone w.log + rest.length := by
  intro rest
  induction rest with
  | nil => intro rowIdx bindings w; rfl
  | cons row rest ih =>
    intro rowIdx bindings w
    unfold keyBatchRows
    dsimp only
    rw [ih, hok rowIdx]
    simp only [Bool.true_eq_false, if_false]
    split_ifs
    · rw [insertsDone_storeHash, insertsDone_stepInsert_true, List.length_cons]
      omega
    · rw [insertsDone_stepInsert_true, List.length_cons]
      omega

/-- A key-based batch in which every statement succeeds adds one successful
insert per row. -/
theorem insertsDone_processKeyBasedBatch (ts : TableSyncer) (now : String) (o : BatchOutcome)
    (w : World) (t : String) (cols : List String) (pkCol : String)
    (pkValues : List String) (batchData : List Row)
    (hdel : o.deleteOk = true) (hprep : o.prepareOk = true) (hok : ∀ i, o.stepOk i = true)
    (hkeys : pkValues.length = batchData.length) :
    insertsDone (ProcessKeyBasedBatch ts now o w t cols pkCol pkValues batchData).log =
      insertsDone w.log + batchData.length := by
  unfold ProcessKeyBasedBatch
  by_cases h0 : pkValues = [] ∨ batchData = []
  · rw [if_pos h0]
    have : batchData.length = 0 := by
      rcases h0 with h | h
      · rw [← hkeys, h]; rfl
      · rw [h]; rfl
    rw [this]
    rfl
  · have hne : pkValues ≠ [] := fun h => h0 (Or.inl h)
    rw [if_neg h0]
    simp only [DeleteRows, hne, hdel, hprep, if_false, if_true, Bool.true_eq_false]
    rw [insertsDone_keyBatchRows ts now o t cols pkValues hok]
    simp [insertsDone_append, insertsDone, Cmd.isInsertDone]

/-! ### The row loop of the key-based strategy -/

theorem keyRow_steady (ts : TableSyncer) (d : Driver) (ti : TableInfo) (k : Nat)
    (st : KeyState) (cur : Row) : Steady st.w (keyRow ts d ti k st cur).w := by
  unfold keyRow
  dsimp only
  split_ifs
  · exact steady_trans (steady_trans (steady_processKeyBasedBatch _ _ _ _ _ _ _ _ _)
      (steady_commit _)) (steady_begin _)
  · exact steady_refl _

theorem keyLoop_steady (ts : TableSyncer) (d : Driver) (ti : TableInfo) (k : Nat) :
    ∀ (rows : List Row) (st : KeyState),
    Steady st.w (rows.foldl (keyRow ts d ti k) st).w := by
  intro rows
  induction rows with
  | nil => intro st; exact steady_refl _
  | cons c rest ih =>
    intro st
    rw [List.foldl_cons]
    exact steady_trans (keyRow_steady ts d ti k st c) (ih _)

/-- The rows counted and the rows pending always add up to the rows fetched. -/
theorem keyLoop_count (ts : TableSyncer) (d : Driver) (ti : TableInfo) (k : Nat) :
    ∀ (rows : List Row) (st : KeyState),
    (rows.foldl (keyRow ts d ti k) st).rowsSynced +
        (rows.foldl (keyRow ts d ti k) st).batchData.length =
      st.rowsSynced + st.batchData.length + rows.length := by
  intro rows
  induction rows with
  | nil => intro st; rfl
  | cons c rest ih =>
    intro st
    rw [List.foldl_cons, ih]
    unfold keyRow
    dsimp only
    split_ifs <;> simp <;> omega

/-- The loop remembers the key of the last row fetched. -/
theorem keyLoop_lastValue (ts : TableSyncer) (d : Driver) (ti : TableInfo) (k : Nat) :
    ∀ (rows : List Row) (st : KeyState),
    (rows.foldl (keyRow ts d ti k) st).lastValue = keyLastValue st.lastValue ti.columns k rows := by
  intro rows
  induction rows with
  | nil => intro st; rfl
  | cons c rest ih =>
    intro st
    rw [List.foldl_cons, ih]
    have hl : (keyRow ts d ti k st c).lastValue = pkValueOf ti.columns k c := by
      unfold keyRow pkValueOf
      dsimp only
      split_ifs <;> rfl
    rw [hl]
    unfold keyLastValue
    cases rest with
    | nil => rfl
    | cons c2 rest2 =>
      rw [List.getLast?_cons_cons, List.getLast?_eq_getLast _ (List.cons_ne_nil c2 rest2)]

/-- When every batch statement succeeds, the successful inserts and the rows
pending add up to the rows fetched, and the pending keys match the pending
rows. -/
theorem keyLoop_inserts (ts : TableSyncer) (d : Driver) (ti : TableInfo) (k : Nat)
    (hok : BatchesOk d) : ∀ (rows : List Row) (st : KeyState),
    st.pkValues.length = st.batchData.length →
    (rows.foldl (keyRow ts d ti k) st).pkValues.length =
        (rows.foldl (keyRow ts d ti k) st).batchData.length ∧
    insertsDone (rows.foldl (keyRow ts d ti k) st).w.log +
        (rows.foldl (keyRow ts d ti k) st).batchData.length =
      insertsDone st.w.log + st.batchData.length + rows.length := by
  intro rows
  induction rows with
  | nil => intro st h; exact ⟨h, rfl⟩
  | cons c rest ih =>
    intro st h
    rw [List.foldl_cons]
    have hstep : (keyRow ts d ti k st c).pkValues.length =
          (keyRow ts d ti k st c).batchData.length ∧
        insertsDone (keyRow ts d ti k st c).w.log + (keyRow ts d ti k st c).batchData.length =
          insertsDone st.w.log + st.batchData.length + 1 := by
      unfold keyRow
      dsimp only
      split_ifs
      · refine ⟨rfl, ?_⟩
        rw [insertsDone_begin_commit, insertsDone_processKeyBasedBatch ts d.now _ _ _ _ _ _ _
          (hok _).1 (hok _).2.1 (hok _).2.2 (by simp [h])]
        simp
        omega
      · refine ⟨by simp [h], ?_⟩
        simp
        omega
    obtain ⟨h1, h2⟩ := ih _ hstep.1
    refine ⟨h1, ?_⟩
    rw [h2, hstep.2, List.length_cons]
    omega

/-- The main path of `SyncKeyBased`: with a primary-key column among the
columns, a stored last key, a positive count of new rows and an opened
cursor, the function is its row loop, the batch of what is pending, the final
commit and the writing of the progress record. -/
theorem syncKeyBased_main (ts : TableSyncer) (d : Driver) (w : World) (ti : TableInfo)
    (rows : List Row) (k : Nat) (n : Int) (hpk : ti.pkColumn ≠ "")
    (hkey : (SyncState.GetLastSync d.uninit w.db.sync_state ti.tableName).lastKeyValue ≠ "")
    (hcount : d.count = CountOutcome.rows n) (hn : n ≠ 0) (hcur : d.cursor = some rows)
    (hk : findPkIndex ti.columns ti.pkColumn = some k) (st : KeyState)
    (hst : st = rows.foldl (keyRow ts d ti k)
      { w := BeginTransaction (keyStart d w ti), rowsSynced := 0,
        lastValue := (SyncState.GetLastSync d.uninit w.db.sync_state ti.tableName).lastKeyValue,
        pkValues := [], batchData := [], batches := 0 }) :
    SyncKeyBased ts d w ti =
      ((CommitTransaction
          (if st.batchData ≠ [] then
            ProcessKeyBasedBatch ts d.now (d.batch st.batches) st.w ti.tableName ti.columns
              ti.pkColumn st.pkValues st.batchData
          else st.w)).updateSyncState d.now ti.tableName st.lastValue "key_based"
        ((SyncState.GetLastSync d.uninit w.db.sync_state ti.tableName).rowCount +
          ((st.rowsSynced + st.batchData.length : Nat) : Int)),
       st.rowsSynced + st.batchData.length) := by
  subst hst
  unfold SyncKeyBased keyStart
  rw [if_neg hpk]
  simp only [hkey, hcount, hn, hcur, hk, if_false]

/-- The run of `SyncKeyBased` on its main path, whatever the batch statements
answer. -/
theorem syncKeyBased_run (ts : TableSyncer) (d : Driver) (w : World) (ti : TableInfo)
    (rows : List Row) (k : Nat) (n : Int) (hpk : ti.pkColumn ≠ "")
    (hkey : (SyncState.GetLastSync d.uninit w.db.sync_state ti.tableName).lastKeyValue ≠ "")
    (hcount : d.count = CountOutcome.rows n) (hn : n ≠ 0) (hcur : d.cursor = some rows)
    (hk : findPkIndex ti.columns ti.pkColumn = some k) :
    (SyncKeyBased ts d w ti).2 = rows.length ∧
    (SyncKeyBased ts d w ti).1.db.sync_state =
      SyncState.UpdateSyncState d.now w.db.sync_state ti.tableName
        (keyLastValue (SyncState.GetLastSync d.uninit w.db.sync_state ti.tableName).lastKeyValue
          ti.columns k rows) "key_based"
        ((SyncState.GetLastSync d.uninit w.db.sync_state ti.tableName).rowCount +
          (rows.length : Int)) ∧
    (∃ l, (SyncKeyBased ts d w ti).1.log =
      l ++ [Cmd.commit, Cmd.updateSyncState ti.tableName
        (keyLastValue (SyncState.GetLastSync d.uninit w.db.sync_state ti.tableName).lastKeyValue
          ti.columns k rows) "key_based"
        ((SyncState.GetLastSync d.uninit w.db.sync_state ti.tableName).rowCount +
          (rows.length : Int))]) ∧
    (SyncKeyBased ts d w ti).1.log.count Cmd.rollback = w.log.count Cmd.rollback ∧
    (SyncKeyBased ts d w ti).1.snapshot = none ∧
    (BatchesOk d → insertsDone (SyncKeyBased ts d w ti).1.log = insertsDone w.log + rows.length) := by
  have hc := keyLoop_count ts d ti k rows
    { w := BeginTransaction (keyStart d w ti), rowsSynced := 0,
      lastValue := (SyncState.GetLastSync d.uninit w.db.sync_state ti.tableName).lastKeyValue,
      pkValues := [], batchData := [], batches := 0 }
  have hl := keyLoop_lastValue ts d ti k rows
    { w := BeginTransaction (keyStart d w ti), rowsSynced := 0,
      lastValue := (SyncState.GetLastSync d.uninit w.db.sync_state ti.tableName).lastKeyValue,
      pkValues := [], batchData := [], batches := 0 }
  have hs := keyLoop_steady ts d ti k rows
    { w := BeginTransaction (keyStart d w ti), rowsSynced := 0,
      lastValue := (SyncState.GetLastSync d.uninit w.db.sync_state ti.tableName).lastKeyValue,
      pkValues := [], batchData := [], batches := 0 }
  have hi := fun hok => keyLoop_inserts ts d ti k hok rows
    { w := BeginTransaction (keyStart d w ti), rowsSynced := 0,
      lastValue := (SyncState.GetLastSync d.uninit w.db.sync_state ti.tableName).lastKeyValue,
      pkValues := [], batchData := [], batches := 0 } rfl
  rw [syncKeyBased_main ts d w ti rows k n hpk hkey hcount hn hcur hk _ rfl]
  generalize rows.foldl (keyRow ts d ti k)
    { w := BeginTransaction (keyStart d w ti), rowsSynced := 0,
      lastValue := (SyncState.GetLastSync d.uninit w.db.sync_state ti.tableName).lastKeyValue,
      pkValues := [], batchData := [], batches := 0 } = st at hc hl hs hi ⊢
  dsimp only at hc hl hs hi ⊢
  have hcount2 : st.rowsSynced + st.batchData.length = rows.length := by
    rw [hc]
    simp
  have hw1 : Steady w
      (if st.batchData ≠ [] then
        ProcessKeyBasedBatch ts d.now (d.batch st.batches) st.w ti.tableName ti.columns
          ti.pkColumn st.pkValues st.batchData
      else st.w) := by
    refine steady_trans (steady_trans (steady_begin w) hs) ?_
    split_ifs
    · exact steady_processKeyBasedBatch _ _ _ _ _ _ _ _ _
    · exact steady_refl _
  rw [hcount2, hl]
  refine ⟨rfl, ?_, ⟨_, commit_update_log _ _ _ _ _ _⟩, ?_, rfl, ?_⟩
  · simp only [World.updateSyncState, commit_db]
    rw [hw1.1]
  · rw [commit_update_log, List.count_append, hw1.2]
    rfl
  · intro hok
    obtain ⟨hkeys, hins⟩ := hi hok
    rw [commit_update_log, insertsDone_append]
    have h2 : insertsDone [Cmd.commit, Cmd.updateSyncState ti.tableName
        (keyLastValue (SyncState.GetLastSync d.uninit w.db.sync_state ti.tableName).lastKeyValue
          ti.columns k rows) "key_based"
        ((SyncState.GetLastSync d.uninit w.db.sync_state ti.tableName).rowCount +
          (rows.length : Int))] = 0 := rfl
    rw [h2, Nat.add_zero]
    have h3 : insertsDone (BeginTransaction (keyStart d w ti)).log = insertsDone w.log := by
      simp [keyStart, insertsDone_append, insertsDone, Cmd.isInsertDone]
    split_ifs with hb
    · rw [insertsDone_processKeyBasedBatch ts d.now _ _ _ _ _ _ _
        (hok _).1 (hok _).2.1 (hok _).2.2 hkeys, hins, h3]
      simp
    · have : st.batchData.length = 0 := by
        rw [not_not.mp hb]
        rfl
      rw [this, h3] at hins
      simp only [List.length_nil] at hins
      omega

/-- Claim C12: after a `SyncKeyBased` on its main path (primary-key column
among the columns, a stored last key, source count and cursor obtained) that
fetches at least one row, the value returned is the number of rows fetched,
the progress record written is `(last_pk, "key_based", prior_count + rows)`
with `last_pk` the primary-key value of the last row fetched, `prior_count` the
row count stored before the run and `rows` the value returned; when every batch
statement succeeds, `rows` is the number of rows inserted into the
destination; and when the rows are delivered in ascending key order (for any
reflexive order `le`), `last_pk` is the largest key observed. -/
theorem syncKeyBased_progress (ts : TableSyncer) (d : Driver) (w : World) (ti : TableInfo)
    (rows : List Row) (k : Nat) (n : Int) (last : Row) (_hbatch : 0 < ts.batchSize)
    (hpk : ti.pkColumn ≠ "")
    (hkey : (SyncState.GetLastSync d.uninit w.db.sync_state ti.tableName).lastKeyValue ≠ "")
    (hcount : d.count = CountOutcome.rows n) (hn : n ≠ 0) (hcur : d.cursor = some rows)
    (hk : findPkIndex ti.columns ti.pkColumn = some k) (hlast : rows.getLast? = some last) :
    (SyncKeyBased ts d w ti).2 = rows.length ∧
    SyncState.GetLastSync d.uninit (SyncKeyBased ts d w ti).1.db.sync_state ti.tableName =
      { lastSyncTime := d.now, lastKeyValue := pkField ti last, syncMethod := "key_based",
        rowCount := (SyncState.GetLastSync d.uninit w.db.sync_state ti.tableName).rowCount +
          ((SyncKeyBased ts d w ti).2 : Int) } ∧
    (SyncKeyBased ts d w ti).1.log.getLast? =
      some (Cmd.updateSyncState ti.tableName (pkField ti last) "key_based"
        ((SyncState.GetLastSync d.uninit w.db.sync_state ti.tableName).rowCount +
          ((SyncKeyBased ts d w ti).2 : Int))) ∧
    (BatchesOk d →
      insertsDone (SyncKeyBased ts d w ti).1.log =
        insertsDone w.log + (SyncKeyBased ts d w ti).2) ∧
    (∀ le : String → String → Prop, (∀ x, le x x) →
      rows.Pairwise (fun a b => le (pkField ti a) (pkField ti b)) →
      ∀ r ∈ rows, le (pkField ti r) (pkField ti last)) := by
  obtain ⟨h1, h2, ⟨l, h3⟩, _, _, h6⟩ :=
    syncKeyBased_run ts d w ti rows k n hpk hkey hcount hn hcur hk
  have hv : keyLastValue
      (SyncState.GetLastSync d.uninit w.db.sync_state ti.tableName).lastKeyValue ti.columns k
      rows = pkField ti last := by
    unfold keyLastValue
    rw [hlast, pkField_eq ti k hk]
  rw [hv] at h2 h3
  refine ⟨h1, ?_, ?_, ?_, ?_⟩
  · rw [h2, getLastSync_update, h1]
  · rw [h3, h1]
    simp
  · rw [h1]
    exact h6
  · intro le hrefl hp r hr
    exact pairwise_getLast (fun a b => le (pkField ti a) (pkField ti b)) (fun x => hrefl _)
      rows last hlast hp r hr

/-- Scenario: `orders` was synchronised up to key `"1"` with 5 rows recorded;
the key-based sync fetches `(2, "20")`, `(3, "30")`, returns 2 and records
`("3", "key_based", 7)`. -/
theorem syncKeyBased_progress_witness :
    (SyncKeyBased (Scenario.syncer false) (Scenario.driver [["2", "20"], ["3", "30"]])
      (Scenario.synced [] "1" "key_based" 5) Scenario.orders).2 = 2 ∧
    SyncState.GetLastSync 0
      (SyncKeyBased (Scenario.syncer false) (Scenario.driver [["2", "20"], ["3", "30"]])
        (Scenario.synced [] "1" "key_based" 5) Scenario.orders).1.db.sync_state "orders" =
      { lastSyncTime := "2024-01-01 00:00:00", lastKeyValue := "3",
        syncMethod := "key_based", rowCount := 7 } :=
  have h := syncKeyBased_progress (Scenario.syncer false)
    (Scenario.driver [["2", "20"], ["3", "30"]]) (Scenario.synced [] "1" "key_based" 5)
    Scenario.orders [["2", "20"], ["3", "30"]] 0 2 ["3", "30"] (by decide) (by decide)
    (by decide) rfl (by decide) rfl rfl rfl
  ⟨h.1, h.2.1.trans (by decide)⟩

/-! ### The row loop of the hash-based strategy and the progress store -/

theorem hashRow_steady (ts : TableSyncer) (d : Driver) (ti : TableInfo) (k : Nat)
    (st : HashState) (cur : Row) : Steady st.w (hashRow ts d ti k st cur).w := by
  have key : ∀ st1 : HashState, st1.w = st.w →
      Steady st.w (BeginTransaction (CommitTransaction (hashBatch ts d ti st1).1)) := by
    intro st1 h
    rw [← h]
    exact steady_trans (steady_trans (steady_hashBatch ts d ti st1) (steady_commit _))
      (steady_begin _)
  unfold hashRow
  dsimp only
  split_ifs
  · exact key _ rfl
  · exact steady_refl _
  · exact key _ rfl
  · exact steady_refl _

theorem hashLoop_steady (ts : TableSyncer) (d : Driver) (ti : TableInfo) (k : Nat) :
    ∀ (rows : List Row) (st : HashState),
    Steady st.w (rows.foldl (hashRow ts d ti k) st).w := by
  intro rows
  induction rows with
  | nil => intro st; exact steady_refl _
  | cons c rest ih =>
    intro st
    rw [List.foldl_cons]
    exact steady_trans (hashRow_steady ts d ti k st c) (ih _)

/-- The run of `SyncHashBased` on its main path (primary-key column among the
columns, hashing enabled, cursor obtained), whatever the batch statements
answer. -/
theorem syncHashBased_run (ts : TableSyncer) (d : Driver) (w : World) (ti : TableInfo)
    (rows : List Row) (k : Nat) (hpk : ti.pkColumn ≠ "") (hhash : ts.hashEnabled = true)
    (hcur : d.cursor = some rows) (hk : findPkIndex ti.columns ti.pkColumn = some k) :
    (SyncHashBased ts d w ti).1.db.sync_state =
      SyncState.UpdateSyncState d.now w.db.sync_state ti.tableName "" "hash_based"
        (SyncState.GetLastSync d.uninit w.db.sync_state ti.tableName).rowCount ∧
    (∃ l, (SyncHashBased ts d w ti).1.log =
      l ++ [Cmd.commit, Cmd.updateSyncState ti.tableName "" "hash_based"
        (SyncState.GetLastSync d.uninit w.db.sync_state ti.tableName).rowCount]) ∧
    (SyncHashBased ts d w ti).1.log.count Cmd.rollback = w.log.count Cmd.rollback ∧
    (SyncHashBased ts d w ti).1.snapshot = none := by
  have hs := hashLoop_steady ts d ti k rows
    { w := BeginTransaction (w.query (hashQuery ti)), rowsSynced := 0, pkValues := [],
            rowHashes := [],
      batchData := [], batches := 0 }
  unfold SyncHashBased
  rw [if_neg (by simp [hpk, hhash])]
  simp only [hcur, hk]
  generalize rows.foldl (hashRow ts d ti k)
    { w := BeginTransaction (w.query (hashQuery ti)), rowsSynced := 0, pkValues := [],
            rowHashes := [],
      batchData := [], batches := 0 } = st at hs ⊢
  dsimp only at hs
  have hw1 : Steady w
      (if st.batchData ≠ [] then hashBatch ts d ti st else (st.w, st.rowsSynced)).1 := by
    refine steady_trans (steady_trans (steady_begin w) hs) ?_
    split_ifs
    · exact steady_hashBatch ts d ti st
    · exact steady_refl _
  generalize (if st.batchData ≠ [] then hashBatch ts d ti st else (st.w, st.rowsSynced)) = r
    at hw1 ⊢
  have hss : (CommitTransaction r.1).db.sync_state = w.db.sync_state := hw1.1
  rw [hss]
  refine ⟨?_, ⟨_, commit_update_log _ _ _ _ _ _⟩, ?_, rfl⟩
  · simp only [World.updateSyncState, commit_db]
    rw [hw1.1]
  · rw [commit_update_log, List.count_append, hw1.2]
    rfl

/-- Claim C13: after a `SyncHashBased` on its main path (primary-key column
among the columns, hashing enabled, cursor obtained), whatever rows are
fetched, whatever the hash store holds and whatever the batch statements
answer, the progress record written has `last_key_value = ""`,
`sync_method = "hash_based"` and the row count read from the record stored
before the run. -/
theorem syncHashBased_progress (ts : TableSyncer) (d : Driver) (w : World) (ti : TableInfo)
    (rows : List Row) (k : Nat) (prior : SyncStateRow) (_hbatch : 0 < ts.batchSize)
    (hpk : ti.pkColumn ≠ "") (hhash : ts.hashEnabled = true)
    (hcur : d.cursor = some rows) (hk : findPkIndex ti.columns ti.pkColumn = some k)
    (hprior : w.db.sync_state.find? (fun r => r.table_name == ti.tableName) = some prior) :
    SyncState.GetLastSync d.uninit (SyncHashBased ts d w ti).1.db.sync_state ti.tableName =
      { lastSyncTime := d.now, lastKeyValue := "", syncMethod := "hash_based",
        rowCount := prior.row_count.getD 0 } ∧
    (SyncHashBased ts d w ti).1.log.getLast? =
      some (Cmd.updateSyncState ti.tableName "" "hash_based" (prior.row_count.getD 0)) := by
  obtain ⟨h1, ⟨l, h2⟩, _, _⟩ := syncHashBased_run ts d w ti rows k hpk hhash hcur hk
  have hp : (SyncState.GetLastSync d.uninit w.db.sync_state ti.tableName).rowCount =
      prior.row_count.getD 0 := by
    unfold SyncState.GetLastSync
    rw [hprior]
  rw [hp] at h1 h2
  refine ⟨?_, ?_⟩
  · rw [h1, getLastSync_update]
  · rw [h2]
    simp

/-- Scenario: `orders` has the record `("1", "key_based", 5)`; the hash-based
sync over the rows `(1, "10")`, `(2, "20")`, none of which has a stored hash,
records `("", "hash_based", 5)`. -/
theorem syncHashBased_progress_witness :
    SyncState.GetLastSync 0
      (SyncHashBased (Scenario.syncer true) (Scenario.driver [["1", "10"], ["2", "20"]])
        (Scenario.synced [] "1" "key_based" 5) Scenario.orders).1.db.sync_state "orders" =
      { lastSyncTime := "2024-01-01 00:00:00", lastKeyValue := "",
        syncMethod := "hash_based", rowCount := 5 } :=
  (syncHashBased_progress (Scenario.syncer true) (Scenario.driver [["1", "10"], ["2", "20"]])
    (Scenario.synced [] "1" "key_based" 5) Scenario.orders [["1", "10"], ["2", "20"]] 0
    { table_name := "orders", last_sync_time := some "2023-12-31 00:00:00",
      last_key_value := some "1", sync_method := some "key_based", row_count := some 5 }
    (by decide) (by decide) rfl rfl rfl rfl).1

/-! ### The row loop of the timestamp strategy -/

theorem timestampRow_steady (ts : TableSyncer) (d : Driver) (ti : TableInfo)
    (pkIndex : Option Nat) (st : TimestampState) (cur : Row) :
    Steady st.w (timestampRow ts d ti pkIndex st cur).w := by
  unfold timestampRow
  dsimp only
  split_ifs
  · exact steady_trans (steady_trans (steady_timestampBatch _ _ _ _ _ _ _ _) (steady_commit _))
      (steady_begin _)
  · exact steady_refl _

theorem timestampLoop_steady (ts : TableSyncer) (d : Driver) (ti : TableInfo)
    (pkIndex : Option Nat) : ∀ (rows : List Row) (st : TimestampState),
    Steady st.w (rows.foldl (timestampRow ts d ti pkIndex) st).w := by
  intro rows
  induction rows with
  | nil => intro st; exact steady_refl _
  | cons c rest ih =>
    intro st
    rw [List.foldl_cons]
    exact steady_trans (timestampRow_steady ts d ti pkIndex st c) (ih _)

/-- The rows counted and the rows pending always add up to the rows fetched. -/
theorem timestampLoop_count (ts : TableSyncer) (d : Driver) (ti : TableInfo)
    (pkIndex : Option Nat) : ∀ (rows : List Row) (st : TimestampState),
    (rows.foldl (timestampRow ts d ti pkIndex) st).rowsSynced +
        (rows.foldl (timestampRow ts d ti pkIndex) st).batchData.length =
      st.rowsSynced + st.batchData.length + rows.length := by
  intro rows
  induction rows with
  | nil => intro st; rfl
  | cons c rest ih =>
    intro st
    rw [List.foldl_cons, ih]
    unfold timestampRow
    dsimp only
    split_ifs <;> simp <;> omega

/-- Without a primary-key index no key is collected. -/
theorem timestampLoop_pkValues_none (ts : TableSyncer) (d : Driver) (ti : TableInfo) :
    ∀ (rows : List Row) (st : TimestampState), st.pkValues = [] →
    (rows.foldl (timestampRow ts d ti none) st).pkValues = [] := by
  intro rows
  induction rows with
  | nil => intro st h; exact h
  | cons c rest ih =>
    intro st h
    rw [List.foldl_cons]
    apply ih
    unfold timestampRow
    dsimp only
    split_ifs
    · rfl
    · exact h

/-- One iteration with a primary-key index: the pending keys are the keys of
the pending rows, fewer than `batchSize` rows are pending, and a non-empty
pending batch ends with the row just fetched. -/
theorem timestampRow_pending (ts : TableSyncer) (d : Driver) (ti : TableInfo) (k : Nat)
    (st : TimestampState) (cur : Row) (hb : 0 < ts.batchSize)
    (hlen : st.batchData.length < ts.batchSize)
    (hkeys : st.pkValues = st.batchData.map (fun r => r.getD k "")) :
    (timestampRow ts d ti (some k) st cur).batchData.length < ts.batchSize ∧
    (timestampRow ts d ti (some k) st cur).pkValues =
      (timestampRow ts d ti (some k) st cur).batchData.map (fun r => r.getD k "") ∧
    (timestampRow ts d ti (some k) st cur).batchData.length =
      (st.batchData.length + 1) % ts.batchSize ∧
    ((timestampRow ts d ti (some k) st cur).batchData ≠ [] →
      (timestampRow ts d ti (some k) st cur).batchData.getLast? =
        some (fetchRowData ti.columns cur)) := by
  unfold timestampRow
  dsimp only
  split_ifs with h
  · simp only [List.length_append, List.length_singleton, ge_iff_le] at h
    have : st.batchData.length + 1 = ts.batchSize := by omega
    refine ⟨hb, rfl, ?_, fun hne => absurd rfl hne⟩
    rw [this, Nat.mod_self]
    rfl
  · simp only [List.length_append, List.length_singleton, ge_iff_le, not_le] at h
    refine ⟨by simpa using h, by simp [hkeys], ?_, fun _ => by simp⟩
    rw [Nat.mod_eq_of_lt h]
    simp

/-- The row loop with a primary-key index: what is pending at its end. -/
theorem timestampLoop_pending (ts : TableSyncer) (d : Driver) (ti : TableInfo) (k : Nat)
    (hb : 0 < ts.batchSize) : ∀ (rows : List Row) (st : TimestampState),
    st.batchData.length < ts.batchSize →
    st.pkValues = st.batchData.map (fun r => r.getD k "") →
    (rows.foldl (timestampRow ts d ti (some k)) st).pkValues =
      (rows.foldl (timestampRow ts d ti (some k)) st).batchData.map (fun r => r.getD k "") ∧
    (rows.foldl (timestampRow ts d ti (some k)) st).batchData.length =
      (st.batchData.length + rows.length) % ts.batchSize ∧
    (∀ last, rows.getLast? = some last →
      (rows.foldl (timestampRow ts d ti (some k)) st).batchData ≠ [] →
      (rows.foldl (timestampRow ts d ti (some k)) st).batchData.getLast? =
        some (fetchRowData ti.columns last)) := by
  intro rows
  induction rows with
  | nil =>
    intro st hlen hkeys
    refine ⟨hkeys, ?_, ?_⟩
    · rw [List.foldl_nil, List.length_nil, Nat.add_zero, Nat.mod_eq_of_lt hlen]
    · intro last hl
      simp at hl
  | cons c rest ih =>
    intro st hlen hkeys
    rw [List.foldl_cons]
    obtain ⟨h1, h2, h3, h4⟩ := timestampRow_pending ts d ti k st c hb hlen hkeys
    obtain ⟨i1, i2, i3⟩ := ih _ h1 h2
    refine ⟨i1, ?_, ?_⟩
    · rw [i2, h3, List.length_cons, Nat.mod_add_mod]
      congr 1
      omega
    · intro last hl hne
      cases rest with
      | nil =>
        have : c = last := by simpa using hl
        subst this
        exact h4 hne
      | cons c2 rest2 =>
        rw [List.getLast?_cons_cons] at hl
        exact i3 last hl hne

/-- The main path of `SyncTimestampBased`: with a stored last sync time, a
timestamp column and an opened cursor, the function is its row loop, the batch
of what is pending, the final commit and the writing of the progress record. -/
theorem syncTimestampBased_main (ts : TableSyncer) (d : Driver) (w : World) (ti : TableInfo)
    (rows : List Row)
    (htime : (SyncState.GetLastSync d.uninit w.db.sync_state ti.tableName).lastSyncTime ≠ "")
    (hcol : FindTimestampColumn ti.columns ≠ "") (hcur : d.cursor = some rows)
    (pkIndex : Option Nat)
    (hidx : pkIndex = if ti.pkColumn ≠ "" then findPkIndex ti.columns ti.pkColumn else none)
    (st : TimestampState)
    (hst : st = rows.foldl (timestampRow ts d ti pkIndex)
      { w := BeginTransaction (timestampStart d w ti), rowsSynced := 0, pkValues := [],
            batchData := [],
        batches := 0 }) :
    SyncTimestampBased ts d w ti =
      ((CommitTransaction
          (if st.batchData ≠ [] then
            timestampBatch ts d ti pkIndex st.batches st.w st.pkValues st.batchData
          else st.w)).updateSyncState d.now ti.tableName
        (timestampLastKey pkIndex st.pkValues) "timestamp"
        ((SyncState.GetLastSync d.uninit w.db.sync_state ti.tableName).rowCount +
          ((st.rowsSynced + st.batchData.length : Nat) : Int)),
       st.rowsSynced + st.batchData.length) := by
  subst hst hidx
  unfold SyncTimestampBased timestampStart
  simp only [htime, hcol, hcur, if_false]

/-- The run of `SyncTimestampBased` on its main path, whatever the batch
statements answer: the value returned, the progress record written with some
key `key`, and the value of `key`. -/
theorem syncTimestampBased_run (ts : TableSyncer) (d : Driver) (w : World) (ti : TableInfo)
    (rows : List Row)
    (htime : (SyncState.GetLastSync d.uninit w.db.sync_state ti.tableName).lastSyncTime ≠ "")
    (hcol : FindTimestampColumn ti.columns ≠ "") (hcur : d.cursor = some rows) :
    (SyncTimestampBased ts d w ti).2 = rows.length ∧
    ∃ key,
      (SyncTimestampBased ts d w ti).1.db.sync_state =
        SyncState.UpdateSyncState d.now w.db.sync_state ti.tableName key "timestamp"
          ((SyncState.GetLastSync d.uninit w.db.sync_state ti.tableName).rowCount +
            (rows.length : Int)) ∧
      (∃ l, (SyncTimestampBased ts d w ti).1.log =
        l ++ [Cmd.commit, Cmd.updateSyncState ti.tableName key "timestamp"
          ((SyncState.GetLastSync d.uninit w.db.sync_state ti.tableName).rowCount +
            (rows.length : Int))]) ∧
      (SyncTimestampBased ts d w ti).1.log.count Cmd.rollback = w.log.count Cmd.rollback ∧
      (SyncTimestampBased ts d w ti).1.snapshot = none ∧
      ((ti.pkColumn = "" ∨ findPkIndex ti.columns ti.pkColumn = none ∨ rows = []) → key = "") ∧
      (∀ k last, ti.pkColumn ≠ "" → findPkIndex ti.columns ti.pkColumn = some k →
        rows.getLast? = some last → 0 < ts.batchSize →
        key = if rows.length % ts.batchSize = 0 then "" else pkValueOf ti.columns k last) := by
  have hmain := syncTimestampBased_main ts d w ti rows htime hcol hcur _ rfl _ rfl
  rw [hmain]
  have hc := timestampLoop_count ts d ti
    (if ti.pkColumn ≠ "" then findPkIndex ti.columns ti.pkColumn else none) rows
    { w := BeginTransaction (timestampStart d w ti), rowsSynced := 0, pkValues := [],
            batchData := [], batches := 0 }
  have hs := timestampLoop_steady ts d ti
    (if ti.pkColumn ≠ "" then findPkIndex ti.columns ti.pkColumn else none) rows
    { w := BeginTransaction (timestampStart d w ti), rowsSynced := 0, pkValues := [],
            batchData := [], batches := 0 }
  have hcount2 : (rows.foldl (timestampRow ts d ti
        (if ti.pkColumn ≠ "" then findPkIndex ti.columns ti.pkColumn else none))
      { w := BeginTransaction (timestampStart d w ti), rowsSynced := 0, pkValues := [],
            batchData := [],
        batches := 0 }).rowsSynced +
      (rows.foldl (timestampRow ts d ti
        (if ti.pkColumn ≠ "" then findPkIndex ti.columns ti.pkColumn else none))
      { w := BeginTransaction (timestampStart d w ti), rowsSynced := 0, pkValues := [],
            batchData := [],
        batches := 0 }).batchData.length = rows.length := by
    rw [hc]
    simp
  have hkey1 : (ti.pkColumn = "" ∨ findPkIndex ti.columns ti.pkColumn = none ∨ rows = []) →
      timestampLastKey (if ti.pkColumn ≠ "" then findPkIndex ti.columns ti.pkColumn else none)
        (rows.foldl (timestampRow ts d ti
          (if ti.pkColumn ≠ "" then findPkIndex ti.columns ti.pkColumn else none))
        { w := BeginTransaction (timestampStart d w ti), rowsSynced := 0, pkValues := [],
            batchData := [],
          batches := 0 }).pkValues = "" := by
    intro h
    rcases h with h | h | h
    · rw [if_neg (not_not.mpr h)]
      rfl
    · by_cases hp : ti.pkColumn ≠ ""
      · rw [if_pos hp, h]
        rfl
      · rw [if_neg hp]
        rfl
    · rw [h, List.foldl_nil]
      unfold timestampLastKey
      cases (if ti.pkColumn ≠ "" then findPkIndex ti.columns ti.pkColumn else none) <;> rfl
  have hkey2 : ∀ k last, ti.pkColumn ≠ "" → findPkIndex ti.columns ti.pkColumn = some k →
      rows.getLast? = some last → 0 < ts.batchSize →
      timestampLastKey (if ti.pkColumn ≠ "" then findPkIndex ti.columns ti.pkColumn else none)
        (rows.foldl (timestampRow ts d ti
          (if ti.pkColumn ≠ "" then findPkIndex ti.columns ti.pkColumn else none))
        { w := BeginTransaction (timestampStart d w ti), rowsSynced := 0, pkValues := [],
            batchData := [],
          batches := 0 }).pkValues =
        if rows.length % ts.batchSize = 0 then "" else pkValueOf ti.columns k last := by
    intro k last hp hk hl hb
    rw [if_pos hp, hk]
    obtain ⟨p1, p2, p3⟩ := timestampLoop_pending ts d ti k hb rows
      { w := BeginTransaction (timestampStart d w ti), rowsSynced := 0, pkValues := [],
            batchData := [],
        batches := 0 } hb rfl
    simp only [List.length_nil, Nat.zero_add] at p2
    rw [p1]
    unfold timestampLastKey
    by_cases hm : rows.length % ts.batchSize = 0
    · rw [if_pos hm]
      rw [hm] at p2
      rw [List.length_eq_zero.mp p2]
      rfl
    · rw [if_neg hm]
      have hne : (rows.foldl (timestampRow ts d ti (some k))
          { w := BeginTransaction (timestampStart d w ti), rowsSynced := 0, pkValues := [],
            batchData := [],
            batches := 0 }).batchData ≠ [] := by
        intro h
        rw [h] at p2
        exact hm p2.symm
      rw [List.getLast?_map, p3 last hl hne]
      rfl
  generalize rows.foldl (timestampRow ts d ti
      (if ti.pkColumn ≠ "" then findPkIndex ti.columns ti.pkColumn else none))
    { w := BeginTransaction (timestampStart d w ti), rowsSynced := 0, pkValues := [],
            batchData := [],
      batches := 0 } = st at hs hcount2 hkey1 hkey2 ⊢
  generalize (if ti.pkColumn ≠ "" then findPkIndex ti.columns ti.pkColumn else none) = pkIndex
    at hs hkey1 hkey2 ⊢
  dsimp only at hs ⊢
  have hw1 : Steady w
      (if st.batchData ≠ [] then
        timestampBatch ts d ti pkIndex st.batches st.w st.pkValues st.batchData
      else st.w) := by
    refine steady_trans (steady_trans (steady_begin w) hs) ?_
    split_ifs
    · exact steady_timestampBatch _ _ _ _ _ _ _ _
    · exact steady_refl _
  rw [hcount2]
  refine ⟨rfl, timestampLastKey pkIndex st.pkValues, ?_, ⟨_, commit_update_log _ _ _ _ _ _⟩,
    ?_, rfl, hkey1, hkey2⟩
  · simp only [World.updateSyncState, commit_db]
    rw [hw1.1]
  · rw [commit_update_log, List.count_append, hw1.2]
    rfl

/-- Claim C19, counterexample: `orders` has the record `("1", "key_based", 5)`
and batch size is 2.  The key-based sync fetches `(2, "20")`, `(3, "30")`,
`(4, "40")`; the first batch is applied and committed, and in the second batch
the `DELETE` fails.  The strategy issues no `ROLLBACK`, returns 3 (not the 2
rows committed), and ends by writing the progress record `("4", "key_based",
8)`, while the destination holds only the two rows of the first batch. -/
theorem syncKeyBased_failed_batch_counted :
    (SyncKeyBased Scenario.pairs
      { Scenario.driver [["2", "20"], ["3", "30"], ["4", "40"]] with
        batch := fun b => if b = 1 then { Scenario.allOk with deleteOk := false }
          else Scenario.allOk }
      (Scenario.synced [] "1" "key_based" 5) Scenario.orders).2 = 3 ∧
    (SyncKeyBased Scenario.pairs
      { Scenario.driver [["2", "20"], ["3", "30"], ["4", "40"]] with
        batch := fun b => if b = 1 then { Scenario.allOk with deleteOk := false }
          else Scenario.allOk }
      (Scenario.synced [] "1" "key_based" 5) Scenario.orders).1.log.count Cmd.rollback = 0 ∧
    (SyncKeyBased Scenario.pairs
      { Scenario.driver [["2", "20"], ["3", "30"], ["4", "40"]] with
        batch := fun b => if b = 1 then { Scenario.allOk with deleteOk := false }
          else Scenario.allOk }
      (Scenario.synced [] "1" "key_based" 5) Scenario.orders).1.log.getLast? =
        some (Cmd.updateSyncState "orders" "4" "key_based" 8) ∧
    (SyncKeyBased Scenario.pairs
      { Scenario.driver [["2", "20"], ["3", "30"], ["4", "40"]] with
        batch := fun b => if b = 1 then { Scenario.allOk with deleteOk := false }
          else Scenario.allOk }
      (Scenario.synced [] "1" "key_based" 5) Scenario.orders).1.db.tables "orders" =
        [[("id", some "2"), ("total", some "20")], [("id", some "3"), ("total", some "30")]] := by
  decide

/-! ### The row count recorded by a run of `SyncTable` -/

/-- What the selection of an incremental strategy says about the table. -/
theorem getSyncStrategy_incremental (ts : TableSyncer) (uninit : Int)
    (S : List SyncStateRow) (ti : TableInfo) (fullSync : Bool) :
    (GetSyncStrategy ts uninit S ti fullSync = "key_based" → ti.pkColumn ≠ "") ∧
    (GetSyncStrategy ts uninit S ti fullSync = "hash_based" →
      ts.hashEnabled = true ∧ ti.pkColumn ≠ "") ∧
    (GetSyncStrategy ts uninit S ti fullSync = "timestamp" →
      (SyncState.GetLastSync uninit S ti.tableName).lastSyncTime ≠ "") := by
  unfold GetSyncStrategy
  dsimp only
  refine ⟨?_, ?_, ?_⟩
  · split_ifs with h1 h2 h3 h4
    · intro h; exact absurd h (by decide)
    · intro h; exact absurd h (by decide)
    · intro h; exact absurd h (by decide)
    · intro _; exact h4
    · intro h; exact absurd h (by decide)
  · split_ifs with h1 h2 h3 h4
    · intro h; exact absurd h (by decide)
    · intro h; exact absurd h (by decide)
    · intro _; exact h3
    · intro h; exact absurd h (by decide)
    · intro h; exact absurd h (by decide)
  · split_ifs with h1 h2 h3 h4
    · intro h; exact absurd h (by decide)
    · intro h; exact absurd h (by decide)
    · intro h; exact absurd h (by decide)
    · intro h; exact absurd h (by decide)
    · intro _; exact h2

/-- After `EnsureTargetTable` has succeeded, `SyncTable` runs the strategy
selected. -/
theorem syncTable_dispatch (ts : TableSyncer) (e : EnsureOutcome) (d : Driver)
    (schema : Schema) (w : World) (ti : TableInfo) (fullSync : Bool)
    (hens : (EnsureTargetTable e schema ti).2 = true) :
    (GetSyncStrategy ts d.uninit w.db.sync_state ti fullSync = "full" →
      (SyncTable ts e d schema w ti fullSync).2 = SyncFullTable ts d w ti) ∧
    (GetSyncStrategy ts d.uninit w.db.sync_state ti fullSync = "key_based" →
      (SyncTable ts e d schema w ti fullSync).2 = SyncKeyBased ts d w ti) ∧
    (GetSyncStrategy ts d.uninit w.db.sync_state ti fullSync = "hash_based" →
      (SyncTable ts e d schema w ti fullSync).2 = SyncHashBased ts d w ti) ∧
    (GetSyncStrategy ts d.uninit w.db.sync_state ti fullSync = "timestamp" →
      (SyncTable ts e d schema w ti fullSync).2 = SyncTimestampBased ts d w ti) := by
  unfold SyncTable
  rw [if_neg (by simp [hens])]
  dsimp only
  refine ⟨?_, ?_, ?_, ?_⟩
  · intro h
    rw [h, if_pos rfl]
  · intro h
    rw [h, if_neg (by decide), if_pos rfl]
  · intro h
    rw [h, if_neg (by decide), if_neg (by decide), if_pos rfl]
  · intro h
    rw [h, if_neg (by decide), if_neg (by decide), if_neg (by decide), if_pos rfl]

/-- The row count recorded by a `SyncFullTable` that reaches its end is the
value it returns. -/
theorem syncFullTable_rowCount (ts : TableSyncer) (d : Driver) (w : World) (ti : TableInfo)
    (rows : List Row) (hdel : d.deleteOk = true) (hcur : d.cursor = some rows)
    (hprep : d.prepareOk = true) :
    (SyncState.GetLastSync d.uninit (SyncFullTable ts d w ti).1.db.sync_state
      ti.tableName).rowCount = ((SyncFullTable ts d w ti).2 : Int) := by
  obtain ⟨_, h2, _, h4, _⟩ := syncFullTable_run ts d w ti rows hdel hcur hprep
  rw [h4, h2]
  split_ifs <;> rw [getLastSync_update]

/-- Claim C15 (amended): in a run of `SyncTable` whose `EnsureTargetTable`
succeeds and whose source cursor is obtained, an incremental strategy that
runs on its own path records a row count not below the stored one: key-based
(with a stored last key and a positive count of new rows) and timestamp (with
a timestamp column) record the stored count plus the rows fetched, hash-based
records the stored count.  When the strategy selected is full, or key-based is
selected without a stored last key, or timestamp is selected without a
timestamp column, the full strategy runs and records the count of the current
run, which is the value returned. -/
theorem syncTable_row_count (ts : TableSyncer) (e : EnsureOutcome) (d : Driver)
    (schema : Schema) (w : World) (ti : TableInfo) (fullSync : Bool) (rows : List Row)
    (_hbatch : 0 < ts.batchSize) (hens : (EnsureTargetTable e schema ti).2 = true)
    (hcur : d.cursor = some rows) :
    (GetSyncStrategy ts d.uninit w.db.sync_state ti fullSync = "key_based" →
      (SyncState.GetLastSync d.uninit w.db.sync_state ti.tableName).lastKeyValue ≠ "" →
      (∃ n, d.count = CountOutcome.rows n ∧ n ≠ 0) →
      (∃ k, findPkIndex ti.columns ti.pkColumn = some k) →
      (SyncState.GetLastSync d.uninit (SyncTable ts e d schema w ti fullSync).2.1.db.sync_state
        ti.tableName).rowCount =
          (SyncState.GetLastSync d.uninit w.db.sync_state ti.tableName).rowCount +
            (rows.length : Int) ∧
      (SyncState.GetLastSync d.uninit w.db.sync_state ti.tableName).rowCount ≤
        (SyncState.GetLastSync d.uninit (SyncTable ts e d schema w ti fullSync).2.1.db.sync_state
          ti.tableName).rowCount) ∧
    (GetSyncStrategy ts d.uninit w.db.sync_state ti fullSync = "hash_based" →
      (∃ k, findPkIndex ti.columns ti.pkColumn = some k) →
      (SyncState.GetLastSync d.uninit (SyncTable ts e d schema w ti fullSync).2.1.db.sync_state
        ti.tableName).rowCount =
          (SyncState.GetLastSync d.uninit w.db.sync_state ti.tableName).rowCount) ∧
    (GetSyncStrategy ts d.uninit w.db.sync_state ti fullSync = "timestamp" →
      FindTimestampColumn ti.columns ≠ "" →
      (SyncState.GetLastSync d.uninit (SyncTable ts e d schema w ti fullSync).2.1.db.sync_state
        ti.tableName).rowCount =
          (SyncState.GetLastSync d.uninit w.db.sync_state ti.tableName).rowCount +
            (rows.length : Int) ∧
      (SyncState.GetLastSync d.uninit w.db.sync_state ti.tableName).rowCount ≤
        (SyncState.GetLastSync d.uninit (SyncTable ts e d schema w ti fullSync).2.1.db.sync_state
          ti.tableName).rowCount) ∧
    ((GetSyncStrategy ts d.uninit w.db.sync_state ti fullSync = "full" ∨
        (GetSyncStrategy ts d.uninit w.db.sync_state ti fullSync = "key_based" ∧
          (SyncState.GetLastSync d.uninit w.db.sync_state ti.tableName).lastKeyValue = "") ∨
        (GetSyncStrategy ts d.uninit w.db.sync_state ti fullSync = "timestamp" ∧
          FindTimestampColumn ti.columns = "")) →
      d.deleteOk = true → d.prepareOk = true →
      (SyncState.GetLastSync d.uninit (SyncTable ts e d schema w ti fullSync).2.1.db.sync_state
        ti.tableName).rowCount = ((SyncTable ts e d schema w ti fullSync).2.2 : Int) ∧
      (SyncTable ts e d schema w ti fullSync).2.2 =
        ((List.range rows.length).filter (fun i => d.stepOk i)).length) := by
  obtain ⟨hfull, hkb, hhb, htb⟩ := syncTable_dispatch ts e d schema w ti fullSync hens
  obtain ⟨ikb, ihb, itb⟩ :=
    getSyncStrategy_incremental ts d.uninit w.db.sync_state ti fullSync
  refine ⟨?_, ?_, ?_, ?_⟩
  · intro hs hkey ⟨n, hcount, hn⟩ ⟨k, hk⟩
    obtain ⟨_, h2, _⟩ := syncKeyBased_run ts d w ti rows k n (ikb hs) hkey hcount hn hcur hk
    rw [hkb hs, h2, getLastSync_update]
    exact ⟨rfl, by dsimp only; omega⟩
  · intro hs ⟨k, hk⟩
    obtain ⟨h1, _⟩ := syncHashBased_run ts d w ti rows k (ihb hs).2 (ihb hs).1 hcur hk
    rw [hhb hs, h1, getLastSync_update]
  · intro hs hcol
    obtain ⟨_, key, h2, _⟩ := syncTimestampBased_run ts d w ti rows (itb hs) hcol hcur
    rw [htb hs, h2, getLastSync_update]
    exact ⟨rfl, by dsimp only; omega⟩
  · intro hs hdel hprep
    have hrun : (SyncTable ts e d schema w ti fullSync).2 = SyncFullTable ts d w ti := by
      rcases hs with hs | ⟨hs, hkey⟩ | ⟨hs, hcol⟩
      · exact hfull hs
      · rw [hkb hs]
        unfold SyncKeyBased
        rw [if_neg (ikb hs)]
        simp only [hkey, if_true]
      · rw [htb hs]
        unfold SyncTimestampBased
        simp only [itb hs, hcol, if_true, if_false]
    rw [hrun]
    refine ⟨syncFullTable_rowCount ts d w ti rows hdel hcur hprep, ?_⟩
    rw [(syncFullTable_run ts d w ti rows hdel hcur hprep).2.1, insertedFrom_length]
    simp

/-- Scenario: `orders` has the record `("1", "key_based", 5)`; `SyncTable`
selects the key-based strategy, fetches `(2, "20")`, `(3, "30")` and records
the row count 7. -/
theorem syncTable_row_count_witness :
    (SyncState.GetLastSync 0
      (SyncTable (Scenario.syncer false) Scenario.ensureOk
        (Scenario.driver [["2", "20"], ["3", "30"]]) [("orders", ["id", "total"])]
        (Scenario.synced [] "1" "key_based" 5) Scenario.orders false).2.1.db.sync_state
      "orders").rowCount = 7 :=
  ((syncTable_row_count (Scenario.syncer false) Scenario.ensureOk
    (Scenario.driver [["2", "20"], ["3", "30"]]) [("orders", ["id", "total"])]
    (Scenario.synced [] "1" "key_based" 5) Scenario.orders false [["2", "20"], ["3", "30"]]
    (by decide) (by decide) rfl).1 (by decide) (by decide) ⟨2, rfl, by decide⟩
    ⟨0, rfl⟩).1.trans (by decide)

/-- Claim C15, counterexample: `orders(id, total)` is known without a primary
key and has no timestamp column; its record is `("", "timestamp", 5)`.  In a
run that is not a forced full sync the strategy selected is `timestamp`, an
incremental one; the source now holds two rows, every statement succeeds, and
the record written has row count 2, below the stored 5. -/
theorem syncTable_row_count_decreases :
    GetSyncStrategy (Scenario.syncer false) 0
      (Scenario.synced [] "" "timestamp" 5).db.sync_state Scenario.keyless false =
        "timestamp" ∧
    (SyncState.GetLastSync 0 (Scenario.synced [] "" "timestamp" 5).db.sync_state
      "orders").rowCount = 5 ∧
    (SyncState.GetLastSync 0
      (SyncTable (Scenario.syncer false) Scenario.ensureOk
        (Scenario.driver [["1", "10"], ["2", "20"]]) [("orders", ["id", "total"])]
        (Scenario.synced [] "" "timestamp" 5) Scenario.keyless false).2.1.db.sync_state
      "orders").rowCount = 2 := by
  decide

/-! ### The destination schema -/

/-- The columns of a table after a column has been added to it. -/
theorem lookup_addColumn (t col : String) : ∀ (schema : Schema) (cur : List String),
    schema.lookup t = some cur → (addColumn schema t col).lookup t = some (cur ++ [col]) := by
  intro schema
  induction schema with
  | nil => intro cur h; simp at h
  | cons p rest ih =>
    intro cur h
    obtain ⟨name, columns⟩ := p
    unfold addColumn
    rw [List.lookup_cons] at h
    by_cases hn : name = t
    · rw [if_pos hn, List.lookup_cons]
      have : (t == name) = true := by simp [hn]
      rw [this] at h ⊢
      simp only [Option.some.injEq] at h ⊢
      rw [h]
    · rw [if_neg hn, List.lookup_cons]
      have : (t == name) = false := by
        simp only [beq_eq_false_iff_ne, ne_eq]
        exact fun h2 => hn h2.symm
      rw [this] at h ⊢
      exact ih cur h

/-- The statements issued by the column loop extend those issued before. -/
theorem ensureColumns_issued (e : EnsureOutcome) (t : String) (ex : List String) :
    ∀ (cols : List String) (i : Nat) (s : Schema × List Ddl),
    ∃ l, (ensureColumns e t ex i cols s).2 = s.2 ++ l := by
  intro cols
  induction cols with
  | nil => intro i s; exact ⟨[], by simp [ensureColumns]⟩
  | cons col rest ih =>
    intro i s
    unfold ensureColumns
    split_ifs
    · exact ih _ _
    · obtain ⟨l, hl⟩ := ih (i + 1)
        ((ExecAddColumn (e.alterOk i) s.1 t col).1,
          s.2 ++ [Ddl.addColumn t col (ExecAddColumn (e.alterOk i) s.1 t col).2])
      exact ⟨Ddl.addColumn t col (ExecAddColumn (e.alterOk i) s.1 t col).2 :: l,
        by rw [hl]; simp⟩

/-- When every column is already present, the column loop does nothing. -/
theorem ensureColumns_present (e : EnsureOutcome) (t : String) (ex : List String) :
    ∀ (cols : List String) (i : Nat) (s : Schema × List Ddl),
    (∀ col ∈ cols, toLower col ∈ ex) → ensureColumns e t ex i cols s = s := by
  intro cols
  induction cols with
  | nil => intro i s _; rfl
  | cons col rest ih =>
    intro i s h
    unfold ensureColumns
    rw [if_pos (h col (List.mem_cons_self _ _))]
    exact ih _ _ (fun c hc => h c (List.mem_cons_of_mem _ hc))

/-- When every `ALTER TABLE` of the column loop succeeds, the table has
afterwards, up to case, every column of the list that was not present before,
and it keeps the columns it had. -/
theorem ensureColumns_adds (e : EnsureOutcome) (t : String) (ex : List String) :
    ∀ (cols : List String) (i : Nat) (s : Schema × List Ddl) (cur : List String),
    s.1.lookup t = some cur →
    (∀ c ∈ (ensureColumns e t ex i cols s).2, c.ok = true) →
    ∃ cur2, (ensureColumns e t ex i cols s).1.lookup t = some cur2 ∧
      (∀ c ∈ cur, c ∈ cur2) ∧
      ∀ col ∈ cols, toLower col ∈ ex ∨ toLower col ∈ cur2.map toLower := by
  intro cols
  induction cols with
  | nil =>
    intro i s cur h _
    exact ⟨cur, h, fun c hc => hc, fun col hcol => by simp at hcol⟩
  | cons col rest ih =>
    intro i s cur h hall
    unfold ensureColumns at hall ⊢
    by_cases hex : toLower col ∈ ex
    · rw [if_pos hex] at hall ⊢
      obtain ⟨cur2, h1, h2, h3⟩ := ih (i + 1) s cur h hall
      refine ⟨cur2, h1, h2, ?_⟩
      intro c hc
      rcases List.mem_cons.mp hc with hc | hc
      · rw [hc]
        exact Or.inl hex
      · exact h3 c hc
    · rw [if_neg hex] at hall ⊢
      obtain ⟨l, hl⟩ := ensureColumns_issued e t ex rest (i + 1)
        ((ExecAddColumn (e.alterOk i) s.1 t col).1,
          s.2 ++ [Ddl.addColumn t col (ExecAddColumn (e.alterOk i) s.1 t col).2])
      have hok : (ExecAddColumn (e.alterOk i) s.1 t col).2 = true := by
        have := hall (Ddl.addColumn t col (ExecAddColumn (e.alterOk i) s.1 t col).2)
          (by rw [hl]; simp)
        exact this
      have hsch : (ExecAddColumn (e.alterOk i) s.1 t col).1 = addColumn s.1 t col := by
        unfold ExecAddColumn at hok ⊢
        rw [h] at hok ⊢
        dsimp only at hok ⊢
        split_ifs at hok ⊢
        rfl
      have hlk : (ExecAddColumn (e.alterOk i) s.1 t col).1.lookup t = some (cur ++ [col]) := by
        rw [hsch]
        exact lookup_addColumn t col s.1 cur h
      obtain ⟨cur2, h1, h2, h3⟩ := ih (i + 1) _ (cur ++ [col]) hlk hall
      refine ⟨cur2, h1, fun c hc => h2 c (List.mem_append_left _ hc), ?_⟩
      intro c hc
      rcases List.mem_cons.mp hc with hc | hc
      · rw [hc]
        exact Or.inr (List.mem_map_of_mem toLower (h2 col (by simp)))
      · exact h3 c hc

/-- A table created at the end of a schema that had no table of that name. -/
theorem lookup_append_new (t : String) (cols : List String) : ∀ (schema : Schema),
    schema.lookup t = none → (schema ++ [(t, cols)]).lookup t = some cols := by
  intro schema
  induction schema with
  | nil => intro _; simp [List.lookup_cons]
  | cons p rest ih =>
    intro h
    obtain ⟨name, columns⟩ := p
    rw [List.lookup_cons] at h
    rw [List.cons_append, List.lookup_cons]
    cases hb : (t == name) with
    | true => rw [hb] at h; simp at h
    | false =>
      rw [hb] at h
      exact ih h

/-- After a call of `EnsureTargetTable` that returns true and whose statements
all succeeded, the table exists and has, up to case, every column of the table
info. -/
theorem ensureTargetTable_after (e : EnsureOutcome) (schema : Schema) (ti : TableInfo)
    (hfirst : (EnsureTargetTable e schema ti).2 = true)
    (hall : ∀ c ∈ (EnsureTargetTable e schema ti).1.2, c.ok = true) :
    ∃ cur, (EnsureTargetTable e schema ti).1.1.lookup ti.tableName = some cur ∧
      ∀ col ∈ ti.columns, toLower col ∈ cur.map toLower := by
  unfold EnsureTargetTable at hfirst hall ⊢
  cases hp : e.probeOk with
  | false => simp [hp] at hfirst
  | true =>
    cases hc : e.checkPrepareOk with
    | false => simp [hp, hc] at hfirst
    | true =>
      simp only [hp, hc, Bool.true_eq_false, if_false] at hfirst hall ⊢
      cases hl : schema.lookup ti.tableName with
      | none =>
        rw [hl] at hfirst hall
        dsimp only at hfirst hall ⊢
        have hs : (ExecCreateTable e.createOk schema ti.tableName ti.columns).1 =
            schema ++ [(ti.tableName, ti.columns)] := by
          unfold ExecCreateTable at hfirst ⊢
          split_ifs at hfirst ⊢
          rfl
        rw [hs]
        exact ⟨ti.columns, lookup_append_new _ _ _ hl,
          fun col hcol => List.mem_map_of_mem toLower hcol⟩
      | some existing =>
        rw [hl] at hfirst hall
        dsimp only at hfirst hall ⊢
        cases hg : e.pragmaPrepareOk with
        | false => simp [hg] at hfirst
        | true =>
          simp only [hg, Bool.true_eq_false, if_false] at hall ⊢
          obtain ⟨cur2, h1, h2, h3⟩ := ensureColumns_adds e ti.tableName
            (existing.map toLower) ti.columns 0 (schema, []) existing hl hall
          refine ⟨cur2, h1, ?_⟩
          intro col hcol
          rcases h3 col hcol with h | h
          · obtain ⟨c, hc1, hc2⟩ := List.mem_map.mp h
            rw [← hc2]
            exact List.mem_map_of_mem toLower (h2 c hc1)
          · exact h

/-- A call of `EnsureTargetTable` on a schema in which the table has, up to
case, every column of the table info issues no statement and leaves the schema
as it is. -/
theorem ensureTargetTable_present (e : EnsureOutcome) (schema : Schema) (ti : TableInfo)
    (cur : List String) (hl : schema.lookup ti.tableName = some cur)
    (hcols : ∀ col ∈ ti.columns, toLower col ∈ cur.map toLower) :
    (EnsureTargetTable e schema ti).1 = (schema, []) := by
  unfold EnsureTargetTable
  rw [hl]
  dsimp only
  split_ifs
  · rfl
  · rfl
  · rfl
  · exact ensureColumns_present e ti.tableName _ ti.columns 0 (schema, []) hcols

/-- Claim C17 (amended): if a first call of `EnsureTargetTable` returns true
and every `CREATE TABLE` and `ALTER TABLE` it issued succeeded, then a second
call with the same table info, whatever the destination answers to it, issues
no `CREATE TABLE` and no `ALTER TABLE` and leaves the schema (the tables and
the column list of each) exactly as the first call left it; column names are
compared on their lowered form. -/
theorem ensureTargetTable_idempotent (e1 e2 : EnsureOutcome) (schema : Schema)
    (ti : TableInfo) (hfirst : (EnsureTargetTable e1 schema ti).2 = true)
    (hall : ∀ c ∈ (EnsureTargetTable e1 schema ti).1.2, c.ok = true) :
    (EnsureTargetTable e2 (EnsureTargetTable e1 schema ti).1.1 ti).1 =
      ((EnsureTargetTable e1 schema ti).1.1, []) := by
  obtain ⟨cur, h1, h2⟩ := ensureTargetTable_after e1 schema ti hfirst hall
  exact ensureTargetTable_present e2 _ ti cur h1 h2

/-- Scenario: the destination has `orders(ID)`; the first call for
`orders(id, total)` adds the column `total`, and a second call issues nothing
and leaves `orders(ID, total)`. -/
theorem ensureTargetTable_idempotent_witness :
    (EnsureTargetTable Scenario.ensureOk [("orders", ["ID"])] Scenario.orders).1 =
      ([("orders", ["ID", "total"])], [Ddl.addColumn "orders" "total" true]) ∧
    (EnsureTargetTable Scenario.ensureOk
      (EnsureTargetTable Scenario.ensureOk [("orders", ["ID"])] Scenario.orders).1.1
      Scenario.orders).1 = ([("orders", ["ID", "total"])], []) :=
  ⟨by decide,
    (ensureTargetTable_idempotent Scenario.ensureOk Scenario.ensureOk [("orders", ["ID"])]
      Scenario.orders (by decide) (by decide)).trans (by decide)⟩

/-- Claim C17, counterexample: the destination has `orders(id)` and rejects the
first `ALTER TABLE orders ADD COLUMN "total" TEXT`.  The first call of
`EnsureTargetTable` for `orders(id, total)` only logs a warning and returns
true; the second call with the same table info issues the `ALTER TABLE`
again, and, the statement being accepted this time, changes the schema the
first call left. -/
theorem ensureTargetTable_alter_again :
    EnsureTargetTable { Scenario.ensureOk with alterOk := fun _ => false }
      [("orders", ["id"])] Scenario.orders =
        (([("orders", ["id"])], [Ddl.addColumn "orders" "total" false]), true) ∧
    EnsureTargetTable Scenario.ensureOk
      (EnsureTargetTable { Scenario.ensureOk with alterOk := fun _ => false }
        [("orders", ["id"])] Scenario.orders).1.1 Scenario.orders =
        (([("orders", ["id", "total"])], [Ddl.addColumn "orders" "total" true]), true) := by
  decide

/-! ### The source tables -/

/-- One iteration of the table loop of `GetSourceTables`, by the filter. -/
theorem sourceTable_eq (c : Catalog) (ig : List String) (acc : List TableInfo)
    (name : String) :
    DataSyncManager.sourceTable c ig acc name =
      if DataSyncManager.kept c ig (toLower name) = true then
        acc ++ [{ tableName := toLower name,
                  columns := ((c.describe (toLower name)).getD []).map toLower,
                  pkColumn := toLower (c.primaryKey name) }]
      else acc := by
  unfold DataSyncManager.sourceTable DataSyncManager.kept
  dsimp only
  by_cases h1 : (toLower name).data.head? = some '_'
  · simp [h1]
  · by_cases h2 : toLower name ∈ ig
    · simp [h2]
    · rw [if_neg (by simp [h1, h2])]
      cases hd : c.describe (toLower name) with
      | none => simp
      | some names =>
        cases names with
        | nil => simp
        | cons x xs => simp [h1, h2]

/-- The table loop appends to what it has collected. -/
theorem sourceTables_fold (c : Catalog) (ig : List String) :
    ∀ (l : List String) (acc : List TableInfo),
    l.foldl (DataSyncManager.sourceTable c ig) acc =
      acc ++ (l.filter (fun name => DataSyncManager.kept c ig (toLower name))).map
        (fun name => { tableName := toLower name,
                       columns := ((c.describe (toLower name)).getD []).map toLower,
                       pkColumn := toLower (c.primaryKey name) }) := by
  intro l
  induction l with
  | nil => intro acc; simp
  | cons name rest ih =>
    intro acc
    rw [List.foldl_cons, ih, sourceTable_eq, List.filter_cons]
    by_cases hk : DataSyncManager.kept c ig (toLower name) = true
    · rw [if_pos hk, if_pos hk]
      simp
    · rw [if_neg hk, if_neg hk]

/-- Claim C18: the tables `GetSourceTables` returns are, in source order, the
source tables whose lowered name does not begin with `_`, is not in the ignore
set, and whose probe query yields at least one column.  Each table info
returned carries the lowered name of its source table, which does not begin
with `_` and is not ignored, and at least one column; conversely every such
source table is returned. -/
theorem getSourceTables_spec (c : Catalog) (ig : List String) :
    (DataSyncManager.GetSourceTables c ig).map (fun ti => ti.tableName) =
      (c.tableList.map toLower).filter (DataSyncManager.kept c ig) ∧
    (∀ ti ∈ DataSyncManager.GetSourceTables c ig,
      (∃ name ∈ c.tableList, ti.tableName = toLower name ∧
        ti.pkColumn = toLower (c.primaryKey name)) ∧
      ti.tableName.data.head? ≠ some '_' ∧ ti.tableName ∉ ig ∧ ti.columns ≠ []) ∧
    (∀ name ∈ c.tableList, (toLower name).data.head? ≠ some '_' → toLower name ∉ ig →
      (∃ x xs, c.describe (toLower name) = some (x :: xs)) →
      ∃ ti ∈ DataSyncManager.GetSourceTables c ig, ti.tableName = toLower name) := by
  have hfold := sourceTables_fold c ig c.tableList []
  rw [List.nil_append] at hfold
  refine ⟨?_, ?_, ?_⟩
  · unfold DataSyncManager.GetSourceTables
    rw [hfold, List.map_map, List.filter_map]
    rfl
  · intro ti hti
    unfold DataSyncManager.GetSourceTables at hti
    rw [hfold] at hti
    obtain ⟨name, hname, rfl⟩ := List.mem_map.mp hti
    obtain ⟨hmem, hkept⟩ := List.mem_filter.mp hname
    unfold DataSyncManager.kept at hkept
    simp only [Bool.and_eq_true, Bool.not_eq_true', beq_eq_false_iff_ne, ne_eq] at hkept
    obtain ⟨⟨h1, h2⟩, h3⟩ := hkept
    refine ⟨⟨name, hmem, rfl, rfl⟩, h1, ?_, ?_⟩
    · intro hin
      have hc : ig.contains (toLower name) = true := List.elem_eq_true_of_mem hin
      rw [hc] at h2
      exact Bool.noConfusion h2
    · dsimp only
      cases hd : c.describe (toLower name) with
      | none => rw [hd] at h3; simp at h3
      | some names =>
        cases names with
        | nil => rw [hd] at h3; simp at h3
        | cons x xs => simp
  · intro name hname h1 h2 ⟨x, xs, hd⟩
    unfold DataSyncManager.GetSourceTables
    rw [hfold]
    refine ⟨_, List.mem_map_of_mem _ (List.mem_filter.mpr ⟨hname, ?_⟩), rfl⟩
    unfold DataSyncManager.kept
    rw [hd]
    simp [h1, h2]

/-- Scenario: of the source tables `Customer`, `_File`, `Audit`, `Empty`, with
`audit` ignored and `Empty` without columns, only `customer` is returned. -/
theorem getSourceTables_spec_witness :
    (DataSyncManager.GetSourceTables Scenario.catalog ["audit"]).map (fun ti => ti.tableName) =
      ["customer"] :=
  (getSourceTables_spec Scenario.catalog ["audit"]).1.trans (by decide)

/-! ### The progress store as a keyed table -/

/-- The rows of another table are not touched by `UpdateSyncState`. -/
theorem updateSyncState_filter_other (now : String) (S : List SyncStateRow) (t k m : String)
    (n : Int) (u : String) (hu : u ≠ t) :
    (SyncState.UpdateSyncState now S t k m n).filter (fun r => r.table_name == u) =
      S.filter (fun r => r.table_name == u) := by
  induction S with
  | nil =>
    have h : (t == u) = false := by simpa using fun h => hu h.symm
    simp [SyncState.UpdateSyncState, List.filter_cons, h]
  | cons x S ih =>
    rw [updateSyncState_cons]
    by_cases hx : x.table_name = t
    · rw [if_pos hx, ih, List.filter_cons]
      have h : (x.table_name == u) = false := by
        rw [hx]
        simpa using fun h => hu h.symm
      rw [h]
      rfl
    · rw [if_neg hx, List.filter_cons, List.filter_cons, ih]

/-- After `UpdateSyncState` the table has exactly one row. -/
theorem updateSyncState_filter_same (now : String) (S : List SyncStateRow) (t k m : String)
    (n : Int) :
    (SyncState.UpdateSyncState now S t k m n).filter (fun r => r.table_name == t) =
      [{ table_name := t, last_sync_time := some now, last_key_value := some k,
         sync_method := some m, row_count := some n }] := by
  induction S with
  | nil => simp [SyncState.UpdateSyncState, List.filter_cons]
  | cons x S ih =>
    rw [updateSyncState_cons]
    by_cases hx : x.table_name = t
    · rw [if_pos hx, ih]
    · rw [if_neg hx, List.filter_cons, ih]
      have h : (x.table_name == t) = false := by simpa using hx
      rw [h]
      rfl

/-- Reading another table after `UpdateSyncState`. -/
theorem getLastSync_update_other (uninit : Int) (now : String) (S : List SyncStateRow)
    (t k m : String) (n : Int) (u : String) (hu : u ≠ t) :
    SyncState.GetLastSync uninit (SyncState.UpdateSyncState now S t k m n) u =
      SyncState.GetLastSync uninit S u := by
  induction S with
  | nil =>
    simp only [SyncState.UpdateSyncState, List.filter_nil, List.nil_append]
    rw [getLastSync_cons, if_neg (fun h => hu h.symm)]
  | cons x S ih =>
    rw [updateSyncState_cons]
    by_cases hx : x.table_name = t
    · rw [if_pos hx, ih, getLastSync_cons, if_neg]
      rw [hx]
      exact fun h => hu h.symm
    · rw [if_neg hx, getLastSync_cons, getLastSync_cons, ih]

/-- Claim C22: `UpdateSyncState` is insert-or-replace keyed by table name.  For
every state `S` of the progress store, after `UpdateSyncState(t, k, m, n)`
`GetLastSync(t)` returns the key `k`, the method `m`, the row count `n` and the
destination's now as last sync time, and the store holds exactly one record for
`t`; a later `UpdateSyncState(t, ...)` replaces that record, the store still
holding one record for `t`; and for every other table `u` the records of `u`
and `GetLastSync(u)` are unchanged. -/
theorem updateSyncState_insert_or_replace (uninit : Int) (now now2 : String)
    (S : List SyncStateRow) (t k m k2 m2 : String) (n n2 : Int) :
    SyncState.GetLastSync uninit (SyncState.UpdateSyncState now S t k m n) t =
      { lastSyncTime := now, lastKeyValue := k, syncMethod := m, rowCount := n } ∧
    (SyncState.UpdateSyncState now S t k m n).filter (fun r => r.table_name == t) =
      [{ table_name := t, last_sync_time := some now, last_key_value := some k,
         sync_method := some m, row_count := some n }] ∧
    SyncState.GetLastSync uninit
      (SyncState.UpdateSyncState now2 (SyncState.UpdateSyncState now S t k m n) t k2 m2 n2) t =
      { lastSyncTime := now2, lastKeyValue := k2, syncMethod := m2, rowCount := n2 } ∧
    (SyncState.UpdateSyncState now2 (SyncState.UpdateSyncState now S t k m n) t k2 m2
        n2).filter (fun r => r.table_name == t) =
      [{ table_name := t, last_sync_time := some now2, last_key_value := some k2,
         sync_method := some m2, row_count := some n2 }] ∧
    (∀ u, u ≠ t →
      SyncState.GetLastSync uninit (SyncState.UpdateSyncState now S t k m n) u =
        SyncState.GetLastSync uninit S u ∧
      (SyncState.UpdateSyncState now S t k m n).filter (fun r => r.table_name == u) =
        S.filter (fun r => r.table_name == u)) :=
  ⟨getLastSync_update uninit now S t k m n, updateSyncState_filter_same now S t k m n,
    getLastSync_update uninit now2 _ t k2 m2 n2, updateSyncState_filter_same now2 _ t k2 m2 n2,
    fun u hu => ⟨getLastSync_update_other uninit now S t k m n u hu,
      updateSyncState_filter_other now S t k m n u hu⟩⟩

/-- Scenario: in the store of `Scenario.synced` the record of `orders` is
replaced, and the table `items`, which has no record, still reads as
unrecorded. -/
theorem updateSyncState_insert_or_replace_witness :
    SyncState.GetLastSync 0 (SyncState.UpdateSyncState "2024-01-01 00:00:00"
      (Scenario.synced [] "1" "key_based" 5).db.sync_state "orders" "7" "key_based" 9)
      "items" = { lastSyncTime := "", lastKeyValue := "", syncMethod := "", rowCount := 0 } :=
  (((updateSyncState_insert_or_replace 0 "2024-01-01 00:00:00" "2024-01-02 00:00:00"
    (Scenario.synced [] "1" "key_based" 5).db.sync_state "orders" "7" "key_based" "8"
    "key_based" 9 10).2.2.2.2 "items" (by decide)).1).trans (by decide)

/-! ### The timestamp column -/

/-- The substring test holds exactly when the pattern is an infix of the
string. -/
theorem containsSubstr_iff (s pattern : String) :
    containsSubstr s pattern = true ↔ pattern.data <:+: s.data := by
  unfold containsSubstr
  rw [List.any_eq_true]
  constructor
  · rintro ⟨t, ht, hp⟩
    rw [List.mem_tails] at ht
    rw [List.isPrefixOf_iff_prefix] at hp
    exact List.IsInfix.trans hp.isInfix ht.isInfix
  · intro h
    obtain ⟨a, b, hab⟩ := h
    refine ⟨pattern.data ++ b, ?_, ?_⟩
    · rw [List.mem_tails]
      exact ⟨a, by rw [← hab, List.append_assoc]⟩
    · rw [List.isPrefixOf_iff_prefix]
      exact List.prefix_append _ _

/-- The test of one column in `FindTimestampColumn` is the test of the
specification. -/
theorem isTimestampName_eq (col : String) :
    isTimestampName col = true ↔
      (containsSubstr (toLower col) "timestamp" = true ∨
        containsSubstr (toLower col) "modified" = true ∨
        containsSubstr (toLower col) "updated" = true ∨
        containsSubstr (toLower col) "changed" = true ∨
        containsSubstr (toLower col) "datetime" = true) := by
  simp [isTimestampName]

/-- The function is the search of the first column that passes the test. -/
theorem findTimestampColumn_find (columns : List String) :
    FindTimestampColumn columns = (columns.find? isTimestampName).getD "" := by
  induction columns with
  | nil => rfl
  | cons col rest ih =>
    unfold FindTimestampColumn
    rw [List.find?_cons]
    by_cases h : isTimestampName col = true
    · rw [if_pos ((isTimestampName_eq col).mp h), h]
      rfl
    · rw [if_neg (fun hc => h ((isTimestampName_eq col).mpr hc)), ih]
      simp only [Bool.not_eq_true] at h
      rw [h]

/-- A column that passes the test has a non-empty name. -/
theorem isTimestampName_ne_empty (col : String) (h : isTimestampName col = true) :
    col ≠ "" := by
  intro hc
  rw [hc] at h
  exact absurd h (by decide)

/-- Claim C23: for every column list, `FindTimestampColumn` returns, in its
original spelling, the first column in list order whose lowered name contains
one of `timestamp`, `modified`, `updated`, `changed`, `datetime` (the columns
before it do not), and it returns the empty string exactly when no column
matches; for `["ts", "payload", "updated_at"]` it returns `"updated_at"`. -/
theorem findTimestampColumn_spec (columns : List String) :
    (∀ col, columns.find? isTimestampName = some col → FindTimestampColumn columns = col) ∧
    (FindTimestampColumn columns ≠ "" →
      ∃ before after, columns = before ++ FindTimestampColumn columns :: after ∧
        isTimestampName (FindTimestampColumn columns) = true ∧
        ∀ c ∈ before, isTimestampName c = false) ∧
    (FindTimestampColumn columns = "" ↔ ∀ c ∈ columns, isTimestampName c = false) ∧
    (∀ col, isTimestampName col = true ↔
      ∃ pattern ∈ ["timestamp", "modified", "updated", "changed", "datetime"],
        (pattern : String).data <:+: (toLower col).data) ∧
    FindTimestampColumn ["ts", "payload", "updated_at"] = "updated_at" := by
  refine ⟨?_, ?_, ?_, ?_, by decide⟩
  · intro col h
    rw [findTimestampColumn_find, h]
    rfl
  · intro hne
    rw [findTimestampColumn_find] at hne ⊢
    cases hf : columns.find? isTimestampName with
    | none => rw [hf] at hne; exact absurd rfl hne
    | some col =>
      obtain ⟨hp, before, after, hcols, hbefore⟩ := List.find?_eq_some.mp hf
      exact ⟨before, after, hcols, hp, fun c hc => by simpa using hbefore c hc⟩
  · rw [findTimestampColumn_find]
    constructor
    · intro h
      cases hf : columns.find? isTimestampName with
      | none =>
        intro c hc
        have := List.find?_eq_none.mp hf c hc
        simpa using this
      | some col =>
        rw [hf] at h
        exact absurd h (isTimestampName_ne_empty col (List.find?_some hf))
    · intro h
      have : columns.find? isTimestampName = none :=
        List.find?_eq_none.mpr (fun c hc => by simp [h c hc])
      rw [this]
      rfl
  · intro col
    simp only [isTimestampName, List.any_eq_true, containsSubstr_iff]

/-- Scenario: in `["id", "LastModified", "updated_at"]` the first matching
column is `LastModified`, returned in its original spelling. -/
theorem findTimestampColumn_spec_witness :
    FindTimestampColumn ["id", "LastModified", "updated_at"] = "LastModified" :=
  (findTimestampColumn_spec ["id", "LastModified", "updated_at"]).1 "LastModified" (by decide)

/-- Without a primary-key column or without a stored last key `SyncKeyBased`
is `SyncFullTable`. -/
theorem syncKeyBased_fallback (ts : TableSyncer) (d : Driver) (w : World) (ti : TableInfo)
    (h : ti.pkColumn = "" ∨
      (SyncState.GetLastSync d.uninit w.db.sync_state ti.tableName).lastKeyValue = "") :
    SyncKeyBased ts d w ti = SyncFullTable ts d w ti := by
  unfold SyncKeyBased
  by_cases hp : ti.pkColumn = ""
  · rw [if_pos hp]
  · rw [if_neg hp]
    have hk := h.resolve_left hp
    simp only [hk, if_true]

/-! ### The table loop of `RunSync` -/

/-- There is one outcome per table. -/
theorem callOutcomes_length {σ : Type} (syncTable : σ → TableInfo → σ × CallOutcome) :
    ∀ (tables : List TableInfo) (env : σ),
    (callOutcomes syncTable env tables).length = tables.length := by
  intro tables
  induction tables with
  | nil => intro env; rfl
  | cons ti rest ih =>
    intro env
    simp [callOutcomes, ih]

/-- One iteration of the table loop. -/
theorem runTable_step {σ : Type} (syncTable : σ → TableInfo → σ × CallOutcome)
    (st : RunState σ) (ti : TableInfo) :
    (DataSyncManager.runTable syncTable st ti).env = (syncTable st.env ti).1 ∧
    (DataSyncManager.runTable syncTable st ti).calls =
      st.calls ++ [(ti, (syncTable st.env ti).2)] ∧
    (DataSyncManager.runTable syncTable st ti).metrics.tablesProcessed =
      st.metrics.tablesProcessed + (if (syncTable st.env ti).2.isReturned then 1 else 0) ∧
    (DataSyncManager.runTable syncTable st ti).metrics.rowsSynced =
      st.metrics.rowsSynced + (syncTable st.env ti).2.rows := by
  unfold DataSyncManager.runTable
  cases h : (syncTable st.env ti).2 with
  | returned rows => simp [CallOutcome.isReturned, CallOutcome.rows]
  | threw => simp [CallOutcome.isReturned, CallOutcome.rows]

/-- The table loop from any state. -/
theorem runTables_fold {σ : Type} (syncTable : σ → TableInfo → σ × CallOutcome) :
    ∀ (tables : List TableInfo) (st : RunState σ),
    (tables.foldl (DataSyncManager.runTable syncTable) st).calls =
      st.calls ++ tables.zip (callOutcomes syncTable st.env tables) ∧
    (tables.foldl (DataSyncManager.runTable syncTable) st).metrics.tablesProcessed =
      st.metrics.tablesProcessed +
        (((callOutcomes syncTable st.env tables).filter CallOutcome.isReturned).length : Int) ∧
    (tables.foldl (DataSyncManager.runTable syncTable) st).metrics.rowsSynced =
      st.metrics.rowsSynced +
        ((callOutcomes syncTable st.env tables).map CallOutcome.rows).sum := by
  intro tables
  induction tables with
  | nil => intro st; simp [callOutcomes]
  | cons ti rest ih =>
    intro st
    obtain ⟨h1, h2, h3, h4⟩ := runTable_step syncTable st ti
    obtain ⟨i1, i2, i3⟩ := ih (DataSyncManager.runTable syncTable st ti)
    rw [List.foldl_cons, i1, i2, i3, h1, h2, h3, h4]
    refine ⟨by simp [callOutcomes], ?_, ?_⟩
    · simp only [callOutcomes, List.filter_cons]
      split_ifs
      · simp
        omega
      · simp
    · simp only [callOutcomes, List.map_cons, List.sum_cons]
      omega

/-- Claim C21: failures are isolated per table.  For every list of tables and
every behaviour of `SyncTable` (it returns a count, returns 0 after a failure,
or throws), the table loop of `RunSync` calls `SyncTable` exactly once for each
table, in list order, whatever the outcomes of the earlier calls; the final
`tablesProcessed` is the number of calls that did not throw, and the final
`rowsSynced` is the sum of the counts they returned. -/
theorem runSync_isolates_failures {σ : Type} (syncTable : σ → TableInfo → σ × CallOutcome)
    (env : σ) (tables : List TableInfo) :
    (DataSyncManager.RunSync syncTable env tables).calls.map Prod.fst = tables ∧
    (DataSyncManager.RunSync syncTable env tables).calls.map Prod.snd =
      callOutcomes syncTable env tables ∧
    (DataSyncManager.RunSync syncTable env tables).metrics.tablesProcessed =
      (((callOutcomes syncTable env tables).filter CallOutcome.isReturned).length : Int) ∧
    (DataSyncManager.RunSync syncTable env tables).metrics.rowsSynced =
      ((callOutcomes syncTable env tables).map CallOutcome.rows).sum := by
  unfold DataSyncManager.RunSync
  cases tables with
  | nil => simp [callOutcomes]
  | cons ti rest =>
    rw [if_neg (by simp)]
    obtain ⟨h1, h2, h3⟩ := runTables_fold syncTable (ti :: rest)
      { env := env, metrics := { tablesProcessed := 0, rowsSynced := 0 }, calls := [] }
    have hlen := callOutcomes_length syncTable (ti :: rest) env
    rw [h1, h2, h3]
    refine ⟨?_, ?_, by simp, by simp⟩
    · rw [List.nil_append, List.map_fst_zip]
      rw [hlen]
    · rw [List.nil_append, List.map_snd_zip]
      rw [hlen]

/-- Scenario: of the tables `a`, `b`, `c` the call for `b` throws and the
others return 2 rows each: all three calls are made, two tables are processed
and four rows counted. -/
theorem runSync_isolates_failures_witness :
    ((DataSyncManager.RunSync
        (fun (_ : Unit) ti =>
          ((), if ti.tableName = "b" then CallOutcome.threw else CallOutcome.returned 2)) ()
        [{ tableName := "a", columns := ["id"], pkColumn := "id" },
         { tableName := "b", columns := ["id"], pkColumn := "id" },
         { tableName := "c", columns := ["id"], pkColumn := "id" }]).calls.map
      (fun c => c.1.tableName)) = ["a", "b", "c"] ∧
    (DataSyncManager.RunSync
        (fun (_ : Unit) ti =>
          ((), if ti.tableName = "b" then CallOutcome.threw else CallOutcome.returned 2)) ()
        [{ tableName := "a", columns := ["id"], pkColumn := "id" },
         { tableName := "b", columns := ["id"], pkColumn := "id" },
         { tableName := "c", columns := ["id"], pkColumn := "id" }]).metrics =
      { tablesProcessed := 2, rowsSynced := 4 } := by
  have h := runSync_isolates_failures
    (fun (_ : Unit) ti =>
      ((), if ti.tableName = "b" then CallOutcome.threw else CallOutcome.returned 2)) ()
    [{ tableName := "a", columns := ["id"], pkColumn := "id" },
     { tableName := "b", columns := ["id"], pkColumn := "id" },
     { tableName := "c", columns := ["id"], pkColumn := "id" }]
  refine ⟨?_, by decide⟩
  have h1 := congrArg (List.map (fun t : TableInfo => t.tableName)) h.1
  rw [List.map_map] at h1
  exact h1

/-! ### The intermediate commits of the full strategy -/

/-- Counting the indices below `n + 1` that pass a test: index 0, then the
others. -/
theorem count_range_succ (p : Nat → Bool) (n : Nat) :
    ((List.range (n + 1)).filter p).length =
      (if p 0 = true then 1 else 0) + ((List.range n).filter (fun j => p (j + 1))).length := by
  rw [List.range_succ_eq_map, List.filter_cons, List.filter_map]
  have hc : (p ∘ Nat.succ) = fun j => p (j + 1) := rfl
  rw [hc]
  by_cases h : p 0 = true
  · rw [if_pos h, if_pos h, List.length_cons, List.length_map]
    omega
  · rw [if_neg h, if_neg h, List.length_map]
    omega

theorem successesBefore_succ (ok : Nat → Bool) (m : Nat) :
    successesBefore ok (m + 1) =
      (if ok 0 = true then 1 else 0) + successesBefore (fun i => ok (i + 1)) m := by
  unfold successesBefore
  exact count_range_succ ok m

theorem boundaryTests_succ (ok : Nat → Bool) (B base n : Nat) :
    boundaryTests ok B base (n + 1) =
      (if (base + (if ok 0 = true then 1 else 0)) % B = 0 then 1 else 0) +
        boundaryTests (fun i => ok (i + 1)) B (base + (if ok 0 = true then 1 else 0)) n := by
  unfold boundaryTests
  rw [count_range_succ]
  have h0 : successesBefore ok (0 + 1) = (if ok 0 = true then 1 else 0) := by
    rw [successesBefore_succ]
    rfl
  have hf : (fun j => decide ((base + successesBefore ok (j + 1 + 1)) % B = 0)) =
      (fun j => decide ((base + (if ok 0 = true then 1 else 0) +
        successesBefore (fun i => ok (i + 1)) (j + 1)) % B = 0)) := by
    funext j
    rw [successesBefore_succ ok (j + 1), Nat.add_assoc]
  rw [hf, h0]
  simp only [decide_eq_true_eq]

theorem commits_stepInsert (ok : Bool) (w : World) (t : String) (r : DRow) :
    (StepInsert ok w t r).log.count Cmd.commit = w.log.count Cmd.commit := by
  unfold StepInsert
  split_ifs <;> simp [World.emit, World.setTable, List.count_append]

theorem commits_storeHash (w : World) (now t p h : String) :
    (w.storeHash now t p h).log.count Cmd.commit = w.log.count Cmd.commit := by
  simp [World.storeHash, List.count_append]

theorem commits_commit_begin (w : World) :
    (BeginTransaction (CommitTransaction w)).log.count Cmd.commit =
      w.log.count Cmd.commit + 1 := by
  simp [List.count_append]

/-- One iteration of the full row loop issues a `COMMIT` exactly when the count
of successful inserts after the row is a multiple of the batch size. -/
theorem fullRow_commits (ts : TableSyncer) (d : Driver) (ti : TableInfo)
    (pkIndex : Option Nat) (st : FullState) (cur : Row) :
    (fullRow ts d ti pkIndex st cur).w.log.count Cmd.commit =
      st.w.log.count Cmd.commit +
        (if (st.rowsSynced + (if d.stepOk st.fetched = true then 1 else 0)) % ts.batchSize = 0
          then 1 else 0) := by
  unfold fullRow
  dsimp only
  cases pkIndex with
  | none =>
    dsimp only
    split_ifs <;> simp_all [commits_commit_begin, commits_stepInsert]
  | some k =>
    dsimp only
    split_ifs <;> simp_all [commits_commit_begin, commits_stepInsert, commits_storeHash]

/-- The commits of the full row loop from any state. -/
theorem fullLoop_commits (ts : TableSyncer) (d : Driver) (ti : TableInfo)
    (pkIndex : Option Nat) : ∀ (rows : List Row) (st : FullState),
    (rows.foldl (fullRow ts d ti pkIndex) st).w.log.count Cmd.commit =
      st.w.log.count Cmd.commit +
        boundaryTests (fun i => d.stepOk (st.fetched + i)) ts.batchSize st.rowsSynced
          rows.length := by
  intro rows
  induction rows with
  | nil => intro st; simp [boundaryTests]
  | cons c rest ih =>
    intro st
    rw [List.foldl_cons, ih, fullRow_commits, fullRow_rowsSynced, fullRow_fetched,
      List.length_cons, boundaryTests_succ]
    have hf : (fun i => d.stepOk (st.fetched + 1 + i)) =
        (fun i => d.stepOk (st.fetched + (i + 1))) := by
      funext i
      rw [Nat.add_assoc, Nat.add_comm 1 i]
    rw [hf]
    simp only [Nat.add_zero]
    omega

/-- When the first `m` inserts succeed, they are `m` successes. -/
theorem successesBefore_all (ok : Nat → Bool) (m : Nat) (h : ∀ i, i < m → ok i = true) :
    successesBefore ok m = m := by
  unfold successesBefore
  rw [List.filter_eq_self.mpr (fun i hi => h i (List.mem_range.mp hi)), List.length_range]

/-- Among the numbers 1 to `n` there are `n / B` multiples of `B`. -/
theorem count_multiples (B : Nat) : ∀ n : Nat,
    ((List.range n).filter (fun j => decide ((j + 1) % B = 0))).length = n / B := by
  intro n
  induction n with
  | zero => simp
  | succ n ih =>
    rw [List.range_succ, List.filter_append, List.length_append, ih, Nat.succ_div]
    by_cases h : (n + 1) % B = 0
    · simp [h, Nat.dvd_of_mod_eq_zero h]
    · have hd : ¬ B ∣ n + 1 := fun hc => h (Nat.mod_eq_zero_of_dvd hc)
      simp [h, hd]

/-- When no insert fails, the loop test holds after `n / B` of the `n` rows. -/
theorem boundaryTests_all (ok : Nat → Bool) (B n : Nat) (h : ∀ i, i < n → ok i = true) :
    boundaryTests ok B 0 n = n / B := by
  unfold boundaryTests
  rw [← count_multiples B n]
  congr 1
  apply List.filter_congr
  intro j hj
  have hjn : j < n := List.mem_range.mp hj
  rw [successesBefore_all ok (j + 1) (fun i hi => h i (by omega)), Nat.zero_add]

/-- The statements of a `SyncFullTable` that reaches its end: those of the row
loop, the final commit and the progress record. -/
theorem syncFullTable_log (ts : TableSyncer) (d : Driver) (w : World) (ti : TableInfo)
    (rows : List Row) (hdel : d.deleteOk = true) (hcur : d.cursor = some rows)
    (hprep : d.prepareOk = true) :
    ∃ key method, (SyncFullTable ts d w ti).1.log =
      (rows.foldl
        (fullRow ts d ti (if ti.pkColumn ≠ "" then findPkIndex ti.columns ti.pkColumn else none))
        { w := (BeginTransaction ((ExecuteDeleteAll true (w.query (rowCountQuery ti.tableName))
          ti.tableName).query (fullQuery ti))).emit
            (Cmd.prepareInsert ti.tableName true),
          rowsSynced := 0, lastValue := "", fetched := 0 }).w.log ++
        [Cmd.commit, Cmd.updateSyncState ti.tableName key method
          (SyncFullTable ts d w ti).2] := by
  unfold SyncFullTable
  simp only [hdel, hcur, hprep, not_true_eq_false, if_false]
  split_ifs <;> exact ⟨_, _, commit_update_log _ _ _ _ _ _⟩

/-- Claim C24 (divergence): in a `SyncFullTable` that reaches its end, with
`batch_size >= 1` and any outcomes of the row inserts, the number of
intermediate commits (all commits but the final one) is the number of fetched
rows after whose handling the count of successful inserts so far is a multiple
of `batch_size`, zero included: the test `rowsSynced % batchSize == 0` is made
after every row, failed ones too.  It equals `floor(successful inserts /
batch_size)` when no insert fails. -/
theorem syncFullTable_commits (ts : TableSyncer) (d : Driver) (w : World) (ti : TableInfo)
    (rows : List Row) (_hbatch : 0 < ts.batchSize)
    (hdel : d.deleteOk = true) (hcur : d.cursor = some rows) (hprep : d.prepareOk = true) :
    (SyncFullTable ts d w ti).1.log.count Cmd.commit =
      w.log.count Cmd.commit + boundaryTests d.stepOk ts.batchSize 0 rows.length + 1 ∧
    (SyncFullTable ts d w ti).2 = successesBefore d.stepOk rows.length ∧
    ((∀ i, i < rows.length → d.stepOk i = true) →
      boundaryTests d.stepOk ts.batchSize 0 rows.length =
        (SyncFullTable ts d w ti).2 / ts.batchSize) := by
  obtain ⟨key, method, hlog⟩ := syncFullTable_log ts d w ti rows hdel hcur hprep
  have hret : (SyncFullTable ts d w ti).2 = successesBefore d.stepOk rows.length := by
    rw [(syncFullTable_run ts d w ti rows hdel hcur hprep).2.1, insertedFrom_length]
    simp [successesBefore]
  refine ⟨?_, hret, ?_⟩
  · rw [hlog, List.count_append, fullLoop_commits]
    have h0 : ((BeginTransaction ((ExecuteDeleteAll true (w.query (rowCountQuery ti.tableName))
          ti.tableName).query (fullQuery ti))).emit
        (Cmd.prepareInsert ti.tableName true)).log.count Cmd.commit =
          w.log.count Cmd.commit := by
      simp [ExecuteDeleteAll, World.emit, World.setTable, List.count_append]
    have h1 : List.count Cmd.commit [Cmd.commit, Cmd.updateSyncState ti.tableName key method
        (SyncFullTable ts d w ti).2] = 1 := by
      simp [List.count_cons]
    have hf : (fun i => d.stepOk (0 + i)) = d.stepOk := by
      funext i
      rw [Nat.zero_add]
    rw [h1]
    dsimp only
    rw [h0, hf]
  · intro hall
    rw [hret, successesBefore_all d.stepOk rows.length hall]
    exact boundaryTests_all d.stepOk ts.batchSize rows.length hall

/-- Failing input of claim C24: the full sync of `orders` with batch size 100
fetches the single row `(1, "10")`, whose insert fails.  No insert succeeded
and 0 is returned, yet an intermediate `COMMIT` and `BEGIN` are issued after
the row, before the final `COMMIT`. -/
theorem syncFullTable_commits_witness :
    (SyncFullTable (Scenario.syncer false) (Scenario.failing [["1", "10"]]) (Scenario.world [])
      Scenario.orders).2 = 0 ∧
    (SyncFullTable (Scenario.syncer false) (Scenario.failing [["1", "10"]]) (Scenario.world [])
      Scenario.orders).1.log.count Cmd.commit = 2 ∧
    (SyncFullTable (Scenario.syncer false) (Scenario.failing [["1", "10"]]) (Scenario.world [])
      Scenario.orders).1.log =
      [Cmd.deleteAll "orders" true, Cmd.begin, Cmd.prepareInsert "orders" true,
       Cmd.insert "orders" [("id", some "1"), ("total", some "10")] false,
       Cmd.commit, Cmd.begin, Cmd.commit, Cmd.updateSyncState "orders" "1" "key_based" 0] :=
  have h := syncFullTable_commits (Scenario.syncer false) (Scenario.failing [["1", "10"]])
    (Scenario.world []) Scenario.orders [["1", "10"]] (by decide) rfl rfl rfl
  ⟨h.2.1.trans (by decide), h.1.trans (by decide), by decide⟩

/-! ### The batches of the hash-based strategy -/

/-- Keeping the elements of a duplicate-free list that occur in one of its
sublists gives that sublist. -/
theorem filter_contains_sublist : ∀ (l r : List String), r.Sublist l → l.Nodup →
    l.filter (fun x => r.contains x) = r := by
  intro l
  induction l with
  | nil =>
    intro r hr _
    rw [List.sublist_nil.mp hr]
    rfl
  | cons a l ih =>
    intro r hr hnd
    have hal : a ∉ l := (List.nodup_cons.mp hnd).1
    have hl : l.Nodup := (List.nodup_cons.mp hnd).2
    cases hr with
    | cons _ hr2 =>
      have har : a ∉ r := fun h => hal (hr2.subset h)
      have hc : r.contains a = false := by
        cases hb : r.contains a with
        | false => rfl
        | true => exact absurd (List.mem_of_elem_eq_true hb) har
      rw [List.filter_cons, hc]
      exact ih r hr2 hl
    | cons₂ _ hr2 =>
      rename_i r2
      have hc : (a :: r2).contains a = true := List.elem_eq_true_of_mem (List.mem_cons_self _ _)
      rw [List.filter_cons, hc]
      simp only [if_true, List.cons.injEq, true_and]
      have hcongr : l.filter (fun x => (a :: r2).contains x) =
          l.filter (fun x => r2.contains x) := by
        apply List.filter_congr
        intro x hx
        have hxa : x ≠ a := fun h => hal (h ▸ hx)
        cases hb : r2.contains x with
        | false =>
          cases hb2 : (a :: r2).contains x with
          | false => rfl
          | true =>
            rcases List.mem_cons.mp (List.mem_of_elem_eq_true hb2) with h | h
            · exact absurd h hxa
            · have hb3 : r2.contains x = true := List.elem_eq_true_of_mem h
              rw [hb3] at hb
              exact Bool.noConfusion hb
        | true =>
          exact List.elem_eq_true_of_mem
            (List.mem_cons_of_mem _ (List.mem_of_elem_eq_true hb))
      rw [hcongr]
      exact ih r2 hr2 hl

/-- The keys the specification of `getChangedRows` describes are a sublist of
the keys given. -/
theorem changedSpec_sublist (get : String → String) (pks hashes : List String)
    (hlen : pks.length = hashes.length) : (changedSpec get pks hashes).Sublist pks := by
  unfold changedSpec
  have h := (List.filter_sublist (p := fun p : String × String =>
    decide (get p.1 = "" ∨ get p.1 ≠ p.2)) (pks.zip hashes)).map Prod.fst
  rw [List.map_fst_zip _ _ (le_of_eq hlen)] at h
  exact h

/-- The keys of the pairs selected by a test on the key. -/
theorem selected_keys (f : String → Bool) (pks : List String) (data : List Row)
    (hlen : pks.length = data.length) :
    ((pks.zip data).filter (fun p => f p.1)).map Prod.fst = pks.filter f := by
  have h := List.filter_map (f := Prod.fst) (p := f) (l := pks.zip data)
  rw [List.map_fst_zip _ _ (le_of_eq hlen)] at h
  rw [h]
  rfl

/-- In a duplicate-free key list, a key whose stored hash is the non-empty
current hash is not among the changed keys. -/
theorem not_mem_changedSpec (get : String → String) (pks hashes : List String)
    (hnd : pks.Nodup) (i : Nat) (hi : i < pks.length)
    (hsame : get (pks.getD i "") = hashes.getD i "") (hne : get (pks.getD i "") ≠ "") :
    pks.getD i "" ∉ changedSpec get pks hashes := by
  intro hmem
  unfold changedSpec at hmem
  obtain ⟨⟨p, h⟩, hp, hfst⟩ := List.mem_map.mp hmem
  obtain ⟨hz, hq⟩ := List.mem_filter.mp hp
  obtain ⟨j, hj, hjz⟩ := List.mem_iff_getElem.mp hz
  simp only [List.length_zip, lt_min_iff] at hj
  rw [List.getElem_zip] at hjz
  simp only [Prod.mk.injEq] at hjz
  dsimp only at hfst
  have hpi : pks[j] = pks[i] := by
    rw [hjz.1, hfst, List.getD_eq_getElem _ _ hi]
  have hji : j = i := (List.Nodup.getElem_inj_iff hnd).mp hpi
  subst hji
  simp only [decide_eq_true_eq] at hq
  have hp2 : p = pks.getD j "" := by rw [← hjz.1, List.getD_eq_getElem _ _ hi]
  have hh2 : h = hashes.getD j "" := by rw [← hjz.2, List.getD_eq_getElem _ _ hj.2]
  rw [hp2, hh2] at hq
  rcases hq with hq | hq
  · exact hne hq
  · exact hq hsame

/-- One iteration of the hash-based loop is the push of the row followed by the
test of the batch size. -/
theorem hashRow_eq (ts : TableSyncer) (d : Driver) (ti : TableInfo) (k : Nat)
    (st : HashState) (cur : Row) :
    hashRow ts d ti k st cur =
      if (hashPush ts ti k st cur).batchData.length ≥ ts.batchSize then
        { w := BeginTransaction (CommitTransaction (hashBatch ts d ti (hashPush ts ti k st cur)).1)
          rowsSynced := (hashBatch ts d ti (hashPush ts ti k st cur)).2
          pkValues := []
          rowHashes := []
          batchData := []
          batches := (hashPush ts ti k st cur).batches + 1 }
      else hashPush ts ti k st cur := rfl

/-- Pushing a row keeps the pending batch aligned. -/
theorem hashPush_aligned (ts : TableSyncer) (ti : TableInfo) (k : Nat) (st : HashState)
    (cur : Row) (h : HashAligned ts k st) : HashAligned ts k (hashPush ts ti k st cur) := by
  unfold hashPush
  split_ifs with hk
  · obtain ⟨h1, h2, h3⟩ := h
    refine ⟨by simp [h1], by simp [h2], ?_⟩
    intro p hp
    rcases List.mem_append.mp hp with hp | hp
    · exact h3 p hp
    · rw [List.mem_singleton.mp hp]
      exact hk
  · exact h

/-- One iteration keeps the pending batch aligned and below the batch size. -/
theorem hashRow_aligned (ts : TableSyncer) (d : Driver) (ti : TableInfo) (k : Nat)
    (hb : 0 < ts.batchSize) (st : HashState) (cur : Row)
    (h : HashAligned ts k st ∧ st.batchData.length < ts.batchSize) :
    HashAligned ts k (hashRow ts d ti k st cur) ∧
      (hashRow ts d ti k st cur).batchData.length < ts.batchSize := by
  rw [hashRow_eq]
  split_ifs with hlen
  · exact ⟨⟨rfl, rfl, fun p hp => by simp at hp⟩, hb⟩
  · exact ⟨hashPush_aligned ts ti k st cur h.1, by omega⟩

/-- Every state of the row loop has an aligned pending batch below the batch
size. -/
theorem hashLoop_aligned (ts : TableSyncer) (d : Driver) (ti : TableInfo) (k : Nat)
    (hb : 0 < ts.batchSize) : ∀ (rows : List Row) (st : HashState),
    HashAligned ts k st ∧ st.batchData.length < ts.batchSize →
    HashAligned ts k (rows.foldl (hashRow ts d ti k) st) ∧
      (rows.foldl (hashRow ts d ti k) st).batchData.length < ts.batchSize := by
  intro rows
  induction rows with
  | nil => intro st h; exact h
  | cons c rest ih =>
    intro st h
    rw [List.foldl_cons]
    exact ih _ (hashRow_aligned ts d ti k hb st c h)

/-- The block run on a pending batch, by the rows selected. -/
theorem hashBatch_selected (ts : TableSyncer) (d : Driver) (ti : TableInfo) (st : HashState) :
    hashBatch ts d ti st =
      if selectedOf ti st = [] then (st.w, st.rowsSynced)
      else
        (ProcessHashBasedBatch ts d.now (d.batch st.batches) st.w ti.tableName ti.columns
          ti.pkColumn ((selectedOf ti st).map Prod.fst) ((selectedOf ti st).map Prod.snd),
         st.rowsSynced + (selectedOf ti st).length) := by
  unfold hashBatch selectedOf changedOf
  dsimp only
  by_cases hch : HashStorage.GetChangedRows st.w.row_hashes ti.tableName st.pkValues
      st.rowHashes = []
  · rw [if_neg (not_not.mpr hch), hch]
    simp
  · rw [if_pos hch]
    by_cases hsel : (st.pkValues.zip st.batchData).filter
        (fun p => (HashStorage.GetChangedRows st.w.row_hashes ti.tableName st.pkValues
          st.rowHashes).contains p.1) = []
    · rw [hsel]
      simp
    · rw [if_pos (by simpa using hsel), if_neg hsel, List.length_map]

/-- Claim C29: the batches of `SyncHashBased`.  Every state `st` the row loop
reaches has an aligned pending batch of fewer than `batch_size` rows, and the
batch that an iteration completes, `hashPush st cur`, is aligned too; a row
with an empty key is not pushed: it is not hashed, not compared and not
applied, and the iteration leaves the state as it is.  For every aligned batch
`b`, the rows handed to `ProcessHashBasedBatch` are exactly the rows of the
batch whose key occurs in the result of `GetChangedRows`, in batch order, the
count added being their number, and nothing is applied when there is none; when
the keys of the batch are pairwise distinct, the keys applied are the result of
`GetChangedRows`, the count added is its length, and a row whose stored hash is
its non-empty current hash is not among the rows applied. -/
theorem hashBatch_applies_changed (ts : TableSyncer) (d : Driver) (w : World)
    (ti : TableInfo) (k : Nat) (rows : List Row) (st : HashState)
    (hbatch : 0 < ts.batchSize)
    (hst : st = rows.foldl (hashRow ts d ti k)
      { w := BeginTransaction w, rowsSynced := 0, pkValues := [], rowHashes := [],
        batchData := [], batches := 0 }) :
    (HashAligned ts k st ∧ st.batchData.length < ts.batchSize) ∧
    (∀ cur, HashAligned ts k (hashPush ts ti k st cur)) ∧
    (∀ cur, pkValueOf ti.columns k cur = "" →
      hashPush ts ti k st cur = st ∧ hashRow ts d ti k st cur = st) ∧
    (∀ b : HashState, HashAligned ts k b →
      hashBatch ts d ti b =
        (if selectedOf ti b = [] then (b.w, b.rowsSynced)
        else
          (ProcessHashBasedBatch ts d.now (d.batch b.batches) b.w ti.tableName ti.columns
            ti.pkColumn ((selectedOf ti b).map Prod.fst) ((selectedOf ti b).map Prod.snd),
           b.rowsSynced + (selectedOf ti b).length)) ∧
      (selectedOf ti b).map Prod.fst =
        b.pkValues.filter (fun p => (changedOf ti b).contains p) ∧
      (selectedOf ti b).Sublist (b.pkValues.zip b.batchData) ∧
      (b.pkValues.Nodup →
        (selectedOf ti b).map Prod.fst = changedOf ti b ∧
        (hashBatch ts d ti b).2 = b.rowsSynced + (changedOf ti b).length ∧
        ∀ i, i < b.pkValues.length →
          HashStorage.GetHash b.w.row_hashes ti.tableName (b.pkValues.getD i "") =
            b.rowHashes.getD i "" →
          HashStorage.GetHash b.w.row_hashes ti.tableName (b.pkValues.getD i "") ≠ "" →
          b.pkValues.getD i "" ∉ (selectedOf ti b).map Prod.fst)) := by
  have hreach : HashAligned ts k st ∧ st.batchData.length < ts.batchSize := by
    rw [hst]
    exact hashLoop_aligned ts d ti k hbatch rows _
      ⟨⟨rfl, rfl, fun p hp => by simp at hp⟩, hbatch⟩
  refine ⟨hreach, fun cur => hashPush_aligned ts ti k st cur hreach.1, ?_, ?_⟩
  · intro cur hcur
    have hp : hashPush ts ti k st cur = st := by
      unfold hashPush
      unfold pkValueOf at hcur
      rw [if_neg (not_not.mpr hcur)]
    refine ⟨hp, ?_⟩
    rw [hashRow_eq, hp, if_neg (by omega)]
  · intro b hb
    obtain ⟨h1, h2, _⟩ := hb
    have hlen1 : b.pkValues.length = b.batchData.length := by rw [h1, List.length_map]
    have hlen2 : b.pkValues.length = b.rowHashes.length := by
      rw [h1, h2, List.length_map, List.length_map]
    have hkeys : (selectedOf ti b).map Prod.fst =
        b.pkValues.filter (fun p => (changedOf ti b).contains p) :=
      selected_keys (fun p => (changedOf ti b).contains p) b.pkValues b.batchData hlen1
    have hspec : changedOf ti b =
        changedSpec (HashStorage.GetHash b.w.row_hashes ti.tableName) b.pkValues b.rowHashes :=
      getChangedRows_eq b.w.row_hashes ti.tableName b.pkValues b.rowHashes hlen2
    refine ⟨hashBatch_selected ts d ti b, hkeys, List.filter_sublist _, ?_⟩
    intro hnd
    have hsub : (changedOf ti b).Sublist b.pkValues := by
      rw [hspec]
      exact changedSpec_sublist _ _ _ hlen2
    have hall : (selectedOf ti b).map Prod.fst = changedOf ti b := by
      rw [hkeys]
      exact filter_contains_sublist b.pkValues (changedOf ti b) hsub hnd
    refine ⟨hall, ?_, ?_⟩
    · rw [hashBatch_selected, ← hall, List.length_map]
      split_ifs with hs
      · rw [hs]
        rfl
      · rfl
    · intro i hi hsame hne
      rw [hall, hspec]
      exact not_mem_changedSpec _ b.pkValues b.rowHashes hnd i hi hsame hne

/-- Scenario: the store holds the hash of the row `(1, "10")` as the full sync
left it; the hash-based loop has fetched `(1, "10")`, unchanged, and
`(2, "25")`, not yet stored.  Only the key `"2"` is selected. -/
theorem hashBatch_applies_changed_witness :
    (selectedOf Scenario.orders
      ([["1", "10"], ["2", "25"]].foldl
        (hashRow (Scenario.syncer true) (Scenario.driver []) Scenario.orders 0)
        { w := BeginTransaction
            (SyncFullTable (Scenario.syncer true) (Scenario.driver [["1", "10"]])
              (Scenario.world []) Scenario.orders).1,
          rowsSynced := 0, pkValues := [], rowHashes := [], batchData := [],
          batches := 0 })).map Prod.fst = ["2"] :=
  ((((hashBatch_applies_changed (Scenario.syncer true) (Scenario.driver [])
    (SyncFullTable (Scenario.syncer true) (Scenario.driver [["1", "10"]])
      (Scenario.world []) Scenario.orders).1
    Scenario.orders 0 [["1", "10"], ["2", "25"]] _ (by decide) rfl).2.2.2 _
    ((hashBatch_applies_changed (Scenario.syncer true) (Scenario.driver [])
      (SyncFullTable (Scenario.syncer true) (Scenario.driver [["1", "10"]])
        (Scenario.world []) Scenario.orders).1
      Scenario.orders 0 [["1", "10"], ["2", "25"]] _ (by decide) rfl).1.1)).2.2.2
    (by decide)).1).trans (by decide)

/-! ### The batches of the specification -/

theorem batchesOf_nil (B fuel : Nat) : batchesOf B fuel [] = [] := by
  cases fuel <;> rfl

/-- The batches concatenate to the rows, each has between 1 and `B` rows, and
a batch followed by another one has `B` rows. -/
theorem batchesOf_spec (B : Nat) (hB : 0 < B) : ∀ (fuel : Nat) (rows : List Row),
    rows.length ≤ fuel →
    (batchesOf B fuel rows).flatten = rows ∧
    (∀ b ∈ batchesOf B fuel rows, 1 ≤ b.length ∧ b.length ≤ B) ∧
    (∀ pre b post, batchesOf B fuel rows = pre ++ b :: post → post ≠ [] → b.length = B) := by
  intro fuel
  induction fuel with
  | zero =>
    intro rows h
    have : rows = [] := List.length_eq_zero.mp (Nat.le_zero.mp h)
    subst this
    refine ⟨rfl, fun b hb => by simp [batchesOf] at hb, ?_⟩
    intro pre b post h
    simp [batchesOf] at h
  | succ fuel ih =>
    intro rows h
    cases rows with
    | nil =>
      refine ⟨rfl, fun b hb => by simp [batchesOf] at hb, ?_⟩
      intro pre b post h
      simp [batchesOf] at h
    | cons r rs =>
      have hdrop : ((r :: rs).drop B).length ≤ fuel := by
        rw [List.length_drop]
        simp only [List.length_cons] at h ⊢
        omega
      obtain ⟨i1, i2, i3⟩ := ih ((r :: rs).drop B) hdrop
      have heq : batchesOf B (fuel + 1) (r :: rs) =
          (r :: rs).take B :: batchesOf B fuel ((r :: rs).drop B) := by
        simp [batchesOf]
      rw [heq]
      refine ⟨?_, ?_, ?_⟩
      · rw [List.flatten_cons, i1, List.take_append_drop]
      · intro b hb
        rcases List.mem_cons.mp hb with hb | hb
        · rw [hb, List.length_take]
          simp only [List.length_cons]
          omega
        · exact i2 b hb
      · intro pre b post hsplit hpost
        cases pre with
        | nil =>
          simp only [List.nil_append, List.cons.injEq] at hsplit
          obtain ⟨hb, hrest⟩ := hsplit
          rw [← hb, List.length_take]
          have hne : batchesOf B fuel ((r :: rs).drop B) ≠ [] := by
            rw [hrest]
            exact hpost
          have hd : (r :: rs).drop B ≠ [] := by
            intro hd
            rw [hd, batchesOf_nil] at hne
            exact hne rfl
          have : B < (r :: rs).length := by
            by_contra hc
            exact hd (List.drop_eq_nil_of_le (by omega))
          omega
        | cons p pre =>
          simp only [List.cons_append, List.cons.injEq] at hsplit
          exact i3 pre b post hsplit.2 hpost

/-- The batches of rows that fit in one batch. -/
theorem batchesOf_short (B N : Nat) (rows : List Row) (hlen : rows.length < B)
    (hN : rows.length ≤ N) :
    batchesOf B N rows = if rows.isEmpty then [] else [rows] := by
  cases N with
  | zero =>
    have : rows = [] := List.length_eq_zero.mp (Nat.le_zero.mp hN)
    subst this
    rfl
  | succ N =>
    unfold batchesOf
    split_ifs with h
    · rfl
    · rw [List.take_of_length_le (by omega), List.drop_eq_nil_of_le (by omega), batchesOf_nil]

/-- The batches of rows that begin with a full batch. -/
theorem batchesOf_full (B N : Nat) (full rest : List Row) (hlen : full.length = B)
    (hB : 0 < B) (hN : full.length + rest.length ≤ N) :
    ∃ N2, rest.length ≤ N2 ∧
      batchesOf B N (full ++ rest) = full :: batchesOf B N2 rest := by
  cases N with
  | zero => omega
  | succ N =>
    refine ⟨N, by omega, ?_⟩
    have hne : (full ++ rest).isEmpty = false := by
      cases full with
      | nil => simp at hlen; omega
      | cons a l => rfl
    have hstep : batchesOf B (N + 1) (full ++ rest) =
        if (full ++ rest).isEmpty then []
        else (full ++ rest).take B :: batchesOf B N ((full ++ rest).drop B) := rfl
    rw [hstep, hne]
    simp only [Bool.false_eq_true, if_false]
    rw [List.take_left' hlen, List.drop_left' hlen]

/-- Applying a first batch of full size. -/
theorem applyBatches_full (B k : Nat) (apply : Nat → World → List String → List Row → World)
    (b : Nat) (w : World) (batch : List Row) (rest : List (List Row))
    (h : batch.length ≥ B) :
    applyBatches B k apply b w (batch :: rest) =
      applyBatches B k apply (b + 1)
        (BeginTransaction (CommitTransaction
          (apply b w (batch.map (fun r => r.getD k "")) batch))) rest := by
  have hstep : applyBatches B k apply b w (batch :: rest) =
      if batch.length ≥ B then
        applyBatches B k apply (b + 1)
          (BeginTransaction (CommitTransaction
            (apply b w (batch.map (fun r => r.getD k "")) batch))) rest
      else
        applyBatches B k apply (b + 1)
          (apply b w (batch.map (fun r => r.getD k "")) batch) rest := rfl
  rw [hstep, if_pos h]

/-- Applying a last batch below the full size. -/
theorem applyBatches_last (B k : Nat) (apply : Nat → World → List String → List Row → World)
    (b : Nat) (w : World) (batch : List Row) (h : ¬ batch.length ≥ B) :
    applyBatches B k apply b w [batch] =
      apply b w (batch.map (fun r => r.getD k "")) batch := by
  have hstep : applyBatches B k apply b w [batch] =
      if batch.length ≥ B then
        applyBatches B k apply (b + 1)
          (BeginTransaction (CommitTransaction
            (apply b w (batch.map (fun r => r.getD k "")) batch))) []
      else
        applyBatches B k apply (b + 1)
          (apply b w (batch.map (fun r => r.getD k "")) batch) [] := rfl
  rw [hstep, if_neg h]
  rfl

/-- The row loop of `SyncKeyBased` and the block after it apply the batches of
the specification, built from what is pending and the rows fetched. -/
theorem keyLoop_batches (ts : TableSyncer) (d : Driver) (ti : TableInfo) (k : Nat)
    (hB : 0 < ts.batchSize) : ∀ (rows : List Row) (st : KeyState) (N : Nat),
    st.batchData.length + rows.length ≤ N → st.batchData.length < ts.batchSize →
    st.pkValues = st.batchData.map (fun r => r.getD k "") →
    (if (rows.foldl (keyRow ts d ti k) st).batchData ≠ [] then
      ProcessKeyBasedBatch ts d.now (d.batch (rows.foldl (keyRow ts d ti k) st).batches)
        (rows.foldl (keyRow ts d ti k) st).w ti.tableName ti.columns ti.pkColumn
        (rows.foldl (keyRow ts d ti k) st).pkValues (rows.foldl (keyRow ts d ti k) st).batchData
    else (rows.foldl (keyRow ts d ti k) st).w) =
      applyBatches ts.batchSize k
        (fun b w pks data =>
          ProcessKeyBasedBatch ts d.now (d.batch b) w ti.tableName ti.columns ti.pkColumn pks
            data)
        st.batches st.w
        (batchesOf ts.batchSize N (st.batchData ++ rows.map (fetchRowData ti.columns))) := by
  intro rows
  induction rows with
  | nil =>
    intro st N hN hlen hkeys
    rw [List.foldl_nil, List.map_nil, List.append_nil,
      batchesOf_short ts.batchSize N st.batchData hlen (by simpa using hN)]
    cases hd : st.batchData with
    | nil => simp [applyBatches]
    | cons r rs =>
      have hl : ¬ (r :: rs).length ≥ ts.batchSize := by
        rw [← hd]
        omega
      simp only [ne_eq, reduceCtorEq, not_false_eq_true, if_true, List.isEmpty_cons,
        Bool.false_eq_true, if_false]
      rw [applyBatches_last _ _ _ _ _ _ hl, hkeys, hd]
  | cons c rest ih =>
    intro st N hN hlen hkeys
    rw [List.foldl_cons]
    have hN1 : st.batchData.length + 1 + rest.length ≤ N := by
      simp only [List.length_cons] at hN
      omega
    have hlen1 : (st.batchData ++ [fetchRowData ti.columns c]).length =
        st.batchData.length + 1 := by simp
    by_cases hflush : (st.batchData ++ [fetchRowData ti.columns c]).length ≥ ts.batchSize
    · have hst : keyRow ts d ti k st c =
          { w := BeginTransaction (CommitTransaction
              (ProcessKeyBasedBatch ts d.now (d.batch st.batches) st.w ti.tableName ti.columns
                ti.pkColumn (st.pkValues ++ [(fetchRowData ti.columns c).getD k ""])
                (st.batchData ++ [fetchRowData ti.columns c])))
            rowsSynced := st.rowsSynced + (st.batchData ++ [fetchRowData ti.columns c]).length
            lastValue := (fetchRowData ti.columns c).getD k ""
            pkValues := []
            batchData := []
            batches := st.batches + 1 } := by
        unfold keyRow
        dsimp only
        rw [if_pos hflush]
      have hfull : (st.batchData ++ [fetchRowData ti.columns c]).length = ts.batchSize := by
        omega
      obtain ⟨N2, hN2, hb⟩ := batchesOf_full ts.batchSize N
        (st.batchData ++ [fetchRowData ti.columns c]) (rest.map (fetchRowData ti.columns))
        hfull hB (by rw [List.length_map]; omega)
      have hlist : st.batchData ++ (c :: rest).map (fetchRowData ti.columns) =
          (st.batchData ++ [fetchRowData ti.columns c]) ++
            rest.map (fetchRowData ti.columns) := by
        simp
      rw [hlist, hb, hst]
      rw [ih _ N2 (by simpa using hN2) (by simpa using hB) rfl]
      simp only [List.nil_append]
      rw [applyBatches_full _ _ _ _ _ _ _ (by omega)]
      have hk2 : (st.batchData ++ [fetchRowData ti.columns c]).map (fun r => r.getD k "") =
          st.pkValues ++ [(fetchRowData ti.columns c).getD k ""] := by
        rw [hkeys]
        simp
      rw [hk2]
    · have hst : keyRow ts d ti k st c =
          { w := st.w, rowsSynced := st.rowsSynced,
            lastValue := (fetchRowData ti.columns c).getD k "",
            pkValues := st.pkValues ++ [(fetchRowData ti.columns c).getD k ""],
            batchData := st.batchData ++ [fetchRowData ti.columns c],
            batches := st.batches } := by
        unfold keyRow
        dsimp only
        rw [if_neg hflush]
      rw [hst]
      rw [ih _ N (by dsimp only; omega) (by dsimp only; omega)
        (by dsimp only; rw [hkeys]; simp)]
      simp

/-- The row loop of `SyncTimestampBased` for a table with a primary-key index
and the block after it apply the batches of the specification. -/
theorem timestampLoop_batches (ts : TableSyncer) (d : Driver) (ti : TableInfo) (k : Nat)
    (hB : 0 < ts.batchSize) : ∀ (rows : List Row) (st : TimestampState) (N : Nat),
    st.batchData.length + rows.length ≤ N → st.batchData.length < ts.batchSize →
    st.pkValues = st.batchData.map (fun r => r.getD k "") →
    (if (rows.foldl (timestampRow ts d ti (some k)) st).batchData ≠ [] then
      timestampBatch ts d ti (some k) (rows.foldl (timestampRow ts d ti (some k)) st).batches
        (rows.foldl (timestampRow ts d ti (some k)) st).w
        (rows.foldl (timestampRow ts d ti (some k)) st).pkValues
        (rows.foldl (timestampRow ts d ti (some k)) st).batchData
    else (rows.foldl (timestampRow ts d ti (some k)) st).w) =
      applyBatches ts.batchSize k
        (fun b w pks data =>
          ProcessKeyBasedBatch ts d.now (d.batch b) w ti.tableName ti.columns ti.pkColumn pks
            data)
        st.batches st.w
        (batchesOf ts.batchSize N (st.batchData ++ rows.map (fetchRowData ti.columns))) := by
  intro rows
  induction rows with
  | nil =>
    intro st N hN hlen hkeys
    rw [List.foldl_nil, List.map_nil, List.append_nil,
      batchesOf_short ts.batchSize N st.batchData hlen (by simpa using hN)]
    cases hd : st.batchData with
    | nil => simp [applyBatches]
    | cons r rs =>
      have hl : ¬ (r :: rs).length ≥ ts.batchSize := by
        rw [← hd]
        omega
      simp only [ne_eq, reduceCtorEq, not_false_eq_true, if_true, List.isEmpty_cons,
        Bool.false_eq_true, if_false]
      rw [applyBatches_last _ _ _ _ _ _ hl, hkeys, hd]
      rfl
  | cons c rest ih =>
    intro st N hN hlen hkeys
    rw [List.foldl_cons]
    have hN1 : st.batchData.length + 1 + rest.length ≤ N := by
      simp only [List.length_cons] at hN
      omega
    have hlen1 : (st.batchData ++ [fetchRowData ti.columns c]).length =
        st.batchData.length + 1 := by simp
    by_cases hflush : (st.batchData ++ [fetchRowData ti.columns c]).length ≥ ts.batchSize
    · have hst : timestampRow ts d ti (some k) st c =
          { w := BeginTransaction (CommitTransaction
              (ProcessKeyBasedBatch ts d.now (d.batch st.batches) st.w ti.tableName ti.columns
                ti.pkColumn (st.pkValues ++ [(fetchRowData ti.columns c).getD k ""])
                (st.batchData ++ [fetchRowData ti.columns c])))
            rowsSynced := st.rowsSynced + (st.batchData ++ [fetchRowData ti.columns c]).length
            pkValues := []
            batchData := []
            batches := st.batches + 1 } := by
        unfold timestampRow
        dsimp only
        rw [if_pos hflush]
        rfl
      have hfull : (st.batchData ++ [fetchRowData ti.columns c]).length = ts.batchSize := by
        omega
      obtain ⟨N2, hN2, hb⟩ := batchesOf_full ts.batchSize N
        (st.batchData ++ [fetchRowData ti.columns c]) (rest.map (fetchRowData ti.columns))
        hfull hB (by rw [List.length_map]; omega)
      have hlist : st.batchData ++ (c :: rest).map (fetchRowData ti.columns) =
          (st.batchData ++ [fetchRowData ti.columns c]) ++
            rest.map (fetchRowData ti.columns) := by
        simp
      rw [hlist, hb, hst]
      rw [ih _ N2 (by simpa using hN2) (by simpa using hB) rfl]
      simp only [List.nil_append]
      rw [applyBatches_full _ _ _ _ _ _ _ (by omega)]
      have hk2 : (st.batchData ++ [fetchRowData ti.columns c]).map (fun r => r.getD k "") =
          st.pkValues ++ [(fetchRowData ti.columns c).getD k ""] := by
        rw [hkeys]
        simp
      rw [hk2]
    · have hst : timestampRow ts d ti (some k) st c =
          { w := st.w, rowsSynced := st.rowsSynced,
            pkValues := st.pkValues ++ [(fetchRowData ti.columns c).getD k ""],
            batchData := st.batchData ++ [fetchRowData ti.columns c],
            batches := st.batches } := by
        unfold timestampRow
        dsimp only
        rw [if_neg hflush]
      rw [hst]
      rw [ih _ N (by dsimp only; omega) (by dsimp only; omega)
        (by dsimp only; rw [hkeys]; simp)]
      simp

/-- Claim C26, counterexample: the batching is not identical in the other
loops.  In the timestamp loop for a table without primary key, after one row
is fetched the pending batch holds the row while `pkValues` is empty; in the
hash-based loop a fetched row with an empty key enters no batch. -/
theorem other_loops_batch_differently :
    (timestampRow Scenario.pairs (Scenario.driver []) Scenario.keyless none
      { w := Scenario.world [], rowsSynced := 0, pkValues := [], batchData := [],
        batches := 0 } ["1", "10"]).batchData = [["1", "10"]] ∧
    (timestampRow Scenario.pairs (Scenario.driver []) Scenario.keyless none
      { w := Scenario.world [], rowsSynced := 0, pkValues := [], batchData := [],
        batches := 0 } ["1", "10"]).pkValues = [] ∧
    (hashRow (Scenario.syncer true) (Scenario.driver []) Scenario.orders 0
      { w := Scenario.world [], rowsSynced := 0, pkValues := [], rowHashes := [],
        batchData := [], batches := 0 } ["", "10"]).batchData = [] := by
  decide

/-! ### Statements issued inside a transaction -/

theorem quiet_refl (w : World) : Quiet w w := ⟨[], by simp, fun c hc => by simp at hc⟩

theorem quiet_trans {w1 w2 w3 : World} (h12 : Quiet w1 w2) (h23 : Quiet w2 w3) :
    Quiet w1 w3 := by
  obtain ⟨l1, h1, a1⟩ := h12
  obtain ⟨l2, h2, a2⟩ := h23
  refine ⟨l1 ++ l2, by rw [h2, h1, List.append_assoc], ?_⟩
  intro c hc
  rcases List.mem_append.mp hc with h | h
  · exact a1 c h
  · exact a2 c h

theorem quiet_emit (w : World) (c : Cmd) (hc : c.isBatchWrite = true) : Quiet w (w.emit c) :=
  ⟨[c], rfl, fun x hx => by rw [List.mem_singleton.mp hx]; exact hc⟩

theorem quiet_setTable (w : World) (t : String) (rows : List DRow) :
    Quiet w (w.setTable t rows) := ⟨[], by simp, fun c hc => by simp at hc⟩

theorem quiet_stepInsert (ok : Bool) (w : World) (t : String) (r : DRow) :
    Quiet w (StepInsert ok w t r) := by
  unfold StepInsert
  split_ifs
  · exact quiet_trans (quiet_setTable _ _ _) (quiet_emit _ _ rfl)
  · exact quiet_emit _ _ rfl

theorem quiet_storeHash (w : World) (now t p h : String) : Quiet w (w.storeHash now t p h) :=
  ⟨[Cmd.storeHash t p h], rfl, fun x hx => by rw [List.mem_singleton.mp hx]; rfl⟩

theorem quiet_deleteRows (ok : Bool) (w : World) (t c : String) (vs : List String) :
    Quiet w (DeleteRows ok w t c vs).1 := by
  unfold DeleteRows
  split_ifs
  · exact quiet_refl w
  · exact quiet_trans (quiet_setTable _ _ _) (quiet_emit _ _ rfl)
  · exact quiet_emit _ _ rfl

theorem quiet_keyBatchRows (ts : TableSyncer) (now : String) (o : BatchOutcome) (t : String)
    (cols : List String) (pkValues : List String) :
    ∀ (rest : List Row) (rowIdx : Nat) (bindings : List Cell) (w : World),
    Quiet w (keyBatchRows ts now o t cols pkValues rowIdx bindings rest w) := by
  intro rest
  induction rest with
  | nil => intro rowIdx bindings w; exact quiet_refl w
  | cons row rest ih =>
    intro rowIdx bindings w
    unfold keyBatchRows
    dsimp only
    refine quiet_trans ?_ (ih _ _ _)
    split_ifs
    · exact quiet_stepInsert _ _ _ _
    · exact quiet_trans (quiet_stepInsert _ _ _ _) (quiet_storeHash _ _ _ _ _)
    · exact quiet_stepInsert _ _ _ _

theorem quiet_processKeyBasedBatch (ts : TableSyncer) (now : String) (o : BatchOutcome)
    (w : World) (t : String) (cols : List String) (pkCol : String)
    (pkValues : List String) (batchData : List Row) :
    Quiet w (ProcessKeyBasedBatch ts now o w t cols pkCol pkValues batchData) := by
  unfold ProcessKeyBasedBatch
  dsimp only
  split_ifs
  · exact quiet_refl w
  · exact quiet_deleteRows _ _ _ _ _
  · exact quiet_trans (quiet_deleteRows _ _ _ _ _) (quiet_emit _ (Cmd.prepareInsert _ _) rfl)
  · exact quiet_trans (quiet_trans (quiet_deleteRows _ _ _ _ _) (quiet_emit _ (Cmd.prepareInsert _ _) rfl))
      (quiet_keyBatchRows _ _ _ _ _ _ _ _ _ _)

theorem quiet_hashBatchRows (ts : TableSyncer) (now : String) (o : BatchOutcome) (t : String)
    (cols : List String) (pkValues : List String) :
    ∀ (rest : List Row) (rowIdx : Nat) (bindings : List Cell) (w : World),
    Quiet w (hashBatchRows ts now o t cols pkValues rowIdx bindings rest w) := by
  intro rest
  induction rest with
  | nil => intro rowIdx bindings w; exact quiet_refl w
  | cons row rest ih =>
    intro rowIdx bindings w
    unfold hashBatchRows
    dsimp only
    refine quiet_trans ?_ (ih _ _ _)
    split_ifs
    · exact quiet_stepInsert _ _ _ _
    · exact quiet_trans (quiet_stepInsert _ _ _ _) (quiet_storeHash _ _ _ _ _)

theorem quiet_processHashBasedBatch (ts : TableSyncer) (now : String) (o : BatchOutcome)
    (w : World) (t : String) (cols : List String) (pkCol : String)
    (pkValues : List String) (batchData : List Row) :
    Quiet w (ProcessHashBasedBatch ts now o w t cols pkCol pkValues batchData) := by
  unfold ProcessHashBasedBatch
  dsimp only
  split_ifs
  · exact quiet_refl w
  · exact quiet_deleteRows _ _ _ _ _
  · exact quiet_trans (quiet_deleteRows _ _ _ _ _) (quiet_emit _ (Cmd.prepareInsert _ _) rfl)
  · exact quiet_trans (quiet_trans (quiet_deleteRows _ _ _ _ _) (quiet_emit _ (Cmd.prepareInsert _ _) rfl))
      (quiet_hashBatchRows _ _ _ _ _ _ _ _ _ _)

theorem quiet_plainBatchRows (o : BatchOutcome) (t : String) (cols : List String) :
    ∀ (rest : List Row) (rowIdx : Nat) (bindings : List Cell) (w : World),
    Quiet w (plainBatchRows o t cols rowIdx bindings rest w) := by
  intro rest
  induction rest with
  | nil => intro rowIdx bindings w; exact quiet_refl w
  | cons row rest ih =>
    intro rowIdx bindings w
    unfold plainBatchRows
    exact quiet_trans (quiet_stepInsert _ _ _ _) (ih _ _ _)

theorem quiet_insertOnlyBatch (o : BatchOutcome) (w : World) (t : String)
    (cols : List String) (batchData : List Row) :
    Quiet w (insertOnlyBatch o w t cols batchData) := by
  unfold insertOnlyBatch
  split_ifs
  · exact quiet_emit _ (Cmd.prepareInsert _ _) rfl
  · exact quiet_trans (quiet_emit _ (Cmd.prepareInsert _ _) rfl)
      (quiet_plainBatchRows _ _ _ _ _ _ _)

theorem quiet_timestampBatch (ts : TableSyncer) (d : Driver) (ti : TableInfo)
    (pkIndex : Option Nat) (b : Nat) (w : World) (pkValues : List String)
    (batchData : List Row) :
    Quiet w (timestampBatch ts d ti pkIndex b w pkValues batchData) := by
  unfold timestampBatch
  cases pkIndex with
  | none => exact quiet_insertOnlyBatch _ _ _ _ _
  | some k => exact quiet_processKeyBasedBatch _ _ _ _ _ _ _ _ _

theorem quiet_hashBatch (ts : TableSyncer) (d : Driver) (ti : TableInfo) (st : HashState) :
    Quiet st.w (hashBatch ts d ti st).1 := by
  unfold hashBatch
  dsimp only
  split_ifs
  · exact quiet_processHashBasedBatch _ _ _ _ _ _ _ _ _
  · exact quiet_refl _
  · exact quiet_refl _

/-! ### The log messages of the connection attempts -/

/-- Whether a pattern begins a text is decided by as many characters as the
pattern has. -/
theorem isPrefixOf_append (pat x b : List Char) (h : pat.length ≤ x.length) :
    pat.isPrefixOf (x ++ b) = pat.isPrefixOf x := by
  rw [Bool.eq_iff_iff, List.isPrefixOf_iff_prefix, List.isPrefixOf_iff_prefix]
  constructor
  · intro hp
    exact List.prefix_of_prefix_length_le hp (List.prefix_append x b) h
  · intro hp
    exact hp.trans (List.prefix_append x b)

/-- One step of the search for a pattern. -/
theorem findFrom_cons (pat : List Char) (c : Char) (rest : List Char) :
    findFrom pat (c :: rest) =
      if pat.isPrefixOf (c :: rest) then some 0
      else (findFrom pat rest).map (fun i => i + 1) := rfl

/-- The first occurrence of a non-empty pattern in a text that continues with
the pattern lies in the text before it or is that continuation, whatever
follows. -/
theorem findFrom_marker (pat : List Char) (hpat : pat ≠ []) : ∀ a : List Char,
    ∃ i, i ≤ a.length ∧ ∀ b : List Char, findFrom pat (a ++ pat ++ b) = some i := by
  intro a
  induction a with
  | nil =>
    refine ⟨0, Nat.le_refl _, ?_⟩
    intro b
    cases pat with
    | nil => exact absurd rfl hpat
    | cons p ps =>
      have hp : (p :: ps).isPrefixOf (p :: (ps ++ b)) = true := by
        rw [List.isPrefixOf_iff_prefix]
        exact List.prefix_append (p :: ps) b
      rw [List.nil_append, List.cons_append, findFrom_cons, if_pos hp]
  | cons c a ih =>
    obtain ⟨i, hi, hfind⟩ := ih
    have htest : ∀ b, pat.isPrefixOf (c :: (a ++ pat ++ b)) =
        pat.isPrefixOf (c :: (a ++ pat)) := by
      intro b
      have := isPrefixOf_append pat (c :: (a ++ pat)) b (by simp; omega)
      simpa using this
    by_cases ht : pat.isPrefixOf (c :: (a ++ pat)) = true
    · refine ⟨0, Nat.zero_le _, ?_⟩
      intro b
      rw [List.cons_append, List.cons_append, findFrom_cons, htest b, if_pos ht]
    · refine ⟨i + 1, by simp only [List.length_cons]; omega, ?_⟩
      intro b
      rw [List.cons_append, List.cons_append, findFrom_cons, htest b, if_neg ht, hfind b]
      rfl

/-- The masked prefix of a connection string with the `PWD=` marker is taken
from the text before the marker, whatever the password is. -/
theorem maskedPrefix_marker (pre : String) :
    ∃ text : String, ∀ rest : String,
      DatabaseConnector.maskedPrefix (pre ++ "PWD=" ++ rest) = text := by
  obtain ⟨i, hi, hfind⟩ := findFrom_marker "PWD=".data (by decide) pre.data
  refine ⟨String.mk (pre.data.take i), ?_⟩
  intro rest
  unfold DatabaseConnector.maskedPrefix
  have hd : (pre ++ "PWD=" ++ rest).data = pre.data ++ "PWD=".data ++ rest.data := by
    simp [String.data_append]
  rw [hd, hfind rest.data]
  dsimp only
  rw [List.append_assoc, List.take_append_of_le_length hi]

/-- The message of an attempt made with a connection string that has no
`PWD=` shows the whole string. -/
theorem attemptMessage_unmasked (connStr : String)
    (h : findFrom "PWD=".data connStr.data = none) :
    DatabaseConnector.attemptMessage connStr =
      "Attempting connection with: " ++ connStr ++ "PWD=********;" := by
  unfold DatabaseConnector.attemptMessage DatabaseConnector.maskedPrefix
  rw [h]

/-- Every message of the attempt loop is the message of one of the strings. -/
theorem attempts_messages (connectOk : Nat → Bool) : ∀ (l : List String) (i : Nat),
    ∀ m ∈ (DatabaseConnector.attempts connectOk i l).1,
      ∃ connStr ∈ l, m = DatabaseConnector.attemptMessage connStr := by
  intro l
  induction l with
  | nil => intro i m hm; simp [DatabaseConnector.attempts] at hm
  | cons s rest ih =>
    intro i m hm
    unfold DatabaseConnector.attempts at hm
    split_ifs at hm
    · exact ⟨s, List.mem_cons_self _ _, by simpa using hm⟩
    · rcases List.mem_cons.mp hm with h | h
      · exact ⟨s, List.mem_cons_self _ _, h⟩
      · obtain ⟨c, hc, hmc⟩ := ih (i + 1) m h
        exact ⟨c, List.mem_cons_of_mem _ hc, hmc⟩

/-- The message of an attempt whose connection string has the form
`pre ++ "PWD=" ++ password ++ ";"` is the same for every password. -/
theorem attemptMessage_marker (pre pw pw2 : String) :
    DatabaseConnector.attemptMessage (pre ++ "PWD=" ++ pw ++ ";") =
      DatabaseConnector.attemptMessage (pre ++ "PWD=" ++ pw2 ++ ";") := by
  obtain ⟨text, htext⟩ := maskedPrefix_marker pre
  unfold DatabaseConnector.attemptMessage
  rw [String.append_assoc (pre ++ "PWD=") pw ";", String.append_assoc (pre ++ "PWD=") pw2 ";",
    htext, htext]

/-- Claim C30 (divergence): what `DatabaseConnector::Connect` logs for its connection
attempts. Every message is `"Attempting connection with: "`, the masked prefix
of one of the connection strings, and the literal `PWD=********;`. The message
for the standard string (attempt 0) and for the DSN string (attempt 3, when a
DSN is configured) is the same whatever the password is. The two alternative
strings (attempts 1 and 2) carry the password as `Password=`: when `PWD=` does
not occur in such a string, the message is the whole string followed by the
literal, and so contains `Password=<password>;` in clear. -/
theorem connect_password_logging (cfg : DatabaseConfig) (connectOk : Nat → Bool) :
    (∀ m ∈ (DatabaseConnector.Connect cfg connectOk).1,
      ∃ connStr ∈ DatabaseConnector.connectionStrings cfg,
        m = "Attempting connection with: " ++ DatabaseConnector.maskedPrefix connStr ++
          "PWD=********;") ∧
    (∀ pw : String,
      DatabaseConnector.attemptMessage
          ((DatabaseConnector.connectionStrings { cfg with password := pw }).getD 0 "") =
        DatabaseConnector.attemptMessage
          ((DatabaseConnector.connectionStrings cfg).getD 0 "")) ∧
    (∀ pw : String, cfg.dsn ≠ "" →
      DatabaseConnector.attemptMessage
          ((DatabaseConnector.connectionStrings { cfg with password := pw }).getD 3 "") =
        DatabaseConnector.attemptMessage
          ((DatabaseConnector.connectionStrings cfg).getD 3 "")) ∧
    (∀ j : Nat, j = 1 ∨ j = 2 →
      findFrom "PWD=".data ((DatabaseConnector.connectionStrings cfg).getD j "").data = none →
      DatabaseConnector.attemptMessage ((DatabaseConnector.connectionStrings cfg).getD j "") =
          "Attempting connection with: " ++ (DatabaseConnector.connectionStrings cfg).getD j "" ++
            "PWD=********;" ∧
        ("Password=" ++ cfg.password ++ ";").data <:+:
          (DatabaseConnector.attemptMessage
            ((DatabaseConnector.connectionStrings cfg).getD j "")).data) := by
  refine ⟨?_, ?_, ?_, ?_⟩
  · intro m hm
    exact attempts_messages connectOk _ 0 m hm
  · intro pw
    exact attemptMessage_marker _ pw cfg.password
  · intro pw hdsn
    have h1 : (DatabaseConnector.connectionStrings { cfg with password := pw }).getD 3 "" =
        "DSN=" ++ cfg.dsn ++ ";" ++ "UID=" ++ cfg.user ++ ";" ++ "PWD=" ++ pw ++ ";" := by
      unfold DatabaseConnector.connectionStrings
      dsimp only
      rw [if_pos hdsn]
      rfl
    have h2 : (DatabaseConnector.connectionStrings cfg).getD 3 "" =
        "DSN=" ++ cfg.dsn ++ ";" ++ "UID=" ++ cfg.user ++ ";" ++ "PWD=" ++ cfg.password ++ ";" := by
      unfold DatabaseConnector.connectionStrings
      rw [if_pos hdsn]
      rfl
    rw [h1, h2]
    exact attemptMessage_marker _ pw cfg.password
  · intro j hj hnone
    refine ⟨attemptMessage_unmasked _ hnone, ?_⟩
    rw [attemptMessage_unmasked _ hnone]
    rcases hj with hj | hj
    · subst hj
      refine ⟨("Attempting connection with: " ++
          ("DRIVER=\x7bProgress OpenEdge Wire Protocol\x7d;" ++ "HostName=" ++ cfg.host ++ ";" ++
            "PortNumber=" ++ toString cfg.port ++ ";" ++ "Database=" ++ cfg.dbName ++ ";" ++
            "User=" ++ cfg.user ++ ";")).data, "PWD=********;".data, ?_⟩
      simp [DatabaseConnector.connectionStrings, String.data_append, List.append_assoc]
    · subst hj
      refine ⟨("Attempting connection with: " ++
          ("DRIVER=\x7bProgress OpenEdge Wire Protocol\x7d;" ++ "ServerName=" ++ cfg.host ++ ";" ++
            "PortNumber=" ++ toString cfg.port ++ ";" ++ "DatabaseName=" ++ cfg.dbName ++ ";" ++
            "LogonID=" ++ cfg.user ++ ";")).data, "PWD=********;".data, ?_⟩
      simp [DatabaseConnector.connectionStrings, String.data_append, List.append_assoc]

set_option maxRecDepth 20000 in
/-- The configuration of `Scenario.config` when the first attempt fails and the
second succeeds: the second message shows `Password=s3cret;`. -/
theorem connect_password_logging_witness :
    (DatabaseConnector.Connect Scenario.config (fun i => i != 0)).1 =
      ["Attempting connection with: DRIVER=\x7bProgress OpenEdge Wire Protocol\x7d;" ++
          "HOST=dbhost;PORT=20931;DB=sports;UID=sysprogress;PWD=********;",
        "Attempting connection with: DRIVER=\x7bProgress OpenEdge Wire Protocol\x7d;" ++
          "HostName=dbhost;PortNumber=20931;Database=sports;User=sysprogress;" ++
          "Password=s3cret;PWD=********;"] ∧
    findFrom "PWD=".data
        ((DatabaseConnector.connectionStrings Scenario.config).getD 1 "").data = none ∧
    ("Password=" ++ Scenario.config.password ++ ";").data <:+:
      (DatabaseConnector.attemptMessage
        ((DatabaseConnector.connectionStrings Scenario.config).getD 1 "")).data :=
  ⟨by decide, by decide,
    ((connect_password_logging Scenario.config (fun i => i != 0)).2.2.2 1
      (Or.inl rfl) (by decide)).2⟩

/-! ### The monitor -/

theorem txState_append (l1 l2 : List Cmd) :
    txState (l1 ++ l2) = l2.foldl txStep (txState l1) := by
  unfold txState
  rw [List.foldl_append]

/-- Batch statements keep an open transaction open. -/
theorem foldl_txStep_batch : ∀ (l : List Cmd), (∀ c ∈ l, Cmd.isBatchWrite c = true) →
    l.foldl txStep (some true) = some true := by
  intro l
  induction l with
  | nil => intro _; rfl
  | cons c l ih =>
    intro h
    rw [List.foldl_cons]
    have hc := h c (List.mem_cons_self _ _)
    have hstep : txStep (some true) c = some true := by
      cases c <;> simp_all [txStep, Cmd.isBatchWrite]
    rw [hstep]
    exact ih (fun x hx => h x (List.mem_cons_of_mem _ hx))

/-- Batch statements are no transaction commands. -/
theorem filter_isTx_batch : ∀ (l : List Cmd), (∀ c ∈ l, Cmd.isBatchWrite c = true) →
    l.filter Cmd.isTx = [] := by
  intro l h
  rw [List.filter_eq_nil_iff]
  intro c hc
  have hb := h c hc
  cases c <;> simp_all [Cmd.isTx, Cmd.isBatchWrite]

/-- Batch statements are no writes of the progress store. -/
theorem filter_isRecord_batch : ∀ (l : List Cmd), (∀ c ∈ l, Cmd.isBatchWrite c = true) →
    l.filter Cmd.isRecord = [] := by
  intro l h
  rw [List.filter_eq_nil_iff]
  intro c hc
  have hb := h c hc
  cases c <;> simp_all [Cmd.isRecord, Cmd.isBatchWrite]

theorem txCycles_succ (n : Nat) :
    Cmd.begin :: txCycles n ++ [Cmd.commit, Cmd.begin] = Cmd.begin :: txCycles (n + 1) := rfl

theorem txOpen_quiet {w0 w w2 : World} (h : TxOpen w0 w) (hq : Quiet w w2) : TxOpen w0 w2 := by
  obtain ⟨h1, ⟨n, h2⟩, l0, h3, h4⟩ := h
  obtain ⟨l, hl, hall⟩ := hq
  refine ⟨?_, ⟨n, ?_⟩, l0 ++ l, ?_, ?_⟩
  · intro h0
    rw [hl, txState_append, h1 h0]
    exact foldl_txStep_batch l hall
  · rw [hl, List.filter_append, filter_isTx_batch l hall, List.append_nil, h2]
  · rw [hl, h3, List.append_assoc]
  · rw [List.filter_append, h4, filter_isRecord_batch l hall]
    rfl

theorem txOpen_cycle {w0 w : World} (h : TxOpen w0 w) :
    TxOpen w0 (BeginTransaction (CommitTransaction w)) := by
  obtain ⟨h1, ⟨n, h2⟩, l0, h3, h4⟩ := h
  refine ⟨?_, ⟨n + 1, ?_⟩, l0 ++ [Cmd.commit, Cmd.begin], ?_, ?_⟩
  · intro h0
    rw [begin_log, commit_log, List.append_assoc, txState_append, h1 h0]
    rfl
  · rw [begin_log, commit_log, List.append_assoc, List.filter_append, h2]
    simp [txCycles, List.filter_cons, Cmd.isTx]
  · rw [begin_log, commit_log, h3, List.append_assoc, List.append_assoc]
    rfl
  · rw [List.filter_append, h4]
    rfl

/-- The opening of the transaction by a strategy that has issued nothing but,
possibly, its truncating `DELETE`. -/
theorem txOpen_begin (w0 w : World) (hlog : txState w0.log = some false →
    txState w.log = some false) (hf : w.log.filter Cmd.isTx = w0.log.filter Cmd.isTx)
    (hrec : ∃ l, w.log = w0.log ++ l ∧ l.filter Cmd.isRecord = []) :
    TxOpen w0 (BeginTransaction w) := by
  obtain ⟨l, h3, h4⟩ := hrec
  refine ⟨?_, ⟨0, ?_⟩, l ++ [Cmd.begin], ?_, ?_⟩
  · intro h0
    rw [begin_log, txState_append, hlog h0]
    rfl
  · rw [begin_log, List.filter_append, hf]
    rfl
  · rw [begin_log, h3, List.append_assoc]
  · rw [List.filter_append, h4]
    rfl

/-- The final `COMMIT` and the progress record close the transaction. -/
theorem txOpen_finish {w0 w : World} (h : TxOpen w0 w) (now t key method : String)
    (rows : Int) :
    Disciplined w0 ((CommitTransaction w).updateSyncState now t key method rows) := by
  obtain ⟨h1, ⟨n, h2⟩, l0, h3, h4⟩ := h
  refine ⟨?_, fun _ => rfl,
    ⟨Cmd.begin :: txCycles n ++ [Cmd.commit], ?_, Or.inr ⟨n, Or.inl rfl⟩⟩,
    l0 ++ [Cmd.commit, Cmd.updateSyncState t key method rows], ?_,
    Or.inr ⟨l0, t, key, method, rows, rfl, h4⟩⟩
  · intro h0
    rw [commit_update_log, txState_append, h1 h0]
    rfl
  · rw [commit_update_log, List.filter_append, h2]
    simp [Cmd.isTx, List.filter_cons]
  · rw [commit_update_log, h3, List.append_assoc]

/-- A `ROLLBACK` closes the transaction. -/
theorem txOpen_rollback {w0 w : World} (h : TxOpen w0 w) :
    Disciplined w0 (RollbackTransaction w) := by
  obtain ⟨h1, ⟨n, h2⟩, l0, h3, h4⟩ := h
  have hl : (RollbackTransaction w).log = w.log ++ [Cmd.rollback] := rfl
  refine ⟨?_, fun _ => rfl,
    ⟨Cmd.begin :: txCycles n ++ [Cmd.rollback], ?_, Or.inr ⟨n, Or.inr rfl⟩⟩,
    l0 ++ [Cmd.rollback], ?_, Or.inl ?_⟩
  · intro h0
    rw [hl, txState_append, h1 h0]
    rfl
  · rw [hl, List.filter_append, h2]
    simp [Cmd.isTx, List.filter_cons]
  · rw [hl, h3, List.append_assoc]
  · rw [List.filter_append, h4]
    rfl

/-- A strategy that returns without a statement respects the discipline. -/
theorem disciplined_refl (w : World) : Disciplined w w :=
  ⟨fun h => h, fun h => h, ⟨[], by simp, Or.inl rfl⟩, [], by simp, Or.inl rfl⟩

/-! ### The strategies and the transaction discipline -/

/-- The truncating `DELETE` is no transaction command and leaves the monitor
and the transaction as they are. -/
theorem executeDeleteAll_tx (ok : Bool) (w : World) (t : String) :
    (txState w.log = some false → txState (ExecuteDeleteAll ok w t).log = some false) ∧
    (ExecuteDeleteAll ok w t).log.filter Cmd.isTx = w.log.filter Cmd.isTx ∧
    (ExecuteDeleteAll ok w t).snapshot = w.snapshot ∧
    (ExecuteDeleteAll ok w t).log = w.log ++ [Cmd.deleteAll t ok] := by
  have hl : (ExecuteDeleteAll ok w t).log = w.log ++ [Cmd.deleteAll t ok] := by
    unfold ExecuteDeleteAll
    cases ok <;> rfl
  refine ⟨?_, ?_, ?_, hl⟩
  · intro h0
    rw [hl, txState_append, h0]
    rfl
  · rw [hl, List.filter_append]
    simp [Cmd.isTx, List.filter_cons]
  · unfold ExecuteDeleteAll
    cases ok <;> rfl

theorem fullRow_txOpen (ts : TableSyncer) (d : Driver) (ti : TableInfo)
    (pkIndex : Option Nat) (w0 : World) (st : FullState) (cur : Row)
    (h : TxOpen w0 st.w) : TxOpen w0 (fullRow ts d ti pkIndex st cur).w := by
  have h1 := txOpen_quiet h (quiet_stepInsert (d.stepOk st.fetched) st.w ti.tableName
    (ti.columns.zip ((fetchRowData ti.columns cur).map BindParameter)))
  unfold fullRow
  dsimp only
  cases pkIndex with
  | none =>
    dsimp only
    split_ifs <;> first | exact h1 | exact txOpen_cycle h1
  | some k =>
    dsimp only
    split_ifs <;> first
      | exact h1
      | exact txOpen_cycle h1
      | exact txOpen_quiet h1 (quiet_storeHash _ _ _ _ _)
      | exact txOpen_cycle (txOpen_quiet h1 (quiet_storeHash _ _ _ _ _))

theorem fullLoop_txOpen (ts : TableSyncer) (d : Driver) (ti : TableInfo)
    (pkIndex : Option Nat) (w0 : World) : ∀ (rows : List Row) (st : FullState),
    TxOpen w0 st.w → TxOpen w0 (rows.foldl (fullRow ts d ti pkIndex) st).w := by
  intro rows
  induction rows with
  | nil => intro st h; exact h
  | cons c rest ih =>
    intro st h
    rw [List.foldl_cons]
    exact ih _ (fullRow_txOpen ts d ti pkIndex w0 st c h)

/-- Every path of `SyncFullTable` respects the discipline. -/
theorem syncFullTable_disciplined (ts : TableSyncer) (d : Driver) (w : World)
    (ti : TableInfo) : Disciplined w (SyncFullTable ts d w ti).1 := by
  obtain ⟨e1, e2, e3, e4⟩ := executeDeleteAll_tx d.deleteOk
    (w.query (rowCountQuery ti.tableName)) ti.tableName
  have hearly : Disciplined w
      (ExecuteDeleteAll d.deleteOk (w.query (rowCountQuery ti.tableName)) ti.tableName) :=
    ⟨e1, fun h => by rw [e3]; exact h, ⟨[], by rw [e2, List.append_nil]; rfl, Or.inl rfl⟩,
      [Cmd.deleteAll ti.tableName d.deleteOk], e4, Or.inl rfl⟩
  have hopen : TxOpen w ((BeginTransaction ((ExecuteDeleteAll d.deleteOk
        (w.query (rowCountQuery ti.tableName)) ti.tableName).query (fullQuery ti))).emit
      (Cmd.prepareInsert ti.tableName d.prepareOk)) :=
    txOpen_quiet (txOpen_begin w _ e1 e2 ⟨_, e4, rfl⟩)
      (quiet_emit _ (Cmd.prepareInsert _ _) rfl)
  unfold SyncFullTable
  dsimp only
  by_cases hdel : d.deleteOk = true
  · rw [if_neg (not_not.mpr hdel)]
    cases hcur : d.cursor with
    | none => exact hearly
    | some rows =>
      dsimp only
      by_cases hprep : d.prepareOk = true
      · rw [if_neg (not_not.mpr hprep)]
        split_ifs <;>
          exact txOpen_finish (fullLoop_txOpen ts d ti _ w rows _ hopen) _ _ _ _ _
      · rw [if_pos hprep]
        exact txOpen_rollback hopen
  · rw [if_pos hdel]
    exact hearly

theorem keyRow_txOpen (ts : TableSyncer) (d : Driver) (ti : TableInfo) (k : Nat)
    (w0 : World) (st : KeyState) (cur : Row) (h : TxOpen w0 st.w) :
    TxOpen w0 (keyRow ts d ti k st cur).w := by
  unfold keyRow
  dsimp only
  split_ifs
  · exact txOpen_cycle (txOpen_quiet h (quiet_processKeyBasedBatch _ _ _ _ _ _ _ _ _))
  · exact h

theorem keyLoop_txOpen (ts : TableSyncer) (d : Driver) (ti : TableInfo) (k : Nat)
    (w0 : World) : ∀ (rows : List Row) (st : KeyState),
    TxOpen w0 st.w → TxOpen w0 (rows.foldl (keyRow ts d ti k) st).w := by
  intro rows
  induction rows with
  | nil => intro st h; exact h
  | cons c rest ih =>
    intro st h
    rw [List.foldl_cons]
    exact ih _ (keyRow_txOpen ts d ti k w0 st c h)

/-- Every path of `SyncKeyBased` on which the count query does not throw
respects the discipline. -/
theorem syncKeyBased_disciplined (ts : TableSyncer) (d : Driver) (w : World)
    (ti : TableInfo) (hthrow : d.count ≠ CountOutcome.threw) :
    Disciplined w (SyncKeyBased ts d w ti).1 := by
  unfold SyncKeyBased
  by_cases hpk : ti.pkColumn = ""
  · rw [if_pos hpk]
    exact syncFullTable_disciplined ts d w ti
  · rw [if_neg hpk]
    dsimp only
    by_cases hkey :
        (SyncState.GetLastSync d.uninit w.db.sync_state ti.tableName).lastKeyValue = ""
    · rw [if_pos hkey]
      exact syncFullTable_disciplined ts d w ti
    · rw [if_neg hkey]
      cases hc : d.count with
      | failed => exact disciplined_refl w
      | threw => exact absurd hc hthrow
      | rows n =>
        dsimp only
        by_cases hn : n = 0
        · rw [if_pos hn]
          exact disciplined_refl w
        · rw [if_neg hn]
          cases hcur : d.cursor with
          | none => exact disciplined_refl w
          | some rows =>
            cases hk : findPkIndex ti.columns ti.pkColumn with
            | none => exact disciplined_refl w
            | some k =>
              dsimp only
              have hloop := keyLoop_txOpen ts d ti k w rows
                { w := BeginTransaction (keyStart d w ti), rowsSynced := 0,
                  lastValue :=
                    (SyncState.GetLastSync d.uninit w.db.sync_state ti.tableName).lastKeyValue,
                  pkValues := [], batchData := [], batches := 0 }
                (txOpen_begin w _ (fun h => h) rfl ⟨[], (List.append_nil w.log).symm, rfl⟩)
              apply txOpen_finish
              split_ifs
              · exact txOpen_quiet hloop (quiet_processKeyBasedBatch _ _ _ _ _ _ _ _ _)
              · exact hloop

theorem hashRow_txOpen (ts : TableSyncer) (d : Driver) (ti : TableInfo) (k : Nat)
    (w0 : World) (st : HashState) (cur : Row) (h : TxOpen w0 st.w) :
    TxOpen w0 (hashRow ts d ti k st cur).w := by
  have hp : (hashPush ts ti k st cur).w = st.w := by
    unfold hashPush
    split_ifs <;> rfl
  rw [hashRow_eq]
  split_ifs
  · have hq := quiet_hashBatch ts d ti (hashPush ts ti k st cur)
    rw [hp] at hq
    exact txOpen_cycle (txOpen_quiet h hq)
  · rw [hp]
    exact h

theorem hashLoop_txOpen (ts : TableSyncer) (d : Driver) (ti : TableInfo) (k : Nat)
    (w0 : World) : ∀ (rows : List Row) (st : HashState),
    TxOpen w0 st.w → TxOpen w0 (rows.foldl (hashRow ts d ti k) st).w := by
  intro rows
  induction rows with
  | nil => intro st h; exact h
  | cons c rest ih =>
    intro st h
    rw [List.foldl_cons]
    exact ih _ (hashRow_txOpen ts d ti k w0 st c h)

/-- Every path of `SyncHashBased` on which the count query of the key-based
fallback does not throw respects the discipline. -/
theorem syncHashBased_disciplined (ts : TableSyncer) (d : Driver) (w : World)
    (ti : TableInfo) (hthrow : d.count ≠ CountOutcome.threw) :
    Disciplined w (SyncHashBased ts d w ti).1 := by
  unfold SyncHashBased
  by_cases hfb : ti.pkColumn = "" ∨ ts.hashEnabled = false
  · rw [if_pos hfb]
    exact syncKeyBased_disciplined ts d w ti hthrow
  · rw [if_neg hfb]
    cases hcur : d.cursor with
    | none => exact disciplined_refl w
    | some rows =>
      cases hk : findPkIndex ti.columns ti.pkColumn with
      | none => exact disciplined_refl w
      | some k =>
        dsimp only
        have hloop := hashLoop_txOpen ts d ti k w rows
          { w := BeginTransaction (w.query (hashQuery ti)), rowsSynced := 0, pkValues := [],
            rowHashes := [],
            batchData := [], batches := 0 }
          (txOpen_begin w _ (fun h => h) rfl ⟨[], (List.append_nil w.log).symm, rfl⟩)
        apply txOpen_finish
        split_ifs
        · exact txOpen_quiet hloop (quiet_hashBatch ts d ti _)
        · exact hloop

theorem timestampRow_txOpen (ts : TableSyncer) (d : Driver) (ti : TableInfo)
    (pkIndex : Option Nat) (w0 : World) (st : TimestampState) (cur : Row)
    (h : TxOpen w0 st.w) : TxOpen w0 (timestampRow ts d ti pkIndex st cur).w := by
  unfold timestampRow
  dsimp only
  split_ifs
  · exact txOpen_cycle (txOpen_quiet h (quiet_timestampBatch _ _ _ _ _ _ _ _))
  · exact h

theorem timestampLoop_txOpen (ts : TableSyncer) (d : Driver) (ti : TableInfo)
    (pkIndex : Option Nat) (w0 : World) : ∀ (rows : List Row) (st : TimestampState),
    TxOpen w0 st.w → TxOpen w0 (rows.foldl (timestampRow ts d ti pkIndex) st).w := by
  intro rows
  induction rows with
  | nil => intro st h; exact h
  | cons c rest ih =>
    intro st h
    rw [List.foldl_cons]
    exact ih _ (timestampRow_txOpen ts d ti pkIndex w0 st c h)

/-- Every path of `SyncTimestampBased` respects the discipline. -/
theorem syncTimestampBased_disciplined (ts : TableSyncer) (d : Driver) (w : World)
    (ti : TableInfo) : Disciplined w (SyncTimestampBased ts d w ti).1 := by
  unfold SyncTimestampBased
  dsimp only
  by_cases htime :
      (SyncState.GetLastSync d.uninit w.db.sync_state ti.tableName).lastSyncTime = ""
  · rw [if_pos htime]
    exact syncFullTable_disciplined ts d w ti
  · rw [if_neg htime]
    by_cases hcol : FindTimestampColumn ti.columns = ""
    · rw [if_pos hcol]
      exact syncFullTable_disciplined ts d w ti
    · rw [if_neg hcol]
      cases hcur : d.cursor with
      | none => exact disciplined_refl w
      | some rows =>
        dsimp only
        generalize (if ti.pkColumn ≠ "" then findPkIndex ti.columns ti.pkColumn else none) =
          pkIndex
        have hloop := timestampLoop_txOpen ts d ti pkIndex w rows
          { w := BeginTransaction (timestampStart d w ti), rowsSynced := 0, pkValues := [],
            batchData := [],
            batches := 0 }
          (txOpen_begin w _ (fun h => h) rfl ⟨[], (List.append_nil w.log).symm, rfl⟩)
        apply txOpen_finish
        split_ifs
        · exact txOpen_quiet hloop (quiet_timestampBatch _ _ _ _ _ _ _ _)
        · exact hloop


/-! ### Calls of the strategies and the exception of `GetSourceRowCount` -/

/-- A call of `SyncFullTable` whose row count query does not throw is the run
`SyncFullTable`. -/
theorem callSyncFullTable_returned (rowCount : CountOutcome) (ts : TableSyncer) (d : Driver)
    (w : World) (ti : TableInfo) (h : rowCount ≠ CountOutcome.threw) :
    callSyncFullTable rowCount ts d w ti =
      ((SyncFullTable ts d w ti).1, CallOutcome.returned ((SyncFullTable ts d w ti).2 : Nat)) := by
  unfold callSyncFullTable GetSourceRowCount
  cases rowCount with
  | failed => rfl
  | threw => exact absurd rfl h
  | rows n => rfl

/-- When `std::stoi` throws in `GetSourceRowCount`, the exception leaves
`SyncFullTable` after the count statement was handed to the source. -/
theorem callSyncFullTable_threw (ts : TableSyncer) (d : Driver) (w : World) (ti : TableInfo) :
    callSyncFullTable CountOutcome.threw ts d w ti =
      (w.query (rowCountQuery ti.tableName), CallOutcome.threw) := rfl

/-- A call of `SyncKeyBased` in which the row count query of the full strategy
does not throw is the run `SyncKeyBased`. -/
theorem callSyncKeyBased_returned (rowCount : CountOutcome) (ts : TableSyncer) (d : Driver)
    (w : World) (ti : TableInfo) (h : rowCount ≠ CountOutcome.threw) :
    callSyncKeyBased rowCount ts d w ti =
      ((SyncKeyBased ts d w ti).1, CallOutcome.returned ((SyncKeyBased ts d w ti).2 : Nat)) := by
  unfold callSyncKeyBased
  by_cases hpk : ti.pkColumn = ""
  · rw [if_pos hpk, callSyncFullTable_returned rowCount ts d w ti h,
      syncKeyBased_fallback ts d w ti (Or.inl hpk)]
  · rw [if_neg hpk]
    by_cases hkey :
        (SyncState.GetLastSync d.uninit w.db.sync_state ti.tableName).lastKeyValue = ""
    · rw [if_pos hkey, callSyncFullTable_returned rowCount ts d w ti h,
        syncKeyBased_fallback ts d w ti (Or.inr hkey)]
    · rw [if_neg hkey]

/-- A call of `SyncHashBased` in which the row count query of the full
strategy does not throw is the run `SyncHashBased`. -/
theorem callSyncHashBased_returned (rowCount : CountOutcome) (ts : TableSyncer) (d : Driver)
    (w : World) (ti : TableInfo) (h : rowCount ≠ CountOutcome.threw) :
    callSyncHashBased rowCount ts d w ti =
      ((SyncHashBased ts d w ti).1, CallOutcome.returned ((SyncHashBased ts d w ti).2 : Nat)) := by
  unfold callSyncHashBased
  by_cases hfb : ti.pkColumn = "" ∨ ts.hashEnabled = false
  · have hs : SyncHashBased ts d w ti = SyncKeyBased ts d w ti := by
      unfold SyncHashBased
      rw [if_pos hfb]
    rw [if_pos hfb, callSyncKeyBased_returned rowCount ts d w ti h, hs]
  · rw [if_neg hfb]

/-- A call of `SyncTimestampBased` in which the row count query of the full
strategy does not throw is the run `SyncTimestampBased`. -/
theorem callSyncTimestampBased_returned (rowCount : CountOutcome) (ts : TableSyncer)
    (d : Driver) (w : World) (ti : TableInfo) (h : rowCount ≠ CountOutcome.threw) :
    callSyncTimestampBased rowCount ts d w ti =
      ((SyncTimestampBased ts d w ti).1,
        CallOutcome.returned ((SyncTimestampBased ts d w ti).2 : Nat)) := by
  unfold callSyncTimestampBased
  by_cases htime :
      (SyncState.GetLastSync d.uninit w.db.sync_state ti.tableName).lastSyncTime = ""
  · have hs : SyncTimestampBased ts d w ti = SyncFullTable ts d w ti := by
      unfold SyncTimestampBased
      dsimp only
      rw [if_pos htime]
    rw [if_pos htime, callSyncFullTable_returned rowCount ts d w ti h, hs]
  · rw [if_neg htime]
    by_cases hcol : FindTimestampColumn ti.columns = ""
    · have hs : SyncTimestampBased ts d w ti = SyncFullTable ts d w ti := by
        unfold SyncTimestampBased
        dsimp only
        rw [if_neg htime, if_pos hcol]
      rw [if_pos hcol, callSyncFullTable_returned rowCount ts d w ti h, hs]
    · rw [if_neg hcol]

/-- Claim C25 (amended): transaction discipline.  Each of the four strategies
is called when no transaction is open.  When the source answers no count query
with a text on which `std::stoi` throws (the row count query of the full
strategy for every strategy, and for `SyncKeyBased` and `SyncHashBased` also
the count query of `SyncKeyBased`), then on every path the call returns, the
statements issued satisfy the monitor (no `BEGIN` inside a transaction, every
batch delete and row insert inside one), no transaction is open on return, the
transaction commands issued are none at all (the strategy returned before its
`BEGIN`) or `BEGIN (COMMIT BEGIN)*` followed by exactly one `COMMIT` or one
`ROLLBACK`, and the progress store is written at most once, by the last
statement issued, which directly follows the final `COMMIT`.  When
`std::stoi` throws in the row count query, the exception leaves
`SyncFullTable` without any statement on the destination; inside the `try`
block of `SyncTimestampBased` (no timestamp column) it is caught and a
`ROLLBACK` is issued without a `BEGIN`; and when it throws in the count query
of `SyncKeyBased`, the catch block issues a `ROLLBACK` without a `BEGIN`. -/
theorem strategies_disciplined (rowCount : CountOutcome) (ts : TableSyncer) (d : Driver)
    (w : World) (ti : TableInfo) (htx : txState w.log = some false)
    (hsnap : w.snapshot = none) :
    (rowCount ≠ CountOutcome.threw →
      ∀ r : World × CallOutcome,
        (r ∈ [callSyncFullTable rowCount ts d w ti,
            callSyncTimestampBased rowCount ts d w ti] ∨
          (d.count ≠ CountOutcome.threw ∧
            r ∈ [callSyncKeyBased rowCount ts d w ti,
              callSyncHashBased rowCount ts d w ti])) →
        r.2 ≠ CallOutcome.threw ∧
        txState r.1.log = some false ∧ r.1.snapshot = none ∧
        (∃ p, r.1.log.filter Cmd.isTx = w.log.filter Cmd.isTx ++ p ∧
          (p = [] ∨ ∃ n, p = Cmd.begin :: txCycles n ++ [Cmd.commit] ∨
            p = Cmd.begin :: txCycles n ++ [Cmd.rollback])) ∧
        ∃ l, r.1.log = w.log ++ l ∧
          (l.filter Cmd.isRecord = [] ∨
            ∃ pre t k m n, l = pre ++ [Cmd.commit, Cmd.updateSyncState t k m n] ∧
              pre.filter Cmd.isRecord = [])) ∧
    (rowCount = CountOutcome.threw →
      (callSyncFullTable rowCount ts d w ti).2 = CallOutcome.threw ∧
      (callSyncFullTable rowCount ts d w ti).1.log = w.log ∧
      ((SyncState.GetLastSync d.uninit w.db.sync_state ti.tableName).lastSyncTime ≠ "" →
        FindTimestampColumn ti.columns = "" →
        (callSyncTimestampBased rowCount ts d w ti).2 = CallOutcome.returned 0 ∧
        (callSyncTimestampBased rowCount ts d w ti).1.log = w.log ++ [Cmd.rollback])) ∧
    (d.count = CountOutcome.threw → ti.pkColumn ≠ "" →
      (SyncState.GetLastSync d.uninit w.db.sync_state ti.tableName).lastKeyValue ≠ "" →
      (callSyncKeyBased rowCount ts d w ti).2 = CallOutcome.returned 0 ∧
      (callSyncKeyBased rowCount ts d w ti).1.log = w.log ++ [Cmd.rollback]) := by
  refine ⟨?_, ?_, ?_⟩
  · intro hrow r hr
    have hall : r.2 ≠ CallOutcome.threw ∧ Disciplined w r.1 := by
      simp only [List.mem_cons, List.mem_singleton, List.not_mem_nil, or_false] at hr
      rcases hr with (h | h) | ⟨hthrow, h | h⟩
      · rw [h, callSyncFullTable_returned rowCount ts d w ti hrow]
        exact ⟨fun h2 => CallOutcome.noConfusion h2, syncFullTable_disciplined ts d w ti⟩
      · rw [h, callSyncTimestampBased_returned rowCount ts d w ti hrow]
        exact ⟨fun h2 => CallOutcome.noConfusion h2,
          syncTimestampBased_disciplined ts d w ti⟩
      · rw [h, callSyncKeyBased_returned rowCount ts d w ti hrow]
        exact ⟨fun h2 => CallOutcome.noConfusion h2,
          syncKeyBased_disciplined ts d w ti hthrow⟩
      · rw [h, callSyncHashBased_returned rowCount ts d w ti hrow]
        exact ⟨fun h2 => CallOutcome.noConfusion h2,
          syncHashBased_disciplined ts d w ti hthrow⟩
    exact ⟨hall.1, hall.2.1 htx, hall.2.2.1 hsnap, hall.2.2.2.1, hall.2.2.2.2⟩
  · intro hrow
    subst hrow
    refine ⟨rfl, rfl, ?_⟩
    intro htime hcol
    unfold callSyncTimestampBased
    rw [if_neg htime, if_pos hcol, callSyncFullTable_threw]
    exact ⟨rfl, rfl⟩
  · intro hthrow hpk hkey
    unfold callSyncKeyBased
    rw [if_neg hpk, if_neg hkey]
    unfold SyncKeyBased
    rw [if_neg hpk]
    simp only [hkey, hthrow, if_false]
    exact ⟨rfl, rfl⟩

/-- Scenario: the key-based sync of three rows with batch size 2 issues
`BEGIN COMMIT BEGIN COMMIT`, the monitor is satisfied, and the call returns. -/
theorem strategies_disciplined_witness :
    txState (callSyncKeyBased (CountOutcome.rows 0) Scenario.pairs
      (Scenario.driver [["2", "20"], ["3", "30"], ["4", "40"]])
      (Scenario.synced [] "1" "key_based" 5) Scenario.orders).1.log = some false ∧
    (callSyncKeyBased (CountOutcome.rows 0) Scenario.pairs
      (Scenario.driver [["2", "20"], ["3", "30"], ["4", "40"]])
      (Scenario.synced [] "1" "key_based" 5) Scenario.orders).1.log.filter Cmd.isTx =
      [Cmd.begin, Cmd.commit, Cmd.begin, Cmd.commit] ∧
    (callSyncKeyBased (CountOutcome.rows 0) Scenario.pairs
      (Scenario.driver [["2", "20"], ["3", "30"], ["4", "40"]])
      (Scenario.synced [] "1" "key_based" 5) Scenario.orders).1.log.getLast? =
      some (Cmd.updateSyncState "orders" "4" "key_based" 8) :=
  ⟨((strategies_disciplined (CountOutcome.rows 0) Scenario.pairs
      (Scenario.driver [["2", "20"], ["3", "30"], ["4", "40"]])
      (Scenario.synced [] "1" "key_based" 5) Scenario.orders rfl rfl).1
      (fun h => CountOutcome.noConfusion h) _
      (Or.inr ⟨fun h => CountOutcome.noConfusion h, List.mem_cons_self _ _⟩)).2.1,
    by decide, by decide⟩

/-- Claim C25, counterexample: paths whose transaction commands are not
`BEGIN (COMMIT BEGIN)*` followed by one `COMMIT` or `ROLLBACK`.  When the count
query of `SyncKeyBased` throws, the catch block issues a `ROLLBACK` although no
`BEGIN` was issued: the only statement is that `ROLLBACK`, which the monitor
rejects.  The same happens in `SyncTimestampBased` for a table without
timestamp column when the row count query of the full strategy throws.  When
the truncating `DELETE` of `SyncFullTable` fails, the strategy returns without
any transaction command. -/
theorem strategy_paths_without_begin :
    (SyncKeyBased (Scenario.syncer false)
      { Scenario.driver [] with count := CountOutcome.threw }
      (Scenario.synced [] "1" "key_based" 5) Scenario.orders).1.log = [Cmd.rollback] ∧
    txState (SyncKeyBased (Scenario.syncer false)
      { Scenario.driver [] with count := CountOutcome.threw }
      (Scenario.synced [] "1" "key_based" 5) Scenario.orders).1.log = none ∧
    (callSyncTimestampBased CountOutcome.threw (Scenario.syncer false) (Scenario.driver [])
      (Scenario.synced [] "" "timestamp" 5) Scenario.keyless).1.log = [Cmd.rollback] ∧
    (SyncFullTable (Scenario.syncer false) { Scenario.driver [] with deleteOk := false }
      (Scenario.world []) Scenario.orders).1.log.filter Cmd.isTx = [] := by
  decide

/-! ### The full strategy and a failing source cursor -/

/-- Claim C27 (amended): `SyncFullTable` is not atomic with respect to a
failure of the source cursor.  In a call whose row count query returns: if the
destination `DELETE` succeeds and the source `SELECT` fails, the call returns
0, the only statement issued on the destination is the `DELETE` (no `BEGIN`,
no `ROLLBACK`, no progress record), the destination table is left empty, the
other tables, the progress store and the hash store are as before, and the
source received the row count statement and the `SELECT`.  If the `DELETE`
itself fails, the call returns 0 whatever the source would answer to the
`SELECT`, the only statement issued on the destination is the failed `DELETE`,
the destination, the progress store and the hash store are unchanged, and the
source received the row count statement only: the `SELECT` is not issued.
When `std::stoi` throws in the row count query, the exception leaves the call
before any statement on the destination. -/
theorem syncFullTable_cursor_failure (rowCount : CountOutcome) (ts : TableSyncer)
    (d : Driver) (w : World) (ti : TableInfo) :
    (rowCount ≠ CountOutcome.threw → d.deleteOk = true → d.cursor = none →
      (callSyncFullTable rowCount ts d w ti).2 = CallOutcome.returned 0 ∧
      (callSyncFullTable rowCount ts d w ti).1.log =
        w.log ++ [Cmd.deleteAll ti.tableName true] ∧
      (callSyncFullTable rowCount ts d w ti).1.db.tables ti.tableName = [] ∧
      (∀ t2, t2 ≠ ti.tableName →
        (callSyncFullTable rowCount ts d w ti).1.db.tables t2 = w.db.tables t2) ∧
      (callSyncFullTable rowCount ts d w ti).1.db.sync_state = w.db.sync_state ∧
      (callSyncFullTable rowCount ts d w ti).1.row_hashes = w.row_hashes ∧
      (callSyncFullTable rowCount ts d w ti).1.snapshot = w.snapshot ∧
      (callSyncFullTable rowCount ts d w ti).1.queries =
        w.queries ++ [rowCountQuery ti.tableName, fullQuery ti]) ∧
    (rowCount ≠ CountOutcome.threw → d.deleteOk = false →
      (callSyncFullTable rowCount ts d w ti).2 = CallOutcome.returned 0 ∧
      (callSyncFullTable rowCount ts d w ti).1.log =
        w.log ++ [Cmd.deleteAll ti.tableName false] ∧
      (callSyncFullTable rowCount ts d w ti).1.db = w.db ∧
      (callSyncFullTable rowCount ts d w ti).1.row_hashes = w.row_hashes ∧
      (callSyncFullTable rowCount ts d w ti).1.snapshot = w.snapshot ∧
      (callSyncFullTable rowCount ts d w ti).1.queries =
        w.queries ++ [rowCountQuery ti.tableName] ∧
      ∀ d2 : Driver, d2.deleteOk = false →
        callSyncFullTable rowCount ts d2 w ti = callSyncFullTable rowCount ts d w ti) ∧
    (rowCount = CountOutcome.threw →
      (callSyncFullTable rowCount ts d w ti).2 = CallOutcome.threw ∧
      (callSyncFullTable rowCount ts d w ti).1.log = w.log ∧
      (callSyncFullTable rowCount ts d w ti).1.db = w.db ∧
      (callSyncFullTable rowCount ts d w ti).1.row_hashes = w.row_hashes ∧
      (callSyncFullTable rowCount ts d w ti).1.queries =
        w.queries ++ [rowCountQuery ti.tableName]) := by
  refine ⟨?_, ?_, ?_⟩
  · intro hrow hdel hcur
    have h : SyncFullTable ts d w ti =
        ((((w.query (rowCountQuery ti.tableName)).setTable ti.tableName []).emit
          (Cmd.deleteAll ti.tableName true)).query (fullQuery ti), 0) := by
      unfold SyncFullTable
      simp [hdel, hcur, ExecuteDeleteAll]
    rw [callSyncFullTable_returned rowCount ts d w ti hrow, h]
    refine ⟨rfl, rfl, by simp, ?_, rfl, rfl, rfl, ?_⟩
    · intro t2 ht2
      dsimp only
      rw [query_db, emit_db]
      exact setTable_tables_other _ _ _ _ ht2
    · simp [World.emit, World.setTable, World.query]
  · intro hrow hdel
    have h : ∀ d2 : Driver, d2.deleteOk = false →
        SyncFullTable ts d2 w ti =
          ((w.query (rowCountQuery ti.tableName)).emit (Cmd.deleteAll ti.tableName false),
            0) := by
      intro d2 h2
      unfold SyncFullTable
      simp [h2, ExecuteDeleteAll]
    rw [callSyncFullTable_returned rowCount ts d w ti hrow, h d hdel]
    refine ⟨rfl, rfl, rfl, rfl, rfl, rfl, ?_⟩
    intro d2 h2
    rw [callSyncFullTable_returned rowCount ts d2 w ti hrow, h d2 h2]
  · intro hrow
    subst hrow
    exact ⟨rfl, rfl, rfl, rfl, rfl⟩

/-- Scenario: `orders` holds one row; the `DELETE` succeeds and the source
query fails: the table is left empty, 0 is returned, and the source received
the row count statement and the `SELECT`. -/
theorem syncFullTable_cursor_failure_witness :
    (callSyncFullTable (CountOutcome.rows 1) (Scenario.syncer false)
      { Scenario.driver [] with cursor := none }
      (Scenario.world [[("id", some "1"), ("total", some "10")]]) Scenario.orders).2 =
        CallOutcome.returned 0 ∧
    (callSyncFullTable (CountOutcome.rows 1) (Scenario.syncer false)
      { Scenario.driver [] with cursor := none }
      (Scenario.world [[("id", some "1"), ("total", some "10")]])
      Scenario.orders).1.db.tables "orders" = [] ∧
    (callSyncFullTable (CountOutcome.rows 1) (Scenario.syncer false)
      { Scenario.driver [] with cursor := none }
      (Scenario.world [[("id", some "1"), ("total", some "10")]])
      Scenario.orders).1.queries =
        [{ sql := "SELECT COUNT(*) FROM PUB.orders", params := [] },
         { sql := "SELECT \"id\", \"total\" FROM PUB.orders", params := [] }] :=
  have h := (syncFullTable_cursor_failure (CountOutcome.rows 1) (Scenario.syncer false)
    { Scenario.driver [] with cursor := none }
    (Scenario.world [[("id", some "1"), ("total", some "10")]]) Scenario.orders).1
    (fun h => CountOutcome.noConfusion h) rfl rfl
  ⟨h.1, h.2.2.1, h.2.2.2.2.2.2.2.trans (by decide)⟩

/-- Claim C27, counterexample: `orders` holds one row and the truncating
`DELETE` fails.  The only statement issued on the destination is the failed
`DELETE`, yet the source was queried: it received `SELECT COUNT(*) FROM
PUB.orders`, which `GetSourceRowCount` sends before the `DELETE`. -/
theorem syncFullTable_counts_before_delete :
    (callSyncFullTable (CountOutcome.rows 1) (Scenario.syncer false)
      { Scenario.driver [] with deleteOk := false }
      (Scenario.world [[("id", some "1"), ("total", some "10")]]) Scenario.orders).1.log =
        [Cmd.deleteAll "orders" false] ∧
    (callSyncFullTable (CountOutcome.rows 1) (Scenario.syncer false)
      { Scenario.driver [] with deleteOk := false }
      (Scenario.world [[("id", some "1"), ("total", some "10")]]) Scenario.orders).1.queries =
        [{ sql := "SELECT COUNT(*) FROM PUB.orders", params := [] }] := by
  decide

/-! ### The fallback of the key-based strategy -/

/-- Claim C28: fallback equivalence.  For every table whose primary-key column
is empty or whose stored last key is empty, `SyncKeyBased` returns the same
value and leaves the same world (destination tables, progress store, hash
store, statements issued) as `SyncFullTable`, and a call of it ends as the
call of `SyncFullTable` does, the exception of the row count query included.
Consequently, after a `SyncHashBased` on its main path (primary-key column
among the columns, hashing enabled, cursor obtained), which records the last
key `""`, a `SyncKeyBased` of the same table is a full sync: when its
truncation, source query and insert preparation succeed, the table holds
exactly the rows fetched whose insert succeeded and the row count recorded is
the count of that run. -/
theorem keyBased_after_hashBased_is_full (rowCount : CountOutcome) (ts1 ts2 : TableSyncer)
    (d d1 d2 : Driver) (w : World) (ti : TableInfo) :
    ((ti.pkColumn = "" ∨
        (SyncState.GetLastSync d.uninit w.db.sync_state ti.tableName).lastKeyValue = "") →
      SyncKeyBased ts2 d w ti = SyncFullTable ts2 d w ti ∧
      callSyncKeyBased rowCount ts2 d w ti = callSyncFullTable rowCount ts2 d w ti) ∧
    (∀ (rows1 : List Row) (k : Nat), ti.pkColumn ≠ "" → ts1.hashEnabled = true →
      d1.cursor = some rows1 → findPkIndex ti.columns ti.pkColumn = some k →
      (SyncState.GetLastSync d2.uninit (SyncHashBased ts1 d1 w ti).1.db.sync_state
        ti.tableName).lastKeyValue = "" ∧
      SyncKeyBased ts2 d2 (SyncHashBased ts1 d1 w ti).1 ti =
        SyncFullTable ts2 d2 (SyncHashBased ts1 d1 w ti).1 ti ∧
      ∀ rows2 : List Row, d2.deleteOk = true → d2.cursor = some rows2 →
        d2.prepareOk = true →
        (SyncKeyBased ts2 d2 (SyncHashBased ts1 d1 w ti).1 ti).1.db.tables ti.tableName =
          insertedFrom d2.stepOk ti.columns 0 rows2 ∧
        (SyncState.GetLastSync d2.uninit
          (SyncKeyBased ts2 d2 (SyncHashBased ts1 d1 w ti).1 ti).1.db.sync_state
          ti.tableName).rowCount =
            ((SyncKeyBased ts2 d2 (SyncHashBased ts1 d1 w ti).1 ti).2 : Int) ∧
        (SyncKeyBased ts2 d2 (SyncHashBased ts1 d1 w ti).1 ti).2 =
          ((List.range rows2.length).filter (fun i => d2.stepOk i)).length) := by
  refine ⟨?_, ?_⟩
  · intro h
    refine ⟨syncKeyBased_fallback ts2 d w ti h, ?_⟩
    unfold callSyncKeyBased
    by_cases hpk : ti.pkColumn = ""
    · rw [if_pos hpk]
    · rw [if_neg hpk, if_pos (h.resolve_left hpk)]
  · intro rows1 k hpk hhash hcur1 hk
    have hkey : (SyncState.GetLastSync d2.uninit (SyncHashBased ts1 d1 w ti).1.db.sync_state
        ti.tableName).lastKeyValue = "" := by
      rw [(syncHashBased_run ts1 d1 w ti rows1 k hpk hhash hcur1 hk).1, getLastSync_update]
    have hfb := syncKeyBased_fallback ts2 d2 (SyncHashBased ts1 d1 w ti).1 ti (Or.inr hkey)
    refine ⟨hkey, hfb, ?_⟩
    intro rows2 hdel hcur2 hprep
    obtain ⟨h1, h2, _, _, _⟩ :=
      syncFullTable_run ts2 d2 (SyncHashBased ts1 d1 w ti).1 ti rows2 hdel hcur2 hprep
    refine ⟨?_, ?_, ?_⟩
    · rw [hfb, h1]
    · rw [hfb]
      exact syncFullTable_rowCount ts2 d2 _ ti rows2 hdel hcur2 hprep
    · rw [hfb, h2, insertedFrom_length]
      simp

/-- Scenario: for `orders` known without a primary key the key-based sync is
the full sync; and for `orders(id PK, total)` with five recorded rows, a
hash-based sync and then a key-based sync run over the source rows `(1, "10")`,
`(2, "20")`: the key-based run reloads the table and returns 2. -/
theorem keyBased_after_hashBased_is_full_witness :
    SyncKeyBased (Scenario.syncer false) (Scenario.driver [["1", "10"]])
        (Scenario.synced [] "1" "key_based" 5) Scenario.keyless =
      SyncFullTable (Scenario.syncer false) (Scenario.driver [["1", "10"]])
        (Scenario.synced [] "1" "key_based" 5) Scenario.keyless ∧
    (SyncKeyBased (Scenario.syncer false) (Scenario.driver [["1", "10"], ["2", "20"]])
      (SyncHashBased (Scenario.syncer true) (Scenario.driver [["1", "10"], ["2", "20"]])
        (Scenario.synced [] "1" "key_based" 5) Scenario.orders).1
      Scenario.orders).2 = 2 :=
  ⟨((keyBased_after_hashBased_is_full (CountOutcome.rows 1) (Scenario.syncer true)
      (Scenario.syncer false) (Scenario.driver [["1", "10"]]) (Scenario.driver [])
      (Scenario.driver []) (Scenario.synced [] "1" "key_based" 5) Scenario.keyless).1
      (Or.inl rfl)).1,
    (((keyBased_after_hashBased_is_full (CountOutcome.rows 1) (Scenario.syncer true)
      (Scenario.syncer false) (Scenario.driver [])
      (Scenario.driver [["1", "10"], ["2", "20"]])
      (Scenario.driver [["1", "10"], ["2", "20"]]) (Scenario.synced [] "1" "key_based" 5)
      Scenario.orders).2 [["1", "10"], ["2", "20"]] 0 (by decide) rfl rfl rfl).2.2
      [["1", "10"], ["2", "20"]] rfl rfl rfl).2.2.trans (by decide)⟩

/-! ### The batches of the key-based and timestamp strategies -/

/-- The row loop of `SyncTimestampBased` for a table without primary-key index
and the block after it apply the batches of the specification with the
insert-only block. -/
theorem timestampLoop_batches_none (ts : TableSyncer) (d : Driver) (ti : TableInfo)
    (hB : 0 < ts.batchSize) : ∀ (rows : List Row) (st : TimestampState) (N : Nat),
    st.batchData.length + rows.length ≤ N → st.batchData.length < ts.batchSize →
    (if (rows.foldl (timestampRow ts d ti none) st).batchData ≠ [] then
      timestampBatch ts d ti none (rows.foldl (timestampRow ts d ti none) st).batches
        (rows.foldl (timestampRow ts d ti none) st).w
        (rows.foldl (timestampRow ts d ti none) st).pkValues
        (rows.foldl (timestampRow ts d ti none) st).batchData
    else (rows.foldl (timestampRow ts d ti none) st).w) =
      applyBatches ts.batchSize 0
        (fun b w _ data => insertOnlyBatch (d.batch b) w ti.tableName ti.columns data)
        st.batches st.w
        (batchesOf ts.batchSize N (st.batchData ++ rows.map (fetchRowData ti.columns))) := by
  intro rows
  induction rows with
  | nil =>
    intro st N hN hlen
    rw [List.foldl_nil, List.map_nil, List.append_nil,
      batchesOf_short ts.batchSize N st.batchData hlen (by simpa using hN)]
    cases hd : st.batchData with
    | nil => simp [applyBatches]
    | cons r rs =>
      have hl : ¬ (r :: rs).length ≥ ts.batchSize := by
        rw [← hd]
        omega
      simp only [ne_eq, reduceCtorEq, not_false_eq_true, if_true, List.isEmpty_cons,
        Bool.false_eq_true, if_false]
      rw [applyBatches_last _ _ _ _ _ _ hl]
      rfl
  | cons c rest ih =>
    intro st N hN hlen
    rw [List.foldl_cons]
    have hN1 : st.batchData.length + 1 + rest.length ≤ N := by
      simp only [List.length_cons] at hN
      omega
    have hlen1 : (st.batchData ++ [fetchRowData ti.columns c]).length =
        st.batchData.length + 1 := by simp
    by_cases hflush : (st.batchData ++ [fetchRowData ti.columns c]).length ≥ ts.batchSize
    · have hst : timestampRow ts d ti none st c =
          { w := BeginTransaction (CommitTransaction
              (insertOnlyBatch (d.batch st.batches) st.w ti.tableName ti.columns
                (st.batchData ++ [fetchRowData ti.columns c])))
            rowsSynced := st.rowsSynced + (st.batchData ++ [fetchRowData ti.columns c]).length
            pkValues := []
            batchData := []
            batches := st.batches + 1 } := by
        unfold timestampRow
        dsimp only
        rw [if_pos hflush]
        rfl
      have hfull : (st.batchData ++ [fetchRowData ti.columns c]).length = ts.batchSize := by
        omega
      obtain ⟨N2, hN2, hb⟩ := batchesOf_full ts.batchSize N
        (st.batchData ++ [fetchRowData ti.columns c]) (rest.map (fetchRowData ti.columns))
        hfull hB (by rw [List.length_map]; omega)
      have hlist : st.batchData ++ (c :: rest).map (fetchRowData ti.columns) =
          (st.batchData ++ [fetchRowData ti.columns c]) ++
            rest.map (fetchRowData ti.columns) := by
        simp
      rw [hlist, hb, hst]
      rw [ih _ N2 (by simpa using hN2) (by simpa using hB)]
      simp only [List.nil_append]
      rw [applyBatches_full _ _ _ _ _ _ _ (by omega)]
    · have hst : timestampRow ts d ti none st c =
          { w := st.w, rowsSynced := st.rowsSynced,
            pkValues := st.pkValues,
            batchData := st.batchData ++ [fetchRowData ti.columns c],
            batches := st.batches } := by
        unfold timestampRow
        dsimp only
        rw [if_neg hflush]
      rw [hst]
      rw [ih _ N (by dsimp only; omega) (by dsimp only; omega)]
      simp

/-- Claim C26 (amended): with `batch_size >= 1` and an opened cursor, the
batches of the fetched rows concatenate to the fetched rows, each has between 1
and `batch_size` rows, and every batch but the last has `batch_size` rows.  On
the main path of `SyncKeyBased` the world left is that of `BEGIN`, these
batches applied in order by `ProcessKeyBasedBatch` (each with the keys of its
rows, position by position; a batch of `batch_size` rows followed by `COMMIT`
and `BEGIN`), the final `COMMIT` and the progress record.  On the main path of
`SyncTimestampBased` the same holds for a table with a primary-key column among
the columns; for a table without primary-key column, the case in which the
strategy is selected, the batches are applied by the insert-only block and no
key is collected: `pkValues` is empty at the end of the loop. -/
theorem batches_partition_rows (ts : TableSyncer) (d : Driver) (w : World) (ti : TableInfo)
    (rows : List Row) (hbatch : 0 < ts.batchSize) (hcur : d.cursor = some rows) :
    ((batchesOf ts.batchSize rows.length (rows.map (fetchRowData ti.columns))).flatten =
        rows.map (fetchRowData ti.columns) ∧
      (∀ b ∈ batchesOf ts.batchSize rows.length (rows.map (fetchRowData ti.columns)),
        1 ≤ b.length ∧ b.length ≤ ts.batchSize) ∧
      (∀ pre b post,
        batchesOf ts.batchSize rows.length (rows.map (fetchRowData ti.columns)) =
          pre ++ b :: post → post ≠ [] → b.length = ts.batchSize)) ∧
    (∀ (k : Nat) (n : Int), ti.pkColumn ≠ "" →
      (SyncState.GetLastSync d.uninit w.db.sync_state ti.tableName).lastKeyValue ≠ "" →
      d.count = CountOutcome.rows n → n ≠ 0 → findPkIndex ti.columns ti.pkColumn = some k →
      (SyncKeyBased ts d w ti).1 =
        (CommitTransaction
          (applyBatches ts.batchSize k
            (fun b w pks data =>
              ProcessKeyBasedBatch ts d.now (d.batch b) w ti.tableName ti.columns ti.pkColumn
                pks data)
            0 (BeginTransaction (keyStart d w ti))
            (batchesOf ts.batchSize rows.length
              (rows.map (fetchRowData ti.columns))))).updateSyncState d.now ti.tableName
          (keyLastValue
            (SyncState.GetLastSync d.uninit w.db.sync_state ti.tableName).lastKeyValue
            ti.columns k rows) "key_based"
          ((SyncState.GetLastSync d.uninit w.db.sync_state ti.tableName).rowCount +
            (rows.length : Int))) ∧
    ((SyncState.GetLastSync d.uninit w.db.sync_state ti.tableName).lastSyncTime ≠ "" →
      FindTimestampColumn ti.columns ≠ "" →
      (∀ k : Nat, ti.pkColumn ≠ "" → findPkIndex ti.columns ti.pkColumn = some k →
        ∃ key, (SyncTimestampBased ts d w ti).1 =
          (CommitTransaction
            (applyBatches ts.batchSize k
              (fun b w pks data =>
                ProcessKeyBasedBatch ts d.now (d.batch b) w ti.tableName ti.columns
                  ti.pkColumn pks data)
              0 (BeginTransaction (timestampStart d w ti))
              (batchesOf ts.batchSize rows.length
                (rows.map (fetchRowData ti.columns))))).updateSyncState d.now ti.tableName
            key "timestamp"
            ((SyncState.GetLastSync d.uninit w.db.sync_state ti.tableName).rowCount +
              (rows.length : Int))) ∧
      (ti.pkColumn = "" →
        (SyncTimestampBased ts d w ti).1 =
          (CommitTransaction
            (applyBatches ts.batchSize 0
              (fun b w _ data =>
                insertOnlyBatch (d.batch b) w ti.tableName ti.columns data)
              0 (BeginTransaction (timestampStart d w ti))
              (batchesOf ts.batchSize rows.length
                (rows.map (fetchRowData ti.columns))))).updateSyncState d.now ti.tableName
            "" "timestamp"
            ((SyncState.GetLastSync d.uninit w.db.sync_state ti.tableName).rowCount +
              (rows.length : Int)) ∧
        (rows.foldl (timestampRow ts d ti none)
          { w := BeginTransaction (timestampStart d w ti), rowsSynced := 0, pkValues := [],
            batchData := [], batches := 0 }).pkValues = [])) := by
  refine ⟨batchesOf_spec ts.batchSize hbatch rows.length _ (by rw [List.length_map]), ?_, ?_⟩
  · intro k n hpk hkey hcount hn hk
    rw [syncKeyBased_main ts d w ti rows k n hpk hkey hcount hn hcur hk _ rfl]
    have hb := keyLoop_batches ts d ti k hbatch rows
      { w := BeginTransaction (keyStart d w ti), rowsSynced := 0,
        lastValue := (SyncState.GetLastSync d.uninit w.db.sync_state ti.tableName).lastKeyValue,
        pkValues := [], batchData := [], batches := 0 } rows.length
      (by simp) (by simpa using hbatch) rfl
    have hc := keyLoop_count ts d ti k rows
      { w := BeginTransaction (keyStart d w ti), rowsSynced := 0,
        lastValue := (SyncState.GetLastSync d.uninit w.db.sync_state ti.tableName).lastKeyValue,
        pkValues := [], batchData := [], batches := 0 }
    have hl := keyLoop_lastValue ts d ti k rows
      { w := BeginTransaction (keyStart d w ti), rowsSynced := 0,
        lastValue := (SyncState.GetLastSync d.uninit w.db.sync_state ti.tableName).lastKeyValue,
        pkValues := [], batchData := [], batches := 0 }
    simp only [List.nil_append, List.length_nil, Nat.zero_add, Nat.add_zero] at hb hc
    dsimp only
    rw [hb, hc, hl]
  · intro htime hcol
    refine ⟨?_, ?_⟩
    · intro k hpk hk
      rw [syncTimestampBased_main ts d w ti rows htime hcol hcur _ rfl _ rfl, if_pos hpk, hk]
      have hb := timestampLoop_batches ts d ti k hbatch rows
        { w := BeginTransaction (timestampStart d w ti), rowsSynced := 0, pkValues := [],
          batchData := [], batches := 0 } rows.length (by simp) (by simpa using hbatch) rfl
      have hc := timestampLoop_count ts d ti (some k) rows
        { w := BeginTransaction (timestampStart d w ti), rowsSynced := 0, pkValues := [],
          batchData := [], batches := 0 }
      simp only [List.nil_append, List.length_nil, Nat.zero_add, Nat.add_zero] at hb hc
      dsimp only
      rw [hb, hc]
      exact ⟨_, rfl⟩
    · intro hpk
      refine ⟨?_, timestampLoop_pkValues_none ts d ti rows _ rfl⟩
      rw [syncTimestampBased_main ts d w ti rows htime hcol hcur _ rfl _ rfl,
        if_neg (not_not.mpr hpk)]
      have hb := timestampLoop_batches_none ts d ti hbatch rows
        { w := BeginTransaction (timestampStart d w ti), rowsSynced := 0, pkValues := [],
          batchData := [], batches := 0 } rows.length (by simp) (by simpa using hbatch)
      have hc := timestampLoop_count ts d ti none rows
        { w := BeginTransaction (timestampStart d w ti), rowsSynced := 0, pkValues := [],
          batchData := [], batches := 0 }
      simp only [List.nil_append, List.length_nil, Nat.zero_add, Nat.add_zero] at hb hc
      dsimp only
      rw [hb, hc]
      rfl

/-- Scenario: `orders(id PK, total)` with the record `("1", "key_based", 5)`
and batch size 2.  The three fetched rows `(2, "20")`, `(3, "30")`, `(4, "40")`
make the batches `[(2, "20"), (3, "30")]` and `[(4, "40")]`, and the key-based
sync is these batches applied between `BEGIN` and the final `COMMIT`. -/
theorem batches_partition_rows_witness :
    batchesOf 2 3 ([["2", "20"], ["3", "30"], ["4", "40"]].map
      (fetchRowData ["id", "total"])) =
      [[["2", "20"], ["3", "30"]], [["4", "40"]]] ∧
    (SyncKeyBased Scenario.pairs (Scenario.driver [["2", "20"], ["3", "30"], ["4", "40"]])
      (Scenario.synced [] "1" "key_based" 5) Scenario.orders).1 =
      (CommitTransaction
        (applyBatches 2 0
          (fun _ w pks data =>
            ProcessKeyBasedBatch Scenario.pairs "2024-01-01 00:00:00" Scenario.allOk w
              "orders" ["id", "total"] "id" pks data)
          0 (BeginTransaction
            (keyStart (Scenario.driver [["2", "20"], ["3", "30"], ["4", "40"]])
              (Scenario.synced [] "1" "key_based" 5) Scenario.orders))
          [[["2", "20"], ["3", "30"]], [["4", "40"]]])).updateSyncState
        "2024-01-01 00:00:00" "orders" "4" "key_based" 8 :=
  ⟨by decide,
    (batches_partition_rows Scenario.pairs
      (Scenario.driver [["2", "20"], ["3", "30"], ["4", "40"]])
      (Scenario.synced [] "1" "key_based" 5) Scenario.orders
      [["2", "20"], ["3", "30"], ["4", "40"]] (by decide) rfl).2.1 0 3 (by decide)
      (by decide) rfl (by decide) rfl⟩

/-! ### Failing batch statements -/

/-- Claim C19 (amended): on the main path of each incremental strategy,
whatever the statements of the batches answer (a failed delete, a failed insert
preparation, failed row inserts), the strategy issues no `ROLLBACK` and ends
with its final commit followed by the progress record; the key-based strategy
(primary-key column among the columns, stored last key, positive count of new
rows) and the timestamp strategy (stored last sync time, timestamp column)
return and record the number of all rows fetched, the rows of a failed batch
included; the hash-based strategy (primary-key column among the columns,
hashing enabled) records the stored row count.  The rollback of `SyncKeyBased`
is the one of its catch block, reached when the count query throws: 0 is
returned and no progress record is written. -/
theorem batch_errors_swallowed (ts : TableSyncer) (d : Driver) (w : World) (ti : TableInfo) :
    (∀ (rows : List Row) (k : Nat) (n : Int), ti.pkColumn ≠ "" →
      (SyncState.GetLastSync d.uninit w.db.sync_state ti.tableName).lastKeyValue ≠ "" →
      d.count = CountOutcome.rows n → n ≠ 0 → d.cursor = some rows →
      findPkIndex ti.columns ti.pkColumn = some k →
      (SyncKeyBased ts d w ti).2 = rows.length ∧
      (SyncKeyBased ts d w ti).1.log.count Cmd.rollback = w.log.count Cmd.rollback ∧
      ∃ l key, (SyncKeyBased ts d w ti).1.log =
        l ++ [Cmd.commit, Cmd.updateSyncState ti.tableName key "key_based"
          ((SyncState.GetLastSync d.uninit w.db.sync_state ti.tableName).rowCount +
            (rows.length : Int))]) ∧
    (∀ rows : List Row,
      (SyncState.GetLastSync d.uninit w.db.sync_state ti.tableName).lastSyncTime ≠ "" →
      FindTimestampColumn ti.columns ≠ "" → d.cursor = some rows →
      (SyncTimestampBased ts d w ti).2 = rows.length ∧
      (SyncTimestampBased ts d w ti).1.log.count Cmd.rollback = w.log.count Cmd.rollback ∧
      ∃ l key, (SyncTimestampBased ts d w ti).1.log =
        l ++ [Cmd.commit, Cmd.updateSyncState ti.tableName key "timestamp"
          ((SyncState.GetLastSync d.uninit w.db.sync_state ti.tableName).rowCount +
            (rows.length : Int))]) ∧
    (∀ (rows : List Row) (k : Nat), ti.pkColumn ≠ "" → ts.hashEnabled = true →
      d.cursor = some rows → findPkIndex ti.columns ti.pkColumn = some k →
      (SyncHashBased ts d w ti).1.log.count Cmd.rollback = w.log.count Cmd.rollback ∧
      ∃ l, (SyncHashBased ts d w ti).1.log =
        l ++ [Cmd.commit, Cmd.updateSyncState ti.tableName "" "hash_based"
          (SyncState.GetLastSync d.uninit w.db.sync_state ti.tableName).rowCount]) ∧
    (ti.pkColumn ≠ "" →
      (SyncState.GetLastSync d.uninit w.db.sync_state ti.tableName).lastKeyValue ≠ "" →
      d.count = CountOutcome.threw →
      SyncKeyBased ts d w ti =
        (RollbackTransaction (w.query (keyCountQuery ti
          (SyncState.GetLastSync d.uninit w.db.sync_state ti.tableName).lastKeyValue)), 0) ∧
      (SyncKeyBased ts d w ti).1.log = w.log ++ [Cmd.rollback]) := by
  refine ⟨?_, ?_, ?_, ?_⟩
  · intro rows k n hpk hkey hcount hn hcur hk
    obtain ⟨a1, _, ⟨l1, a3⟩, a4, _, _⟩ :=
      syncKeyBased_run ts d w ti rows k n hpk hkey hcount hn hcur hk
    exact ⟨a1, a4, l1, _, a3⟩
  · intro rows htime hcol hcur
    obtain ⟨b1, key, _, ⟨l2, b3⟩, b4, _, _, _⟩ :=
      syncTimestampBased_run ts d w ti rows htime hcol hcur
    exact ⟨b1, b4, l2, key, b3⟩
  · intro rows k hpk hhash hcur hk
    obtain ⟨_, ⟨l3, c2⟩, c3, _⟩ := syncHashBased_run ts d w ti rows k hpk hhash hcur hk
    exact ⟨c3, l3, c2⟩
  · intro hpk hkey hthrow
    have h : SyncKeyBased ts d w ti =
        (RollbackTransaction (w.query (keyCountQuery ti
          (SyncState.GetLastSync d.uninit w.db.sync_state ti.tableName).lastKeyValue)), 0) := by
      unfold SyncKeyBased
      rw [if_neg hpk]
      simp only [hkey, hthrow, if_false]
    rw [h]
    exact ⟨rfl, rfl⟩

/-- Scenario: `orders(id PK, total)` has the record `("1", "key_based", 5)` and
batch size is 2.  The key-based sync fetches `(2, "20")`, `(3, "30")`,
`(4, "40")`, and the insert of the first batch cannot be prepared: the batch
is lost, yet no `ROLLBACK` is issued, 3 is returned, and only the row of the
second batch reaches the destination. -/
theorem batch_errors_swallowed_witness :
    (SyncKeyBased Scenario.pairs
      { Scenario.driver [["2", "20"], ["3", "30"], ["4", "40"]] with
        batch := fun b => if b = 0 then { Scenario.allOk with prepareOk := false }
          else Scenario.allOk }
      (Scenario.synced [] "1" "key_based" 5) Scenario.orders).2 = 3 ∧
    (SyncKeyBased Scenario.pairs
      { Scenario.driver [["2", "20"], ["3", "30"], ["4", "40"]] with
        batch := fun b => if b = 0 then { Scenario.allOk with prepareOk := false }
          else Scenario.allOk }
      (Scenario.synced [] "1" "key_based" 5) Scenario.orders).1.log.count Cmd.rollback = 0 ∧
    (SyncKeyBased Scenario.pairs
      { Scenario.driver [["2", "20"], ["3", "30"], ["4", "40"]] with
        batch := fun b => if b = 0 then { Scenario.allOk with prepareOk := false }
          else Scenario.allOk }
      (Scenario.synced [] "1" "key_based" 5) Scenario.orders).1.db.tables "orders" =
        [[("id", some "4"), ("total", some "40")]] :=
  have h := (batch_errors_swallowed Scenario.pairs
    { Scenario.driver [["2", "20"], ["3", "30"], ["4", "40"]] with
      batch := fun b => if b = 0 then { Scenario.allOk with prepareOk := false }
        else Scenario.allOk }
    (Scenario.synced [] "1" "key_based" 5) Scenario.orders).1
    [["2", "20"], ["3", "30"], ["4", "40"]] 0 3 (by decide) (by decide) rfl (by decide) rfl rfl
  ⟨h.1, h.2.1, by decide⟩

/-! ### The progress record of the timestamp strategy -/

end OpenEdge
